import Mathlib

/-! # ET: Legacy network message layer

A shallow embedding of `src/qcommon/msg.c`: the bit channel (`MSG_WriteBits`,
`MSG_ReadBits`), the typed readers and writers built on it, and the
table-driven delta codecs for entity states, shared entity states and player
states.

Conventions of the embedding

* a C `int` is an `Int`; where the code works on the 32-bit pattern of an
  `int` (masks, unsigned shifts, the `float` view of a cell) the pattern is
  the natural number `toU32 v`, and `toI32` converts back;
* `msg_t` is passed explicitly; a function that mutates the message returns
  the new message;
* `Com_Error` does not return: fallible functions return `Except ComError`;
* the diagnostic globals (`oldsize`, `wastedbits`, `pcount`, the `used`
  counter of the field tables) and the `cl_shownet` printing are not part of
  the wire behaviour and are left out.
-/

namespace ETL

/-! ## Machine integers -/

/-- The 32-bit pattern of a C `int` (conversion to `unsigned int`). -/
def toU32 (v : Int) : Nat := (v % 4294967296).toNat

/-- The C `int` with a given 32-bit pattern (conversion from `unsigned int`). -/
def toI32 (n : Nat) : Int :=
  if n % 4294967296 < 2147483648 then ((n % 4294967296 : Nat) : Int)
  else ((n % 4294967296 : Nat) : Int) - 4294967296

/-- The cast `(signed char)v`. -/
def toI8 (v : Int) : Int := if v % 256 < 128 then v % 256 else v % 256 - 256

/-- The cast `(short)v`. -/
def toI16 (v : Int) : Int := if v % 65536 < 32768 then v % 65536 else v % 65536 - 65536

/-! ## Errors -/

/-- The ways a call can fail to return: `Com_Error` with `ERR_DROP` or
`ERR_FATAL`, the dereference of a null record pointer, and the read of an
array element outside the array. -/
inductive ComError where
  | ERR_DROP (text : String)
  | ERR_FATAL (text : String)
  | NULL_DEREF
  | BAD_INDEX
  deriving DecidableEq

/-! ## The message buffer -/

/-- The fields of `msg_t` that `msg.c` uses. `data` is the byte array the
buffer borrows, indexed by byte position; sizes and cursors are in the units
the source uses (`bit` in bits, the others in bytes). -/
structure msg_t where
  overflowed : Bool
  oob : Bool
  data : Nat → Nat
  maxsize : Nat
  cursize : Nat
  uncompsize : Int
  readcount : Nat
  bit : Nat
  strip : Bool

/-- Modelled from the spec: the Huffman codec (`huffman.c`) is not among the
sources. Its four entry points used by the bit channel are taken as
parameters: `Huff_putBit bit data offset` and
`Huff_offsetTransmit ch data offset maxoffset` return the new byte array and
the new offset, `Huff_getBit data offset` and
`Huff_offsetReceive data offset maxoffset` return the value read and the new
offset. -/
structure huffman_t where
  Huff_putBit : Nat → (Nat → Nat) → Nat → (Nat → Nat) × Nat
  Huff_getBit : (Nat → Nat) → Nat → Nat × Nat
  Huff_offsetTransmit : Nat → (Nat → Nat) → Nat → Nat → (Nat → Nat) × Nat
  Huff_offsetReceive : (Nat → Nat) → Nat → Nat → Nat × Nat

/-- `MSG_Init`: an empty bitstream buffer over `data` of capacity `length`. -/
def MSG_Init (data : Nat → Nat) (length : Nat) : msg_t :=
  { overflowed := false, oob := false, data := data, maxsize := length, cursize := 0,
    uncompsize := 0, readcount := 0, bit := 0, strip := false }

/-- `MSG_InitOOB`: an empty out-of-band buffer over `data` of capacity `length`. -/
def MSG_InitOOB (data : Nat → Nat) (length : Nat) : msg_t :=
  { overflowed := false, oob := true, data := data, maxsize := length, cursize := 0,
    uncompsize := 0, readcount := 0, bit := 0, strip := false }

/-- `MSG_BeginReading`. -/
def MSG_BeginReading (msg : msg_t) : msg_t :=
  { msg with readcount := 0, bit := 0, oob := false }

/-- `MSG_BeginReadingOOB`. -/
def MSG_BeginReadingOOB (msg : msg_t) : msg_t :=
  { msg with readcount := 0, bit := 0, oob := true }

/-! ## Bit functions -/

/-- The loop `for (i = 0; i < nbits; i++) { Huff_putBit(value & 1, ...); value >>= 1; }`
of `MSG_WriteBits`; returns the byte array, the bit cursor and the shifted value. -/
def putBitsLoop (H : huffman_t) : Nat → Int → (Nat → Nat) → Nat → (Nat → Nat) × Nat × Int
  | 0, value, data, bit => (data, bit, value)
  | n + 1, value, data, bit =>
    let r := H.Huff_putBit (value % 2).toNat data bit
    putBitsLoop H n (value / 2) r.1 r.2

/-- The loop `for (i = 0; i < bits; i += 8)` of `MSG_WriteBits`, run for `n`
iterations: one `Huff_offsetTransmit` of the low byte per iteration, with the
early return that sets `overflowed`. -/
def transmitLoop (H : huffman_t) : Nat → Int → msg_t → msg_t
  | 0, _, msg => msg
  | n + 1, value, msg =>
    let r := H.Huff_offsetTransmit (value % 256).toNat msg.data msg.bit (msg.maxsize <<< 3)
    let msg1 := { msg with data := r.1, bit := r.2 }
    if msg1.bit ≥ msg1.maxsize <<< 3 then { msg1 with overflowed := true }
    else transmitLoop H n (value / 256) msg1

/-- `MSG_WriteBits`. -/
def MSG_WriteBits (H : huffman_t) (msg : msg_t) (value : Int) (bits : Int) :
    Except ComError msg_t :=
  let msg := { msg with uncompsize := msg.uncompsize + bits }
  if msg.overflowed then .ok msg
  else if bits = 0 ∨ bits < -31 ∨ bits > 32 then
    .error (.ERR_DROP "MSG_WriteBits: bad bits")
  else
    let bits : Nat := if bits < 0 then (-bits).toNat else bits.toNat
    if msg.oob then
      if msg.cursize + (bits >>> 3) > msg.maxsize then .ok { msg with overflowed := true }
      else if bits = 8 then
        .ok { msg with
              data := Function.update msg.data msg.cursize (value % 256).toNat,
              cursize := msg.cursize + 1, bit := msg.bit + 8 }
      else if bits = 16 then
        .ok { msg with
              data := Function.update
                (Function.update msg.data msg.cursize (value % 256).toNat)
                (msg.cursize + 1) (value / 256 % 256).toNat,
              cursize := msg.cursize + 2, bit := msg.bit + 16 }
      else if bits = 32 then
        .ok { msg with
              data := Function.update (Function.update (Function.update
                (Function.update msg.data msg.cursize (value % 256).toNat)
                (msg.cursize + 1) (value / 256 % 256).toNat)
                (msg.cursize + 2) (value / 65536 % 256).toNat)
                (msg.cursize + 3) (value / 16777216 % 256).toNat,
              cursize := msg.cursize + 4, bit := msg.bit + 32 }
      else .error (.ERR_DROP "MSG_WriteBits: can not read bits")
    else
      let value : Int := toI32 (toU32 value &&& (0xffffffff >>> (32 - bits)))
      let nbits := bits &&& 7
      if nbits ≠ 0 ∧ msg.bit + nbits > msg.maxsize <<< 3 then
        .ok { msg with overflowed := true }
      else
        let r := putBitsLoop H nbits value msg.data msg.bit
        let msg1 := { msg with data := r.1, bit := r.2.1 }
        let msg2 := transmitLoop H ((bits - nbits) / 8) r.2.2 msg1
        if msg2.overflowed then .ok msg2
        else .ok { msg2 with cursize := (msg2.bit >>> 3) + 1 }

/-- The loop `for (i = 0; i < nbits; i++) value |= Huff_getBit(...) << i` of
`MSG_ReadBits`, from index `i` for `n` iterations; `value` is the 32-bit
pattern accumulated so far. Returns the value and the bit cursor. -/
def getBitsLoop (H : huffman_t) (data : Nat → Nat) : Nat → Nat → Nat → Nat → Nat × Nat
  | 0, _, value, bit => (value, bit)
  | n + 1, i, value, bit =>
    let r := H.Huff_getBit data bit
    getBitsLoop H data n (i + 1) (value ||| ((r.1 <<< i) % 4294967296)) r.2

/-- The loop `for (i = 0; i < bits; i += 8)` of `MSG_ReadBits`, run for `n`
iterations from shift `sh = i + nbits`. Returns the value, the bit cursor and
whether the loop ran to its end (`false`: the early return taken when the
cursor has moved past `cursize << 3`). -/
def receiveLoop (H : huffman_t) (data : Nat → Nat) (cursize : Nat) :
    Nat → Nat → Nat → Nat → Nat × Nat × Bool
  | 0, _, value, bit => (value, bit, true)
  | n + 1, sh, value, bit =>
    let r := H.Huff_offsetReceive data bit (cursize <<< 3)
    let value1 := value ||| ((r.1 <<< sh) % 4294967296)
    if r.2 > cursize <<< 3 then (value1, r.2, false)
    else receiveLoop H data cursize n (sh + 8) value1 r.2

/-- The tail of `MSG_ReadBits`: `if (sgn && bits > 0 && bits < 32)` the value
is sign-extended from bit `bits - 1`; `value` is the 32-bit pattern read. -/
def signExtend (sgn : Bool) (value bits : Nat) : Int :=
  if sgn = true ∧ bits > 0 ∧ bits < 32 then
    if value &&& (1 <<< (bits - 1)) ≠ 0 then
      toI32 (value ||| (0xffffffff ^^^ ((1 <<< bits) - 1)))
    else toI32 value
  else toI32 value

/-- `MSG_ReadBits`; returns the value and the message with its cursors moved.
In bitstream mode the source subtracts the raw-bit count from `bits` before
the sign extension, which therefore sees `bits - nbits`. -/
def MSG_ReadBits (H : huffman_t) (msg : msg_t) (bits : Int) :
    Except ComError (Int × msg_t) :=
  if msg.readcount > msg.cursize then .ok (0, msg)
  else
    let sgn : Bool := decide (bits < 0)
    let bits : Nat := if bits < 0 then (-bits).toNat else bits.toNat
    if msg.oob then
      if msg.readcount + (bits >>> 3) > msg.cursize then
        .ok (0, { msg with readcount := msg.cursize + 1 })
      else if bits = 8 then
        .ok (signExtend sgn (msg.data msg.readcount % 256) bits,
             { msg with readcount := msg.readcount + 1, bit := msg.bit + 8 })
      else if bits = 16 then
        .ok (signExtend sgn (msg.data msg.readcount % 256
                          + 256 * (msg.data (msg.readcount + 1) % 256)) bits,
             { msg with readcount := msg.readcount + 2, bit := msg.bit + 16 })
      else if bits = 32 then
        .ok (signExtend sgn (msg.data msg.readcount % 256
                          + 256 * (msg.data (msg.readcount + 1) % 256)
                          + 65536 * (msg.data (msg.readcount + 2) % 256)
                          + 16777216 * (msg.data (msg.readcount + 3) % 256)) bits,
             { msg with readcount := msg.readcount + 4, bit := msg.bit + 32 })
      else .error (.ERR_DROP "MSG_ReadBits: can not read bits")
    else
      let nbits := bits &&& 7
      if nbits ≠ 0 ∧ msg.bit + nbits > msg.cursize <<< 3 then
        .ok (0, { msg with readcount := msg.cursize + 1 })
      else
        let r := getBitsLoop H msg.data nbits 0 0 msg.bit
        let bits := bits - nbits
        let r2 := receiveLoop H msg.data msg.cursize (bits / 8) nbits r.1 r.2
        if r2.2.2 = false then
          .ok (0, { msg with bit := r2.2.1, readcount := msg.cursize + 1 })
        else
          .ok (signExtend sgn r2.1 bits,
               { msg with bit := r2.2.1, readcount := (r2.2.1 >>> 3) + 1 })

/-! ## A reference bit codec

The bit channel is parametric in the Huffman entry points. `rawCodec` is a
concrete instance used to evaluate the channel: single bits are stored in the
byte array least significant bit first, zeroing a byte when its first bit is
written, and a byte symbol is sent as its eight bits (a prefix code whose
code words all have length eight), stopping at `maxoffset`. -/

/-- Store one bit at `offset`. -/
def rawPutBit (bit : Nat) (data : Nat → Nat) (offset : Nat) : (Nat → Nat) × Nat :=
  let x := offset / 8
  let y := offset % 8
  let cur := if y = 0 then 0 else data x
  (Function.update data x (cur ||| (bit <<< y)), offset + 1)

/-- Load the bit at `offset`. -/
def rawGetBit (data : Nat → Nat) (offset : Nat) : Nat × Nat :=
  ((data (offset / 8) >>> (offset % 8)) &&& 1, offset + 1)

/-- Send the `n` low bits of `ch`; on reaching `maxoffset` the offset becomes
`maxoffset + 1` and nothing more is stored. -/
def rawTransmitLoop : Nat → Nat → (Nat → Nat) → Nat → Nat → (Nat → Nat) × Nat
  | 0, _, data, offset, _ => (data, offset)
  | n + 1, ch, data, offset, maxoffset =>
    if offset ≥ maxoffset then (data, maxoffset + 1)
    else
      let r := rawPutBit (ch % 2) data offset
      rawTransmitLoop n (ch / 2) r.1 r.2 maxoffset

/-- Receive `n` bits into a symbol, bit `i` first; on reaching `maxoffset`
the symbol is 0 and the offset becomes `maxoffset + 1`. -/
def rawReceiveLoop (data : Nat → Nat) (maxoffset : Nat) : Nat → Nat → Nat → Nat → Nat × Nat
  | 0, _, ch, offset => (ch, offset)
  | n + 1, i, ch, offset =>
    if offset ≥ maxoffset then (0, maxoffset + 1)
    else
      let r := rawGetBit data offset
      rawReceiveLoop data maxoffset n (i + 1) (ch + r.1 * 2 ^ i) r.2

/-- The reference codec. -/
def rawCodec : huffman_t :=
  { Huff_putBit := rawPutBit
    Huff_getBit := rawGetBit
    Huff_offsetTransmit := fun ch data offset maxoffset =>
      rawTransmitLoop 8 ch data offset maxoffset
    Huff_offsetReceive := fun data offset maxoffset =>
      rawReceiveLoop data maxoffset 8 0 0 offset }

/-! ## Assumptions on the Huffman entry points -/

/-- Bit `i` of the byte array, least significant bit of each byte first. -/
def bitAt (d : Nat → Nat) (i : Nat) : Bool := (d (i / 8)).testBit (i % 8)

/-- The byte arrays `d` and `e` hold the same first `n` bits. -/
def agree (d e : Nat → Nat) (n : Nat) : Prop := ∀ i, i < n → bitAt d i = bitAt e i

/-- What the bit channel assumes of the Huffman entry points: at the same
offset `Huff_getBit` inverts `Huff_putBit` and `Huff_offsetReceive` inverts
`Huff_offsetTransmit`, a write leaves the bits before its offset alone, and a
read depends only on the bits up to its new offset. `Inv data offset` is a
condition on the writer that the entry points may rely on and must keep (for
`huffman.c`: the bits of the current byte at and after the offset are clear).
The laws of `Huff_offsetTransmit` are asked only when it ends before
`maxoffset`, which is when `MSG_WriteBits` does not flag an overflow. -/
structure HuffLaws (H : huffman_t) (Inv : (Nat → Nat) → Nat → Prop) : Prop where
  putBit_offset : ∀ b d o, (H.Huff_putBit b d o).2 = o + 1
  putBit_inv : ∀ b d o, b < 2 → Inv d o → Inv (H.Huff_putBit b d o).1 (o + 1)
  putBit_frame : ∀ b d o, b < 2 → Inv d o → agree d (H.Huff_putBit b d o).1 o
  getBit_putBit : ∀ b d o e, b < 2 → Inv d o →
    agree (H.Huff_putBit b d o).1 e (o + 1) → H.Huff_getBit e o = (b, o + 1)
  transmit_inv : ∀ ch d o mx, ch < 256 → Inv d o → (H.Huff_offsetTransmit ch d o mx).2 < mx →
    o ≤ (H.Huff_offsetTransmit ch d o mx).2 ∧
    Inv (H.Huff_offsetTransmit ch d o mx).1 (H.Huff_offsetTransmit ch d o mx).2 ∧
    agree d (H.Huff_offsetTransmit ch d o mx).1 o
  receive_transmit : ∀ ch d o mx e mx2, ch < 256 → Inv d o →
    (H.Huff_offsetTransmit ch d o mx).2 < mx →
    agree (H.Huff_offsetTransmit ch d o mx).1 e (H.Huff_offsetTransmit ch d o mx).2 →
    (H.Huff_offsetTransmit ch d o mx).2 ≤ mx2 →
    H.Huff_offsetReceive e o mx2 = (ch, (H.Huff_offsetTransmit ch d o mx).2)

/-- The condition `huffman.c` keeps while writing: when the offset is inside
a byte, the bits of that byte at and after the offset are clear. -/
def cleanAt (d : Nat → Nat) (o : Nat) : Prop :=
  o % 8 ≠ 0 → ∀ j, o % 8 ≤ j → (d (o / 8)).testBit j = false

/-- A writer `w` and a reader `r` are matched for the value `v`: on a
bitstream buffer the writer returns; an overflowed buffer stays overflowed; a
write that does not overflow moves the bit cursor forward, keeps the bits
before it, and any reader positioned at the old cursor on a message that
holds the written bits returns `v` and ends at the new cursor, still inside
the message. -/
structure Codec {α : Type} (H : huffman_t) (Inv : (Nat → Nat) → Nat → Prop)
    (w : msg_t → Except ComError msg_t) (r : msg_t → Except ComError (α × msg_t))
    (v : α) : Prop where
  total : ∀ m, m.oob = false → ∃ m2, w m = .ok m2 ∧ m2.oob = false
  latch : ∀ m m2, m.overflowed = true → w m = .ok m2 → m2.overflowed = true
  sound : ∀ m m2, m.overflowed = false → m.oob = false → Inv m.data m.bit →
    w m = .ok m2 → m2.overflowed = false →
    m2.oob = false ∧ m2.maxsize = m.maxsize ∧ m.bit ≤ m2.bit ∧ Inv m2.data m2.bit ∧
    agree m.data m2.data m.bit ∧ (m2 = m ∨ m2.cursize = (m2.bit >>> 3) + 1) ∧
    ∀ rm : msg_t, rm.oob = false → rm.bit = m.bit → rm.readcount ≤ rm.cursize →
      m2.bit < 8 * rm.cursize → agree m2.data rm.data m2.bit →
      ∃ rc, rc ≤ rm.cursize ∧ r rm = .ok (v, { rm with bit := m2.bit, readcount := rc })

/-- The writer `w` leaves `cursize` one past the byte of the bit cursor
whenever it returns without overflow on a bitstream buffer: it has written
at least one bit. -/
def StrictWriter (Inv : (Nat → Nat) → Nat → Prop) (w : msg_t → Except ComError msg_t) : Prop :=
  ∀ m m2, m.overflowed = false → m.oob = false → Inv m.data m.bit → w m = .ok m2 →
    m2.overflowed = false → m2.cursize = (m2.bit >>> 3) + 1

/-- The reader `r` returns on every bitstream message, and leaves a bitstream
message. -/
def TotalReader {α : Type} (r : msg_t → Except ComError (α × msg_t)) : Prop :=
  ∀ msg, msg.oob = false → ∃ v m2, r msg = .ok (v, m2) ∧ m2.oob = false

/-! ## The `float` view of a cell

A `float` is handled through its IEEE 754 binary32 bit pattern (a natural
number below `2 ^ 32`): sign bit 31, exponent bits 30..23, mantissa bits
22..0. Only the three operations the delta codecs apply to a `float` are
needed: the test `f == 0.0f`, the cast `(int)f` and the conversion of an `int`
to `float` (with the comparison `trunc == fullFloat` made after it). -/

/-- The position of the highest set bit of `a` (0 for `a = 0`), with `fuel`
halvings. -/
def ilog2 : Nat → Nat → Nat
  | 0, _ => 0
  | fuel + 1, a => if a < 2 then 0 else ilog2 fuel (a / 2) + 1

/-- The test `f == 0.0f`: true of both zeros. -/
def f32_isZero (p : Nat) : Bool := p % 2147483648 == 0

/-- The pattern is a NaN: exponent 255 and a non-zero mantissa. -/
def f32_isNaN (p : Nat) : Bool := p / 8388608 % 256 == 255 && p % 8388608 != 0

/-- The comparison `a == b` of two floats: false when either is a NaN, true
of two zeros, and equality of the patterns otherwise. -/
def f32_eq (a b : Nat) : Bool :=
  !f32_isNaN a && !f32_isNaN b && ((f32_isZero a && f32_isZero b) || a % 4294967296 == b % 4294967296)

/-- The cast `(int)f`: truncation toward zero. Where C leaves the result
undefined (NaN, infinities, magnitudes outside the `int` range) the value is
`INT_MIN`, as the x86 conversion instructions give. -/
def f32_toInt (p : Nat) : Int :=
  let s := p / 2147483648 % 2
  let e := p / 8388608 % 256
  let m := p % 8388608
  if e = 255 then -2147483648
  else if e = 0 then 0
  else
    let sig := 8388608 + m
    let mag := if e ≥ 150 then sig * 2 ^ (e - 150) else sig / 2 ^ (150 - e)
    if s = 0 then (if mag < 2147483648 then (mag : Int) else -2147483648)
    else (if mag ≤ 2147483648 then -(mag : Int) else -2147483648)

/-- The conversion `(float)t` of an `int`, rounding to nearest, ties to even. -/
def f32_ofInt (t : Int) : Nat :=
  if t = 0 then 0
  else
    let s : Nat := if t < 0 then 1 else 0
    let a := t.natAbs
    let k := ilog2 64 a
    if k ≤ 23 then s * 2147483648 + (127 + k) * 8388608 + (a * 2 ^ (23 - k) - 8388608)
    else
      let sh := k - 23
      let q := a / 2 ^ sh
      let r := a % 2 ^ sh
      let half := 2 ^ (sh - 1)
      let q1 := if r > half ∨ (r = half ∧ q % 2 = 1) then q + 1 else q
      s * 2147483648 + (127 + k) * 8388608 + (q1 - 8388608)

/-- `FLOAT_INT_BITS`. -/
def FLOAT_INT_BITS : Nat := 13

/-- `FLOAT_INT_BIAS`: `1 << (FLOAT_INT_BITS - 1)`. -/
def FLOAT_INT_BIAS : Int := ((1 <<< (FLOAT_INT_BITS - 1) : Nat) : Int)

/-- The test of the writers for the short float encoding:
`trunc == fullFloat && trunc + FLOAT_INT_BIAS >= 0 && trunc + FLOAT_INT_BIAS < (1 << FLOAT_INT_BITS)`,
with `fullFloat` the float view of the cell and `trunc = (int)fullFloat`. -/
def floatFitsInt (fullFloat : Nat) (trunc : Int) : Bool :=
  f32_eq (f32_ofInt trunc) fullFloat && decide (trunc + FLOAT_INT_BIAS ≥ 0)
    && decide (trunc + FLOAT_INT_BIAS < ((1 <<< FLOAT_INT_BITS : Nat) : Int))

/-! ## Typed writers and readers -/

/-- `MSG_WriteByte`. -/
def MSG_WriteByte (H : huffman_t) (msg : msg_t) (c : Int) : Except ComError msg_t :=
  MSG_WriteBits H msg c 8

/-- `MSG_WriteShort`. -/
def MSG_WriteShort (H : huffman_t) (msg : msg_t) (c : Int) : Except ComError msg_t :=
  MSG_WriteBits H msg c 16

/-- `MSG_WriteLong`. -/
def MSG_WriteLong (H : huffman_t) (msg : msg_t) (c : Int) : Except ComError msg_t :=
  MSG_WriteBits H msg c 32

/-- `MSG_ReadByte`: `(unsigned char)MSG_ReadBits(msg, 8)`, or -1 when the
read has run past the end. -/
def MSG_ReadByte (H : huffman_t) (msg : msg_t) : Except ComError (Int × msg_t) := do
  let (v, msg) ← MSG_ReadBits H msg 8
  if msg.readcount > msg.cursize then pure (-1, msg) else pure (v % 256, msg)

/-- `MSG_ReadShort`: `(short)MSG_ReadBits(msg, 16)`, or -1 when the read has
run past the end. -/
def MSG_ReadShort (H : huffman_t) (msg : msg_t) : Except ComError (Int × msg_t) := do
  let (v, msg) ← MSG_ReadBits H msg 16
  if msg.readcount > msg.cursize then pure (-1, msg) else pure (toI16 v, msg)

/-- `MSG_ReadLong`: `MSG_ReadBits(msg, 32)`, or -1 when the read has run past
the end. -/
def MSG_ReadLong (H : huffman_t) (msg : msg_t) : Except ComError (Int × msg_t) := do
  let (v, msg) ← MSG_ReadBits H msg 32
  if msg.readcount > msg.cursize then pure (-1, msg) else pure (v, msg)

/-! ## Records and field tables -/

/-- Modelled from the spec: the constants of `q_shared.h`, which is not among
the sources, are taken as parameters: the width of an entity number and the
entity-count ceiling, the width of an animation index, the client ceiling
and the lengths of the four player-state arrays sent under a 16-bit mask. -/
structure constants_t where
  GENTITYNUM_BITS : Nat
  MAX_GENTITIES : Nat
  ANIM_BITS : Nat
  MAX_CLIENTS : Nat
  MAX_STATS : Nat
  MAX_PERSISTANT : Nat
  MAX_HOLDABLE : Nat
  MAX_POWERUPS : Nat

/-- The values of the constants in ET: Legacy. -/
def etl_constants : constants_t :=
  { GENTITYNUM_BITS := 10, MAX_GENTITIES := 1024, ANIM_BITS := 10, MAX_CLIENTS := 64,
    MAX_STATS := 16, MAX_PERSISTANT := 16, MAX_HOLDABLE := 16, MAX_POWERUPS := 16 }

/-- `netField_t` without its `used` counter. The record layouts are not
among the sources: `offset` identifies the 4-byte cell of the member the
entry names, two entries having the same `offset` exactly when they name the
same member. -/
structure netField_t where
  name : String
  offset : Nat
  bits : Int

/-- `LOG2_8BIT(v)`. -/
def LOG2_8BIT (v : Nat) : Int :=
  8 - ((90 / ((v / 4 + 14) ||| 1) : Nat) : Int) - ((2 / (v / 2 + 1) : Nat) : Int)

/-- `CLIENTNUM_BITS`. -/
def CLIENTNUM_BITS (K : constants_t) : Int := LOG2_8BIT K.MAX_CLIENTS

/-- `entityStateFields`: the `NETF` table of `entityState_t`; entry `i` names cell `i`. -/
def entityStateFields (K : constants_t) : List netField_t :=
  [
    netField_t.mk "eType" 0 8,
    netField_t.mk "eFlags" 1 24,
    netField_t.mk "pos.trType" 2 8,
    netField_t.mk "pos.trTime" 3 32,
    netField_t.mk "pos.trDuration" 4 32,
    netField_t.mk "pos.trBase[0]" 5 0,
    netField_t.mk "pos.trBase[1]" 6 0,
    netField_t.mk "pos.trBase[2]" 7 0,
    netField_t.mk "pos.trDelta[0]" 8 0,
    netField_t.mk "pos.trDelta[1]" 9 0,
    netField_t.mk "pos.trDelta[2]" 10 0,
    netField_t.mk "apos.trType" 11 8,
    netField_t.mk "apos.trTime" 12 32,
    netField_t.mk "apos.trDuration" 13 32,
    netField_t.mk "apos.trBase[0]" 14 0,
    netField_t.mk "apos.trBase[1]" 15 0,
    netField_t.mk "apos.trBase[2]" 16 0,
    netField_t.mk "apos.trDelta[0]" 17 0,
    netField_t.mk "apos.trDelta[1]" 18 0,
    netField_t.mk "apos.trDelta[2]" 19 0,
    netField_t.mk "time" 20 32,
    netField_t.mk "time2" 21 32,
    netField_t.mk "origin[0]" 22 0,
    netField_t.mk "origin[1]" 23 0,
    netField_t.mk "origin[2]" 24 0,
    netField_t.mk "origin2[0]" 25 0,
    netField_t.mk "origin2[1]" 26 0,
    netField_t.mk "origin2[2]" 27 0,
    netField_t.mk "angles[0]" 28 0,
    netField_t.mk "angles[1]" 29 0,
    netField_t.mk "angles[2]" 30 0,
    netField_t.mk "angles2[0]" 31 0,
    netField_t.mk "angles2[1]" 32 0,
    netField_t.mk "angles2[2]" 33 0,
    netField_t.mk "otherEntityNum" 34 (K.GENTITYNUM_BITS : Int),
    netField_t.mk "otherEntityNum2" 35 (K.GENTITYNUM_BITS : Int),
    netField_t.mk "groundEntityNum" 36 (K.GENTITYNUM_BITS : Int),
    netField_t.mk "loopSound" 37 8,
    netField_t.mk "constantLight" 38 32,
    netField_t.mk "dl_intensity" 39 32,
    netField_t.mk "modelindex" 40 9,
    netField_t.mk "modelindex2" 41 9,
    netField_t.mk "frame" 42 16,
    netField_t.mk "clientNum" 43 8,
    netField_t.mk "solid" 44 24,
    netField_t.mk "event" 45 10,
    netField_t.mk "eventParm" 46 8,
    netField_t.mk "eventSequence" 47 8,
    netField_t.mk "events[0]" 48 8,
    netField_t.mk "events[1]" 49 8,
    netField_t.mk "events[2]" 50 8,
    netField_t.mk "events[3]" 51 8,
    netField_t.mk "eventParms[0]" 52 8,
    netField_t.mk "eventParms[1]" 53 8,
    netField_t.mk "eventParms[2]" 54 8,
    netField_t.mk "eventParms[3]" 55 8,
    netField_t.mk "powerups" 56 16,
    netField_t.mk "weapon" 57 8,
    netField_t.mk "legsAnim" 58 (K.ANIM_BITS : Int),
    netField_t.mk "torsoAnim" 59 (K.ANIM_BITS : Int),
    netField_t.mk "density" 60 10,
    netField_t.mk "dmgFlags" 61 32,
    netField_t.mk "onFireStart" 62 32,
    netField_t.mk "onFireEnd" 63 32,
    netField_t.mk "nextWeapon" 64 8,
    netField_t.mk "teamNum" 65 8,
    netField_t.mk "effect1Time" 66 32,
    netField_t.mk "effect2Time" 67 32,
    netField_t.mk "effect3Time" 68 32,
    netField_t.mk "animMovetype" 69 4,
    netField_t.mk "aiState" 70 2 ]

/-- `entitySharedFields`: the `ESF` table of `entityShared_t`. The member `ownerNum` is listed twice (entries 6 and 25), with the same cell. -/
def entitySharedFields (K : constants_t) : List netField_t :=
  [
    netField_t.mk "linked" 0 1,
    netField_t.mk "linkcount" 1 8,
    netField_t.mk "bmodel" 2 1,
    netField_t.mk "svFlags" 3 12,
    netField_t.mk "singleClient" 4 (CLIENTNUM_BITS K : Int),
    netField_t.mk "contents" 5 32,
    netField_t.mk "ownerNum" 6 (K.GENTITYNUM_BITS : Int),
    netField_t.mk "mins[0]" 7 0,
    netField_t.mk "mins[1]" 8 0,
    netField_t.mk "mins[2]" 9 0,
    netField_t.mk "maxs[0]" 10 0,
    netField_t.mk "maxs[1]" 11 0,
    netField_t.mk "maxs[2]" 12 0,
    netField_t.mk "absmin[0]" 13 0,
    netField_t.mk "absmin[1]" 14 0,
    netField_t.mk "absmin[2]" 15 0,
    netField_t.mk "absmax[0]" 16 0,
    netField_t.mk "absmax[1]" 17 0,
    netField_t.mk "absmax[2]" 18 0,
    netField_t.mk "currentOrigin[0]" 19 0,
    netField_t.mk "currentOrigin[1]" 20 0,
    netField_t.mk "currentOrigin[2]" 21 0,
    netField_t.mk "currentAngles[0]" 22 0,
    netField_t.mk "currentAngles[1]" 23 0,
    netField_t.mk "currentAngles[2]" 24 0,
    netField_t.mk "ownerNum" 6 32,
    netField_t.mk "eventTime" 25 32,
    netField_t.mk "worldflags" 26 32,
    netField_t.mk "snapshotCallback" 27 1 ]

/-- `ettventitySharedFields`: the reduced `ESF` table; its entries name cells of the same record as `entitySharedFields`. -/
def ettventitySharedFields : List netField_t :=
  [
    netField_t.mk "currentOrigin[0]" 19 0,
    netField_t.mk "currentOrigin[1]" 20 0,
    netField_t.mk "currentOrigin[2]" 21 0,
    netField_t.mk "currentAngles[0]" 22 0,
    netField_t.mk "currentAngles[1]" 23 0,
    netField_t.mk "currentAngles[2]" 24 0,
    netField_t.mk "svFlags" 3 32,
    netField_t.mk "mins[0]" 7 0,
    netField_t.mk "mins[1]" 8 0,
    netField_t.mk "mins[2]" 9 0,
    netField_t.mk "maxs[0]" 10 0,
    netField_t.mk "maxs[1]" 11 0,
    netField_t.mk "maxs[2]" 12 0,
    netField_t.mk "singleClient" 4 8 ]

/-- `playerStateFields`: the `PSF` table of `playerState_t`; entry `i` names cell `i`. -/
def playerStateFields (K : constants_t) : List netField_t :=
  [
    netField_t.mk "commandTime" 0 32,
    netField_t.mk "pm_type" 1 8,
    netField_t.mk "bobCycle" 2 8,
    netField_t.mk "pm_flags" 3 16,
    netField_t.mk "pm_time" 4 (-16),
    netField_t.mk "origin[0]" 5 0,
    netField_t.mk "origin[1]" 6 0,
    netField_t.mk "origin[2]" 7 0,
    netField_t.mk "velocity[0]" 8 0,
    netField_t.mk "velocity[1]" 9 0,
    netField_t.mk "velocity[2]" 10 0,
    netField_t.mk "weaponTime" 11 (-16),
    netField_t.mk "weaponDelay" 12 (-16),
    netField_t.mk "grenadeTimeLeft" 13 (-16),
    netField_t.mk "gravity" 14 16,
    netField_t.mk "leanf" 15 0,
    netField_t.mk "speed" 16 16,
    netField_t.mk "delta_angles[0]" 17 16,
    netField_t.mk "delta_angles[1]" 18 16,
    netField_t.mk "delta_angles[2]" 19 16,
    netField_t.mk "groundEntityNum" 20 (K.GENTITYNUM_BITS : Int),
    netField_t.mk "legsTimer" 21 16,
    netField_t.mk "torsoTimer" 22 16,
    netField_t.mk "legsAnim" 23 (K.ANIM_BITS : Int),
    netField_t.mk "torsoAnim" 24 (K.ANIM_BITS : Int),
    netField_t.mk "movementDir" 25 8,
    netField_t.mk "eFlags" 26 24,
    netField_t.mk "eventSequence" 27 8,
    netField_t.mk "events[0]" 28 8,
    netField_t.mk "events[1]" 29 8,
    netField_t.mk "events[2]" 30 8,
    netField_t.mk "events[3]" 31 8,
    netField_t.mk "eventParms[0]" 32 8,
    netField_t.mk "eventParms[1]" 33 8,
    netField_t.mk "eventParms[2]" 34 8,
    netField_t.mk "eventParms[3]" 35 8,
    netField_t.mk "clientNum" 36 8,
    netField_t.mk "weapons[0]" 37 32,
    netField_t.mk "weapons[1]" 38 32,
    netField_t.mk "weapon" 39 7,
    netField_t.mk "weaponstate" 40 4,
    netField_t.mk "weapAnim" 41 10,
    netField_t.mk "viewangles[0]" 42 0,
    netField_t.mk "viewangles[1]" 43 0,
    netField_t.mk "viewangles[2]" 44 0,
    netField_t.mk "viewheight" 45 (-8),
    netField_t.mk "damageEvent" 46 8,
    netField_t.mk "damageYaw" 47 8,
    netField_t.mk "damagePitch" 48 8,
    netField_t.mk "damageCount" 49 8,
    netField_t.mk "mins[0]" 50 0,
    netField_t.mk "mins[1]" 51 0,
    netField_t.mk "mins[2]" 52 0,
    netField_t.mk "maxs[0]" 53 0,
    netField_t.mk "maxs[1]" 54 0,
    netField_t.mk "maxs[2]" 55 0,
    netField_t.mk "crouchMaxZ" 56 0,
    netField_t.mk "crouchViewHeight" 57 0,
    netField_t.mk "standViewHeight" 58 0,
    netField_t.mk "deadViewHeight" 59 0,
    netField_t.mk "runSpeedScale" 60 0,
    netField_t.mk "sprintSpeedScale" 61 0,
    netField_t.mk "crouchSpeedScale" 62 0,
    netField_t.mk "friction" 63 0,
    netField_t.mk "viewlocked" 64 8,
    netField_t.mk "viewlocked_entNum" 65 16,
    netField_t.mk "nextWeapon" 66 8,
    netField_t.mk "teamNum" 67 8,
    netField_t.mk "onFireStart" 68 32,
    netField_t.mk "curWeapHeat" 69 8,
    netField_t.mk "aimSpreadScale" 70 8,
    netField_t.mk "serverCursorHint" 71 8,
    netField_t.mk "serverCursorHintVal" 72 8,
    netField_t.mk "classWeaponTime" 73 32,
    netField_t.mk "identifyClient" 74 8,
    netField_t.mk "identifyClientHealth" 75 8,
    netField_t.mk "aiState" 76 2 ]

/-- `entityState_t`: the cell `number` and one 4-byte cell per entry of
`entityStateFields` (the `etl_assert` of `MSG_WriteDeltaEntity`), `cells`
being indexed by the `offset` of the entry. -/
structure entityState_t where
  number : Int
  cells : Nat → Int

/-- `entityShared_t`, seen as its 4-byte cells, indexed by the `offset` of the
entries of `entitySharedFields`. -/
structure entityShared_t where
  cells : Nat → Int

/-! ## The field loops of the delta codecs

The writers `MSG_WriteDeltaEntity`, `MSG_ETTV_WriteDeltaSharedEntity`,
`MSG_WriteDeltaSharedEntity` and `MSG_WriteDeltaPlayerstate` contain the same
two loops over their table, and the readers `MSG_ReadDeltaEntity`,
`MSG_ReadDeltaSharedEntity` and `MSG_ReadDeltaPlayerstate` the same reading of
`lc` followed by the same two loops; the player-state codec differs from the
entity codecs in the body of the loop only. Each loop is written once here,
with the table and the body as parameters. A loop that walks `field` from
entry `i` on is a recursion on the rest of the table. -/

/-- The loop that finds `lc`: `if (*fromF != *toF) lc = i + 1` for every
entry from index `i` on. -/
def lastChangedLoop (fromC toC : Nat → Int) : List netField_t → Nat → Nat → Nat
  | [], _, lc => lc
  | field :: rest, i, lc =>
    lastChangedLoop fromC toC rest (i + 1)
      (if fromC field.offset ≠ toC field.offset then i + 1 else lc)

/-- The block of the writers that sends a non-zero `float` cell `toF`:
`if (trunc == fullFloat && ...)` the flag 0 and the biased integer in
`FLOAT_INT_BITS` bits, otherwise the flag 1 and the 32-bit pattern. The
player-state writer applies it to every changed `float`. -/
def writeTruncFloat (H : huffman_t) (msg : msg_t) (toF : Int) : Except ComError msg_t :=
  let fullFloat := toU32 toF
  let trunc := f32_toInt fullFloat
  if floatFitsInt fullFloat trunc then do
    let msg ← MSG_WriteBits H msg 0 1
    MSG_WriteBits H msg (trunc + FLOAT_INT_BIAS) FLOAT_INT_BITS
  else do
    let msg ← MSG_WriteBits H msg 1 1
    MSG_WriteBits H msg toF 32

/-- The block `if (field->bits == 0) { ... }` of the entity writers for a
changed `float` cell: `if (fullFloat == 0.0f)` a single 0 bit, otherwise a 1
bit and the non-zero encoding. -/
def writeFloatField (H : huffman_t) (msg : msg_t) (toF : Int) : Except ComError msg_t :=
  if f32_isZero (toU32 toF) then MSG_WriteBits H msg 0 1
  else do
    let msg ← MSG_WriteBits H msg 1 1
    writeTruncFloat H msg toF

/-- The block `else { ... }` of the entity writers for a changed integer
cell: `if (*toF == 0)` a single 0 bit, otherwise a 1 bit and the value in
`field->bits` bits. -/
def writeIntField (H : huffman_t) (msg : msg_t) (toF : Int) (bits : Int) :
    Except ComError msg_t :=
  if toF = 0 then MSG_WriteBits H msg 0 1
  else do
    let msg ← MSG_WriteBits H msg 1 1
    MSG_WriteBits H msg toF bits

/-- The body of the writing loop of the entity codecs for one field, `fromF`
and `toF` being the cells `*fromF` and `*toF`. -/
def writeDeltaField (H : huffman_t) (msg : msg_t) (field : netField_t) (fromF toF : Int) :
    Except ComError msg_t :=
  if fromF = toF then MSG_WriteBits H msg 0 1
  else do
    let msg ← MSG_WriteBits H msg 1 1
    if field.bits = 0 then writeFloatField H msg toF
    else writeIntField H msg toF field.bits

/-- The writing loop `for (i = 0; i < lc; i++, field++)`, over the first `lc`
entries of the table, with the body `body msg field (*fromF) (*toF)`. -/
def writeFields (body : msg_t → netField_t → Int → Int → Except ComError msg_t)
    (fromC toC : Nat → Int) : List netField_t → msg_t → Except ComError msg_t
  | [], msg => pure msg
  | field :: rest, msg => do
    let msg ← body msg field (fromC field.offset) (toC field.offset)
    writeFields body fromC toC rest msg

/-- The block of the readers that receives a non-zero `float`:
`if (MSG_ReadBits(msg, 1) == 0)` an integer of `FLOAT_INT_BITS` bits, from
which the bias is taken and which is converted to `float`, otherwise the
32-bit pattern. -/
def readTruncFloat (H : huffman_t) (msg : msg_t) : Except ComError (Int × msg_t) := do
  let (full, msg) ← MSG_ReadBits H msg 1
  if full = 0 then do
    let (trunc, msg) ← MSG_ReadBits H msg FLOAT_INT_BITS
    pure (toI32 (f32_ofInt (trunc - FLOAT_INT_BIAS)), msg)
  else MSG_ReadBits H msg 32

/-- The block `if (field->bits == 0) { ... }` of the entity readers for a
changed `float` cell. -/
def readFloatField (H : huffman_t) (msg : msg_t) : Except ComError (Int × msg_t) := do
  let (nonzero, msg) ← MSG_ReadBits H msg 1
  if nonzero = 0 then pure (0, msg)
  else readTruncFloat H msg

/-- The block `else { ... }` of the entity readers for a changed integer cell. -/
def readIntField (H : huffman_t) (msg : msg_t) (bits : Int) : Except ComError (Int × msg_t) := do
  let (nonzero, msg) ← MSG_ReadBits H msg 1
  if nonzero = 0 then pure (0, msg)
  else MSG_ReadBits H msg bits

/-- The body of the reading loop of the entity codecs for one field: the new
value of the cell `*toF`. -/
def readDeltaField (H : huffman_t) (msg : msg_t) (field : netField_t) (fromF : Int) :
    Except ComError (Int × msg_t) := do
  let (changed, msg) ← MSG_ReadBits H msg 1
  if changed = 0 then pure (fromF, msg)
  else if field.bits = 0 then readFloatField H msg
  else readIntField H msg field.bits

/-- The reading loop `for (i = 0; i < lc; i++, field++)`, over the first `lc`
entries of the table, with the body `body msg field (*fromF)` giving the new
value of `*toF`; `toC` are the cells of the output record. -/
def readFields (body : msg_t → netField_t → Int → Except ComError (Int × msg_t))
    (fromC : Nat → Int) :
    List netField_t → (Nat → Int) → msg_t → Except ComError ((Nat → Int) × msg_t)
  | [], toC, msg => pure (toC, msg)
  | field :: rest, toC, msg => do
    let (v, msg) ← body msg field (fromC field.offset)
    readFields body fromC rest (Function.update toC field.offset v) msg

/-- The loop `for (i = lc; i < numFields; i++, field++) *toF = *fromF` of the
readers, over the entries of the table from `lc` on. -/
def copyTailFields (fromC : Nat → Int) : List netField_t → (Nat → Int) → (Nat → Int)
  | [], toC => toC
  | field :: rest, toC =>
    copyTailFields fromC rest (Function.update toC field.offset (fromC field.offset))

/-- The part of the readers from `lc = MSG_ReadByte(msg)` to the end of the
second loop: the count is read and checked against the table, the first
`lc` fields are read and the others copied from `from`. Returns the cells of
the output record. -/
def readDeltaTable (H : huffman_t)
    (body : msg_t → netField_t → Int → Except ComError (Int × msg_t))
    (table : List netField_t) (text : String) (msg : msg_t) (fromC toC : Nat → Int) :
    Except ComError ((Nat → Int) × msg_t) := do
  let numFields := table.length
  let (lc, msg) ← MSG_ReadByte H msg
  if lc > numFields ∨ lc < 0 then .error (.ERR_DROP text)
  else do
    let (cells, msg) ← readFields body fromC (table.take lc.toNat) toC msg
    pure (copyTailFields fromC (table.drop lc.toNat) cells, msg)

/-- The part of the writers from `MSG_WriteByte(msg, lc)` to the end of the
writing loop. -/
def writeDeltaTable (H : huffman_t)
    (body : msg_t → netField_t → Int → Int → Except ComError msg_t)
    (table : List netField_t) (lc : Nat) (msg : msg_t) (fromC toC : Nat → Int) :
    Except ComError msg_t := do
  let msg ← MSG_WriteByte H msg lc
  writeFields body fromC toC (table.take lc) msg

/-! ## entityState_t communication -/

/-- `MSG_WriteDeltaEntity`; a null `from` or `to` is `none`. -/
def MSG_WriteDeltaEntity (H : huffman_t) (K : constants_t) (msg : msg_t)
    (from_ to_ : Option entityState_t) (force : Bool) : Except ComError msg_t :=
  match to_ with
  | none =>
    match from_ with
    | none => pure msg
    | some f => do
      let msg ← MSG_WriteBits H msg f.number K.GENTITYNUM_BITS
      MSG_WriteBits H msg 1 1
  | some t =>
    if t.number < 0 ∨ t.number ≥ K.MAX_GENTITIES then
      .error (.ERR_FATAL "MSG_WriteDeltaEntity: Bad entity number")
    else
      match from_ with
      | none => .error .NULL_DEREF
      | some f =>
        let lc := lastChangedLoop f.cells t.cells (entityStateFields K) 0 0
        if lc = 0 then
          if !force then pure msg
          else do
            let msg ← MSG_WriteBits H msg t.number K.GENTITYNUM_BITS
            let msg ← MSG_WriteBits H msg 0 1
            MSG_WriteBits H msg 0 1
        else do
          let msg ← MSG_WriteBits H msg t.number K.GENTITYNUM_BITS
          let msg ← MSG_WriteBits H msg 0 1
          let msg ← MSG_WriteBits H msg 1 1
          writeDeltaTable H (writeDeltaField H) (entityStateFields K) lc msg f.cells t.cells

/-- `MSG_ReadDeltaEntity`; `to_` is the output record as it is before the
call, the result is the output record after it. -/
def MSG_ReadDeltaEntity (H : huffman_t) (K : constants_t) (msg : msg_t)
    (from_ to_ : entityState_t) (number : Int) : Except ComError (entityState_t × msg_t) :=
  if number < 0 ∨ number ≥ K.MAX_GENTITIES then
    .error (.ERR_DROP "MSG_ReadDeltaEntity: Bad delta entity number")
  else do
    let (removed, msg) ← MSG_ReadBits H msg 1
    if removed = 1 then
      pure ({ number := (K.MAX_GENTITIES : Int) - 1, cells := fun _ => 0 }, msg)
    else do
      let (delta, msg) ← MSG_ReadBits H msg 1
      if delta = 0 then pure ({ from_ with number := number }, msg)
      else do
        let (cells, msg) ← readDeltaTable H (readDeltaField H) (entityStateFields K)
          "invalid entityState field count" msg from_.cells to_.cells
        pure ({ number := number, cells := cells }, msg)

/-! ## entityShared_t communication -/

/-- `MSG_WriteDeltaSharedEntity`. -/
def MSG_WriteDeltaSharedEntity (H : huffman_t) (K : constants_t) (msg : msg_t)
    (from_ to_ : entityShared_t) (force : Bool) (number : Int) : Except ComError msg_t :=
  let lc := lastChangedLoop from_.cells to_.cells (entitySharedFields K) 0 0
  if lc = 0 then
    if !force then pure msg
    else do
      let msg ← MSG_WriteBits H msg number K.GENTITYNUM_BITS
      MSG_WriteBits H msg 0 1
  else do
    let msg ← MSG_WriteBits H msg number K.GENTITYNUM_BITS
    let msg ← MSG_WriteBits H msg 1 1
    writeDeltaTable H (writeDeltaField H) (entitySharedFields K) lc msg from_.cells to_.cells

/-- `MSG_ReadDeltaSharedEntity` (its `number` argument is unused). -/
def MSG_ReadDeltaSharedEntity (H : huffman_t) (K : constants_t) (msg : msg_t)
    (from_ to_ : entityShared_t) : Except ComError (entityShared_t × msg_t) := do
  let (delta, msg) ← MSG_ReadBits H msg 1
  if delta = 0 then pure (from_, msg)
  else do
    let (cells, msg) ← readDeltaTable H (readDeltaField H) (entitySharedFields K)
      "invalid entityShared field count" msg from_.cells to_.cells
    pure ({ cells := cells }, msg)

/-! ## Values a field can carry -/

/-- The value is a C `int`. -/
def isInt32 (v : Int) : Prop := -2147483648 ≤ v ∧ v < 2147483648

instance (v : Int) : Decidable (isInt32 v) := by unfold isInt32; infer_instance

/-- The cell value `toF` is one the entity codecs carry unchanged in a field
of the given table entry: for a `float` entry (width 0) every pattern but the
negative zero, for an entry of width 32 every `int`, for an entry of width
`w` below 32 the values `0 .. 2 ^ w - 1`. -/
def fieldFits (field : netField_t) (toF : Int) : Prop :=
  isInt32 toF ∧
  (if field.bits = 0 then toF ≠ -2147483648
   else field.bits < 32 → 0 ≤ toF ∧ toF < 2 ^ field.bits.toNat)

instance (field : netField_t) (toF : Int) : Decidable (fieldFits field toF) := by
  unfold fieldFits; infer_instance

/-- The constants are in the ranges the codecs rely on: an entity number fits
its width, the widths are legal for `MSG_WriteBits`, and each player-state
array sent under a 16-bit mask has at most 16 entries. -/
def constantsOK (K : constants_t) : Prop :=
  1 ≤ K.GENTITYNUM_BITS ∧ K.GENTITYNUM_BITS ≤ 31 ∧
  K.MAX_GENTITIES ≤ 2 ^ K.GENTITYNUM_BITS ∧
  1 ≤ K.ANIM_BITS ∧ K.ANIM_BITS ≤ 32 ∧
  1 ≤ CLIENTNUM_BITS K ∧ CLIENTNUM_BITS K ≤ 32 ∧
  K.MAX_STATS ≤ 16 ∧ K.MAX_PERSISTANT ≤ 16 ∧ K.MAX_HOLDABLE ≤ 16 ∧ K.MAX_POWERUPS ≤ 16

instance (K : constants_t) : Decidable (constantsOK K) := by
  unfold constantsOK; infer_instance

/-! ## Outcomes -/

/-- The error a call raised, if it did not return. -/
def raised {α : Type} : Except ComError α → Option ComError
  | .error e => some e
  | .ok _ => none

/-- The value a reader returned, if it returned. -/
def valueOf {α : Type} : Except ComError (α × msg_t) → Option α
  | .error _ => none
  | .ok p => some p.1

/-- A fresh bitstream message over a zeroed array of 64 bytes. -/
def msg64 : msg_t := MSG_Init (fun _ => 0) 64

/-- A fresh out-of-band message over a zeroed array of 64 bytes. -/
def oob64 : msg_t := MSG_InitOOB (fun _ => 0) 64

/-- Write `value` with width `wbits` into a fresh bitstream message, begin
reading, and read with width `rbits`. -/
def writeThenRead (H : huffman_t) (value wbits rbits : Int) : Except ComError (Int × msg_t) := do
  let msg ← MSG_WriteBits H msg64 value wbits
  MSG_ReadBits H (MSG_BeginReading msg) rbits

/-- Write `value` with width `wbits` into a fresh out-of-band message, begin
reading out of band, and read with width `rbits`. -/
def writeThenReadOOB (H : huffman_t) (value wbits rbits : Int) :
    Except ComError (Int × msg_t) := do
  let msg ← MSG_WriteBits H oob64 value wbits
  MSG_ReadBits H (MSG_BeginReadingOOB msg) rbits

/-! ## The primitive calls behind one `MSG_WriteBits` -/

/-- Bits `0 .. n - 1` of `v`, least significant first. -/
def rawBitsOf (v : Int) (n : Nat) : List Nat :=
  (List.range n).map (fun j => (v / 2 ^ j % 2).toNat)

/-- The `n` bytes of `v` from bit `sh` on, least significant first. -/
def bytesOf (v : Int) (sh n : Nat) : List Nat :=
  (List.range n).map (fun j => (v / 2 ^ (sh + 8 * j) % 256).toNat)

/-- `Huff_putBit` applied to each bit of a list in turn. -/
def putBitsSeq (H : huffman_t) (bs : List Nat) (s : (Nat → Nat) × Nat) : (Nat → Nat) × Nat :=
  bs.foldl (fun s b => H.Huff_putBit b s.1 s.2) s

/-- `Huff_offsetTransmit` applied to each byte of a list in turn. -/
def transmitSeq (H : huffman_t) (maxoffset : Nat) (cs : List Nat) (s : (Nat → Nat) × Nat) :
    (Nat → Nat) × Nat :=
  cs.foldl (fun s c => H.Huff_offsetTransmit c s.1 s.2 maxoffset) s

/-! ## Sample records and end-to-end runs -/

/-- The entity state whose cells are all zero. -/
def zeroEntity : entityState_t := { number := 0, cells := fun _ => 0 }

/-- The entity state with the given number, the value `v` in cell `off` and
zero elsewhere. -/
def entityWith (number : Int) (off : Nat) (v : Int) : entityState_t :=
  { number := number, cells := fun i => if i = off then v else 0 }

/-- An entity state with number 7, `eType` 3, `pos.trBase[0]` 100.0 and
`pos.trBase[1]` 123456.75. -/
def sampleEntity : entityState_t :=
  { number := 7,
    cells := fun i => if i = 0 then 3 else if i = 5 then 1120403456
      else if i = 6 then 1206984800 else 0 }

/-- Write the delta from `from_` to `to_` into a fresh message, begin
reading, read the entity number and decode over the output record `out0`. -/
def entityRoundTrip (H : huffman_t) (K : constants_t) (from_ to_ out0 : entityState_t)
    (force : Bool) : Except ComError (entityState_t × msg_t) := do
  let msg ← MSG_WriteDeltaEntity H K msg64 (some from_) (some to_) force
  let (number, rm) ← MSG_ReadBits H (MSG_BeginReading msg) K.GENTITYNUM_BITS
  MSG_ReadDeltaEntity H K rm from_ out0 number

/-- A message whose first bit is 1. -/
def oneBitMsg : msg_t :=
  { overflowed := false, oob := false, data := fun _ => 1, maxsize := 64, cursize := 1,
    uncompsize := 0, readcount := 0, bit := 0, strip := false }

/-- The shared entity state whose cells are all zero. -/
def zeroShared : entityShared_t := { cells := fun _ => 0 }

/-- A bitstream message of 64 bytes ready for reading, whose first byte is `b`
and whose other bytes are zero. -/
def msgOfByte (b : Nat) : msg_t :=
  { overflowed := false, oob := false, data := fun i => if i = 0 then b else 0,
    maxsize := 64, cursize := 64, uncompsize := 0, readcount := 0, bit := 0, strip := false }

/-! ## player_state_t communication -/

/-- `playerState_t`: the 4-byte cells named by `playerStateFields`, indexed
by the `offset` of the entry, and the six arrays sent after them. The members
that are not sent are left out. -/
structure playerState_t where
  cells : Nat → Int
  stats : Nat → Int
  persistant : Nat → Int
  holdable : Nat → Int
  powerups : Nat → Int
  ammo : Nat → Int
  ammoclip : Nat → Int

/-- The record `dummy` after `Com_Memset(&dummy, 0, sizeof(dummy))`. -/
def zeroPlayerState : playerState_t :=
  { cells := fun _ => 0, stats := fun _ => 0, persistant := fun _ => 0, holdable := fun _ => 0,
    powerups := fun _ => 0, ammo := fun _ => 0, ammoclip := fun _ => 0 }

/-- The body of the writing loop of `MSG_WriteDeltaPlayerstate` for one
field: no flag for a zero value, a `float` goes through the short-or-full
encoding and an integer is written in `field->bits` bits. -/
def writePlayerField (H : huffman_t) (msg : msg_t) (field : netField_t) (fromF toF : Int) :
    Except ComError msg_t :=
  if fromF = toF then MSG_WriteBits H msg 0 1
  else do
    let msg ← MSG_WriteBits H msg 1 1
    if field.bits = 0 then writeTruncFloat H msg toF
    else MSG_WriteBits H msg toF field.bits

/-- The body of the reading loop of `MSG_ReadDeltaPlayerstate` for one field. -/
def readPlayerField (H : huffman_t) (msg : msg_t) (field : netField_t) (fromF : Int) :
    Except ComError (Int × msg_t) := do
  let (changed, msg) ← MSG_ReadBits H msg 1
  if changed = 0 then pure (fromF, msg)
  else if field.bits = 0 then readTruncFloat H msg
  else MSG_ReadBits H msg field.bits

/-- The loops `for (i = 0; i < n; i++) if (to[base + i] != from[base + i]) bits |= 1 << i`
that build the change masks. -/
def changeMask (fromA toA : Nat → Int) (base n : Nat) : Nat :=
  (List.range n).foldl
    (fun bits i => if toA (base + i) ≠ fromA (base + i) then bits ||| (1 <<< i) else bits) 0

/-- The test `bits & (1 << i)` of the readers on the `int` they got from
`MSG_ReadShort`: bit `i` of the two's complement pattern is set. -/
def intTestBit (bits : Int) (i : Nat) : Bool := decide (bits / 2 ^ i % 2 = 1)

/-- The loops `for (i = 0; i < n; i++) if (bits & (1 << i)) write(msg, to[base + i])`
of the writer, `write` being `MSG_WriteShort` or `MSG_WriteLong`. -/
def writeArrayValues (write : msg_t → Int → Except ComError msg_t) (bits : Nat)
    (toA : Nat → Int) (base : Nat) : List Nat → msg_t → Except ComError msg_t
  | [], msg => pure msg
  | i :: rest, msg =>
    if bits &&& (1 <<< i) ≠ 0 then do
      let msg ← write msg (toA (base + i))
      writeArrayValues write bits toA base rest msg
    else writeArrayValues write bits toA base rest msg

/-- One array block of the writer: `if (bits)` a 1 bit, the mask as a short
and the changed entries, otherwise a 0 bit. -/
def writeArrayBlock (H : huffman_t) (write : msg_t → Int → Except ComError msg_t)
    (msg : msg_t) (bits : Nat) (toA : Nat → Int) (base n : Nat) : Except ComError msg_t :=
  if bits ≠ 0 then do
    let msg ← MSG_WriteBits H msg 1 1
    let msg ← MSG_WriteShort H msg bits
    writeArrayValues write bits toA base (List.range n) msg
  else MSG_WriteBits H msg 0 1

/-- The loops `for (i = 0; i < n; i++) if (bits & (1 << i)) to[base + i] = read(msg)`
of the reader, `read` being `MSG_ReadShort` or `MSG_ReadLong`. -/
def readArrayValues (read : msg_t → Except ComError (Int × msg_t)) (bits : Int) (base : Nat) :
    List Nat → (Nat → Int) → msg_t → Except ComError ((Nat → Int) × msg_t)
  | [], arr, msg => pure (arr, msg)
  | i :: rest, arr, msg =>
    if intTestBit bits i then do
      let (v, msg) ← read msg
      readArrayValues read bits base rest (Function.update arr (base + i) v) msg
    else readArrayValues read bits base rest arr msg

/-- One array block of the reader: `if (MSG_ReadBits(msg, 1))` the mask is
read as a short and then the entries it marks. -/
def readArrayBlock (H : huffman_t) (read : msg_t → Except ComError (Int × msg_t))
    (msg : msg_t) (arr : Nat → Int) (base n : Nat) :
    Except ComError ((Nat → Int) × msg_t) := do
  let (changed, msg) ← MSG_ReadBits H msg 1
  if changed ≠ 0 then do
    let (bits, msg) ← MSG_ReadShort H msg
    readArrayValues read bits base (List.range n) arr msg
  else pure (arr, msg)

/-- The part of `MSG_WriteDeltaPlayerstate` under "send the arrays": one bit
telling whether any of `stats`, `persistant`, `holdable`, `powerups` has
changed, and if so one block for each of them. -/
def writeStatsGroup (H : huffman_t) (K : constants_t) (msg : msg_t)
    (from_ to_ : playerState_t) : Except ComError msg_t :=
  let statsbits := changeMask from_.stats to_.stats 0 K.MAX_STATS
  let persistantbits := changeMask from_.persistant to_.persistant 0 K.MAX_PERSISTANT
  let holdablebits := changeMask from_.holdable to_.holdable 0 K.MAX_HOLDABLE
  let powerupbits := changeMask from_.powerups to_.powerups 0 K.MAX_POWERUPS
  if statsbits ≠ 0 ∨ persistantbits ≠ 0 ∨ holdablebits ≠ 0 ∨ powerupbits ≠ 0 then do
    let msg ← MSG_WriteBits H msg 1 1
    let msg ← writeArrayBlock H (MSG_WriteShort H) msg statsbits to_.stats 0 K.MAX_STATS
    let msg ← writeArrayBlock H (MSG_WriteShort H) msg persistantbits to_.persistant 0
      K.MAX_PERSISTANT
    let msg ← writeArrayBlock H (MSG_WriteShort H) msg holdablebits to_.holdable 0
      K.MAX_HOLDABLE
    writeArrayBlock H (MSG_WriteLong H) msg powerupbits to_.powerups 0 K.MAX_POWERUPS
  else MSG_WriteBits H msg 0 1

/-- The part of `MSG_WriteDeltaPlayerstate` under "ammo stored": the four
masks `ammobits[j]`, one bit telling whether any is set, and if so one block
for each `j`. -/
def writeAmmoGroup (H : huffman_t) (msg : msg_t) (from_ to_ : playerState_t) :
    Except ComError msg_t :=
  let ammobits := fun j => changeMask from_.ammo to_.ammo (j * 16) 16
  if ammobits 0 ≠ 0 ∨ ammobits 1 ≠ 0 ∨ ammobits 2 ≠ 0 ∨ ammobits 3 ≠ 0 then do
    let msg ← MSG_WriteBits H msg 1 1
    let msg ← writeArrayBlock H (MSG_WriteShort H) msg (ammobits 0) to_.ammo 0 16
    let msg ← writeArrayBlock H (MSG_WriteShort H) msg (ammobits 1) to_.ammo 16 16
    let msg ← writeArrayBlock H (MSG_WriteShort H) msg (ammobits 2) to_.ammo 32 16
    writeArrayBlock H (MSG_WriteShort H) msg (ammobits 3) to_.ammo 48 16
  else MSG_WriteBits H msg 0 1

/-- The part of `MSG_WriteDeltaPlayerstate` under "ammo in clip": for each
`j` the mask `clipbits` and its block. -/
def writeClipGroup (H : huffman_t) (msg : msg_t) (from_ to_ : playerState_t) :
    Except ComError msg_t := do
  let clipbits := fun j => changeMask from_.ammoclip to_.ammoclip (j * 16) 16
  let msg ← writeArrayBlock H (MSG_WriteShort H) msg (clipbits 0) to_.ammoclip 0 16
  let msg ← writeArrayBlock H (MSG_WriteShort H) msg (clipbits 1) to_.ammoclip 16 16
  let msg ← writeArrayBlock H (MSG_WriteShort H) msg (clipbits 2) to_.ammoclip 32 16
  writeArrayBlock H (MSG_WriteShort H) msg (clipbits 3) to_.ammoclip 48 16

/-- `MSG_WriteDeltaPlayerstate`; a null `from` is `none`. -/
def MSG_WriteDeltaPlayerstate (H : huffman_t) (K : constants_t) (msg : msg_t)
    (from_ : Option playerState_t) (to_ : playerState_t) : Except ComError msg_t := do
  let from_ := from_.getD zeroPlayerState
  let lc := lastChangedLoop from_.cells to_.cells (playerStateFields K) 0 0
  let msg ← writeDeltaTable H (writePlayerField H) (playerStateFields K) lc msg
    from_.cells to_.cells
  let msg ← writeStatsGroup H K msg from_ to_
  let msg ← writeAmmoGroup H msg from_ to_
  writeClipGroup H msg from_ to_

/-- The part of `MSG_ReadDeltaPlayerstate` under "read the arrays". -/
def readStatsGroup (H : huffman_t) (K : constants_t) (msg : msg_t) (to_ : playerState_t) :
    Except ComError (playerState_t × msg_t) := do
  let (any, msg) ← MSG_ReadBits H msg 1
  if any ≠ 0 then do
    let (stats, msg) ← readArrayBlock H (MSG_ReadShort H) msg to_.stats 0 K.MAX_STATS
    let (persistant, msg) ← readArrayBlock H (MSG_ReadShort H) msg to_.persistant 0
      K.MAX_PERSISTANT
    let (holdable, msg) ← readArrayBlock H (MSG_ReadShort H) msg to_.holdable 0
      K.MAX_HOLDABLE
    let (powerups, msg) ← readArrayBlock H (MSG_ReadLong H) msg to_.powerups 0
      K.MAX_POWERUPS
    pure ({ to_ with stats := stats, persistant := persistant, holdable := holdable,
                     powerups := powerups }, msg)
  else pure (to_, msg)

/-- The part of `MSG_ReadDeltaPlayerstate` under "ammo stored". -/
def readAmmoGroup (H : huffman_t) (msg : msg_t) (to_ : playerState_t) :
    Except ComError (playerState_t × msg_t) := do
  let (any, msg) ← MSG_ReadBits H msg 1
  if any ≠ 0 then do
    let (ammo, msg) ← readArrayBlock H (MSG_ReadShort H) msg to_.ammo 0 16
    let (ammo, msg) ← readArrayBlock H (MSG_ReadShort H) msg ammo 16 16
    let (ammo, msg) ← readArrayBlock H (MSG_ReadShort H) msg ammo 32 16
    let (ammo, msg) ← readArrayBlock H (MSG_ReadShort H) msg ammo 48 16
    pure ({ to_ with ammo := ammo }, msg)
  else pure (to_, msg)

/-- The part of `MSG_ReadDeltaPlayerstate` under "ammo in clip". -/
def readClipGroup (H : huffman_t) (msg : msg_t) (to_ : playerState_t) :
    Except ComError (playerState_t × msg_t) := do
  let (clip, msg) ← readArrayBlock H (MSG_ReadShort H) msg to_.ammoclip 0 16
  let (clip, msg) ← readArrayBlock H (MSG_ReadShort H) msg clip 16 16
  let (clip, msg) ← readArrayBlock H (MSG_ReadShort H) msg clip 32 16
  let (clip, msg) ← readArrayBlock H (MSG_ReadShort H) msg clip 48 16
  pure ({ to_ with ammoclip := clip }, msg)

/-- `MSG_ReadDeltaPlayerstate`; a null `from` is `none`. The output record is
first overwritten with `from` (`*to = *from`), so what it held before the
call plays no part. -/
def MSG_ReadDeltaPlayerstate (H : huffman_t) (K : constants_t) (msg : msg_t)
    (from_ : Option playerState_t) : Except ComError (playerState_t × msg_t) := do
  let from_ := from_.getD zeroPlayerState
  let to_ := from_
  let (cells, msg) ← readDeltaTable H (readPlayerField H) (playerStateFields K)
    "invalid playerState field count" msg from_.cells to_.cells
  let to_ := { to_ with cells := cells }
  let (to_, msg) ← readStatsGroup H K msg to_
  let (to_, msg) ← readAmmoGroup H msg to_
  readClipGroup H msg to_

/-! ## Values a player-state field can carry -/

/-- The value is a C `short`. -/
def isInt16 (v : Int) : Prop := -32768 ≤ v ∧ v < 32768

instance (v : Int) : Decidable (isInt16 v) := by unfold isInt16; infer_instance

/-- The cell value `toF` is one the player-state codec carries unchanged in
a field of the given table entry: for a `float` entry (width 0) every
pattern but the negative zero, for an entry of width 32 every `int`, for an
entry of positive width `w` below 32 the values `0 .. 2 ^ w - 1`, and for an
entry of negative width `-w` the values `-2 ^ (w - 1) .. 2 ^ (w - 1) - 1`. -/
def playerFieldFits (field : netField_t) (toF : Int) : Prop :=
  isInt32 toF ∧
  (if field.bits = 0 then toF ≠ -2147483648
   else if 0 < field.bits then field.bits < 32 → 0 ≤ toF ∧ toF < 2 ^ field.bits.toNat
   else -(2 ^ (field.bits.natAbs - 1)) ≤ toF ∧ toF < 2 ^ (field.bits.natAbs - 1))

instance (field : netField_t) (toF : Int) : Decidable (playerFieldFits field toF) := by
  unfold playerFieldFits; infer_instance

/-- The array a block of the player-state reader leaves behind when the mask
it reads is `bits`: the entries `base + i` with bit `i` set are those of
`toA`, the others are kept. -/
def patchArray (toA : Nat → Int) (bits : Nat) (base : Nat) : List Nat → (Nat → Int) → (Nat → Int)
  | [], arr => arr
  | i :: rest, arr =>
    patchArray toA bits base rest
      (if bits &&& (1 <<< i) ≠ 0 then Function.update arr (base + i) (toA (base + i)) else arr)

/-- One block of 16 entries from `base` on, patched with the mask of the
entries in which `toA` differs from `fromA`. -/
def patchBlock (fromA toA : Nat → Int) (base n : Nat) (arr : Nat → Int) : Nat → Int :=
  patchArray toA (changeMask fromA toA base n) base (List.range n) arr

/-- The four blocks of a 64-entry array, patched in turn. -/
def patchBlocks (fromA toA arr : Nat → Int) : Nat → Int :=
  patchBlock fromA toA 48 16 (patchBlock fromA toA 32 16
    (patchBlock fromA toA 16 16 (patchBlock fromA toA 0 16 arr)))

/-- The record with the four arrays of the first group patched. -/
def patchStats (K : constants_t) (from_ to_ st : playerState_t) : playerState_t :=
  { st with
    stats := patchBlock from_.stats to_.stats 0 K.MAX_STATS st.stats,
    persistant := patchBlock from_.persistant to_.persistant 0 K.MAX_PERSISTANT st.persistant,
    holdable := patchBlock from_.holdable to_.holdable 0 K.MAX_HOLDABLE st.holdable,
    powerups := patchBlock from_.powerups to_.powerups 0 K.MAX_POWERUPS st.powerups }

/-- The record `MSG_ReadDeltaPlayerstate` is shown to return on what
`MSG_WriteDeltaPlayerstate` wrote for `from_` and `to_`, the cells of the
table being `cells`. -/
def decodedPlayer (K : constants_t) (from_ to_ : playerState_t) (cells : Nat → Int) :
    playerState_t :=
  { patchStats K from_ to_ { from_ with cells := cells } with
    ammo := patchBlocks from_.ammo to_.ammo from_.ammo,
    ammoclip := patchBlocks from_.ammoclip to_.ammoclip from_.ammoclip }

/-- The player state with the value `v` in cell `off` and zero elsewhere. -/
def playerWith (off : Nat) (v : Int) : playerState_t :=
  { zeroPlayerState with cells := fun i => if i = off then v else 0 }

/-- The player state with `stats[i]` equal to `v` and zero elsewhere. -/
def playerWithStat (i : Nat) (v : Int) : playerState_t :=
  { zeroPlayerState with stats := fun j => if j = i then v else 0 }

/-- A player state with `commandTime` 1000, `pm_time` -5, `origin[0]` 100.0,
`origin[1]` 123456.75, `viewheight` -24, `stats[0]` 100, `persistant[2]` -3,
`powerups[1]` 100000, `ammo[17]` 30 and `ammoclip[63]` 8. -/
def samplePlayer : playerState_t :=
  { cells := fun i => if i = 0 then 1000 else if i = 4 then -5 else if i = 5 then 1120403456
      else if i = 6 then 1206984800 else if i = 45 then -24 else 0,
    stats := fun i => if i = 0 then 100 else 0,
    persistant := fun i => if i = 2 then -3 else 0,
    holdable := fun _ => 0,
    powerups := fun i => if i = 1 then 100000 else 0,
    ammo := fun i => if i = 17 then 30 else 0,
    ammoclip := fun i => if i = 63 then 8 else 0 }

/-- Write the delta from `from_` to `to_` into a fresh message, begin reading
and decode. -/
def playerRoundTrip (H : huffman_t) (K : constants_t) (from_ : Option playerState_t)
    (to_ : playerState_t) : Except ComError (playerState_t × msg_t) := do
  let msg ← MSG_WriteDeltaPlayerstate H K msg64 from_ to_
  MSG_ReadDeltaPlayerstate H K (MSG_BeginReading msg) from_

/-! ## Delta functions with keys -/

/-- The operator `^` on two C `int`s, through their 32-bit patterns. -/
def xorInt (a b : Int) : Int := toI32 (toU32 a ^^^ toU32 b)

/-- The operator `&` on two C `int`s, through their 32-bit patterns. -/
def andInt (a b : Int) : Int := toI32 (toU32 a &&& toU32 b)

/-- `kbitmask`: the initialisers are converted to `int`, the last one to -1. -/
def kbitmask : List Int :=
  [toI32 0x00000001, toI32 0x00000003, toI32 0x00000007, toI32 0x0000000F,
   toI32 0x0000001F, toI32 0x0000003F, toI32 0x0000007F, toI32 0x000000FF,
   toI32 0x000001FF, toI32 0x000003FF, toI32 0x000007FF, toI32 0x00000FFF,
   toI32 0x00001FFF, toI32 0x00003FFF, toI32 0x00007FFF, toI32 0x0000FFFF,
   toI32 0x0001FFFF, toI32 0x0003FFFF, toI32 0x0007FFFF, toI32 0x000FFFFF,
   toI32 0x001FFFFF, toI32 0x003FFFFF, toI32 0x007FFFFF, toI32 0x00FFFFFF,
   toI32 0x01FFFFFF, toI32 0x03FFFFFF, toI32 0x07FFFFFF, toI32 0x0FFFFFFF,
   toI32 0x1FFFFFFF, toI32 0x3FFFFFFF, toI32 0x7FFFFFFF, toI32 0xFFFFFFFF]

/-- `MSG_WriteDeltaKey`. -/
def MSG_WriteDeltaKey (H : huffman_t) (msg : msg_t) (key oldV newV bits : Int) :
    Except ComError msg_t :=
  if oldV = newV then MSG_WriteBits H msg 0 1
  else do
    let msg ← MSG_WriteBits H msg 1 1
    MSG_WriteBits H msg (xorInt newV key) bits

/-- `MSG_ReadDeltaKey`. The element `kbitmask[bits - 1]` exists for `bits`
in 1 .. 32; for another `bits` the read of it is `BAD_INDEX`. -/
def MSG_ReadDeltaKey (H : huffman_t) (msg : msg_t) (key oldV bits : Int) :
    Except ComError (Int × msg_t) := do
  let (changed, msg) ← MSG_ReadBits H msg 1
  if changed ≠ 0 then do
    let (v, msg) ← MSG_ReadBits H msg bits
    if 1 ≤ bits ∧ bits ≤ 32 then
      pure (xorInt v (andInt key (kbitmask.getD (bits - 1).toNat 0)), msg)
    else .error .BAD_INDEX
  else pure (oldV, msg)

/-- `MSG_WriteDeltaKeyFloat`; the floats are given by the cells that hold
them. -/
def MSG_WriteDeltaKeyFloat (H : huffman_t) (msg : msg_t) (key oldV newV : Int) :
    Except ComError msg_t :=
  if f32_eq (toU32 oldV) (toU32 newV) then MSG_WriteBits H msg 0 1
  else do
    let msg ← MSG_WriteBits H msg 1 1
    MSG_WriteBits H msg (xorInt newV key) 32

/-- `MSG_ReadDeltaKeyFloat`; the floats are given by the cells that hold
them. -/
def MSG_ReadDeltaKeyFloat (H : huffman_t) (msg : msg_t) (key oldV : Int) :
    Except ComError (Int × msg_t) := do
  let (changed, msg) ← MSG_ReadBits H msg 1
  if changed ≠ 0 then do
    let (v, msg) ← MSG_ReadBits H msg 32
    pure (xorInt v key, msg)
  else pure (oldV, msg)

/-! ## usercmd_t communication -/

/-- Modelled from the spec: the declaration of `usercmd_t` is in
`q_shared.h`, which is not among the sources. The members are those
`msg.c` uses; `serverTime` and `angles` are `int`, `forwardmove`,
`rightmove` and `upmove` are signed 8-bit (the reader compares them with
-128 after the store), and the others are unsigned 8-bit. -/
structure usercmd_t where
  serverTime : Int
  angles : Nat → Int
  forwardmove : Int
  rightmove : Int
  upmove : Int
  buttons : Int
  wbuttons : Int
  weapon : Int
  flags : Int
  doubleTap : Int
  identClient : Int

/-- The part of `MSG_WriteDeltaUsercmdKey` that sends `serverTime`. The
difference is computed in 32 bits, wrapping. -/
def writeUsercmdTime (H : huffman_t) (msg : msg_t) (from_ to_ : usercmd_t) :
    Except ComError msg_t :=
  let delta := toI32 (toU32 (to_.serverTime - from_.serverTime))
  if delta < 256 then do
    let msg ← MSG_WriteBits H msg 1 1
    MSG_WriteBits H msg delta 8
  else do
    let msg ← MSG_WriteBits H msg 0 1
    MSG_WriteBits H msg to_.serverTime 32

/-- The test of `MSG_WriteDeltaUsercmdKey` for "no change": every member
but `serverTime` is the same in `from` and `to`. -/
def usercmdSame (from_ to_ : usercmd_t) : Prop :=
  from_.angles 0 = to_.angles 0 ∧
  from_.angles 1 = to_.angles 1 ∧
  from_.angles 2 = to_.angles 2 ∧
  from_.forwardmove = to_.forwardmove ∧
  from_.rightmove = to_.rightmove ∧
  from_.upmove = to_.upmove ∧
  from_.buttons = to_.buttons ∧
  from_.wbuttons = to_.wbuttons ∧
  from_.weapon = to_.weapon ∧
  from_.flags = to_.flags ∧
  from_.doubleTap = to_.doubleTap ∧
  from_.identClient = to_.identClient

instance (from_ to_ : usercmd_t) : Decidable (usercmdSame from_ to_) := by
  unfold usercmdSame; infer_instance

/-- The twelve calls of `MSG_WriteDeltaKey` at the end of
`MSG_WriteDeltaUsercmdKey`; `key` is the key after `key ^= to->serverTime`. -/
def writeUsercmdFields (H : huffman_t) (msg : msg_t) (key : Int) (from_ to_ : usercmd_t) :
    Except ComError msg_t := do
  let msg ← MSG_WriteDeltaKey H msg key (from_.angles 0) (to_.angles 0) 16
  let msg ← MSG_WriteDeltaKey H msg key (from_.angles 1) (to_.angles 1) 16
  let msg ← MSG_WriteDeltaKey H msg key (from_.angles 2) (to_.angles 2) 16
  let msg ← MSG_WriteDeltaKey H msg key from_.forwardmove to_.forwardmove 8
  let msg ← MSG_WriteDeltaKey H msg key from_.rightmove to_.rightmove 8
  let msg ← MSG_WriteDeltaKey H msg key from_.upmove to_.upmove 8
  let msg ← MSG_WriteDeltaKey H msg key from_.buttons to_.buttons 8
  let msg ← MSG_WriteDeltaKey H msg key from_.wbuttons to_.wbuttons 8
  let msg ← MSG_WriteDeltaKey H msg key from_.weapon to_.weapon 8
  let msg ← MSG_WriteDeltaKey H msg key from_.flags to_.flags 8
  let msg ← MSG_WriteDeltaKey H msg key from_.doubleTap to_.doubleTap 3
  MSG_WriteDeltaKey H msg key from_.identClient to_.identClient 8

/-- `MSG_WriteDeltaUsercmdKey`. -/
def MSG_WriteDeltaUsercmdKey (H : huffman_t) (msg : msg_t) (key : Int)
    (from_ to_ : usercmd_t) : Except ComError msg_t := do
  let msg ← writeUsercmdTime H msg from_ to_
  if usercmdSame from_ to_ then MSG_WriteBits H msg 0 1
  else do
    let key := xorInt key to_.serverTime
    let msg ← MSG_WriteBits H msg 1 1
    writeUsercmdFields H msg key from_ to_

/-- The part of `MSG_ReadDeltaUsercmdKey` that reads `serverTime`. The sum
is computed in 32 bits, wrapping. -/
def readUsercmdTime (H : huffman_t) (msg : msg_t) (from_ : usercmd_t) :
    Except ComError (Int × msg_t) := do
  let (short, msg) ← MSG_ReadBits H msg 1
  if short ≠ 0 then do
    let (d, msg) ← MSG_ReadBits H msg 8
    pure (toI32 (toU32 (from_.serverTime + d)), msg)
  else MSG_ReadBits H msg 32

/-- The statement `if (move == -128) move = -127` of the reader, on a signed
8-bit member. -/
def clampMove (v : Int) : Int := if v = -128 then -127 else v

/-- The branch of `MSG_ReadDeltaUsercmdKey` taken when the change flag is
read as 1; `key` is the key after `key ^= to->serverTime`. A value stored in
a move is converted to signed 8-bit and one stored in another 8-bit member
to unsigned 8-bit. -/
def readUsercmdFields (H : huffman_t) (msg : msg_t) (key : Int) (from_ : usercmd_t)
    (serverTime : Int) : Except ComError (usercmd_t × msg_t) := do
  let (angles0, msg) ← MSG_ReadDeltaKey H msg key (from_.angles 0) 16
  let (angles1, msg) ← MSG_ReadDeltaKey H msg key (from_.angles 1) 16
  let (angles2, msg) ← MSG_ReadDeltaKey H msg key (from_.angles 2) 16
  -- disallow moves of -128 (speedhack)
  let (forwardmove, msg) ← MSG_ReadDeltaKey H msg key from_.forwardmove 8
  let forwardmove := clampMove (toI8 forwardmove)
  let (rightmove, msg) ← MSG_ReadDeltaKey H msg key from_.rightmove 8
  let rightmove := clampMove (toI8 rightmove)
  let (upmove, msg) ← MSG_ReadDeltaKey H msg key from_.upmove 8
  let upmove := clampMove (toI8 upmove)
  let (buttons, msg) ← MSG_ReadDeltaKey H msg key from_.buttons 8
  let (wbuttons, msg) ← MSG_ReadDeltaKey H msg key from_.wbuttons 8
  let (weapon, msg) ← MSG_ReadDeltaKey H msg key from_.weapon 8
  let (flags, msg) ← MSG_ReadDeltaKey H msg key from_.flags 8
  let (doubleTap, msg) ← MSG_ReadDeltaKey H msg key from_.doubleTap 3
  let (identClient, msg) ← MSG_ReadDeltaKey H msg key from_.identClient 8
  pure ({ serverTime := serverTime,
          angles := fun i => if i = 0 then angles0 else if i = 1 then angles1
            else if i = 2 then angles2 else from_.angles i,
          forwardmove := forwardmove, rightmove := rightmove, upmove := upmove,
          buttons := buttons % 256, wbuttons := wbuttons % 256, weapon := weapon % 256,
          flags := flags % 256, doubleTap := andInt doubleTap 7 % 256,
          identClient := identClient % 256 }, msg)

/-- `MSG_ReadDeltaUsercmdKey`; every member of `to` that `msg.c` uses is
assigned, so the record is returned. -/
def MSG_ReadDeltaUsercmdKey (H : huffman_t) (msg : msg_t) (key : Int) (from_ : usercmd_t) :
    Except ComError (usercmd_t × msg_t) := do
  let (serverTime, msg) ← readUsercmdTime H msg from_
  let (changed, msg) ← MSG_ReadBits H msg 1
  if changed ≠ 0 then readUsercmdFields H msg (xorInt key serverTime) from_ serverTime
  else pure ({ from_ with serverTime := serverTime }, msg)

/-! ## More writing and reading functions -/

/-- `MSG_WriteChar`. -/
def MSG_WriteChar (H : huffman_t) (msg : msg_t) (c : Int) : Except ComError msg_t :=
  MSG_WriteBits H msg c 8

/-- The loop of `MSG_WriteData` from index `i` for `n` more bytes. -/
def writeDataLoop (H : huffman_t) (data : Nat → Nat) : Nat → Nat → msg_t → Except ComError msg_t
  | 0, _, msg => pure msg
  | n + 1, i, msg => do
    let msg ← MSG_WriteByte H msg (data i)
    writeDataLoop H data n (i + 1) msg

/-- `MSG_WriteData`: the bytes `data[0 .. length - 1]`, one `MSG_WriteByte`
each. -/
def MSG_WriteData (H : huffman_t) (msg : msg_t) (data : Nat → Nat) (length : Nat) :
    Except ComError msg_t :=
  writeDataLoop H data length 0 msg

/-- Modelled from the spec: `q_shared.h` and `q_shared.c` are not among the
sources. The two buffer sizes and `Q_SafeNetString` are taken as parameters;
`Q_SafeNetString buffer len strip` returns the buffer as the call leaves it. -/
structure qshared_t where
  MAX_STRING_CHARS : Nat
  BIG_INFO_STRING : Nat
  Q_SafeNetString : List Nat → Nat → Bool → List Nat

/-- The body shared by `MSG_WriteString` and `MSG_WriteBigString`, `size`
being the size of the local buffer. A string is the list of its bytes before
the terminator, a null pointer is `none`. -/
def writeStringSized (H : huffman_t) (Q : qshared_t) (size : Nat) (msg : msg_t)
    (s : Option (List Nat)) : Except ComError msg_t :=
  match s with
  | none => MSG_WriteData H msg (fun _ => 0) 1
  | some s =>
    let l := s.length
    if l ≥ size then MSG_WriteData H msg (fun _ => 0) 1
    else
      let string := Q.Q_SafeNetString (s ++ [0]) l msg.strip
      MSG_WriteData H msg (fun i => string.getD i 0) (l + 1)

/-- `MSG_WriteString`. -/
def MSG_WriteString (H : huffman_t) (Q : qshared_t) (msg : msg_t) (s : Option (List Nat)) :
    Except ComError msg_t :=
  writeStringSized H Q Q.MAX_STRING_CHARS msg s

/-- `MSG_WriteBigString`. -/
def MSG_WriteBigString (H : huffman_t) (Q : qshared_t) (msg : msg_t) (s : Option (List Nat)) :
    Except ComError msg_t :=
  writeStringSized H Q Q.BIG_INFO_STRING msg s

/-- `MSG_ReadChar`: `(signed char)MSG_ReadBits(msg, 8)`, or -1 when the read
has run past the end. -/
def MSG_ReadChar (H : huffman_t) (msg : msg_t) : Except ComError (Int × msg_t) := do
  let (v, msg) ← MSG_ReadBits H msg 8
  if msg.readcount > msg.cursize then pure (-1, msg) else pure (toI8 v, msg)

/-- `MSG_ETTV_WriteDeltaSharedEntity`; a null record is `none`. -/
def MSG_ETTV_WriteDeltaSharedEntity (H : huffman_t) (msg : msg_t)
    (from_ to_ : Option entityShared_t) (force : Bool) : Except ComError msg_t := do
  -- write magic byte
  let msg ← MSG_WriteBits H msg 0x77 8
  match to_ with
  | none =>
    match from_ with
    | none => pure msg
    | some _ => MSG_WriteBits H msg 1 1
  | some t =>
    match from_ with
    | none => .error .NULL_DEREF
    | some f =>
      let lc := lastChangedLoop f.cells t.cells ettventitySharedFields 0 0
      if lc = 0 then
        if !force then pure msg
        else do
          let msg ← MSG_WriteBits H msg 0 1
          MSG_WriteBits H msg 0 1
      else do
        let msg ← MSG_WriteBits H msg 0 1
        let msg ← MSG_WriteBits H msg 1 1
        writeDeltaTable H (writeDeltaField H) ettventitySharedFields lc msg f.cells t.cells

/-! ## Sequences of calls and further samples -/

/-- A sequence of `MSG_WriteBits` calls, each given as (value, width). -/
def writeBitsSeq (H : huffman_t) : List (Int × Int) → msg_t → Except ComError msg_t
  | [], msg => pure msg
  | (value, bits) :: rest, msg => do
    let msg ← MSG_WriteBits H msg value bits
    writeBitsSeq H rest msg

/-- A sequence of `MSG_ReadBits` calls, each given by its width; returns the
values read. -/
def readBitsSeq (H : huffman_t) : List Int → msg_t → Except ComError (List Int × msg_t)
  | [], msg => pure ([], msg)
  | bits :: rest, msg => do
    let (v, msg) ← MSG_ReadBits H msg bits
    let (vs, msg) ← readBitsSeq H rest msg
    pure (v :: vs, msg)

/-- The width is one `MSG_WriteBits` accepts: not 0 and in -31 .. 32. -/
def legalWidth (bits : Int) : Prop := ¬ (bits = 0 ∨ bits < -31 ∨ bits > 32)

instance (bits : Int) : Decidable (legalWidth bits) := by unfold legalWidth; infer_instance

/-- The members of the buffer that a write can change, apart from the
bit count `uncompsize`, are the same in `m` and `m2`. -/
def sameBuffer (m m2 : msg_t) : Prop :=
  m2.data = m.data ∧ m2.cursize = m.cursize ∧ m2.bit = m.bit ∧ m2.overflowed = m.overflowed

/-- On a buffer whose `overflowed` flag is set the writer `w` returns and
leaves the data bytes, `cursize`, the bit cursor and the flag as they were. -/
def OverflowNoop (w : msg_t → Except ComError msg_t) : Prop :=
  ∀ m, m.overflowed = true → ∃ m2, w m = .ok m2 ∧ sameBuffer m m2

/-- A variant of the reference codec whose `Huff_offsetTransmit` never
returns an offset beyond `maxoffset`. -/
def boundedCodec : huffman_t :=
  { rawCodec with
    Huff_offsetTransmit := fun ch data offset maxoffset =>
      ((rawTransmitLoop 8 ch data offset maxoffset).1,
       min (rawTransmitLoop 8 ch data offset maxoffset).2 maxoffset) }

/-- The command whose members are all zero. -/
def zeroUsercmd : usercmd_t :=
  { serverTime := 0, angles := fun _ => 0, forwardmove := 0, rightmove := 0, upmove := 0,
    buttons := 0, wbuttons := 0, weapon := 0, flags := 0, doubleTap := 0, identClient := 0 }

/-- A command with `serverTime` 1000, angles 100, 200, 65535, moves 127, -127
and 5, `buttons` 1, `weapon` 9 and `doubleTap` 3. -/
def sampleUsercmd : usercmd_t :=
  { serverTime := 1000, angles := fun i => if i = 0 then 100 else if i = 1 then 200
      else if i = 2 then 65535 else 0,
    forwardmove := 127, rightmove := -127, upmove := 5,
    buttons := 1, wbuttons := 0, weapon := 9, flags := 0, doubleTap := 3, identClient := 0 }

/-- Write the delta from `from_` to `to_` with `key` into a fresh message,
begin reading and decode with the same key. -/
def usercmdRoundTrip (H : huffman_t) (key : Int) (from_ to_ : usercmd_t) :
    Except ComError (usercmd_t × msg_t) := do
  let msg ← MSG_WriteDeltaUsercmdKey H msg64 key from_ to_
  MSG_ReadDeltaUsercmdKey H (MSG_BeginReading msg) key from_

/-- Write the keyed delta of one value into a fresh message, begin reading
and decode with the same key. -/
def deltaKeyRoundTrip (H : huffman_t) (key oldV newV bits : Int) :
    Except ComError (Int × msg_t) := do
  let msg ← MSG_WriteDeltaKey H msg64 key oldV newV bits
  MSG_ReadDeltaKey H (MSG_BeginReading msg) key oldV bits

/-- The message a writer returned, if it returned. -/
def msgOf : Except ComError msg_t → Option msg_t
  | .error _ => none
  | .ok m => some m

/-- The bound that the write side keeps on the bit cursor: out of band the
cursor counts the bytes written, which fit the buffer, and in bitstream mode
it is at most `8 * maxsize`. -/
def cursorInv (m : msg_t) : Prop :=
  (m.oob = true → m.bit = 8 * m.cursize ∧ m.cursize ≤ m.maxsize) ∧
  (m.oob = false → m.bit ≤ 8 * m.maxsize)

/-- An instance of the `q_shared` parameters with the buffer sizes 1024 and
8192 and a `Q_SafeNetString` that leaves the buffer as it is. -/
def plainQ : qshared_t :=
  { MAX_STRING_CHARS := 1024, BIG_INFO_STRING := 8192, Q_SafeNetString := fun b _ _ => b }

/-- A bitstream message of 64 bytes whose `overflowed` flag is set. -/
def overflowed64 : msg_t := { msg64 with overflowed := true }

/-- The value `MSG_ReadDeltaKey` is shown to return on what
`MSG_WriteDeltaKey` wrote with the same key: `oldV` when nothing was sent,
and otherwise `newV` masked to its low `w` bits. -/
def keyedValue (oldV newV : Int) (w : Nat) : Int :=
  if oldV = newV then oldV else toI32 (toU32 newV % 2 ^ w)

/-- The `serverTime` that the reader is shown to compute from what
`writeUsercmdTime` wrote. -/
def decodedTime (from_ to_ : usercmd_t) : Int :=
  if toI32 (toU32 (to_.serverTime - from_.serverTime)) < 256 then
    toI32 (toU32 (from_.serverTime
      + toI32 (toU32 (toI32 (toU32 (to_.serverTime - from_.serverTime))) % 2 ^ 8)))
  else toI32 (toU32 to_.serverTime % 2 ^ 32)

/-- The record `readUsercmdFields` is shown to return on what
`writeUsercmdFields` wrote with the same key. -/
def decodedFields (from_ to_ : usercmd_t) (serverTime : Int) : usercmd_t :=
  { serverTime := serverTime,
    angles := fun i =>
      if i = 0 then keyedValue (from_.angles 0) (to_.angles 0) 16
      else if i = 1 then keyedValue (from_.angles 1) (to_.angles 1) 16
      else if i = 2 then keyedValue (from_.angles 2) (to_.angles 2) 16
      else from_.angles i,
    forwardmove := clampMove (toI8 (keyedValue from_.forwardmove to_.forwardmove 8)),
    rightmove := clampMove (toI8 (keyedValue from_.rightmove to_.rightmove 8)),
    upmove := clampMove (toI8 (keyedValue from_.upmove to_.upmove 8)),
    buttons := keyedValue from_.buttons to_.buttons 8 % 256,
    wbuttons := keyedValue from_.wbuttons to_.wbuttons 8 % 256,
    weapon := keyedValue from_.weapon to_.weapon 8 % 256,
    flags := keyedValue from_.flags to_.flags 8 % 256,
    doubleTap := andInt (keyedValue from_.doubleTap to_.doubleTap 3) 7 % 256,
    identClient := keyedValue from_.identClient to_.identClient 8 % 256 }

/-- The record `MSG_ReadDeltaUsercmdKey` is shown to return on what
`MSG_WriteDeltaUsercmdKey` wrote with the same key, when the time comes
back as `serverTime`. -/
def decodedUsercmd (from_ to_ : usercmd_t) (serverTime : Int) : usercmd_t :=
  if usercmdSame from_ to_ then { from_ with serverTime := serverTime }
  else decodedFields from_ to_ serverTime

/-! ## The errors of the bit functions -/

/-- The error is one that `MSG_WriteBits` or `MSG_ReadBits` raises. -/
def bitError (e : ComError) : Prop :=
  e = .ERR_DROP "MSG_WriteBits: bad bits" ∨
  e = .ERR_DROP "MSG_WriteBits: can not read bits" ∨
  e = .ERR_DROP "MSG_ReadBits: can not read bits"

/-- Every error that the call `x` can raise satisfies `P`. -/
def ErrIn {α : Type} (P : ComError → Prop) (x : Except ComError α) : Prop :=
  ∀ e, x = .error e → P e

/-! ## Further notions used to state properties of the delta codecs -/

/-- The cells named by entry `i` of the table differ between `from` and `to`. -/
def cellDiffers (fromC toC : Nat → Int) (table : List netField_t) (i : Nat) : Prop :=
  ∃ f, table[i]? = some f ∧ fromC f.offset ≠ toC f.offset

/-! ## The record of one changed field -/

/-- The record of a changed field as the specification describes it, as
the list of (value, width) pairs handed to `MSG_WriteBits`: a 1 bit
(changed), then the is-zero flag (0 for a zero value, 1 otherwise), then for
a non-zero `float` the is-truncated flag (0 when the value is sent as a
small integer, 1 when it is sent in full) followed by the biased integer in
`FLOAT_INT_BITS` bits or the 32-bit pattern, and for a non-zero integer the
value in the declared width. -/
def specFieldRecord (bits : Int) (toF : Int) : List (Int × Int) :=
  if bits = 0 then
    if f32_isZero (toU32 toF) then [(1, 1), (0, 1)]
    else if floatFitsInt (toU32 toF) (f32_toInt (toU32 toF)) then
      [(1, 1), (1, 1), (0, 1), (f32_toInt (toU32 toF) + FLOAT_INT_BIAS, FLOAT_INT_BITS)]
    else [(1, 1), (1, 1), (1, 1), (toF, 32)]
  else if toF = 0 then [(1, 1), (0, 1)]
  else [(1, 1), (1, 1), (toF, bits)]

/-- The calls of `MSG_WriteBits` that the loop of `MSG_WriteDeltaPlayerstate`
makes for a changed field: a 1 bit (changed), then for a `float` the
is-truncated flag followed by the biased integer or the 32-bit pattern, and
for an integer the value in the declared width. -/
def playerFieldRecord (bits : Int) (toF : Int) : List (Int × Int) :=
  if bits = 0 then
    if floatFitsInt (toU32 toF) (f32_toInt (toU32 toF)) then
      [(1, 1), (0, 1), (f32_toInt (toU32 toF) + FLOAT_INT_BIAS, FLOAT_INT_BITS)]
    else [(1, 1), (1, 1), (toF, 32)]
  else [(1, 1), (toF, bits)]

/-! ## The member types of a user command -/

/-- Modelled from the spec: the ranges of the member types of `usercmd_t`,
which is declared in `q_shared.h`, not among the sources: `serverTime` is an
`int`, the three moves are signed 8-bit and the other members sent are
unsigned 8-bit. -/
def usercmdTyped (c : usercmd_t) : Prop :=
  isInt32 c.serverTime ∧
  (-128 ≤ c.forwardmove ∧ c.forwardmove ≤ 127) ∧
  (-128 ≤ c.rightmove ∧ c.rightmove ≤ 127) ∧
  (-128 ≤ c.upmove ∧ c.upmove ≤ 127) ∧
  (0 ≤ c.buttons ∧ c.buttons ≤ 255) ∧
  (0 ≤ c.wbuttons ∧ c.wbuttons ≤ 255) ∧
  (0 ≤ c.weapon ∧ c.weapon ≤ 255) ∧
  (0 ≤ c.flags ∧ c.flags ≤ 255) ∧
  (0 ≤ c.doubleTap ∧ c.doubleTap ≤ 255) ∧
  (0 ≤ c.identClient ∧ c.identClient ≤ 255)

instance (c : usercmd_t) : Decidable (usercmdTyped c) := by
  unfold usercmdTyped; infer_instance

/-! ## The Huffman table -/

/-- `msg_hData`: the weights of the 256 byte values. -/
def msg_hData : List Int :=
  [250315, 41193, 6292, 7106, 3730, 3750, 6110, 23283,
   33317, 6950, 7838, 9714, 9257, 17259, 3949, 1778,
   8288, 1604, 1590, 1663, 1100, 1213, 1238, 1134,
   1749, 1059, 1246, 1149, 1273, 4486, 2805, 3472,
   21819, 1159, 1670, 1066, 1043, 1012, 1053, 1070,
   1726, 888, 1180, 850, 960, 780, 1752, 3296,
   10630, 4514, 5881, 2685, 4650, 3837, 2093, 1867,
   2584, 1949, 1972, 940, 1134, 1788, 1670, 1206,
   5719, 6128, 7222, 6654, 3710, 3795, 1492, 1524,
   2215, 1140, 1355, 971, 2180, 1248, 1328, 1195,
   1770, 1078, 1264, 1266, 1168, 965, 1155, 1186,
   1347, 1228, 1529, 1600, 2617, 2048, 2546, 3275,
   2410, 3585, 2504, 2800, 2675, 6146, 3663, 2840,
   14253, 3164, 2221, 1687, 3208, 2739, 3512, 4796,
   4091, 3515, 5288, 4016, 7937, 6031, 5360, 3924,
   4892, 3743, 4566, 4807, 5852, 6400, 6225, 8291,
   23243, 7838, 7073, 8935, 5437, 4483, 3641, 5256,
   5312, 5328, 5370, 3492, 2458, 1694, 1821, 2121,
   1916, 1149, 1516, 1367, 1236, 1029, 1258, 1104,
   1245, 1006, 1149, 1025, 1241, 952, 1287, 997,
   1713, 1009, 1187, 879, 1099, 929, 1078, 951,
   1656, 930, 1153, 1030, 1262, 1062, 1214, 1060,
   1621, 930, 1106, 912, 1034, 892, 1158, 990,
   1175, 850, 1121, 903, 1087, 920, 1144, 1056,
   3462, 2240, 4397, 12136, 7758, 1345, 1307, 3278,
   1950, 886, 1023, 1112, 1077, 1042, 1061, 1071,
   1484, 1001, 1096, 915, 1052, 995, 1070, 876,
   1111, 851, 1059, 805, 1112, 923, 1103, 817,
   1899, 1872, 976, 841, 1127, 956, 1159, 950,
   7791, 954, 1289, 933, 1127, 3207, 1020, 927,
   1355, 768, 1040, 745, 952, 805, 1073, 740,
   1013, 805, 1008, 796, 996, 1057, 11457, 13504]

/-- The loop `for (j = 0; j < msg_hData[i]; j++)` of `MSG_initHuffman`, run
for `n` iterations on the pair (compressor, decompressor): one `Huff_addRef`
of the byte `ch` on each side per iteration. -/
def addRefLoop {σ : Type} (Huff_addRef : σ → Nat → σ) (ch : Nat) : Nat → σ × σ → σ × σ
  | 0, s => s
  | n + 1, s => addRefLoop Huff_addRef ch n (Huff_addRef s.1 ch, Huff_addRef s.2 ch)

/-- The loop `for (i = 0; i < 256; i++)` of `MSG_initHuffman` from index `i`
on, over the weights from `msg_hData[i]` on; the symbol is `(byte)i`. -/
def initLoop {σ : Type} (Huff_addRef : σ → Nat → σ) : List Int → Nat → σ × σ → σ × σ
  | [], _, s => s
  | w :: rest, i, s =>
    initLoop Huff_addRef rest (i + 1) (addRefLoop Huff_addRef (i % 256) w.toNat s)

/-- `MSG_initHuffman`. `Huff_Init` and `Huff_addRef` are defined in
`huffman.c`, which is not among the sources, and are taken as parameters:
the pair (compressor, decompressor) that `Huff_Init` leaves, and the effect
of `Huff_addRef` with a byte on one side. The result is the pair built. -/
def MSG_initHuffman {σ : Type} (Huff_Init : σ × σ) (Huff_addRef : σ → Nat → σ) : σ × σ :=
  initLoop Huff_addRef msg_hData 0 Huff_Init

/-- The sequence of symbols as the specification describes it: for each
byte value `i` from 0 to 255 in ascending order, `msg_hData[i]` references
of `i`. -/
def refSequence : List Nat :=
  (List.range 256).flatMap (fun i => List.replicate (msg_hData.getD i 0).toNat i)

/-! ## Strings -/

/-- Arithmetic on `int` keeps the low 32 bits of the result. -/
def wrapInt (v : Int) : Int := toI32 (toU32 v)

/-- The loop of `MSG_HashKey` from index `i` with the sum `hash`, for at
most `fuel` iterations. The string is the list of its characters before the
terminator, so `string[i]` is 0 at the length of the list and the loop ends
there at the latest. -/
def hashLoop (string : List Int) (maxlen strip : Int) : Nat → Nat → Int → Int
  | 0, _, hash => hash
  | fuel + 1, i, hash =>
    if (i : Int) < maxlen ∧ string.getD i 0 ≠ 0 then
      if (strip ≠ 0 ∧ andInt (string.getD i 0) 0x80 ≠ 0) ∨ string.getD i 0 = 37 then
        hashLoop string maxlen strip fuel (i + 1) (wrapInt (hash + wrapInt (46 * (119 + i))))
      else
        hashLoop string maxlen strip fuel (i + 1)
          (wrapInt (hash + wrapInt (string.getD i 0 * (119 + i))))
    else hash

/-- `MSG_HashKey`; the right shifts of the `int` are arithmetic. -/
def MSG_HashKey (string : List Int) (maxlen strip : Int) : Int :=
  let hash := hashLoop string maxlen strip (string.length + 1) 0 0
  xorInt (xorInt hash (hash >>> 10)) (hash >>> 20)

/-- The replacement that the specification describes for the characters of
a hashed string: `'%'` and, when `strip` is set, a character with the high
bit set become `'.'`. -/
def hashSanitize (strip : Int) (c : Int) : Int :=
  if c = 37 ∨ (strip ≠ 0 ∧ andInt c 0x80 ≠ 0) then 46 else c

/-- The loop of `MSG_ReadString` and `MSG_ReadBigString`, with `room` the
number `sizeof(string) - 1 - l` of characters that can still be stored;
returns the characters stored from here on, as byte values. With no room
left the character read is dropped and the loop ends. -/
def readStringLoop (H : huffman_t) : Nat → msg_t → Except ComError (List Int × msg_t)
  | 0, msg => do
    let (_, msg) ← MSG_ReadByte H msg
    pure ([], msg)
  | room + 1, msg => do
    let (c, msg) ← MSG_ReadByte H msg
    if c = -1 ∨ c = 0 then pure ([], msg)
    else do
      let c := if (msg.strip = true ∧ andInt c 0x80 ≠ 0) ∨ c = 37 then 46 else c
      let (rest, msg) ← readStringLoop H room msg
      pure (c :: rest, msg)

/-- `MSG_ReadString`; the result is the string before its terminator. The
buffer has `MAX_STRING_CHARS` characters, a positive number. -/
def MSG_ReadString (H : huffman_t) (Q : qshared_t) (msg : msg_t) :
    Except ComError (List Int × msg_t) :=
  readStringLoop H (Q.MAX_STRING_CHARS - 1) msg

/-- `MSG_ReadBigString`; the buffer has `BIG_INFO_STRING` characters. -/
def MSG_ReadBigString (H : huffman_t) (Q : qshared_t) (msg : msg_t) :
    Except ComError (List Int × msg_t) :=
  readStringLoop H (Q.BIG_INFO_STRING - 1) msg

/-- The next bytes of the message `m` are `bs`: consecutive calls of
`MSG_ReadByte` return them and leave the message `m2`. -/
def nextBytes (H : huffman_t) : List Int → msg_t → msg_t → Prop
  | [], m, m2 => m2 = m
  | b :: bs, m, m2 => ∃ m1, MSG_ReadByte H m = .ok (b, m1) ∧ nextBytes H bs m1 m2

/-- The character that the specification gives for the byte `b` read:
`'.'` when `b` is `'%'`, or when `strip` is set and `b >= 0x80`, and `b`
otherwise. -/
def specSanitize (strip : Bool) (b : Int) : Int :=
  if b = 37 ∨ (strip = true ∧ 128 ≤ b) then 46 else b

/-- The bytes of "100%health". -/
def healthString : List Nat := [49, 48, 48, 37, 104, 101, 97, 108, 116, 104]

/-- An out-of-band message of 64 bytes ready for reading that holds the
bytes `bs` followed by zeros. -/
def oobMsgOf (bs : List Nat) (strip : Bool) : msg_t :=
  { overflowed := false, oob := true, data := fun i => bs.getD i 0, maxsize := 64,
    cursize := 64, uncompsize := 0, readcount := 0, bit := 0, strip := strip }

/-- Write the string `s` into a fresh bitstream message whose `strip` flag
is `strip`, begin reading and read it back. -/
def stringRoundTrip (H : huffman_t) (Q : qshared_t) (s : List Nat) (strip : Bool) :
    Except ComError (List Int × msg_t) := do
  let msg ← MSG_WriteString H Q { msg64 with strip := strip } (some s)
  MSG_ReadString H Q (MSG_BeginReading msg)

/-! ## The uncompressed entry points -/

/-- The expression `(bit + 7) & ~7` on the `int` member `bit`: the sum keeps
its low 32 bits and `~7` is the `int` -8. -/
def alignBit (bit : Int) : Int := andInt (wrapInt (bit + 7)) (-8)

/-- `MSG_Uncompressed`: `buf->bit = (buf->bit + 7) & ~7; buf->oob = qtrue;`.
The member `bit` is an `int` and the messages of this development hold the
cursor as a natural number: where the aligned value is negative, which needs
`bit + 7` to pass `INT_MAX`, the result is no message of the development and
`none` is returned. -/
def MSG_Uncompressed (buf : msg_t) : Option msg_t :=
  let bit := alignBit buf.bit
  if bit < 0 then none else some { buf with bit := bit.toNat, oob := true }

/-- `MSG_BeginReadingUncompressed`: `msg->bit = (msg->bit + 7) & ~7;
msg->oob = qtrue;`, with the cursor held as in `MSG_Uncompressed`. -/
def MSG_BeginReadingUncompressed (msg : msg_t) : Option msg_t :=
  let bit := alignBit msg.bit
  if bit < 0 then none else some { msg with bit := bit.toNat, oob := true }

/-! ## Lines -/

/-- The loop of `MSG_ReadStringLine`, with `room` the number
`sizeof(string) - 1 - l` of characters that can still be stored: the loop of
`MSG_ReadString` with the newline as a further end. -/
def readStringLineLoop (H : huffman_t) : Nat → msg_t → Except ComError (List Int × msg_t)
  | 0, msg => do
    let (_, msg) ← MSG_ReadByte H msg
    pure ([], msg)
  | room + 1, msg => do
    let (c, msg) ← MSG_ReadByte H msg
    if c = -1 ∨ c = 0 ∨ c = 10 then pure ([], msg)
    else do
      let c := if (msg.strip = true ∧ andInt c 0x80 ≠ 0) ∨ c = 37 then 46 else c
      let (rest, msg) ← readStringLineLoop H room msg
      pure (c :: rest, msg)

/-- `MSG_ReadStringLine`; the result is the string before its terminator. -/
def MSG_ReadStringLine (H : huffman_t) (Q : qshared_t) (msg : msg_t) :
    Except ComError (List Int × msg_t) :=
  readStringLineLoop H (Q.MAX_STRING_CHARS - 1) msg

/-! ## A player state with a cell out of range -/

/-- The player state `samplePlayer` with `pm_type` (a field of 8 bits) set to
256, a value the field does not carry. -/
def samplePlayerWide : playerState_t :=
  { samplePlayer with cells := fun i => if i = 1 then 256 else samplePlayer.cells i }

/-! ## The delta readers up to the test of the field count

The output record `*to` is memory of the caller, which keeps what has been
stored in it when a reader is left through `Com_Error`. The definitions
below follow the three readers from their entry to the test
`if (lc > numFields || lc < 0)`, with that record made explicit: `to_` is
`*to` before the call, and the first component of the result is `*to` when
this part of the reader is left. The second component is the error raised,
or the message, together with `none` when the reader has returned and with
the count `lc` when the field loops follow. -/

/-- `MSG_ReadDeltaEntity` up to the test of the field count. The stores into
`*to` before the test (`Com_Memset` for a removal, `*to = *from` for no
delta) are each followed by `return`. -/
def readEntityCount (H : huffman_t) (K : constants_t) (msg : msg_t)
    (from_ to_ : entityState_t) (number : Int) :
    entityState_t × Except ComError (Option Int × msg_t) :=
  if number < 0 ∨ number ≥ K.MAX_GENTITIES then
    (to_, .error (.ERR_DROP "MSG_ReadDeltaEntity: Bad delta entity number"))
  else
    match MSG_ReadBits H msg 1 with
    | .error e => (to_, .error e)
    | .ok (removed, msg) =>
      if removed = 1 then
        ({ number := (K.MAX_GENTITIES : Int) - 1, cells := fun _ => 0 }, .ok (none, msg))
      else
        match MSG_ReadBits H msg 1 with
        | .error e => (to_, .error e)
        | .ok (delta, msg) =>
          if delta = 0 then ({ from_ with number := number }, .ok (none, msg))
          else
            match MSG_ReadByte H msg with
            | .error e => (to_, .error e)
            | .ok (lc, msg) =>
              if lc > (entityStateFields K).length ∨ lc < 0 then
                (to_, .error (.ERR_DROP "invalid entityState field count"))
              else (to_, .ok (some lc, msg))

/-- `MSG_ReadDeltaSharedEntity` up to the test of the field count. -/
def readSharedCount (H : huffman_t) (K : constants_t) (msg : msg_t)
    (from_ to_ : entityShared_t) : entityShared_t × Except ComError (Option Int × msg_t) :=
  match MSG_ReadBits H msg 1 with
  | .error e => (to_, .error e)
  | .ok (delta, msg) =>
    if delta = 0 then (from_, .ok (none, msg))
    else
      match MSG_ReadByte H msg with
      | .error e => (to_, .error e)
      | .ok (lc, msg) =>
        if lc > (entitySharedFields K).length ∨ lc < 0 then
          (to_, .error (.ERR_DROP "invalid entityShared field count"))
        else (to_, .ok (some lc, msg))

/-- `MSG_ReadDeltaPlayerstate` up to the test of the field count; a null
`from` is `none`. The reader starts with `*to = *from`, which overwrites
every member of the output record, and only then reads the count. -/
def readPlayerstateCount (H : huffman_t) (K : constants_t) (msg : msg_t)
    (from_ : Option playerState_t) (to_ : playerState_t) :
    playerState_t × Except ComError (Option Int × msg_t) :=
  let from_ := from_.getD zeroPlayerState
  -- *to = *from
  let to_ : playerState_t :=
    { to_ with cells := from_.cells, stats := from_.stats, persistant := from_.persistant,
               holdable := from_.holdable, powerups := from_.powerups, ammo := from_.ammo,
               ammoclip := from_.ammoclip }
  match MSG_ReadByte H msg with
  | .error e => (to_, .error e)
  | .ok (lc, msg) =>
    if lc > (playerStateFields K).length ∨ lc < 0 then
      (to_, .error (.ERR_DROP "invalid playerState field count"))
    else (to_, .ok (some lc, msg))

/-- A bitstream message of 64 bytes ready for reading that starts, for the
reference codec, with the bits 0 and 1 and the byte 200: no removal, a
delta, and a field count of 200. -/
def msgCount200 : msg_t :=
  { msgOfByte 34 with data := fun i => if i = 0 then 34 else if i = 1 then 3 else 0 }

/-! ## Arithmetic of bit patterns -/

theorem int_emod_mul (x m n : Int) (hm : 0 < m) (hn : 0 < n) :
    x % (m * n) = x % m + m * (x / m % n) := by
  have h1 := Int.emod_add_ediv x m
  have h2 := Int.emod_add_ediv (x / m) n
  have h3 := Int.emod_nonneg x (ne_of_gt hm)
  have h4 := Int.emod_lt_of_pos x hm
  have h5 := Int.emod_nonneg (x / m) (ne_of_gt hn)
  have h6 := Int.emod_lt_of_pos (x / m) hn
  have hmn : 0 < m * n := mul_pos hm hn
  have key : x / (m * n) = x / m / n ∧ x % (m * n) = x % m + m * (x / m % n) := by
    rw [Int.ediv_emod_unique hmn]
    refine ⟨?_, ?_, ?_⟩
    · calc x % m + m * (x / m % n) + m * n * (x / m / n)
          = x % m + m * (x / m % n + n * (x / m / n)) := by ring
        _ = x % m + m * (x / m) := by rw [h2]
        _ = x := h1
    · have : 0 ≤ m * (x / m % n) := mul_nonneg (le_of_lt hm) h5
      linarith
    · have h7 : x / m % n + 1 ≤ n := h6
      have : m * (x / m % n + 1) ≤ m * n := mul_le_mul_of_nonneg_left h7 (le_of_lt hm)
      nlinarith
  exact key.2

theorem lowBits_add (x : Int) (a b : Nat) :
    (x % 2 ^ (a + b)).toNat = (x % 2 ^ a).toNat + 2 ^ a * ((x / 2 ^ a) % 2 ^ b).toNat := by
  have ha : (0 : Int) < 2 ^ a := by positivity
  have hb : (0 : Int) < 2 ^ b := by positivity
  have h0 := Int.emod_nonneg x (ne_of_gt (show (0 : Int) < 2 ^ (a + b) by positivity))
  have h1 := Int.emod_nonneg x (ne_of_gt ha)
  have h2 := Int.emod_nonneg (x / 2 ^ a) (ne_of_gt hb)
  have key : (((x % 2 ^ (a + b)).toNat : Nat) : Int)
      = (((x % 2 ^ a).toNat + 2 ^ a * ((x / 2 ^ a) % 2 ^ b).toNat : Nat) : Int) := by
    push_cast
    rw [Int.toNat_of_nonneg h0, Int.toNat_of_nonneg h1, Int.toNat_of_nonneg h2, pow_add,
      int_emod_mul x _ _ ha hb]
  exact_mod_cast key

theorem lowBits_lt (x : Int) (n : Nat) : (x % 2 ^ n).toNat < 2 ^ n := by
  have hn : (0 : Int) < 2 ^ n := by positivity
  have h1 := Int.emod_nonneg x (ne_of_gt hn)
  have h2 := Int.emod_lt_of_pos x hn
  have : (((x % 2 ^ n).toNat : Nat) : Int) < ((2 ^ n : Nat) : Int) := by
    push_cast
    rw [Int.toNat_of_nonneg h1]
    exact h2
  exact_mod_cast this

theorem lowBits_toI32 (q w : Nat) (hw : w ≤ 32) :
    (toI32 q % 2 ^ w).toNat = q % 2 ^ w := by
  have hd : (2 : Int) ^ w ∣ 4294967296 := by
    have : (4294967296 : Int) = 2 ^ w * 2 ^ (32 - w) := by
      rw [← pow_add, Nat.add_sub_cancel' hw]; norm_num
    exact Dvd.intro _ this.symm
  have e : toI32 q % 2 ^ w = ((q : Int) % 4294967296) % 2 ^ w := by
    unfold toI32
    split
    · push_cast; rfl
    · push_cast
      rw [Int.sub_emod, Int.emod_eq_zero_of_dvd hd]
      simp
  rw [e, Int.emod_emod_of_dvd _ hd]
  have : ((q : Int) % 2 ^ w) = ((q % 2 ^ w : Nat) : Int) := by push_cast; rfl
  rw [this, Int.toNat_natCast]

theorem agree_refl (d : Nat → Nat) (n : Nat) : agree d d n := fun _ _ => rfl

theorem agree_trans {d e f : Nat → Nat} {n k : Nat} (h1 : agree d e n) (h2 : agree e f k)
    (hnk : n ≤ k) : agree d f n :=
  fun i hi => (h1 i hi).trans (h2 i (lt_of_lt_of_le hi hnk))

theorem agree_mono {d e : Nat → Nat} {n k : Nat} (h : agree d e k) (hnk : n ≤ k) :
    agree d e n := fun i hi => h i (lt_of_lt_of_le hi hnk)

theorem int_ediv_ediv (x m n : Int) (hm : 0 < m) (hn : 0 < n) :
    x / m / n = x / (m * n) := by
  have h1 := Int.emod_add_ediv x m
  have h2 := Int.emod_add_ediv (x / m) n
  have h3 := Int.emod_nonneg x (ne_of_gt hm)
  have h4 := Int.emod_lt_of_pos x hm
  have h5 := Int.emod_nonneg (x / m) (ne_of_gt hn)
  have h6 := Int.emod_lt_of_pos (x / m) hn
  have hmn : 0 < m * n := mul_pos hm hn
  have key : x / (m * n) = x / m / n ∧ x % (m * n) = x % m + m * (x / m % n) := by
    rw [Int.ediv_emod_unique hmn]
    refine ⟨?_, ?_, ?_⟩
    · calc x % m + m * (x / m % n) + m * n * (x / m / n)
          = x % m + m * (x / m % n + n * (x / m / n)) := by ring
        _ = x % m + m * (x / m) := by rw [h2]
        _ = x := h1
    · have : 0 ≤ m * (x / m % n) := mul_nonneg (le_of_lt hm) h5
      linarith
    · have h7 : x / m % n + 1 ≤ n := h6
      have : m * (x / m % n + 1) ≤ m * n := mul_le_mul_of_nonneg_left h7 (le_of_lt hm)
      nlinarith
  exact key.1.symm

theorem lor_shift_eq_add (acc b i : Nat) (hacc : acc < 2 ^ i) :
    acc ||| (b <<< i) = acc + 2 ^ i * b := by
  rw [Nat.shiftLeft_eq, Nat.lor_comm, mul_comm, ← Nat.mul_add_lt_is_or hacc, add_comm]

theorem int_mod_two_toNat_lt (x : Int) : (x % 2).toNat < 2 := by
  have := lowBits_lt x 1
  simpa using this

theorem int_mod_256_toNat_lt (x : Int) : (x % 256).toNat < 256 := by
  have := lowBits_lt x 8
  simpa using this

theorem putBitsLoop_spec {H : huffman_t} {Inv : (Nat → Nat) → Nat → Prop}
    (L : HuffLaws H Inv) :
    ∀ (n : Nat) (x : Int) (d : Nat → Nat) (o : Nat), Inv d o →
      (putBitsLoop H n x d o).2.1 = o + n ∧
      (putBitsLoop H n x d o).2.2 = x / 2 ^ n ∧
      Inv (putBitsLoop H n x d o).1 (o + n) ∧
      agree d (putBitsLoop H n x d o).1 o ∧
      ∀ (e : Nat → Nat) (i acc : Nat), agree (putBitsLoop H n x d o).1 e (o + n) →
        i + n ≤ 32 → acc < 2 ^ i →
        getBitsLoop H e n i acc o = (acc + 2 ^ i * (x % 2 ^ n).toNat, o + n) := by
  intro n
  induction n with
  | zero =>
    intro x d o hI
    refine ⟨rfl, by simp [putBitsLoop], hI, agree_refl _ _, ?_⟩
    intro e i acc _ _ _
    simp [getBitsLoop, Int.emod_one]
  | succ n ih =>
    intro x d o hI
    have hb := int_mod_two_toNat_lt x
    have hoff := L.putBit_offset (x % 2).toNat d o
    have hI1 := L.putBit_inv _ d o hb hI
    have hfr := L.putBit_frame _ d o hb hI
    obtain ⟨h1, h2, h3, h4, h5⟩ := ih (x / 2) (H.Huff_putBit (x % 2).toNat d o).1 (o + 1) hI1
    simp only [putBitsLoop, hoff]
    refine ⟨by rw [h1]; omega, ?_, ?_, ?_, ?_⟩
    · rw [h2, pow_succ, mul_comm, int_ediv_ediv x 2 (2 ^ n) (by norm_num) (by positivity)]
    · have : o + (n + 1) = o + 1 + n := by omega
      rw [this]; exact h3
    · exact agree_trans hfr h4 (Nat.le_succ o)
    · intro e i acc hag hin hacc
      have hag1 : agree (H.Huff_putBit (x % 2).toNat d o).1 e (o + 1) :=
        agree_trans h4 hag (by omega)
      have hget := L.getBit_putBit _ d o e hb hI hag1
      simp only [getBitsLoop, hget]
      have hlt : (x % 2).toNat <<< i < 4294967296 := by
        rw [Nat.shiftLeft_eq]
        have : 2 ^ i * 2 ≤ 2 ^ 32 := by
          rw [← pow_succ]; exact Nat.pow_le_pow_right (by norm_num) (by omega)
        calc (x % 2).toNat * 2 ^ i < 2 * 2 ^ i := Nat.mul_lt_mul_of_pos_right hb (by positivity)
          _ ≤ 4294967296 := by omega
      rw [Nat.mod_eq_of_lt hlt, lor_shift_eq_add _ _ _ hacc]
      have hacc1 : acc + 2 ^ i * (x % 2).toNat < 2 ^ (i + 1) := by
        rw [pow_succ]
        have : 2 ^ i * (x % 2).toNat ≤ 2 ^ i * 1 := Nat.mul_le_mul_left _ (by omega)
        omega
      have hag2 : agree (putBitsLoop H n (x / 2) (H.Huff_putBit (x % 2).toNat d o).1 (o + 1)).1 e
          (o + 1 + n) := by
        have : o + (n + 1) = o + 1 + n := by omega
        rw [← this]; exact hag
      rw [h5 e (i + 1) _ hag2 (by omega) hacc1]
      have hsplit := lowBits_add x 1 n
      have e1 : (1 + n) = n + 1 := by omega
      rw [e1] at hsplit
      simp only [pow_one] at hsplit
      rw [hsplit, pow_succ]
      refine Prod.ext ?_ ?_
      · simp only; ring
      · simp only; omega

theorem transmitLoop_spec {H : huffman_t} {Inv : (Nat → Nat) → Nat → Prop}
    (L : HuffLaws H Inv) :
    ∀ (n : Nat) (x : Int) (m : msg_t), m.overflowed = false → Inv m.data m.bit →
      (transmitLoop H n x m).overflowed = false →
      transmitLoop H n x m
        = { m with data := (transmitLoop H n x m).data, bit := (transmitLoop H n x m).bit } ∧
      m.bit ≤ (transmitLoop H n x m).bit ∧
      Inv (transmitLoop H n x m).data (transmitLoop H n x m).bit ∧
      agree m.data (transmitLoop H n x m).data m.bit ∧
      ∀ (e : Nat → Nat) (cs sh acc : Nat),
        agree (transmitLoop H n x m).data e (transmitLoop H n x m).bit →
        (transmitLoop H n x m).bit ≤ cs <<< 3 → sh + 8 * n ≤ 32 → acc < 2 ^ sh →
        receiveLoop H e cs n sh acc m.bit
          = (acc + 2 ^ sh * (x % 2 ^ (8 * n)).toNat, (transmitLoop H n x m).bit, true) := by
  intro n
  induction n with
  | zero =>
    intro x m _ hI _
    refine ⟨rfl, le_refl _, hI, agree_refl _ _, ?_⟩
    intro e cs sh acc _ _ _ _
    simp [receiveLoop, transmitLoop, Int.emod_one]
  | succ n ih =>
    intro x m hov hI hov2
    have hb := int_mod_256_toNat_lt x
    by_cases hfull :
        (H.Huff_offsetTransmit (x % 256).toNat m.data m.bit (m.maxsize <<< 3)).2 ≥ m.maxsize <<< 3
    · simp [transmitLoop, hfull] at hov2
    · have hlt : (H.Huff_offsetTransmit (x % 256).toNat m.data m.bit (m.maxsize <<< 3)).2
          < m.maxsize <<< 3 := not_le.mp hfull
      obtain ⟨t1, t2, t3⟩ := L.transmit_inv _ m.data m.bit _ hb hI hlt
      have hstep : transmitLoop H (n + 1) x m = transmitLoop H n (x / 256)
          { m with data := (H.Huff_offsetTransmit (x % 256).toNat m.data m.bit (m.maxsize <<< 3)).1,
                   bit := (H.Huff_offsetTransmit (x % 256).toNat m.data m.bit (m.maxsize <<< 3)).2 } := by
        simp [transmitLoop, hfull]
      rw [hstep] at hov2 ⊢
      obtain ⟨h1, h2, h3, h4, h5⟩ := ih (x / 256)
        { m with data := (H.Huff_offsetTransmit (x % 256).toNat m.data m.bit (m.maxsize <<< 3)).1,
                 bit := (H.Huff_offsetTransmit (x % 256).toNat m.data m.bit (m.maxsize <<< 3)).2 }
        hov t2 hov2
      refine ⟨?_, le_trans t1 h2, h3, agree_trans t3 h4 t1, ?_⟩
      · exact h1
      · intro e cs sh acc hag hcs hsh hacc
        have hag1 := agree_trans h4 hag h2
        have hrec := L.receive_transmit _ m.data m.bit (m.maxsize <<< 3) e (cs <<< 3) hb hI hlt
          hag1 (le_trans h2 hcs)
        have hnot : ¬ (H.Huff_offsetTransmit (x % 256).toNat m.data m.bit (m.maxsize <<< 3)).2
            > cs <<< 3 := not_lt.mpr (le_trans h2 hcs)
        simp only [receiveLoop, hrec, hnot, if_false]
        have hlt2 : (x % 256).toNat <<< sh < 4294967296 := by
          rw [Nat.shiftLeft_eq]
          have : 2 ^ sh * 256 ≤ 2 ^ 32 := by
            have : 2 ^ sh * 256 = 2 ^ (sh + 8) := by rw [pow_add]; norm_num
            rw [this]; exact Nat.pow_le_pow_right (by norm_num) (by omega)
          calc (x % 256).toNat * 2 ^ sh < 256 * 2 ^ sh :=
                Nat.mul_lt_mul_of_pos_right hb (by positivity)
            _ ≤ 4294967296 := by omega
        rw [Nat.mod_eq_of_lt hlt2, lor_shift_eq_add _ _ _ hacc]
        have hacc1 : acc + 2 ^ sh * (x % 256).toNat < 2 ^ (sh + 8) := by
          rw [pow_add]
          have : 2 ^ sh * (x % 256).toNat ≤ 2 ^ sh * 255 := Nat.mul_le_mul_left _ (by omega)
          omega
        rw [h5 e cs (sh + 8) _ hag hcs (by omega) hacc1]
        have hsplit := lowBits_add x 8 (8 * n)
        have e1 : 8 + 8 * n = 8 * (n + 1) := by omega
        rw [e1] at hsplit
        have e2 : ((2 : Int) ^ 8) = 256 := by norm_num
        rw [e2] at hsplit
        rw [hsplit, pow_add]
        refine Prod.ext ?_ rfl
        simp only; ring

theorem mask_eq (w : Nat) (hw1 : 1 ≤ w) (hw32 : w ≤ 32) (q : Nat) :
    q &&& (0xffffffff >>> (32 - w)) = q % 2 ^ w := by
  have : (0xffffffff : Nat) >>> (32 - w) = 2 ^ w - 1 := by
    interval_cases w <;> rfl
  rw [this, Nat.and_pow_two_sub_one_eq_mod]

theorem and_seven (w : Nat) : w &&& 7 = w % 8 := by
  have := Nat.and_pow_two_sub_one_eq_mod w 3
  simpa using this

theorem natAbs_bits (bits : Int) (w : Nat) (h : bits = w ∨ bits = -w) :
    (if bits < 0 then (-bits).toNat else bits.toNat) = w := by
  rcases h with h | h <;> subst h <;> split <;> omega

theorem sub_mod_div (w : Nat) : (w - w % 8) / 8 = w / 8 := by omega

theorem transmitLoop_oob (H : huffman_t) :
    ∀ (n : Nat) (x : Int) (m : msg_t), m.oob = false → (transmitLoop H n x m).oob = false := by
  intro n
  induction n with
  | zero => intro x m h; exact h
  | succ n ih =>
    intro x m h
    simp only [transmitLoop]
    split
    · exact h
    · exact ih _ _ h

theorem MSG_WriteBits_bitstream (H : huffman_t) (m : msg_t) (v bits : Int) (w : Nat)
    (hw1 : 1 ≤ w) (hw32 : w ≤ 32) (hbits : bits = w ∨ (bits = -w ∧ w ≤ 31))
    (hov : m.overflowed = false) (hoob : m.oob = false) :
    MSG_WriteBits H m v bits =
      if w % 8 ≠ 0 ∧ m.bit + w % 8 > m.maxsize <<< 3 then
        .ok { m with uncompsize := m.uncompsize + bits, overflowed := true }
      else if (transmitLoop H (w / 8)
          (putBitsLoop H (w % 8) (toI32 (toU32 v % 2 ^ w)) m.data m.bit).2.2
          { m with uncompsize := m.uncompsize + bits,
                   data := (putBitsLoop H (w % 8) (toI32 (toU32 v % 2 ^ w)) m.data m.bit).1,
                   bit := (putBitsLoop H (w % 8) (toI32 (toU32 v % 2 ^ w)) m.data m.bit).2.1
          }).overflowed = true then
        .ok (transmitLoop H (w / 8)
          (putBitsLoop H (w % 8) (toI32 (toU32 v % 2 ^ w)) m.data m.bit).2.2
          { m with uncompsize := m.uncompsize + bits,
                   data := (putBitsLoop H (w % 8) (toI32 (toU32 v % 2 ^ w)) m.data m.bit).1,
                   bit := (putBitsLoop H (w % 8) (toI32 (toU32 v % 2 ^ w)) m.data m.bit).2.1 })
      else
        .ok { (transmitLoop H (w / 8)
          (putBitsLoop H (w % 8) (toI32 (toU32 v % 2 ^ w)) m.data m.bit).2.2
          { m with uncompsize := m.uncompsize + bits,
                   data := (putBitsLoop H (w % 8) (toI32 (toU32 v % 2 ^ w)) m.data m.bit).1,
                   bit := (putBitsLoop H (w % 8) (toI32 (toU32 v % 2 ^ w)) m.data m.bit).2.1 })
          with cursize := ((transmitLoop H (w / 8)
          (putBitsLoop H (w % 8) (toI32 (toU32 v % 2 ^ w)) m.data m.bit).2.2
          { m with uncompsize := m.uncompsize + bits,
                   data := (putBitsLoop H (w % 8) (toI32 (toU32 v % 2 ^ w)) m.data m.bit).1,
                   bit := (putBitsLoop H (w % 8) (toI32 (toU32 v % 2 ^ w)) m.data m.bit).2.1
          }).bit >>> 3) + 1 } := by
  have hlegal : ¬ (bits = 0 ∨ bits < -31 ∨ bits > 32) := by
    rcases hbits with h | ⟨h, h31⟩ <;> subst h <;> omega
  have habs : (if bits < 0 then (-bits).toNat else bits.toNat) = w :=
    natAbs_bits bits w (by rcases hbits with h | ⟨h, _⟩; exact Or.inl h; exact Or.inr h)
  unfold MSG_WriteBits
  simp only [hov, hoob, hlegal, habs, mask_eq w hw1 hw32, and_seven, sub_mod_div,
    Bool.false_eq_true, if_false]

theorem MSG_ReadBits_bitstream (H : huffman_t) (rm : msg_t) (rbits : Int) (w : Nat)
    (hbits : rbits = w ∨ rbits = -w)
    (hrc : rm.readcount ≤ rm.cursize) (hoob : rm.oob = false) :
    MSG_ReadBits H rm rbits =
      if w % 8 ≠ 0 ∧ rm.bit + w % 8 > rm.cursize <<< 3 then
        .ok (0, { rm with readcount := rm.cursize + 1 })
      else if (receiveLoop H rm.data rm.cursize (w / 8) (w % 8)
          (getBitsLoop H rm.data (w % 8) 0 0 rm.bit).1
          (getBitsLoop H rm.data (w % 8) 0 0 rm.bit).2).2.2 = false then
        .ok (0, { rm with
          bit := (receiveLoop H rm.data rm.cursize (w / 8) (w % 8)
            (getBitsLoop H rm.data (w % 8) 0 0 rm.bit).1
            (getBitsLoop H rm.data (w % 8) 0 0 rm.bit).2).2.1,
          readcount := rm.cursize + 1 })
      else
        .ok (signExtend (decide (rbits < 0)) (receiveLoop H rm.data rm.cursize (w / 8) (w % 8)
            (getBitsLoop H rm.data (w % 8) 0 0 rm.bit).1
            (getBitsLoop H rm.data (w % 8) 0 0 rm.bit).2).1 (w - w % 8),
          { rm with
            bit := (receiveLoop H rm.data rm.cursize (w / 8) (w % 8)
              (getBitsLoop H rm.data (w % 8) 0 0 rm.bit).1
              (getBitsLoop H rm.data (w % 8) 0 0 rm.bit).2).2.1,
            readcount := ((receiveLoop H rm.data rm.cursize (w / 8) (w % 8)
              (getBitsLoop H rm.data (w % 8) 0 0 rm.bit).1
              (getBitsLoop H rm.data (w % 8) 0 0 rm.bit).2).2.1 >>> 3) + 1 }) := by
  have habs : (if rbits < 0 then (-rbits).toNat else rbits.toNat) = w := natAbs_bits rbits w hbits
  have hnot : ¬ rm.readcount > rm.cursize := not_lt.mpr hrc
  unfold MSG_ReadBits
  simp only [hnot, hoob, habs, and_seven, sub_mod_div, Bool.false_eq_true, if_false]

theorem shl3 (n : Nat) : n <<< 3 = 8 * n := by
  rw [Nat.shiftLeft_eq]; omega

theorem shr3 (n : Nat) : n >>> 3 = n / 8 := by
  rw [Nat.shiftRight_eq_div_pow]

/-- The bit channel round trip: `MSG_ReadBits` of width `w` or `-w` after
`MSG_WriteBits` of width `w` or `-w` reads the low `w` bits of the value, and
sign-extends them from bit `w - w % 8 - 1`. -/
theorem writeBits_codec {H : huffman_t} {Inv : (Nat → Nat) → Nat → Prop} (L : HuffLaws H Inv)
    (v : Int) (w : Nat) (bits rbits : Int) (hw1 : 1 ≤ w) (hw32 : w ≤ 32)
    (hbits : bits = w ∨ (bits = -w ∧ w ≤ 31)) (hr : rbits = w ∨ rbits = -w) :
    Codec H Inv (fun m => MSG_WriteBits H m v bits) (fun rm => MSG_ReadBits H rm rbits)
      (signExtend (decide (rbits < 0)) (toU32 v % 2 ^ w) (w - w % 8)) := by
  have hxw : (toI32 (toU32 v % 2 ^ w) % 2 ^ w).toNat = toU32 v % 2 ^ w := by
    rw [lowBits_toI32 _ w hw32, Nat.mod_mod]
  refine ⟨?_, ?_, ?_⟩
  · intro m hoob
    cases hov : m.overflowed with
    | true => exact ⟨{ m with uncompsize := m.uncompsize + bits },
        by simp only [MSG_WriteBits, hov, if_true], hoob⟩
    | false =>
      rw [MSG_WriteBits_bitstream H m v bits w hw1 hw32 hbits hov hoob]
      split
      · exact ⟨_, rfl, hoob⟩
      · split
        · refine ⟨_, rfl, ?_⟩
          exact transmitLoop_oob H _ _ _ hoob
        · refine ⟨_, rfl, ?_⟩
          exact transmitLoop_oob H _ _ _ hoob
  · intro m m2 hov hw
    simp only [MSG_WriteBits, hov, if_true] at hw
    cases hw
    rfl
  · intro m m2 hov hoob hI hw hov2
    simp only [MSG_WriteBits_bitstream H m v bits w hw1 hw32 hbits hov hoob] at hw
    generalize toI32 (toU32 v % 2 ^ w) = x at hw hxw
    by_cases hc : w % 8 ≠ 0 ∧ m.bit + w % 8 > m.maxsize <<< 3
    · rw [if_pos hc] at hw
      cases hw
      simp at hov2
    rw [if_neg hc] at hw
    obtain ⟨p1, p2, p3, p4, p5⟩ := putBitsLoop_spec L (w % 8) x m.data m.bit hI
    by_cases hc2 : (transmitLoop H (w / 8) (putBitsLoop H (w % 8) x m.data m.bit).2.2
          { m with uncompsize := m.uncompsize + bits,
                   data := (putBitsLoop H (w % 8) x m.data m.bit).1,
                   bit := (putBitsLoop H (w % 8) x m.data m.bit).2.1 }).overflowed = true
    · rw [if_pos hc2] at hw
      cases hw
      rw [hc2] at hov2
      cases hov2
    rw [if_neg hc2] at hw
    have hc3 := Bool.eq_false_iff.mpr hc2
    obtain ⟨t1, t2, t3, t4, t5⟩ := transmitLoop_spec L (w / 8)
      (putBitsLoop H (w % 8) x m.data m.bit).2.2
      { m with uncompsize := m.uncompsize + bits,
               data := (putBitsLoop H (w % 8) x m.data m.bit).1,
               bit := (putBitsLoop H (w % 8) x m.data m.bit).2.1 }
      hov (by rw [p1]; exact p3) hc3
    generalize hT : transmitLoop H (w / 8) (putBitsLoop H (w % 8) x m.data m.bit).2.2
      { m with uncompsize := m.uncompsize + bits,
               data := (putBitsLoop H (w % 8) x m.data m.bit).1,
               bit := (putBitsLoop H (w % 8) x m.data m.bit).2.1 } = T
      at hw t1 t2 t3 t4 t5 hc2 hc3
    cases hw
    simp only at t2 t4 t5 ⊢
    have hoobT : T.oob = false := by rw [t1]; exact hoob
    have hmaxT : T.maxsize = m.maxsize := by rw [t1]
    rw [p1] at t2 t4 t5
    refine ⟨hoobT, hmaxT, by omega, t3, agree_trans p4 t4 (by omega), Or.inr trivial, ?_⟩
    intro rm hroob hrbit hrrc hrcs hrag
    have hcs : T.bit ≤ rm.cursize <<< 3 := by rw [shl3]; omega
    rw [MSG_ReadBits_bitstream H rm rbits w hr hrrc hroob]
    have hn1 : ¬ (w % 8 ≠ 0 ∧ rm.bit + w % 8 > rm.cursize <<< 3) := by
      rw [shl3]; intro h; omega
    rw [if_neg hn1, hrbit]
    have hg := p5 rm.data 0 0 (agree_trans t4 hrag t2) (by omega) (by norm_num)
    simp only [pow_zero, one_mul, zero_add] at hg
    rw [hg]
    have hlow := lowBits_lt x (w % 8)
    have hr2 := t5 rm.data rm.cursize (w % 8) _ hrag hcs (by omega) hlow
    simp only at hr2 ⊢
    rw [p2] at hr2
    rw [hr2]
    have hsum := lowBits_add x (w % 8) (8 * (w / 8))
    have hw8 : w % 8 + 8 * (w / 8) = w := Nat.mod_add_div w 8
    rw [hw8, hxw] at hsum
    rw [← hsum]
    simp only [Bool.true_eq_false, if_false]
    exact ⟨(T.bit >>> 3) + 1, by rw [shr3]; omega, rfl⟩

/-! ## The reference codec meets the assumptions -/

theorem testBit_small (b j : Nat) (hb : b < 2) (hj : 0 < j) : b.testBit j = false := by
  apply Nat.testBit_lt_two_pow
  calc b < 2 := hb
    _ = 2 ^ 1 := by norm_num
    _ ≤ 2 ^ j := Nat.pow_le_pow_right (by norm_num) hj

theorem testBit_zero_small (b : Nat) (hb : b < 2) : b.testBit 0 = decide (b = 1) := by
  interval_cases b <;> rfl

theorem shr_and_one (a y : Nat) : (a >>> y) &&& 1 = if a.testBit y then 1 else 0 := by
  rw [Nat.and_one_is_mod, Nat.shiftRight_eq_div_pow, Nat.testBit_to_div_mod]
  rcases Nat.mod_two_eq_zero_or_one (a / 2 ^ y) with h | h <;> simp [h]

theorem rawPutBit_bit (b : Nat) (d : Nat → Nat) (o : Nat) (hb : b < 2) (hI : cleanAt d o) :
    bitAt (rawPutBit b d o).1 o = decide (b = 1) := by
  unfold bitAt rawPutBit
  simp only [Function.update_same, Nat.testBit_lor, Nat.testBit_shiftLeft, ge_iff_le, le_refl,
    decide_True, Nat.sub_self, Bool.true_and, testBit_zero_small b hb]
  by_cases hy : o % 8 = 0
  · simp [hy]
  · simp only [hy, if_false]
    rw [hI hy (o % 8) (le_refl _)]
    simp

theorem rawPutBit_frame (b : Nat) (d : Nat → Nat) (o : Nat) :
    agree d (rawPutBit b d o).1 o := by
  intro i hi
  show (d (i / 8)).testBit (i % 8)
    = (Function.update d (o / 8) ((if o % 8 = 0 then 0 else d (o / 8)) ||| b <<< (o % 8))
        (i / 8)).testBit (i % 8)
  by_cases hx : i / 8 = o / 8
  · have hy : i % 8 < o % 8 := by omega
    have hy0 : o % 8 ≠ 0 := by omega
    have : ¬ (i % 8 ≥ o % 8) := by omega
    rw [hx, Function.update_same, if_neg hy0, Nat.testBit_lor, Nat.testBit_shiftLeft]
    simp [this]
  · rw [Function.update_noteq hx]

theorem rawPutBit_clean (b : Nat) (d : Nat → Nat) (o : Nat) (hb : b < 2) (hI : cleanAt d o) :
    cleanAt (rawPutBit b d o).1 (o + 1) := by
  intro h1 j hj
  have hx : (o + 1) / 8 = o / 8 := by omega
  have hy : (o + 1) % 8 = o % 8 + 1 := by omega
  show (Function.update d (o / 8) ((if o % 8 = 0 then 0 else d (o / 8)) ||| b <<< (o % 8))
    ((o + 1) / 8)).testBit j = false
  rw [hx, Function.update_same, Nat.testBit_lor, Nat.testBit_shiftLeft,
    testBit_small b (j - o % 8) hb (by omega)]
  by_cases hy0 : o % 8 = 0
  · simp [hy0]
  · simp only [hy0, if_false, Bool.and_false, Bool.or_false]
    exact hI hy0 j (by omega)

theorem rawGetBit_eq (e : Nat → Nat) (o : Nat) :
    rawGetBit e o = (if bitAt e o then 1 else 0, o + 1) := by
  unfold rawGetBit bitAt
  rw [shr_and_one]

theorem rawTransmitLoop_spec :
    ∀ (n ch : Nat) (d : Nat → Nat) (o mx : Nat), cleanAt d o →
      (rawTransmitLoop n ch d o mx).2 < mx →
      (rawTransmitLoop n ch d o mx).2 = o + n ∧
      cleanAt (rawTransmitLoop n ch d o mx).1 (o + n) ∧
      agree d (rawTransmitLoop n ch d o mx).1 o ∧
      ∀ (e : Nat → Nat) (mx2 i acc : Nat), agree (rawTransmitLoop n ch d o mx).1 e (o + n) →
        o + n ≤ mx2 →
        rawReceiveLoop e mx2 n i acc o = (acc + 2 ^ i * (ch % 2 ^ n), o + n) := by
  intro n
  induction n with
  | zero =>
    intro ch d o mx hI _
    refine ⟨rfl, hI, agree_refl _ _, ?_⟩
    intro e mx2 i acc _ _
    simp [rawReceiveLoop, Nat.mod_one]
  | succ n ih =>
    intro ch d o mx hI hlt
    by_cases hfull : o ≥ mx
    · simp [rawTransmitLoop, hfull] at hlt
    · have hstep : rawTransmitLoop (n + 1) ch d o mx
          = rawTransmitLoop n (ch / 2) (rawPutBit (ch % 2) d o).1 (o + 1) mx := by
        simp [rawTransmitLoop, hfull, rawPutBit]
      rw [hstep] at hlt ⊢
      have hb : ch % 2 < 2 := Nat.mod_lt _ (by norm_num)
      have hI1 := rawPutBit_clean (ch % 2) d o hb hI
      obtain ⟨h1, h2, h3, h4⟩ := ih (ch / 2) _ (o + 1) mx hI1 hlt
      have e1 : o + (n + 1) = o + 1 + n := by omega
      refine ⟨by rw [h1]; omega, by rw [e1]; exact h2,
        agree_trans (rawPutBit_frame _ d o) h3 (Nat.le_succ o), ?_⟩
      intro e mx2 i acc hag hmx
      rw [e1] at hag
      have hbit : bitAt e o = decide (ch % 2 = 1) := by
        rw [← rawPutBit_bit (ch % 2) d o hb hI]
        exact ((agree_trans h3 hag (by omega)) o (by omega)).symm
      have hnf : ¬ o ≥ mx2 := by omega
      simp only [rawReceiveLoop, hnf, if_false, rawGetBit_eq, hbit]
      rw [h4 e mx2 (i + 1) _ hag (by omega)]
      have hsplit : ch % 2 ^ (n + 1) = ch % 2 + 2 * (ch / 2 % 2 ^ n) := by
        rw [pow_succ, mul_comm, Nat.mod_mul]
      have hif : (if decide (ch % 2 = 1) = true then 1 else 0) = ch % 2 := by
        rcases Nat.mod_two_eq_zero_or_one ch with h | h <;> simp [h]
      refine Prod.ext ?_ (by simp only; omega)
      simp only [hif]
      rw [hsplit, pow_succ]
      ring

/-- The reference codec satisfies the assumptions made on the Huffman entry
points, with the byte-clean condition of the writer. -/
theorem rawCodec_laws : HuffLaws rawCodec cleanAt where
  putBit_offset := fun _ _ _ => rfl
  putBit_inv := fun b d o hb hI => rawPutBit_clean b d o hb hI
  putBit_frame := fun b d o _ _ => rawPutBit_frame b d o
  getBit_putBit := by
    intro b d o e hb hI hag
    show rawGetBit e o = (b, o + 1)
    rw [rawGetBit_eq, ← hag o (Nat.lt_succ_self o)]
    show (if bitAt (rawPutBit b d o).1 o = true then 1 else 0, o + 1) = (b, o + 1)
    rw [rawPutBit_bit b d o hb hI]
    interval_cases b <;> simp
  transmit_inv := by
    intro ch d o mx _ hI hlt
    obtain ⟨h1, h2, h3, _⟩ := rawTransmitLoop_spec 8 ch d o mx hI hlt
    refine ⟨?_, ?_, h3⟩
    · show o ≤ (rawTransmitLoop 8 ch d o mx).2
      omega
    · show cleanAt (rawTransmitLoop 8 ch d o mx).1 (rawTransmitLoop 8 ch d o mx).2
      rw [h1]; exact h2
  receive_transmit := by
    intro ch d o mx e mx2 hch hI hlt hag hmx
    obtain ⟨h1, _, _, h4⟩ := rawTransmitLoop_spec 8 ch d o mx hI hlt
    show rawReceiveLoop e mx2 8 0 0 o = (ch, (rawTransmitLoop 8 ch d o mx).2)
    have hag2 : agree (rawTransmitLoop 8 ch d o mx).1 e (o + 8) := by rw [← h1]; exact hag
    have hmx2 : o + 8 ≤ mx2 := by rw [← h1]; exact hmx
    rw [h4 e mx2 0 0 hag2 hmx2, h1]
    have : ch % 2 ^ 8 = ch := Nat.mod_eq_of_lt (by omega)
    rw [this]
    simp

/-! ## Matched writers and readers -/

theorem bind_eq_ok {ε α β : Type} {x : Except ε α} {f : α → Except ε β} {b : β}
    (h : (x >>= f) = .ok b) : ∃ a, x = .ok a ∧ f a = .ok b := by
  cases x with
  | error e => cases h
  | ok a => exact ⟨a, rfl, h⟩

/-- The writer that writes nothing is matched by the reader that reads nothing. -/
theorem Codec.pure {α : Type} (H : huffman_t) (Inv : (Nat → Nat) → Nat → Prop) (v : α) :
    Codec H Inv (fun m => .ok m) (fun rm => .ok (v, rm)) v := by
  refine ⟨fun m h => ⟨m, rfl, h⟩, ?_, ?_⟩
  · intro m m2 hov hw
    cases hw; exact hov
  · intro m m2 hov hoob hI hw _
    cases hw
    refine ⟨hoob, rfl, le_refl _, hI, agree_refl _ _, Or.inl rfl, ?_⟩
    intro rm _ hbit hrc _ _
    exact ⟨rm.readcount, hrc, by rw [← hbit]⟩

/-- Sequencing: a matched pair followed by a matched pair is matched, when
the combined reader continues with the second reader after the first has
returned its value. -/
theorem Codec.bind {α β : Type} {H : huffman_t} {Inv : (Nat → Nat) → Nat → Prop}
    {w1 w2 w : msg_t → Except ComError msg_t}
    {r1 : msg_t → Except ComError (α × msg_t)} {r2 r : msg_t → Except ComError (β × msg_t)}
    {a : α} {b : β}
    (h1 : Codec H Inv w1 r1 a) (h2 : Codec H Inv w2 r2 b)
    (hw : ∀ m, w m = (w1 m >>= w2))
    (hr : ∀ rm rm1, r1 rm = .ok (a, rm1) → r rm = r2 rm1) :
    Codec H Inv w r b := by
  refine ⟨?_, ?_, ?_⟩
  · intro m hoob
    obtain ⟨m1, e1, o1⟩ := h1.total m hoob
    obtain ⟨m2, e2, o2⟩ := h2.total m1 o1
    exact ⟨m2, by rw [hw, e1]; exact e2, o2⟩
  · intro m m2 hov hwm
    rw [hw] at hwm
    obtain ⟨m1, e1, e2⟩ := bind_eq_ok hwm
    exact h2.latch m1 m2 (h1.latch m m1 hov e1) e2
  · intro m m2 hov hoob hI hwm hov2
    rw [hw] at hwm
    obtain ⟨m1, e1, e2⟩ := bind_eq_ok hwm
    have hov1 : m1.overflowed = false := by
      cases h : m1.overflowed with
      | false => rfl
      | true =>
        have := h2.latch m1 m2 h e2
        rw [this] at hov2; cases hov2
    obtain ⟨a1, a2, a3, a4, a5, a6, a7⟩ := h1.sound m m1 hov hoob hI e1 hov1
    obtain ⟨b1, b2, b3, b4, b5, b6, b7⟩ := h2.sound m1 m2 hov1 a1 a4 e2 hov2
    refine ⟨b1, b2.trans a2, le_trans a3 b3, b4, agree_trans a5 b5 a3, ?_, ?_⟩
    · rcases b6 with h | h
      · rcases a6 with h' | h'
        · exact Or.inl (h.trans h')
        · exact Or.inr (by rw [h]; exact h')
      · exact Or.inr h
    · intro rm hroob hrbit hrrc hrcs hrag
      obtain ⟨rc1, hrc1, hread1⟩ := a7 rm hroob hrbit hrrc (lt_of_le_of_lt b3 hrcs)
        (agree_trans b5 hrag b3)
      obtain ⟨rc2, hrc2, hread2⟩ := b7 { rm with bit := m1.bit, readcount := rc1 } hroob rfl hrc1
        hrcs hrag
      exact ⟨rc2, hrc2, by rw [hr rm _ hread1, hread2]⟩

/-- A matched pair may be replaced by functions equal to it. -/
theorem Codec.congr {α : Type} {H : huffman_t} {Inv : (Nat → Nat) → Nat → Prop}
    {w w2 : msg_t → Except ComError msg_t} {r r2 : msg_t → Except ComError (α × msg_t)}
    {v v2 : α} (h : Codec H Inv w r v) (hw : ∀ m, w2 m = w m) (hr : ∀ rm, r2 rm = r rm)
    (hv : v2 = v) : Codec H Inv w2 r2 v2 := by
  have e1 : w2 = w := funext hw
  have e2 : r2 = r := funext hr
  rw [e1, e2, hv]; exact h

theorem signExtend_false (p b : Nat) : signExtend false p b = toI32 p := by
  simp [signExtend]

theorem toI32_small (p : Nat) (h : p < 2147483648) : toI32 p = (p : Int) := by
  unfold toI32
  have : p % 4294967296 = p := Nat.mod_eq_of_lt (by omega)
  rw [this, if_pos h]

theorem toU32_nonneg (v : Int) (h0 : 0 ≤ v) (h1 : v < 4294967296) : toU32 v = v.toNat := by
  unfold toU32
  rw [Int.emod_eq_of_lt h0 h1]

theorem toI32_toU32 (v : Int) (h0 : -2147483648 ≤ v) (h1 : v < 2147483648) :
    toI32 (toU32 v) = v := by
  unfold toI32 toU32
  have hm : (v % 4294967296).toNat % 4294967296 = (v % 4294967296).toNat := by
    apply Nat.mod_eq_of_lt
    have := lowBits_lt v 32
    simpa using this
  rw [hm]
  have hnn : 0 ≤ v % 4294967296 := Int.emod_nonneg v (by norm_num)
  have hc : (((v % 4294967296).toNat : Nat) : Int) = v % 4294967296 := Int.toNat_of_nonneg hnn
  split
  · rename_i h
    rw [hc]
    have : (((v % 4294967296).toNat : Nat) : Int) < 2147483648 := by exact_mod_cast h
    rw [hc] at this
    omega
  · rename_i h
    rw [hc]
    have : ¬ (((v % 4294967296).toNat : Nat) : Int) < 2147483648 := by
      intro h2; apply h; exact_mod_cast h2
    rw [hc] at this
    omega

/-- An unsigned write of `w` bits read back with width `w`. -/
theorem codec_unsigned {H : huffman_t} {Inv : (Nat → Nat) → Nat → Prop} (L : HuffLaws H Inv)
    (v : Int) (w : Nat) (hw1 : 1 ≤ w) (hw32 : w ≤ 32) :
    Codec H Inv (fun m => MSG_WriteBits H m v w) (fun rm => MSG_ReadBits H rm w)
      (toI32 (toU32 v % 2 ^ w)) := by
  have h := writeBits_codec L v w w w hw1 hw32 (Or.inl rfl) (Or.inl rfl)
  have hs : decide ((w : Int) < 0) = false := by simp
  rw [hs, signExtend_false] at h
  exact h

/-- A value that fits in `w` unsigned bits is read back unchanged. -/
theorem codec_fits {H : huffman_t} {Inv : (Nat → Nat) → Nat → Prop} (L : HuffLaws H Inv)
    (v : Int) (w : Nat) (hw1 : 1 ≤ w) (hw31 : w ≤ 31) (h0 : 0 ≤ v) (h1 : v < 2 ^ w) :
    Codec H Inv (fun m => MSG_WriteBits H m v w) (fun rm => MSG_ReadBits H rm w) v := by
  have h := codec_unsigned L v w hw1 (by omega)
  have hp : (2 : Int) ^ w ≤ 2 ^ 31 := pow_le_pow_right₀ (by norm_num) hw31
  have hv : toI32 (toU32 v % 2 ^ w) = v := by
    rw [toU32_nonneg v h0 (by omega)]
    have hlt : v.toNat < 2 ^ w := by
      have : ((v.toNat : Nat) : Int) < ((2 ^ w : Nat) : Int) := by
        rw [Int.toNat_of_nonneg h0]; push_cast; exact h1
      exact_mod_cast this
    rw [Nat.mod_eq_of_lt hlt, toI32_small]
    · exact Int.toNat_of_nonneg h0
    · have : (2 : Nat) ^ w ≤ 2 ^ 31 := Nat.pow_le_pow_right (by norm_num) hw31
      omega
  rw [hv] at h
  exact h

/-- A full 32-bit write read back with width 32. -/
theorem codec_long {H : huffman_t} {Inv : (Nat → Nat) → Nat → Prop} (L : HuffLaws H Inv)
    (v : Int) (h0 : -2147483648 ≤ v) (h1 : v < 2147483648) :
    Codec H Inv (fun m => MSG_WriteBits H m v 32) (fun rm => MSG_ReadBits H rm 32) v := by
  have h := codec_unsigned L v 32 (by norm_num) (by norm_num)
  have hm : toU32 v % 2 ^ 32 = toU32 v := by
    apply Nat.mod_eq_of_lt
    have := lowBits_lt v 32
    simpa [toU32] using this
  rw [hm, toI32_toU32 v h0 h1] at h
  exact h

theorem codec_bit0 {H : huffman_t} {Inv : (Nat → Nat) → Nat → Prop} (L : HuffLaws H Inv) :
    Codec H Inv (fun m => MSG_WriteBits H m 0 1) (fun rm => MSG_ReadBits H rm 1) 0 :=
  codec_fits L 0 1 (by norm_num) (by norm_num) (by norm_num) (by norm_num)

theorem codec_bit1 {H : huffman_t} {Inv : (Nat → Nat) → Nat → Prop} (L : HuffLaws H Inv) :
    Codec H Inv (fun m => MSG_WriteBits H m 1 1) (fun rm => MSG_ReadBits H rm 1) 1 :=
  codec_fits L 1 1 (by norm_num) (by norm_num) (by norm_num) (by norm_num)

/-! ## One field of a record -/

theorem except_bind_ok {ε α : Type} (x : Except ε α) :
    (x >>= fun a => (Except.ok a : Except ε α)) = x := by
  cases x <;> rfl

theorem toI32_mod (a b : Nat) (h : a % 4294967296 = b % 4294967296) : toI32 a = toI32 b := by
  unfold toI32; rw [h]

theorem f32_eq_pattern (a p : Nat) (h : f32_eq a p = true) (hz : f32_isZero p = false) :
    a % 4294967296 = p % 4294967296 := by
  unfold f32_eq at h
  simp only [Bool.and_eq_true, Bool.or_eq_true, Bool.not_eq_true', beq_iff_eq] at h
  rcases h.2 with h2 | h2
  · rw [hz] at h2; simp at h2
  · exact h2

theorem zero_float_cell (toF : Int) (hr : isInt32 toF) (hz : f32_isZero (toU32 toF) = true)
    (hn : toF ≠ -2147483648) : toF = 0 := by
  unfold f32_isZero toU32 at hz
  simp only [beq_iff_eq] at hz
  obtain ⟨h0, h1⟩ := hr
  have hnn : 0 ≤ toF % 4294967296 := Int.emod_nonneg toF (by norm_num)
  have hc : (((toF % 4294967296).toNat % 2147483648 : Nat) : Int) = 0 := by rw [hz]; rfl
  push_cast at hc
  rw [Int.toNat_of_nonneg hnn] at hc
  omega

/-- A non-zero `float` cell is read back with the pattern it had. -/
theorem truncFloat_codec {H : huffman_t} {Inv : (Nat → Nat) → Nat → Prop}
    (L : HuffLaws H Inv) (toF : Int) (hint : isInt32 toF)
    (hz : f32_isZero (toU32 toF) = false) :
    Codec H Inv (fun m => writeTruncFloat H m toF) (fun rm => readTruncFloat H rm) toF := by
  by_cases hfit : floatFitsInt (toU32 toF) (f32_toInt (toU32 toF)) = true
  · have hf := hfit
    unfold floatFitsInt at hf
    simp only [Bool.and_eq_true, decide_eq_true_eq] at hf
    obtain ⟨⟨he, hlo⟩, hhi⟩ := hf
    have hpat := f32_eq_pattern _ _ he hz
    have hval : toI32 (f32_ofInt (f32_toInt (toU32 toF))) = toF := by
      rw [toI32_mod _ _ hpat, toI32_toU32 toF hint.1 hint.2]
    have cv := codec_fits L (f32_toInt (toU32 toF) + FLOAT_INT_BIAS) FLOAT_INT_BITS
      (by decide) (by decide) hlo (by simpa [FLOAT_INT_BITS] using hhi)
    refine Codec.bind (codec_bit0 L)
      (Codec.bind cv (Codec.pure H Inv toF) (fun m => (except_bind_ok _).symm)
        (r := fun rm => MSG_ReadBits H rm FLOAT_INT_BITS >>= fun p =>
          (Except.ok (toI32 (f32_ofInt (p.1 - FLOAT_INT_BIAS)), p.2) :
            Except ComError (Int × msg_t)))
        (fun rm rm1 h => by simp [h, bind, Except.bind, hval])) ?_ ?_
    · intro m; simp [writeTruncFloat, hfit]
    · intro rm rm1 h
      simp [readTruncFloat, h, bind, Except.bind, pure, Except.pure]
  · refine Codec.bind (codec_bit1 L) (codec_long L toF hint.1 hint.2) ?_ ?_
    · intro m; simp [writeTruncFloat, hfit]
    · intro rm rm1 h
      simp [readTruncFloat, h, bind, Except.bind]

/-- A changed `float` cell of an entity record is read back with the
pattern it had, the negative zero apart. -/
theorem floatField_codec {H : huffman_t} {Inv : (Nat → Nat) → Nat → Prop}
    (L : HuffLaws H Inv) (toF : Int) (hint : isInt32 toF) (hn : toF ≠ -2147483648) :
    Codec H Inv (fun m => writeFloatField H m toF) (fun rm => readFloatField H rm) toF := by
  by_cases hz : f32_isZero (toU32 toF) = true
  · have h0 := zero_float_cell toF hint hz hn
    refine Codec.bind (codec_bit0 L) (Codec.pure H Inv toF) ?_ ?_
    · intro m; simp [writeFloatField, hz, except_bind_ok]
    · intro rm rm1 h
      simp [readFloatField, h, bind, Except.bind, pure, Except.pure, h0]
  · have hz2 : f32_isZero (toU32 toF) = false := by simpa using hz
    refine Codec.bind (codec_bit1 L) (truncFloat_codec L toF hint hz2) ?_ ?_
    · intro m; simp [writeFloatField, hz2]
    · intro rm rm1 h
      simp [readFloatField, h, bind, Except.bind]

/-- A changed integer cell of an entity record is read back unchanged when
its value fits the width of the field. -/
theorem intField_codec {H : huffman_t} {Inv : (Nat → Nat) → Nat → Prop}
    (L : HuffLaws H Inv) (toF bits : Int) (hint : isInt32 toF)
    (hb1 : 1 ≤ bits) (hb32 : bits ≤ 32)
    (hfit : bits < 32 → 0 ≤ toF ∧ toF < 2 ^ bits.toNat) :
    Codec H Inv (fun m => writeIntField H m toF bits) (fun rm => readIntField H rm bits)
      toF := by
  by_cases h0 : toF = 0
  · refine Codec.bind (codec_bit0 L) (Codec.pure H Inv toF) ?_ ?_
    · intro m; simp [writeIntField, h0, except_bind_ok]
    · intro rm rm1 h
      simp [readIntField, h, bind, Except.bind, pure, Except.pure, h0]
  · have hbn : ((bits.toNat : Nat) : Int) = bits := Int.toNat_of_nonneg (by omega)
    have cv : Codec H Inv (fun m => MSG_WriteBits H m toF bits)
        (fun rm => MSG_ReadBits H rm bits) toF := by
      by_cases h32 : bits = 32
      · subst h32; exact codec_long L toF hint.1 hint.2
      · have hlt : bits < 32 := by omega
        obtain ⟨f0, f1⟩ := hfit hlt
        have := codec_fits L toF bits.toNat (by omega) (by omega) f0 f1
        rw [hbn] at this
        exact this
    refine Codec.bind (codec_bit1 L) cv ?_ ?_
    · intro m; simp [writeIntField, h0]
    · intro rm rm1 h
      simp [readIntField, h, bind, Except.bind]

/-- One field of the entity codecs: the reader reconstructs the cell of `to`. -/
theorem writeDeltaField_codec {H : huffman_t} {Inv : (Nat → Nat) → Nat → Prop}
    (L : HuffLaws H Inv) (field : netField_t) (fromF toF : Int)
    (hbits : 0 ≤ field.bits ∧ field.bits ≤ 32) (hfit : fromF ≠ toF → fieldFits field toF) :
    Codec H Inv (fun m => writeDeltaField H m field fromF toF)
      (fun rm => readDeltaField H rm field fromF) toF := by
  by_cases hsame : fromF = toF
  · refine Codec.bind (codec_bit0 L) (Codec.pure H Inv toF) ?_ ?_
    · intro m; simp [writeDeltaField, hsame, except_bind_ok]
    · intro rm rm1 h
      simp [readDeltaField, h, hsame, bind, Except.bind, pure, Except.pure]
  obtain ⟨hint, hfit2⟩ := hfit hsame
  by_cases hfl : field.bits = 0
  · rw [if_pos hfl] at hfit2
    refine Codec.bind (codec_bit1 L) (floatField_codec L toF hint hfit2) ?_ ?_
    · intro m; simp [writeDeltaField, hsame, hfl]
    · intro rm rm1 h
      simp [readDeltaField, h, hfl, bind, Except.bind]
  · rw [if_neg hfl] at hfit2
    refine Codec.bind (codec_bit1 L)
      (intField_codec L toF field.bits hint (by omega) hbits.2 hfit2) ?_ ?_
    · intro m; simp [writeDeltaField, hsame, hfl]
    · intro rm rm1 h
      simp [readDeltaField, h, hfl, bind, Except.bind]

/-! ## The field loops -/

/-- The value of a matched reader may be post-processed by a step that looks
at the message only to see that the read has not run past the end. -/
theorem Codec.post {α β : Type} {H : huffman_t} {Inv : (Nat → Nat) → Nat → Prop}
    {w : msg_t → Except ComError msg_t}
    {r : msg_t → Except ComError (α × msg_t)} {q : msg_t → Except ComError (β × msg_t)}
    {a : α} {b : β} (h : Codec H Inv w r a)
    (hr : ∀ rm rm1, r rm = .ok (a, rm1) → rm1.readcount ≤ rm1.cursize → q rm = .ok (b, rm1)) :
    Codec H Inv w q b := by
  refine ⟨h.total, h.latch, ?_⟩
  intro m m2 hov hoob hI hw hov2
  obtain ⟨a1, a2, a3, a4, a5, a6, a7⟩ := h.sound m m2 hov hoob hI hw hov2
  refine ⟨a1, a2, a3, a4, a5, a6, ?_⟩
  intro rm hroob hrbit hrrc hrcs hrag
  obtain ⟨rc, hrc, hread⟩ := a7 rm hroob hrbit hrrc hrcs hrag
  exact ⟨rc, hrc, hr rm _ hread hrc⟩

/-- `MSG_ReadByte` after `MSG_WriteByte` of a byte value. -/
theorem byte_codec {H : huffman_t} {Inv : (Nat → Nat) → Nat → Prop} (L : HuffLaws H Inv)
    (c : Int) (h0 : 0 ≤ c) (h1 : c < 256) :
    Codec H Inv (fun m => MSG_WriteByte H m c) (fun rm => MSG_ReadByte H rm) c := by
  refine (codec_fits L c 8 (by norm_num) (by norm_num) h0 (by norm_num; exact h1)).post ?_
  intro rm rm1 h hrc
  have hn : ¬ rm1.readcount > rm1.cursize := not_lt.mpr hrc
  have hm : c % 256 = c := Int.emod_eq_of_lt h0 h1
  have h' : MSG_ReadBits H rm 8 = .ok (c, rm1) := h
  simp [MSG_ReadByte, h', bind, Except.bind, hn, pure, Except.pure, hm]

theorem copyTailFields_other (src : Nat → Int) :
    ∀ (fields : List netField_t) (c : Nat → Int) (off : Nat),
      (∀ f ∈ fields, f.offset ≠ off) → copyTailFields src fields c off = c off := by
  intro fields
  induction fields with
  | nil => intro c off _; rfl
  | cons g rest ih =>
    intro c off h
    simp only [copyTailFields]
    rw [ih _ off (fun f hf => h f (List.mem_cons_of_mem _ hf))]
    exact Function.update_noteq (Ne.symm (h g (List.mem_cons_self _ _))) _ _

theorem copyTailFields_mem (src : Nat → Int) :
    ∀ (fields : List netField_t) (c : Nat → Int) (off : Nat),
      (∃ f ∈ fields, f.offset = off) → copyTailFields src fields c off = src off := by
  intro fields
  induction fields with
  | nil => intro c off ⟨f, hf, _⟩; cases hf
  | cons g rest ih =>
    intro c off h
    simp only [copyTailFields]
    by_cases hr : ∃ f ∈ rest, f.offset = off
    · exact ih _ off hr
    · have hno : ∀ f ∈ rest, f.offset ≠ off := fun f hf he => hr ⟨f, hf, he⟩
      rw [copyTailFields_other src rest _ off hno]
      obtain ⟨f, hf, he⟩ := h
      rcases List.mem_cons.mp hf with h1 | h1
      · subst h1; rw [← he, Function.update_same]
      · exact absurd he (hno f h1)

theorem lastChangedLoop_same (fromC toC : Nat → Int) :
    ∀ (fields : List netField_t) (i lc : Nat),
      (∀ f ∈ fields, fromC f.offset = toC f.offset) →
      lastChangedLoop fromC toC fields i lc = lc := by
  intro fields
  induction fields with
  | nil => intro i lc _; rfl
  | cons g rest ih =>
    intro i lc h
    simp only [lastChangedLoop]
    have hg : fromC g.offset = toC g.offset := h g (List.mem_cons_self _ _)
    rw [if_neg (by simpa using hg)]
    exact ih _ _ (fun f hf => h f (List.mem_cons_of_mem _ hf))

theorem lastChangedLoop_spec (fromC toC : Nat → Int) :
    ∀ (fields : List netField_t) (i lc : Nat), lc ≤ i →
      lastChangedLoop fromC toC fields i lc ≤ i + fields.length ∧
      ((lastChangedLoop fromC toC fields i lc = lc ∧
          ∀ f ∈ fields, fromC f.offset = toC f.offset) ∨
       (i < lastChangedLoop fromC toC fields i lc ∧
          ∀ f ∈ fields.drop (lastChangedLoop fromC toC fields i lc - i),
            fromC f.offset = toC f.offset)) := by
  intro fields
  induction fields with
  | nil =>
    intro i lc h
    exact ⟨by simp [lastChangedLoop]; omega, Or.inl ⟨rfl, fun f hf => by cases hf⟩⟩
  | cons g rest ih =>
    intro i lc h
    simp only [lastChangedLoop, List.length_cons]
    have hlc1 : (if fromC g.offset ≠ toC g.offset then i + 1 else lc) ≤ i + 1 := by
      split <;> omega
    obtain ⟨h1, h2⟩ := ih (i + 1) _ hlc1
    refine ⟨by omega, ?_⟩
    rcases h2 with ⟨e, hall⟩ | ⟨hlt, hall⟩
    · by_cases hg : fromC g.offset ≠ toC g.offset
      · right
        rw [if_pos hg] at e ⊢
        rw [e]
        refine ⟨by omega, ?_⟩
        have : i + 1 - i = 1 := by omega
        rw [this]
        simpa using hall
      · left
        rw [if_neg hg] at e ⊢
        refine ⟨e, ?_⟩
        intro f hf
        rcases List.mem_cons.mp hf with h3 | h3
        · subst h3; simpa using hg
        · exact hall f h3
    · right
      refine ⟨by omega, ?_⟩
      have : lastChangedLoop fromC toC rest (i + 1)
            (if fromC g.offset ≠ toC g.offset then i + 1 else lc) - i
          = (lastChangedLoop fromC toC rest (i + 1)
            (if fromC g.offset ≠ toC g.offset then i + 1 else lc) - (i + 1)) + 1 := by omega
      rw [this, List.drop_succ_cons]
      exact hall

/-- The count `lc` of the writers: at most the length of the table, and no
entry from `lc` on differs between `from` and `to`. -/
theorem lastChanged_tail (fromC toC : Nat → Int) (fields : List netField_t) :
    lastChangedLoop fromC toC fields 0 0 ≤ fields.length ∧
    ∀ f ∈ fields.drop (lastChangedLoop fromC toC fields 0 0), fromC f.offset = toC f.offset := by
  obtain ⟨h1, h2⟩ := lastChangedLoop_spec fromC toC fields 0 0 (le_refl _)
  refine ⟨by omega, ?_⟩
  rcases h2 with ⟨e, hall⟩ | ⟨_, hall⟩
  · rw [e]; simpa using hall
  · simpa using hall

/-- The count `lc` is 0 exactly when no entry differs. -/
theorem lastChanged_eq_zero (fromC toC : Nat → Int) (fields : List netField_t) :
    lastChangedLoop fromC toC fields 0 0 = 0 ↔ ∀ f ∈ fields, fromC f.offset = toC f.offset := by
  constructor
  · intro h
    have := (lastChanged_tail fromC toC fields).2
    rw [h] at this
    simpa using this
  · intro h
    exact lastChangedLoop_same fromC toC fields 0 0 h

/-- The field loops: when the body of the loop is matched for every entry,
the reader rebuilds, in the cells named by the entries it goes through, the
cells of `to`. -/
theorem writeFields_codec {H : huffman_t} {Inv : (Nat → Nat) → Nat → Prop}
    (wbody : msg_t → netField_t → Int → Int → Except ComError msg_t)
    (rbody : msg_t → netField_t → Int → Except ComError (Int × msg_t))
    (fromC toC : Nat → Int) :
    ∀ (fields : List netField_t) (toC0 : Nat → Int),
      (∀ f ∈ fields, Codec H Inv (fun m => wbody m f (fromC f.offset) (toC f.offset))
        (fun rm => rbody rm f (fromC f.offset)) (toC f.offset)) →
      Codec H Inv (fun m => writeFields wbody fromC toC fields m)
        (fun rm => readFields rbody fromC fields toC0 rm)
        (copyTailFields toC fields toC0) := by
  intro fields
  induction fields with
  | nil =>
    intro toC0 _
    exact Codec.pure H Inv toC0
  | cons g rest ih =>
    intro toC0 h
    refine Codec.bind (h g (List.mem_cons_self _ _))
      (ih (Function.update toC0 g.offset (toC g.offset))
        (fun f hf => h f (List.mem_cons_of_mem _ hf))) ?_ ?_
    · intro m; rfl
    · intro rm rm1 hr
      simp [readFields, hr, bind, Except.bind]

/-- The cells the reader ends with: those named by the table are the cells
of `to`, the others are left as they were in the output record. -/
theorem finalCells_spec (fromC toC toC0 : Nat → Int) (table : List netField_t) (lc : Nat)
    (htail : ∀ f ∈ table.drop lc, fromC f.offset = toC f.offset) :
    (∀ f ∈ table, copyTailFields fromC (table.drop lc)
        (copyTailFields toC (table.take lc) toC0) f.offset = toC f.offset) ∧
    (∀ off, (∀ f ∈ table, f.offset ≠ off) → copyTailFields fromC (table.drop lc)
        (copyTailFields toC (table.take lc) toC0) off = toC0 off) := by
  constructor
  · intro f hf
    by_cases hd : ∃ g ∈ table.drop lc, g.offset = f.offset
    · rw [copyTailFields_mem fromC _ _ _ hd]
      obtain ⟨g, hg, he⟩ := hd
      rw [← he]; exact htail g hg
    · have hno : ∀ g ∈ table.drop lc, g.offset ≠ f.offset := fun g hg he => hd ⟨g, hg, he⟩
      rw [copyTailFields_other fromC _ _ _ hno]
      have hmem : f ∈ table.take lc := by
        have : f ∈ table.take lc ++ table.drop lc := by rw [List.take_append_drop]; exact hf
        rcases List.mem_append.mp this with h | h
        · exact h
        · exact absurd rfl (hno f h)
      exact copyTailFields_mem toC _ _ _ ⟨f, hmem, rfl⟩
  · intro off hoff
    rw [copyTailFields_other fromC _ _ _ (fun f hf => hoff f (List.mem_of_mem_drop hf)),
      copyTailFields_other toC _ _ _ (fun f hf => hoff f (List.mem_of_mem_take hf))]

/-- The count byte and the two loops: the reader returns the cells described
by `finalCells_spec`. -/
theorem deltaTable_codec {H : huffman_t} {Inv : (Nat → Nat) → Nat → Prop}
    (L : HuffLaws H Inv)
    (wbody : msg_t → netField_t → Int → Int → Except ComError msg_t)
    (rbody : msg_t → netField_t → Int → Except ComError (Int × msg_t))
    (table : List netField_t) (text : String) (fromC toC toC0 : Nat → Int)
    (hlen : table.length < 256)
    (hbody : ∀ f ∈ table, Codec H Inv (fun m => wbody m f (fromC f.offset) (toC f.offset))
        (fun rm => rbody rm f (fromC f.offset)) (toC f.offset)) :
    Codec H Inv
      (fun m => writeDeltaTable H wbody table (lastChangedLoop fromC toC table 0 0) m fromC toC)
      (fun rm => readDeltaTable H rbody table text rm fromC toC0)
      (copyTailFields fromC (table.drop (lastChangedLoop fromC toC table 0 0))
        (copyTailFields toC (table.take (lastChangedLoop fromC toC table 0 0)) toC0)) := by
  obtain ⟨hle, _⟩ := lastChanged_tail fromC toC table
  generalize lastChangedLoop fromC toC table 0 0 = lc at hle
  have cB := byte_codec L (lc : Int) (by omega) (by omega)
  have cF := writeFields_codec wbody rbody fromC toC (table.take lc) toC0
    (fun f hf => hbody f (List.mem_of_mem_take hf))
  have cF2 : Codec H Inv (fun m => writeFields wbody fromC toC (table.take lc) m)
      (fun rm => readFields rbody fromC (table.take lc) toC0 rm >>= fun p =>
        (Except.ok (copyTailFields fromC (table.drop lc) p.1, p.2) :
          Except ComError ((Nat → Int) × msg_t)))
      (copyTailFields fromC (table.drop lc) (copyTailFields toC (table.take lc) toC0)) :=
    cF.post (fun rm rm1 h _ => by simp [h, bind, Except.bind])
  refine Codec.bind cB cF2 (fun m => rfl) ?_
  intro rm rm1 h
  have hn : ¬ ((lc : Int) > (table.length : Int) ∨ (lc : Int) < 0) := by omega
  simp only [readDeltaTable, h, bind, Except.bind, hn, if_false, Int.toNat_ofNat, pure,
    Except.pure]

/-! ## The entity codec -/

theorem etl_constants_ok : constantsOK etl_constants := by decide

theorem entityStateFields_length (K : constants_t) : (entityStateFields K).length = 71 := rfl

theorem entityStateFields_bits (K : constants_t) (hK : constantsOK K) :
    ∀ f ∈ entityStateFields K, 0 ≤ f.bits ∧ f.bits ≤ 32 := by
  obtain ⟨g1, g2, _, a1, a2, _⟩ := hK
  simp only [entityStateFields, List.forall_mem_cons, List.not_mem_nil, false_implies,
    implies_true, and_true]
  omega


theorem number_fits (K : constants_t) (hK : constantsOK K) (n : Int)
    (h1 : n < K.MAX_GENTITIES) : n < 2 ^ K.GENTITYNUM_BITS := by
  obtain ⟨_, _, g3, _⟩ := hK
  have : (K.MAX_GENTITIES : Int) ≤ ((2 ^ K.GENTITYNUM_BITS : Nat) : Int) := by exact_mod_cast g3
  push_cast at this
  omega

/-- The entity writer on a record with a changed field, after the entity
number: the bits 0 and 1, the count and the fields, against
`MSG_ReadDeltaEntity`. -/
theorem deltaEntity_codec {H : huffman_t} {Inv : (Nat → Nat) → Nat → Prop}
    (L : HuffLaws H Inv) (K : constants_t) (hK : constantsOK K)
    (f t to0 : entityState_t)
    (hnum : 0 ≤ t.number ∧ t.number < K.MAX_GENTITIES)
    (hfit : ∀ fld ∈ entityStateFields K, f.cells fld.offset ≠ t.cells fld.offset →
      fieldFits fld (t.cells fld.offset)) :
    Codec H Inv
      (fun m => MSG_WriteBits H m 0 1 >>= fun m => MSG_WriteBits H m 1 1 >>= fun m =>
        writeDeltaTable H (writeDeltaField H) (entityStateFields K)
          (lastChangedLoop f.cells t.cells (entityStateFields K) 0 0) m f.cells t.cells)
      (fun rm => MSG_ReadDeltaEntity H K rm f to0 t.number)
      { number := t.number,
        cells := copyTailFields f.cells
          ((entityStateFields K).drop (lastChangedLoop f.cells t.cells (entityStateFields K) 0 0))
          (copyTailFields t.cells
            ((entityStateFields K).take
              (lastChangedLoop f.cells t.cells (entityStateFields K) 0 0)) to0.cells) } := by
  have hbody : ∀ fld ∈ entityStateFields K,
      Codec H Inv (fun m => writeDeltaField H m fld (f.cells fld.offset) (t.cells fld.offset))
        (fun rm => readDeltaField H rm fld (f.cells fld.offset)) (t.cells fld.offset) :=
    fun fld hf => writeDeltaField_codec L fld _ _ (entityStateFields_bits K hK fld hf)
      (hfit fld hf)
  have c4 := (deltaTable_codec L (writeDeltaField H) (readDeltaField H) (entityStateFields K)
    "invalid entityState field count" f.cells t.cells to0.cells
    (by rw [entityStateFields_length]; norm_num) hbody).post
    (q := fun rm => do
      let (cells, msg) ← readDeltaTable H (readDeltaField H) (entityStateFields K)
        "invalid entityState field count" rm f.cells to0.cells
      pure (({ number := t.number, cells := cells } : entityState_t), msg))
    (b := { number := t.number,
            cells := copyTailFields f.cells
              ((entityStateFields K).drop
                (lastChangedLoop f.cells t.cells (entityStateFields K) 0 0))
              (copyTailFields t.cells
                ((entityStateFields K).take
                  (lastChangedLoop f.cells t.cells (entityStateFields K) 0 0)) to0.cells) })
    (fun rm rm1 h _ => by simp [h, bind, Except.bind, pure, Except.pure])
  have c3 := Codec.bind (codec_bit1 L) c4
    (w := fun m => MSG_WriteBits H m 1 1 >>= fun m =>
      writeDeltaTable H (writeDeltaField H) (entityStateFields K)
        (lastChangedLoop f.cells t.cells (entityStateFields K) 0 0) m f.cells t.cells)
    (r := fun rm => do
      let (delta, msg) ← MSG_ReadBits H rm 1
      if delta = 0 then pure (({ f with number := t.number } : entityState_t), msg)
      else do
        let (cells, msg) ← readDeltaTable H (readDeltaField H) (entityStateFields K)
          "invalid entityState field count" msg f.cells to0.cells
        pure (({ number := t.number, cells := cells } : entityState_t), msg))
    (fun m => rfl) (fun rm rm1 h => by simp [h, bind, Except.bind])
  have hvalid : ¬ (t.number < 0 ∨ t.number ≥ K.MAX_GENTITIES) := by omega
  exact Codec.bind (codec_bit0 L) c3 (fun m => rfl)
    (fun rm rm1 h => by
      simp only [MSG_ReadDeltaEntity, hvalid, if_false, h, bind, Except.bind]
      simp)

/-- The entity writer on an unchanged record with `force` set, after the
entity number: the bits 0 and 0, against `MSG_ReadDeltaEntity`. -/
theorem forcedEntity_codec {H : huffman_t} {Inv : (Nat → Nat) → Nat → Prop}
    (L : HuffLaws H Inv) (K : constants_t) (f to0 : entityState_t) (number : Int)
    (hnum : 0 ≤ number ∧ number < K.MAX_GENTITIES) :
    Codec H Inv (fun m => MSG_WriteBits H m 0 1 >>= fun m => MSG_WriteBits H m 0 1)
      (fun rm => MSG_ReadDeltaEntity H K rm f to0 number)
      { f with number := number } := by
  have hvalid : ¬ (number < 0 ∨ number ≥ K.MAX_GENTITIES) := by omega
  have c3 := Codec.bind (codec_bit0 L)
    (Codec.pure H Inv ({ f with number := number } : entityState_t))
    (w := fun m => MSG_WriteBits H m 0 1)
    (r := fun rm => do
      let (delta, msg) ← MSG_ReadBits H rm 1
      if delta = 0 then pure (({ f with number := number } : entityState_t), msg)
      else do
        let (cells, msg) ← readDeltaTable H (readDeltaField H) (entityStateFields K)
          "invalid entityState field count" msg f.cells to0.cells
        pure (({ number := number, cells := cells } : entityState_t), msg))
    (fun m => (except_bind_ok _).symm)
    (fun rm rm1 h => by simp [h, bind, Except.bind, pure, Except.pure])
  exact Codec.bind (codec_bit0 L) c3 (fun m => rfl)
    (fun rm rm1 h => by
      simp only [MSG_ReadDeltaEntity, hvalid, if_false, h, bind, Except.bind]
      simp)

/-- The removal message of the entity writer, after the entity number: the
bit 1, against `MSG_ReadDeltaEntity`. -/
theorem removeEntity_codec {H : huffman_t} {Inv : (Nat → Nat) → Nat → Prop}
    (L : HuffLaws H Inv) (K : constants_t) (g to0 : entityState_t) (number : Int)
    (hnum : 0 ≤ number ∧ number < K.MAX_GENTITIES) :
    Codec H Inv (fun m => MSG_WriteBits H m 1 1)
      (fun rm => MSG_ReadDeltaEntity H K rm g to0 number)
      { number := (K.MAX_GENTITIES : Int) - 1, cells := fun _ => 0 } := by
  have hvalid : ¬ (number < 0 ∨ number ≥ K.MAX_GENTITIES) := by omega
  exact Codec.bind (codec_bit1 L)
    (Codec.pure H Inv
      ({ number := (K.MAX_GENTITIES : Int) - 1, cells := fun _ => 0 } : entityState_t))
    (fun m => (except_bind_ok _).symm)
    (fun rm rm1 h => by
      simp only [MSG_ReadDeltaEntity, hvalid, if_false, h, bind, Except.bind]
      simp [pure, Except.pure])

/-- The entity number in `GENTITYNUM_BITS` bits. -/
theorem entityNumber_codec {H : huffman_t} {Inv : (Nat → Nat) → Nat → Prop}
    (L : HuffLaws H Inv) (K : constants_t) (hK : constantsOK K) (number : Int)
    (hnum : 0 ≤ number ∧ number < K.MAX_GENTITIES) :
    Codec H Inv (fun m => MSG_WriteBits H m number K.GENTITYNUM_BITS)
      (fun rm => MSG_ReadBits H rm K.GENTITYNUM_BITS) number :=
  codec_fits L number K.GENTITYNUM_BITS hK.1 hK.2.1 hnum.1 (number_fits K hK number hnum.2)

/-- `MSG_WriteDeltaEntity` on a record with a changed field: the calls it makes. -/
theorem MSG_WriteDeltaEntity_delta (H : huffman_t) (K : constants_t) (m : msg_t)
    (f t : entityState_t) (force : Bool)
    (hnum : 0 ≤ t.number ∧ t.number < K.MAX_GENTITIES)
    (hlc : lastChangedLoop f.cells t.cells (entityStateFields K) 0 0 ≠ 0) :
    MSG_WriteDeltaEntity H K m (some f) (some t) force =
      (MSG_WriteBits H m t.number K.GENTITYNUM_BITS >>= fun m =>
        MSG_WriteBits H m 0 1 >>= fun m => MSG_WriteBits H m 1 1 >>= fun m =>
        writeDeltaTable H (writeDeltaField H) (entityStateFields K)
          (lastChangedLoop f.cells t.cells (entityStateFields K) 0 0) m f.cells t.cells) := by
  have hvalid : ¬ (t.number < 0 ∨ t.number ≥ K.MAX_GENTITIES) := by omega
  simp only [MSG_WriteDeltaEntity, hvalid, if_false, hlc]

/-- `MSG_WriteDeltaEntity` on an unchanged record with `force` set: the calls
it makes. -/
theorem MSG_WriteDeltaEntity_forced (H : huffman_t) (K : constants_t) (m : msg_t)
    (f t : entityState_t)
    (hnum : 0 ≤ t.number ∧ t.number < K.MAX_GENTITIES)
    (hlc : lastChangedLoop f.cells t.cells (entityStateFields K) 0 0 = 0) :
    MSG_WriteDeltaEntity H K m (some f) (some t) true =
      (MSG_WriteBits H m t.number K.GENTITYNUM_BITS >>= fun m =>
        MSG_WriteBits H m 0 1 >>= fun m => MSG_WriteBits H m 0 1) := by
  have hvalid : ¬ (t.number < 0 ∨ t.number ≥ K.MAX_GENTITIES) := by omega
  simp only [MSG_WriteDeltaEntity, hvalid, if_false, hlc]
  rfl

/-! ## Running a matched pair -/

theorem MSG_WriteBits_cursize (H : huffman_t) (m m2 : msg_t) (v bits : Int) (w : Nat)
    (hw1 : 1 ≤ w) (hw32 : w ≤ 32) (hbits : bits = w ∨ (bits = -w ∧ w ≤ 31))
    (hov : m.overflowed = false) (hoob : m.oob = false)
    (hw : MSG_WriteBits H m v bits = .ok m2) (hov2 : m2.overflowed = false) :
    m2.cursize = (m2.bit >>> 3) + 1 := by
  rw [MSG_WriteBits_bitstream H m v bits w hw1 hw32 hbits hov hoob] at hw
  split at hw
  · cases hw; simp at hov2
  · split at hw
    · rename_i h
      cases hw; rw [h] at hov2; cases hov2
    · cases hw; rfl

theorem strict_bits (H : huffman_t) (Inv : (Nat → Nat) → Nat → Prop) (v : Int) (w : Nat)
    (hw1 : 1 ≤ w) (hw32 : w ≤ 32) :
    StrictWriter Inv (fun m => MSG_WriteBits H m v w) :=
  fun m m2 hov hoob _ hw hov2 =>
    MSG_WriteBits_cursize H m m2 v w w hw1 hw32 (Or.inl rfl) hov hoob hw hov2

/-- A writer that starts with a strict writer and goes on with a matched
writer is strict. -/
theorem strict_bind {α β : Type} {H : huffman_t} {Inv : (Nat → Nat) → Nat → Prop}
    {w1 w2 w : msg_t → Except ComError msg_t}
    {r1 : msg_t → Except ComError (α × msg_t)} {r2 : msg_t → Except ComError (β × msg_t)}
    {a : α} {b : β}
    (s1 : StrictWriter Inv w1) (h1 : Codec H Inv w1 r1 a) (h2 : Codec H Inv w2 r2 b)
    (hw : ∀ m, w m = (w1 m >>= w2)) : StrictWriter Inv w := by
  intro m m2 hov hoob hI hwm hov2
  rw [hw] at hwm
  obtain ⟨m1, e1, e2⟩ := bind_eq_ok hwm
  have hov1 : m1.overflowed = false := by
    cases h : m1.overflowed with
    | false => rfl
    | true =>
      have := h2.latch m1 m2 h e2
      rw [this] at hov2; cases hov2
  obtain ⟨a1, _, _, a4, _, _, _⟩ := h1.sound m m1 hov hoob hI e1 hov1
  obtain ⟨_, _, _, _, _, b6, _⟩ := h2.sound m1 m2 hov1 a1 a4 e2 hov2
  rcases b6 with h | h
  · rw [h]; exact s1 m m1 hov hoob hI e1 hov1
  · exact h

/-- Running a matched, strict pair: the writer returns, and when it has not
overflowed, the reader set at the old bit cursor of the written message
returns the value and ends at the new bit cursor. -/
theorem Codec.run {α : Type} {H : huffman_t} {Inv : (Nat → Nat) → Nat → Prop}
    {w : msg_t → Except ComError msg_t} {r : msg_t → Except ComError (α × msg_t)} {v : α}
    (h : Codec H Inv w r v) (s : StrictWriter Inv w) (m : msg_t)
    (hov : m.overflowed = false) (hoob : m.oob = false) (hI : Inv m.data m.bit) :
    ∃ m2, w m = .ok m2 ∧
      (m2.overflowed = false →
        ∀ rc, rc ≤ m2.cursize → ∃ rc2, rc2 ≤ m2.cursize ∧
          r { m2 with bit := m.bit, readcount := rc } = .ok (v, { m2 with readcount := rc2 })) := by
  obtain ⟨m2, e, _⟩ := h.total m hoob
  refine ⟨m2, e, ?_⟩
  intro hov2 rc hrc
  obtain ⟨a1, _, _, _, _, _, a7⟩ := h.sound m m2 hov hoob hI e hov2
  have hsz := s m m2 hov hoob hI e hov2
  have hlt : m2.bit < 8 * m2.cursize := by rw [hsz, shr3]; omega
  obtain ⟨rc2, hrc2, hread⟩ := a7 { m2 with bit := m.bit, readcount := rc } a1 rfl hrc hlt
    (agree_refl _ _)
  exact ⟨rc2, hrc2, hread⟩

/-- Running a writer made of a strict first part and a second part, each
matched with its reader: the first reader, set at the old bit cursor of the
written message, returns its value, and the second reader, run from where the
first one stopped, returns its value and ends at the new bit cursor. -/
theorem Codec.run2 {α β : Type} {H : huffman_t} {Inv : (Nat → Nat) → Nat → Prop}
    {w1 w2 : msg_t → Except ComError msg_t}
    {r1 : msg_t → Except ComError (α × msg_t)} {r2 : msg_t → Except ComError (β × msg_t)}
    {a : α} {b : β}
    (h1 : Codec H Inv w1 r1 a) (s1 : StrictWriter Inv w1) (h2 : Codec H Inv w2 r2 b)
    (m : msg_t) (hov : m.overflowed = false) (hoob : m.oob = false) (hI : Inv m.data m.bit) :
    ∃ m2, (w1 m >>= w2) = .ok m2 ∧
      (m2.overflowed = false →
        ∀ rc, rc ≤ m2.cursize → ∃ rm1 rc2, rc2 ≤ m2.cursize ∧
          r1 { m2 with bit := m.bit, readcount := rc } = .ok (a, rm1) ∧
          r2 rm1 = .ok (b, { m2 with readcount := rc2 })) := by
  obtain ⟨m1, e1, o1⟩ := h1.total m hoob
  obtain ⟨m2, e2, _⟩ := h2.total m1 o1
  refine ⟨m2, by rw [e1]; exact e2, ?_⟩
  intro hov2 rc hrc
  have hov1 : m1.overflowed = false := by
    cases h : m1.overflowed with
    | false => rfl
    | true =>
      have := h2.latch m1 m2 h e2
      rw [this] at hov2; cases hov2
  obtain ⟨a1, _, a3, a4, _, _, a7⟩ := h1.sound m m1 hov hoob hI e1 hov1
  obtain ⟨b1, _, b3, _, b5, b6, b7⟩ := h2.sound m1 m2 hov1 a1 a4 e2 hov2
  have hsz : m2.cursize = (m2.bit >>> 3) + 1 := by
    rcases b6 with h | h
    · rw [h]; exact s1 m m1 hov hoob hI e1 hov1
    · exact h
  have hlt : m2.bit < 8 * m2.cursize := by rw [hsz, shr3]; omega
  obtain ⟨rc1, hrc1, hread1⟩ := a7 { m2 with bit := m.bit, readcount := rc } b1 rfl hrc
    (lt_of_le_of_lt b3 hlt) b5
  obtain ⟨rc2, hrc2, hread2⟩ := b7 { m2 with bit := m1.bit, readcount := rc1 } b1 rfl hrc1
    hlt (agree_refl _ _)
  exact ⟨_, rc2, hrc2, hread1, hread2⟩

/-! ## The primitive calls of one write -/

theorem rawBitsOf_succ (x : Int) (n : Nat) :
    rawBitsOf x (n + 1) = (x % 2).toNat :: rawBitsOf (x / 2) n := by
  unfold rawBitsOf
  rw [List.range_succ_eq_map]
  simp only [List.map_cons, List.map_map, pow_zero, Int.ediv_one]
  congr 1
  apply List.map_congr_left
  intro j _
  simp only [Function.comp, pow_succ]
  rw [mul_comm, int_ediv_ediv x 2 (2 ^ j) (by norm_num) (by positivity)]

theorem bytesOf_succ (x : Int) (sh n : Nat) :
    bytesOf x sh (n + 1) = (x / 2 ^ sh % 256).toNat :: bytesOf x (sh + 8) n := by
  unfold bytesOf
  rw [List.range_succ_eq_map]
  simp only [List.map_cons, List.map_map, Nat.mul_zero, Nat.add_zero]
  congr 1
  apply List.map_congr_left
  intro j _
  simp only [Function.comp]
  have : sh + 8 * (j + 1) = sh + 8 + 8 * j := by ring
  rw [this]

theorem bytesOf_shift (x : Int) (sh n : Nat) :
    bytesOf (x / 2 ^ sh) 0 n = bytesOf x sh n := by
  unfold bytesOf
  apply List.map_congr_left
  intro j _
  simp only [Nat.zero_add]
  rw [int_ediv_ediv x _ _ (by positivity) (by positivity), ← pow_add]

theorem putBitsLoop_seq (H : huffman_t) :
    ∀ (n : Nat) (x : Int) (d : Nat → Nat) (o : Nat),
      ((putBitsLoop H n x d o).1, (putBitsLoop H n x d o).2.1)
        = putBitsSeq H (rawBitsOf x n) (d, o) := by
  intro n
  induction n with
  | zero => intro x d o; rfl
  | succ n ih =>
    intro x d o
    rw [rawBitsOf_succ]
    simp only [putBitsLoop, putBitsSeq, List.foldl_cons]
    exact ih _ _ _

theorem transmitLoop_seq (H : huffman_t) :
    ∀ (n : Nat) (x : Int) (m : msg_t), m.overflowed = false →
      (transmitLoop H n x m).overflowed = false →
      ((transmitLoop H n x m).data, (transmitLoop H n x m).bit)
        = transmitSeq H (m.maxsize <<< 3) (bytesOf x 0 n) (m.data, m.bit) := by
  intro n
  induction n with
  | zero => intro x m _ _; rfl
  | succ n ih =>
    intro x m hov hov2
    rw [bytesOf_succ]
    by_cases hfull :
        (H.Huff_offsetTransmit (x % 256).toNat m.data m.bit (m.maxsize <<< 3)).2 ≥ m.maxsize <<< 3
    · simp [transmitLoop, hfull] at hov2
    · have hstep : transmitLoop H (n + 1) x m = transmitLoop H n (x / 256)
          { m with data := (H.Huff_offsetTransmit (x % 256).toNat m.data m.bit (m.maxsize <<< 3)).1,
                   bit := (H.Huff_offsetTransmit (x % 256).toNat m.data m.bit (m.maxsize <<< 3)).2 } := by
        simp [transmitLoop, hfull]
      rw [hstep] at hov2 ⊢
      rw [ih (x / 256)
        { m with data := (H.Huff_offsetTransmit (x % 256).toNat m.data m.bit (m.maxsize <<< 3)).1,
                 bit := (H.Huff_offsetTransmit (x % 256).toNat m.data m.bit (m.maxsize <<< 3)).2 }
        hov hov2]
      simp only [transmitSeq, List.foldl_cons, pow_zero, Int.ediv_one]
      have hb := bytesOf_shift x 8 n
      have e8 : (2 : Int) ^ 8 = 256 := by norm_num
      rw [e8] at hb
      rw [hb, Nat.zero_add]

/-- Two integers with the same low `w` bits have the same bits in any
window inside the low `w` bits. -/
theorem window_congr (x v : Int) (w a b : Nat) (h : x % 2 ^ w = v % 2 ^ w) (hab : a + b ≤ w) :
    x / 2 ^ a % 2 ^ b = v / 2 ^ a % 2 ^ b := by
  have hd : (2 : Int) ^ (a + b) ∣ 2 ^ w := pow_dvd_pow 2 hab
  have hda : (2 : Int) ^ a ∣ 2 ^ w := pow_dvd_pow 2 (by omega)
  have h1 : x % 2 ^ (a + b) = v % 2 ^ (a + b) := by
    rw [← Int.emod_emod_of_dvd x hd, ← Int.emod_emod_of_dvd v hd, h]
  have h2 : x % 2 ^ a = v % 2 ^ a := by
    rw [← Int.emod_emod_of_dvd x hda, ← Int.emod_emod_of_dvd v hda, h]
  have ha : (0 : Int) < 2 ^ a := by positivity
  have hb : (0 : Int) < 2 ^ b := by positivity
  rw [pow_add, int_emod_mul x _ _ ha hb, int_emod_mul v _ _ ha hb, h2] at h1
  have h3 : (2 : Int) ^ a * (x / 2 ^ a % 2 ^ b) = 2 ^ a * (v / 2 ^ a % 2 ^ b) := by linarith
  exact mul_left_cancel₀ (ne_of_gt ha) h3

theorem masked_low (v : Int) (w : Nat) (hw : w ≤ 32) :
    toI32 (toU32 v % 2 ^ w) % 2 ^ w = v % 2 ^ w := by
  have h := lowBits_toI32 (toU32 v % 2 ^ w) w hw
  rw [Nat.mod_mod] at h
  have hnn : 0 ≤ toI32 (toU32 v % 2 ^ w) % 2 ^ w := Int.emod_nonneg _ (by positivity)
  have hc : toI32 (toU32 v % 2 ^ w) % 2 ^ w = ((toU32 v % 2 ^ w : Nat) : Int) := by
    have h2 := Int.toNat_of_nonneg hnn
    rw [h] at h2
    exact h2.symm
  rw [hc]
  unfold toU32
  push_cast
  rw [Int.toNat_of_nonneg (Int.emod_nonneg v (by norm_num))]
  have hd : (2 : Int) ^ w ∣ 4294967296 := by
    have : (4294967296 : Int) = 2 ^ 32 := by norm_num
    rw [this]; exact pow_dvd_pow 2 hw
  exact Int.emod_emod_of_dvd v hd

theorem rawBitsOf_congr (x v : Int) (w n : Nat) (h : x % 2 ^ w = v % 2 ^ w) (hn : n ≤ w) :
    rawBitsOf x n = rawBitsOf v n := by
  unfold rawBitsOf
  apply List.map_congr_left
  intro j hj
  have hj2 : j < n := List.mem_range.mp hj
  have := window_congr x v w j 1 h (by omega)
  simp only [pow_one] at this
  rw [this]

theorem bytesOf_congr (x v : Int) (w sh n : Nat) (h : x % 2 ^ w = v % 2 ^ w)
    (hn : sh + 8 * n ≤ w) : bytesOf x sh n = bytesOf v sh n := by
  unfold bytesOf
  apply List.map_congr_left
  intro j hj
  have hj2 : j < n := List.mem_range.mp hj
  have := window_congr x v w (sh + 8 * j) 8 h (by omega)
  have e8 : (2 : Int) ^ 8 = 256 := by norm_num
  rw [e8] at this
  rw [this]

/-- The primitive calls of one bitstream `MSG_WriteBits` that does not
overflow: the low `w % 8` bits of the value go to `Huff_putBit`, least
significant first, then the remaining `w / 8` bytes go to
`Huff_offsetTransmit`, least significant first. -/
theorem MSG_WriteBits_layout (H : huffman_t) (m m2 : msg_t) (v bits : Int) (w : Nat)
    (hw1 : 1 ≤ w) (hw32 : w ≤ 32) (hbits : bits = w ∨ (bits = -w ∧ w ≤ 31))
    (hov : m.overflowed = false) (hoob : m.oob = false)
    (hw : MSG_WriteBits H m v bits = .ok m2) (hov2 : m2.overflowed = false) :
    (m2.data, m2.bit) = transmitSeq H (m.maxsize <<< 3) (bytesOf v (w % 8) (w / 8))
      (putBitsSeq H (rawBitsOf v (w % 8)) (m.data, m.bit)) := by
  have hx := masked_low v w hw32
  rw [MSG_WriteBits_bitstream H m v bits w hw1 hw32 hbits hov hoob] at hw
  generalize toI32 (toU32 v % 2 ^ w) = x at hw hx
  have hseq := putBitsLoop_seq H (w % 8) x m.data m.bit
  have hval : (putBitsLoop H (w % 8) x m.data m.bit).2.2 = x / 2 ^ (w % 8) := by
    clear hw hseq hx
    generalize m.data = d
    generalize m.bit = o
    generalize w % 8 = n
    induction n generalizing x d o with
    | zero => simp [putBitsLoop]
    | succ n ih =>
      simp only [putBitsLoop]
      rw [ih, pow_succ, mul_comm, int_ediv_ediv x 2 (2 ^ n) (by norm_num) (by positivity)]
  split at hw
  · cases hw; simp at hov2
  · split at hw
    · rename_i h
      cases hw; rw [h] at hov2; cases hov2
    · rename_i h
      have hT := transmitLoop_seq H (w / 8) (putBitsLoop H (w % 8) x m.data m.bit).2.2
        { m with uncompsize := m.uncompsize + bits,
                 data := (putBitsLoop H (w % 8) x m.data m.bit).1,
                 bit := (putBitsLoop H (w % 8) x m.data m.bit).2.1 } hov (by simpa using h)
      cases hw
      simp only at hT ⊢
      rw [hT, hval, bytesOf_shift, hseq,
        rawBitsOf_congr x v w (w % 8) hx (Nat.mod_le _ _),
        bytesOf_congr x v w (w % 8) (w / 8) hx (by omega)]

/-! ## Out-of-band writes and reads -/

theorem toU32_mod_pow (v : Int) (w : Nat) (hw : w ≤ 32) :
    toU32 v % 2 ^ w = (v % 2 ^ w).toNat := by
  have h := masked_low v w hw
  have h2 := lowBits_toI32 (toU32 v % 2 ^ w) w hw
  rw [Nat.mod_mod, h] at h2
  exact h2.symm

theorem MSG_WriteBits_oob8 (H : huffman_t) (m : msg_t) (v : Int)
    (hoob : m.oob = true) (hov : m.overflowed = false) (hroom : m.cursize + 1 ≤ m.maxsize) :
    MSG_WriteBits H m v 8 = .ok { m with
      uncompsize := m.uncompsize + 8,
      data := Function.update m.data m.cursize (v % 256).toNat,
      cursize := m.cursize + 1, bit := m.bit + 8 } := by
  have h1 : ¬ (m.cursize + 8 >>> 3 > m.maxsize) := by
    have : 8 >>> 3 = 1 := rfl
    rw [this]; omega
  simp only [MSG_WriteBits, hov, hoob]
  simp [h1]
  omega

theorem MSG_WriteBits_oob16 (H : huffman_t) (m : msg_t) (v : Int)
    (hoob : m.oob = true) (hov : m.overflowed = false) (hroom : m.cursize + 2 ≤ m.maxsize) :
    MSG_WriteBits H m v 16 = .ok { m with
      uncompsize := m.uncompsize + 16,
      data := Function.update (Function.update m.data m.cursize (v % 256).toNat)
        (m.cursize + 1) (v / 256 % 256).toNat,
      cursize := m.cursize + 2, bit := m.bit + 16 } := by
  have h1 : ¬ (m.cursize + 16 >>> 3 > m.maxsize) := by
    have : 16 >>> 3 = 2 := rfl
    rw [this]; omega
  simp only [MSG_WriteBits, hov, hoob]
  simp [h1]
  omega

theorem MSG_WriteBits_oob32 (H : huffman_t) (m : msg_t) (v : Int)
    (hoob : m.oob = true) (hov : m.overflowed = false) (hroom : m.cursize + 4 ≤ m.maxsize) :
    MSG_WriteBits H m v 32 = .ok { m with
      uncompsize := m.uncompsize + 32,
      data := Function.update (Function.update (Function.update
        (Function.update m.data m.cursize (v % 256).toNat)
        (m.cursize + 1) (v / 256 % 256).toNat)
        (m.cursize + 2) (v / 65536 % 256).toNat)
        (m.cursize + 3) (v / 16777216 % 256).toNat,
      cursize := m.cursize + 4, bit := m.bit + 32 } := by
  have h1 : ¬ (m.cursize + 32 >>> 3 > m.maxsize) := by
    have : 32 >>> 3 = 4 := rfl
    rw [this]; omega
  simp only [MSG_WriteBits, hov, hoob]
  simp [h1]
  omega

theorem MSG_ReadBits_oob8 (H : huffman_t) (rm : msg_t) (bits : Int) (hb : bits = 8 ∨ bits = -8)
    (hoob : rm.oob = true) (hrc : rm.readcount + 1 ≤ rm.cursize) :
    MSG_ReadBits H rm bits = .ok (signExtend (decide (bits < 0)) (rm.data rm.readcount % 256) 8,
      { rm with readcount := rm.readcount + 1, bit := rm.bit + 8 }) := by
  have habs : (if bits < 0 then (-bits).toNat else bits.toNat) = 8 := natAbs_bits bits 8 hb
  have hnot : ¬ rm.readcount > rm.cursize := by omega
  have h1 : ¬ (rm.readcount + 8 >>> 3 > rm.cursize) := by
    have : 8 >>> 3 = 1 := rfl
    rw [this]; omega
  simp only [MSG_ReadBits, hnot, hoob, habs, if_false, if_true, h1]

theorem MSG_ReadBits_oob16 (H : huffman_t) (rm : msg_t) (bits : Int)
    (hb : bits = 16 ∨ bits = -16)
    (hoob : rm.oob = true) (hrc : rm.readcount + 2 ≤ rm.cursize) :
    MSG_ReadBits H rm bits = .ok (signExtend (decide (bits < 0))
        (rm.data rm.readcount % 256 + 256 * (rm.data (rm.readcount + 1) % 256)) 16,
      { rm with readcount := rm.readcount + 2, bit := rm.bit + 16 }) := by
  have habs : (if bits < 0 then (-bits).toNat else bits.toNat) = 16 := natAbs_bits bits 16 hb
  have hnot : ¬ rm.readcount > rm.cursize := by omega
  have h1 : ¬ (rm.readcount + 16 >>> 3 > rm.cursize) := by
    have : 16 >>> 3 = 2 := rfl
    rw [this]; omega
  simp only [MSG_ReadBits, hnot, hoob, habs, if_false, if_true, h1]
  simp

theorem MSG_ReadBits_oob32 (H : huffman_t) (rm : msg_t) (bits : Int)
    (hb : bits = 32 ∨ bits = -32)
    (hoob : rm.oob = true) (hrc : rm.readcount + 4 ≤ rm.cursize) :
    MSG_ReadBits H rm bits = .ok (signExtend (decide (bits < 0))
        (rm.data rm.readcount % 256 + 256 * (rm.data (rm.readcount + 1) % 256)
          + 65536 * (rm.data (rm.readcount + 2) % 256)
          + 16777216 * (rm.data (rm.readcount + 3) % 256)) 32,
      { rm with readcount := rm.readcount + 4, bit := rm.bit + 32 }) := by
  have habs : (if bits < 0 then (-bits).toNat else bits.toNat) = 32 := natAbs_bits bits 32 hb
  have hnot : ¬ rm.readcount > rm.cursize := by omega
  have h1 : ¬ (rm.readcount + 32 >>> 3 > rm.cursize) := by
    have : 32 >>> 3 = 4 := rfl
    rw [this]; omega
  simp only [MSG_ReadBits, hnot, hoob, habs, if_false, if_true, h1]
  simp

theorem bytes2 (v : Int) :
    (v % 256).toNat % 256 + 256 * ((v / 256 % 256).toNat % 256) = (v % 2 ^ 16).toNat := by
  have h := lowBits_add v 8 8
  have e8 : (2 : Int) ^ 8 = 256 := by norm_num
  rw [e8] at h
  have := int_mod_256_toNat_lt v
  have := int_mod_256_toNat_lt (v / 256)
  simp only [show (8 : Nat) + 8 = 16 from rfl] at h
  omega

theorem bytes4 (v : Int) :
    (v % 256).toNat % 256 + 256 * ((v / 256 % 256).toNat % 256)
      + 65536 * ((v / 65536 % 256).toNat % 256)
      + 16777216 * ((v / 16777216 % 256).toNat % 256) = (v % 2 ^ 32).toNat := by
  have h1 := lowBits_add v 8 24
  have h2 := lowBits_add (v / 256) 8 16
  have h3 := lowBits_add (v / 65536) 8 8
  have e8 : (2 : Int) ^ 8 = 256 := by norm_num
  rw [e8] at h1 h2 h3
  have d1 : v / 256 / 256 = v / 65536 := by
    rw [int_ediv_ediv v 256 256 (by norm_num) (by norm_num)]; norm_num
  have d2 : v / 65536 / 256 = v / 16777216 := by
    rw [int_ediv_ediv v 65536 256 (by norm_num) (by norm_num)]; norm_num
  rw [d1] at h2
  rw [d2] at h3
  have := int_mod_256_toNat_lt v
  have := int_mod_256_toNat_lt (v / 256)
  have := int_mod_256_toNat_lt (v / 65536)
  have := int_mod_256_toNat_lt (v / 16777216)
  simp only [show (8 : Nat) + 24 = 32 from rfl, show (8 : Nat) + 16 = 24 from rfl,
    show (8 : Nat) + 8 = 16 from rfl] at h1 h2 h3
  omega


/-! ## Small integers as floats -/

theorem ilog2_spec : ∀ (fuel a : Nat), 1 ≤ a → a < 2 ^ fuel →
    2 ^ ilog2 fuel a ≤ a ∧ a < 2 ^ (ilog2 fuel a + 1) := by
  intro fuel
  induction fuel with
  | zero => intro a h1 h2; simp at h2; omega
  | succ n ih =>
    intro a h1 h2
    simp only [ilog2]
    by_cases h : a < 2
    · simp [h]; omega
    · simp only [h, if_false]
      have hl : a / 2 < 2 ^ n := by
        rw [pow_succ] at h2; omega
      obtain ⟨i1, i2⟩ := ih (a / 2) (by omega) hl
      constructor
      · rw [pow_succ]; omega
      · rw [pow_succ]; omega

theorem f32_fields (s e mm : Nat) (hs : s < 2) (he : e < 256) (hm : mm < 8388608) :
    (s * 2147483648 + e * 8388608 + mm) / 2147483648 % 2 = s ∧
    (s * 2147483648 + e * 8388608 + mm) / 8388608 % 256 = e ∧
    (s * 2147483648 + e * 8388608 + mm) % 8388608 = mm ∧
    (s * 2147483648 + e * 8388608 + mm) % 2147483648 = e * 8388608 + mm ∧
    s * 2147483648 + e * 8388608 + mm < 4294967296 := by
  refine ⟨?_, ?_, ?_, ?_, ?_⟩ <;> omega

/-- The `float` made from a non-zero integer `t` with `|t| ≤ 4096` is cast
back to `t`, is neither a zero nor a NaN, and is a 32-bit pattern. -/
theorem smallInt_float (t : Int) (h0 : t ≠ 0) (hlo : -4096 ≤ t) (hhi : t ≤ 4096) :
    f32_toInt (f32_ofInt t) = t ∧ f32_isZero (f32_ofInt t) = false ∧
    f32_ofInt t < 4294967296 ∧ f32_isNaN (f32_ofInt t) = false := by
  have ha1 : 1 ≤ t.natAbs := by omega
  have ha2 : t.natAbs ≤ 4096 := by omega
  obtain ⟨k1, k2⟩ := ilog2_spec 64 t.natAbs ha1 (by
    have : (4096 : Nat) < 2 ^ 64 := by norm_num
    omega)
  have hk : ilog2 64 t.natAbs ≤ 12 := by
    by_contra hc
    have : 2 ^ 13 ≤ 2 ^ ilog2 64 t.natAbs := Nat.pow_le_pow_right (by norm_num) (by omega)
    omega
  have hp : f32_ofInt t = (if t < 0 then 1 else 0) * 2147483648
      + (127 + ilog2 64 t.natAbs) * 8388608
      + (t.natAbs * 2 ^ (23 - ilog2 64 t.natAbs) - 8388608) := by
    simp only [f32_ofInt, h0, if_false]
    rw [if_pos (by omega)]
  generalize ilog2 64 t.natAbs = k at k1 k2 hk hp
  have hq : 2 ^ k * 2 ^ (23 - k) = 8388608 := by
    rw [← pow_add]
    have : k + (23 - k) = 23 := by omega
    rw [this]; norm_num
  have hqpos : 0 < 2 ^ (23 - k) := by positivity
  have hlo2 : 8388608 ≤ t.natAbs * 2 ^ (23 - k) := by
    rw [← hq]; exact Nat.mul_le_mul_right _ k1
  have hhi2 : t.natAbs * 2 ^ (23 - k) < 16777216 := by
    have : 2 ^ (k + 1) * 2 ^ (23 - k) = 16777216 := by
      rw [← pow_add]
      have : k + 1 + (23 - k) = 24 := by omega
      rw [this]; norm_num
    rw [← this]
    exact Nat.mul_lt_mul_of_pos_right k2 hqpos
  generalize hmm : t.natAbs * 2 ^ (23 - k) - 8388608 = mm at hp
  have hmlt : mm < 8388608 := by omega
  have hsig : 8388608 + mm = t.natAbs * 2 ^ (23 - k) := by omega
  have hslt : (if t < 0 then (1 : Nat) else 0) < 2 := by split <;> omega
  obtain ⟨f1, f2, f3, f4, f5⟩ := f32_fields (if t < 0 then 1 else 0) (127 + k) mm hslt
    (by omega) hmlt
  rw [hp]
  refine ⟨?_, ?_, f5, ?_⟩
  · simp only [f32_toInt, f1, f2, f3]
    have e1 : ¬ (127 + k = 255) := by omega
    have e2 : ¬ (127 + k = 0) := by omega
    have e3 : ¬ (127 + k ≥ 150) := by omega
    have e4 : 150 - (127 + k) = 23 - k := by omega
    simp only [e1, e2, e3, if_false, hsig, e4, Nat.mul_div_cancel _ hqpos]
    by_cases ht : t < 0
    · simp only [ht, if_true]
      simp only [show ¬ ((1 : Nat) = 0) from by norm_num, if_false]
      rw [if_pos (by omega)]
      omega
    · simp only [ht, if_false, if_true]
      rw [if_pos (by omega)]
      omega
  · simp only [f32_isZero, f4]
    simp
  · simp only [f32_isNaN, f2]
    simp
    omega

/-- A non-zero integer in the biased range passes the test of the writers
for the short encoding. -/
theorem smallInt_fits (t : Int) (h0 : t ≠ 0) (hlo : -4096 ≤ t) (hhi : t ≤ 4095) :
    floatFitsInt (f32_ofInt t) (f32_toInt (f32_ofInt t)) = true := by
  obtain ⟨a1, a2, a3, a4⟩ := smallInt_float t h0 hlo (by omega)
  rw [a1]
  simp only [floatFitsInt, f32_eq, a4, a2, FLOAT_INT_BIAS, FLOAT_INT_BITS]
  simp
  constructor <;> omega

/-- A pattern that passes the test for the short encoding and is not a zero
is the `float` of an integer in the biased range. -/
theorem fits_is_smallInt (p : Nat) (hp : p < 4294967296) (hz : f32_isZero p = false)
    (hfit : floatFitsInt p (f32_toInt p) = true) :
    ∃ t : Int, -4096 ≤ t ∧ t ≤ 4095 ∧ p = f32_ofInt t := by
  have hf := hfit
  simp only [floatFitsInt, Bool.and_eq_true, decide_eq_true_eq, FLOAT_INT_BIAS,
    FLOAT_INT_BITS] at hf
  obtain ⟨⟨he, hlo⟩, hhi⟩ := hf
  have hpat := f32_eq_pattern _ _ he hz
  have ht0 : f32_toInt p ≠ 0 := by
    intro h
    rw [h] at hpat
    have : f32_ofInt 0 = 0 := rfl
    rw [this] at hpat
    unfold f32_isZero at hz
    simp at hz
    omega
  have hlo' : -4096 ≤ f32_toInt p := by
    have : ((1 <<< (13 - 1) : Nat) : Int) = 4096 := by decide
    omega
  have hhi' : f32_toInt p ≤ 4095 := by
    have : ((1 <<< (13 - 1) : Nat) : Int) = 4096 := by decide
    have : ((1 <<< 13 : Nat) : Int) = 8192 := by decide
    omega
  obtain ⟨_, _, a3, _⟩ := smallInt_float (f32_toInt p) ht0 hlo' (by omega)
  refine ⟨f32_toInt p, hlo', hhi', ?_⟩
  rw [Nat.mod_eq_of_lt a3, Nat.mod_eq_of_lt hp] at hpat
  exact hpat.symm

/-! ## The player-state codec -/

theorem toI16_small (c : Int) (h0 : -32768 ≤ c) (h1 : c < 32768) : toI16 c = c := by
  unfold toI16; omega

theorem toI16_mod (c : Int) : toI16 c % 2 ^ 16 = c % 2 ^ 16 := by
  unfold toI16
  norm_num
  split <;> omega

theorem u16_cast (c : Int) : ((toU32 c % 2 ^ 16 : Nat) : Int) = c % 65536 := by
  rw [toU32_mod_pow c 16 (by norm_num), Int.toNat_of_nonneg (Int.emod_nonneg c (by norm_num))]
  norm_num

/-- `MSG_ReadShort` after `MSG_WriteShort`: the value is cast to `short`. -/
theorem short_codec {H : huffman_t} {Inv : (Nat → Nat) → Nat → Prop} (L : HuffLaws H Inv)
    (c : Int) :
    Codec H Inv (fun m => MSG_WriteShort H m c) (fun rm => MSG_ReadShort H rm) (toI16 c) := by
  refine (codec_unsigned L c 16 (by norm_num) (by norm_num)).post ?_
  intro rm rm1 h hrc
  have hn : ¬ rm1.readcount > rm1.cursize := not_lt.mpr hrc
  have hlt : toU32 c % 2 ^ 16 < 2147483648 :=
    lt_of_lt_of_le (Nat.mod_lt _ (by norm_num)) (by norm_num)
  have hv : toI16 (toI32 (toU32 c % 2 ^ 16)) = toI16 c := by
    rw [toI32_small _ hlt, u16_cast]
    unfold toI16; omega
  have h' : MSG_ReadBits H rm 16 = .ok (toI32 (toU32 c % 2 ^ 16), rm1) := h
  have hv2 : toI16 (toI32 (toU32 c % 65536)) = toI16 c := by simpa using hv
  simp [MSG_ReadShort, h', bind, Except.bind, hn, pure, Except.pure, hv2]

/-- `MSG_ReadLong` after `MSG_WriteLong`. -/
theorem long_codec {H : huffman_t} {Inv : (Nat → Nat) → Nat → Prop} (L : HuffLaws H Inv)
    (c : Int) (hc : isInt32 c) :
    Codec H Inv (fun m => MSG_WriteLong H m c) (fun rm => MSG_ReadLong H rm) c := by
  refine (codec_long L c hc.1 hc.2).post ?_
  intro rm rm1 h hrc
  have hn : ¬ rm1.readcount > rm1.cursize := not_lt.mpr hrc
  have h' : MSG_ReadBits H rm 32 = .ok (c, rm1) := h
  simp [MSG_ReadLong, h', bind, Except.bind, hn, pure, Except.pure]

theorem signExtend_true (p w hi : Nat) (hw : 1 ≤ w) (hw31 : w < 32) (hp : p < 2 ^ w)
    (hx : 4294967295 ^^^ ((1 <<< w) - 1) = 2 ^ w * hi)
    (hhi : 2 ^ w * hi + 2 ^ w = 4294967296) :
    signExtend true p w = if p < 2 ^ (w - 1) then (p : Int) else (p : Int) - 2 ^ w := by
  have h2 : 2 ^ w = 2 * 2 ^ (w - 1) := by
    conv_lhs => rw [show w = (w - 1) + 1 by omega]
    rw [pow_succ]; ring
  have hpos : 0 < 2 ^ (w - 1) := Nat.two_pow_pos _
  have hbit : p &&& (1 <<< (w - 1)) ≠ 0 ↔ ¬ p < 2 ^ (w - 1) := by
    rw [Nat.one_shiftLeft, Nat.and_two_pow, Nat.toNat_testBit]
    have hd : p / 2 ^ (w - 1) < 2 := by
      rw [Nat.div_lt_iff_lt_mul hpos]; omega
    constructor
    · intro h hlt
      rw [Nat.div_eq_of_lt hlt] at h
      simp at h
    · intro h
      have h1 : 1 ≤ p / 2 ^ (w - 1) := by
        rw [Nat.le_div_iff_mul_le hpos]; omega
      have h3 : p / 2 ^ (w - 1) = 1 := by omega
      rw [h3]; simp
  unfold signExtend
  have hc : (true = true ∧ w > 0 ∧ w < 32) := ⟨rfl, hw, hw31⟩
  rw [if_pos hc]
  by_cases hlt : p < 2 ^ (w - 1)
  · have hb : ¬ (p &&& (1 <<< (w - 1)) ≠ 0) := fun h => (hbit.mp h) hlt
    rw [if_neg hb, if_pos hlt]
    apply toI32_small
    have : 2 ^ w ≤ 2147483648 := by
      have : 2 ^ w ≤ 2 ^ 31 := Nat.pow_le_pow_right (by norm_num) (by omega)
      simpa using this
    omega
  · have hb : p &&& (1 <<< (w - 1)) ≠ 0 := hbit.mpr hlt
    rw [if_pos hb, if_neg hlt]
    have hor : p ||| (0xffffffff ^^^ ((1 <<< w) - 1)) = 2 ^ w * hi + p := by
      rw [show (0xffffffff : Nat) = 4294967295 by norm_num, hx, Nat.lor_comm]
      exact (Nat.mul_add_lt_is_or hp hi).symm
    rw [hor]
    unfold toI32
    have hm : (2 ^ w * hi + p) % 4294967296 = 2 ^ w * hi + p := by
      apply Nat.mod_eq_of_lt; omega
    have hge : ¬ (2 ^ w * hi + p < 2147483648) := by
      have : 2 ^ w ≤ 2147483648 := by
        have : 2 ^ w ≤ 2 ^ 31 := Nat.pow_le_pow_right (by norm_num) (by omega)
        simpa using this
      omega
    rw [hm, if_neg hge]
    have : ((2 ^ w * hi + 2 ^ w : Nat) : Int) = 4294967296 := by rw [hhi]; rfl
    push_cast at this ⊢
    omega

/-- A value in the range of a signed `w`-bit integer, `w` being 8 or 16, is
read back by `MSG_ReadBits(-w)` after `MSG_WriteBits(v, -w)`. -/
theorem codec_signed {H : huffman_t} {Inv : (Nat → Nat) → Nat → Prop} (L : HuffLaws H Inv)
    (v : Int) (w : Nat) (hw : w = 8 ∨ w = 16)
    (h0 : -(2 ^ (w - 1)) ≤ v) (h1 : v < 2 ^ (w - 1)) :
    Codec H Inv (fun m => MSG_WriteBits H m v (-(w : Int)))
      (fun rm => MSG_ReadBits H rm (-(w : Int))) v := by
  have hw1 : 1 ≤ w := by omega
  have hw31 : w ≤ 31 := by omega
  have h := writeBits_codec L v w (-(w : Int)) (-(w : Int)) hw1 (by omega)
    (Or.inr ⟨rfl, hw31⟩) (Or.inr rfl)
  have hs : decide (-(w : Int) < 0) = true := by simp; omega
  have h8 : w - w % 8 = w := by omega
  rw [hs, h8] at h
  have hval : signExtend true (toU32 v % 2 ^ w) w = v := by
    have hp : toU32 v % 2 ^ w < 2 ^ w := Nat.mod_lt _ (Nat.two_pow_pos _)
    have hcast : ((toU32 v % 2 ^ w : Nat) : Int) = v % 2 ^ w := by
      rw [toU32_mod_pow v w (by omega),
        Int.toNat_of_nonneg (Int.emod_nonneg v (by positivity))]
    rcases hw with rfl | rfl
    · rw [signExtend_true _ 8 16777215 (by norm_num) (by norm_num) hp (by decide)
        (by norm_num)]
      norm_num at h0 h1 hcast ⊢
      split <;> omega
    · rw [signExtend_true _ 16 65535 (by norm_num) (by norm_num) hp (by decide)
        (by norm_num)]
      norm_num at h0 h1 hcast ⊢
      split <;> omega
  rw [hval] at h
  exact h

/-- The `float` zero is sent by the short encoding and read back as zero. -/
theorem truncFloat_zero_codec {H : huffman_t} {Inv : (Nat → Nat) → Nat → Prop}
    (L : HuffLaws H Inv) :
    Codec H Inv (fun m => writeTruncFloat H m 0) (fun rm => readTruncFloat H rm) 0 := by
  have hfit : floatFitsInt (toU32 0) (f32_toInt (toU32 0)) = true := by decide
  have ht : f32_toInt (toU32 0) = 0 := by decide
  have hfit2 : floatFitsInt (toU32 0) 0 = true := by decide
  have hval : toI32 (f32_ofInt 0) = 0 := by decide
  have cv := codec_fits L (0 + FLOAT_INT_BIAS) FLOAT_INT_BITS
    (by decide) (by decide) (by decide) (by decide)
  refine Codec.bind (codec_bit0 L)
    (Codec.bind cv (Codec.pure H Inv (0 : Int)) (fun m => (except_bind_ok _).symm)
      (r := fun rm => MSG_ReadBits H rm FLOAT_INT_BITS >>= fun p =>
        (Except.ok (toI32 (f32_ofInt (p.1 - FLOAT_INT_BIAS)), p.2) :
          Except ComError (Int × msg_t)))
      (fun rm rm1 h => by simp [h, bind, Except.bind, hval])) ?_ ?_
  · intro m; simp [writeTruncFloat, hfit2, ht]
  · intro rm rm1 h
    simp [readTruncFloat, h, bind, Except.bind, pure, Except.pure]

theorem playerStateFields_length (K : constants_t) : (playerStateFields K).length = 77 := rfl

theorem playerStateFields_bits (K : constants_t) (hK : constantsOK K) :
    ∀ f ∈ playerStateFields K, (0 ≤ f.bits ∧ f.bits ≤ 32) ∨ f.bits = -8 ∨ f.bits = -16 := by
  obtain ⟨g1, g2, _, a1, a2, c1, c2, _⟩ := hK
  unfold CLIENTNUM_BITS at c1 c2
  simp only [playerStateFields, List.forall_mem_cons, List.not_mem_nil, false_implies,
    implies_true, and_true]
  and_intros <;> first | omega | simp

/-- One field of the player-state codec: the reader reconstructs the cell of
`to`. -/
theorem playerField_codec {H : huffman_t} {Inv : (Nat → Nat) → Nat → Prop}
    (L : HuffLaws H Inv) (field : netField_t) (fromF toF : Int)
    (hbits : (0 ≤ field.bits ∧ field.bits ≤ 32) ∨ field.bits = -8 ∨ field.bits = -16)
    (hfit : fromF ≠ toF → playerFieldFits field toF) :
    Codec H Inv (fun m => writePlayerField H m field fromF toF)
      (fun rm => readPlayerField H rm field fromF) toF := by
  by_cases hsame : fromF = toF
  · refine Codec.bind (codec_bit0 L) (Codec.pure H Inv toF) ?_ ?_
    · intro m; simp [writePlayerField, hsame, except_bind_ok]
    · intro rm rm1 h
      simp [readPlayerField, h, hsame, bind, Except.bind, pure, Except.pure]
  obtain ⟨hint, hfit2⟩ := hfit hsame
  by_cases hfl : field.bits = 0
  · rw [if_pos hfl] at hfit2
    have cf : Codec H Inv (fun m => writeTruncFloat H m toF) (fun rm => readTruncFloat H rm)
        toF := by
      by_cases hz : f32_isZero (toU32 toF) = true
      · rw [zero_float_cell toF hint hz hfit2]
        exact truncFloat_zero_codec L
      · exact truncFloat_codec L toF hint (by simpa using hz)
    refine Codec.bind (codec_bit1 L) cf ?_ ?_
    · intro m; simp [writePlayerField, hsame, hfl]
    · intro rm rm1 h
      simp [readPlayerField, h, hfl, bind, Except.bind]
  · rw [if_neg hfl] at hfit2
    have cv : Codec H Inv (fun m => MSG_WriteBits H m toF field.bits)
        (fun rm => MSG_ReadBits H rm field.bits) toF := by
      rcases hbits with ⟨b0, b32⟩ | b8 | b16
      · have hpos : 0 < field.bits := by omega
        rw [if_pos hpos] at hfit2
        have hbn : ((field.bits.toNat : Nat) : Int) = field.bits :=
          Int.toNat_of_nonneg (by omega)
        by_cases h32 : field.bits = 32
        · rw [h32]; exact codec_long L toF hint.1 hint.2
        · obtain ⟨f0, f1⟩ := hfit2 (by omega)
          have := codec_fits L toF field.bits.toNat (by omega) (by omega) f0 f1
          rw [hbn] at this
          exact this
      · rw [b8] at hfit2 ⊢
        have := codec_signed L toF 8 (Or.inl rfl) (by simpa using hfit2.1)
          (by simpa using hfit2.2)
        simpa using this
      · rw [b16] at hfit2 ⊢
        have := codec_signed L toF 16 (Or.inr rfl) (by simpa using hfit2.1)
          (by simpa using hfit2.2)
        simpa using this
    refine Codec.bind (codec_bit1 L) cv ?_ ?_
    · intro m; simp [writePlayerField, hsame, hfl]
    · intro rm rm1 h
      simp [readPlayerField, h, hfl, bind, Except.bind]

/-! ## The arrays of a player state -/

theorem changeMask_succ (fromA toA : Nat → Int) (base n : Nat) :
    changeMask fromA toA base (n + 1) =
      if toA (base + n) ≠ fromA (base + n) then changeMask fromA toA base n ||| (1 <<< n)
      else changeMask fromA toA base n := by
  unfold changeMask
  rw [List.range_succ, List.foldl_append]
  rfl

theorem changeMask_testBit (fromA toA : Nat → Int) (base : Nat) :
    ∀ n i, (changeMask fromA toA base n).testBit i = true ↔
      (i < n ∧ toA (base + i) ≠ fromA (base + i)) := by
  intro n
  induction n with
  | zero =>
    intro i
    simp [changeMask]
  | succ n ih =>
    intro i
    rw [changeMask_succ]
    by_cases hd : toA (base + n) ≠ fromA (base + n)
    · rw [if_pos hd, Nat.testBit_lor, Nat.one_shiftLeft, Nat.testBit_two_pow,
        Bool.or_eq_true, ih, decide_eq_true_eq]
      constructor
      · rintro (⟨h1, h2⟩ | h)
        · exact ⟨by omega, h2⟩
        · subst h; exact ⟨by omega, hd⟩
      · rintro ⟨h1, h2⟩
        by_cases hi : n = i
        · exact Or.inr hi
        · exact Or.inl ⟨by omega, h2⟩
    · rw [if_neg hd, ih]
      constructor
      · rintro ⟨h1, h2⟩; exact ⟨by omega, h2⟩
      · rintro ⟨h1, h2⟩
        have : i ≠ n := fun h => hd (h ▸ h2)
        exact ⟨by omega, h2⟩

theorem changeMask_eq_zero (fromA toA : Nat → Int) (base n : Nat)
    (h : changeMask fromA toA base n = 0) :
    ∀ i, i < n → toA (base + i) = fromA (base + i) := by
  intro i hi
  by_contra hne
  have := (changeMask_testBit fromA toA base n i).mpr ⟨hi, hne⟩
  rw [h] at this
  simp at this

theorem maskBit_testBit (mask i : Nat) : mask &&& (1 <<< i) ≠ 0 ↔ mask.testBit i = true := by
  rw [Nat.one_shiftLeft, Nat.and_two_pow]
  have hpos : 0 < 2 ^ i := Nat.two_pow_pos i
  cases mask.testBit i
  · simp
  · simp

theorem intTestBit_toI16 (mask i : Nat) (hi : i < 16) :
    intTestBit (toI16 mask) i = true ↔ mask &&& (1 <<< i) ≠ 0 := by
  rw [maskBit_testBit, Nat.testBit_to_div_mod]
  unfold intTestBit
  simp only [decide_eq_true_eq]
  have h := window_congr (toI16 mask) mask 16 i 1 (toI16_mod mask) (by omega)
  rw [pow_one] at h
  rw [h]
  constructor <;> intro h2 <;> exact_mod_cast h2

theorem patchArray_zero (toA : Nat → Int) (base : Nat) :
    ∀ (idxs : List Nat) (arr : Nat → Int), patchArray toA 0 base idxs arr = arr := by
  intro idxs
  induction idxs with
  | nil => intro arr; rfl
  | cons i rest ih => intro arr; simp [patchArray, ih]

theorem patchArray_other (toA : Nat → Int) (mask base : Nat) :
    ∀ (idxs : List Nat) (arr : Nat → Int) (k : Nat),
      (∀ i ∈ idxs, mask &&& (1 <<< i) ≠ 0 → base + i ≠ k) →
      patchArray toA mask base idxs arr k = arr k := by
  intro idxs
  induction idxs with
  | nil => intro arr k _; rfl
  | cons i rest ih =>
    intro arr k h
    unfold patchArray
    rw [ih _ k (fun j hj => h j (List.mem_cons_of_mem _ hj))]
    by_cases hb : mask &&& (1 <<< i) ≠ 0
    · rw [if_pos hb]
      exact Function.update_noteq (Ne.symm (h i (List.mem_cons_self _ _) hb)) _ _
    · rw [if_neg hb]

theorem patchArray_mem (toA : Nat → Int) (mask base : Nat) :
    ∀ (idxs : List Nat) (arr : Nat → Int) (k : Nat),
      (∃ i ∈ idxs, mask &&& (1 <<< i) ≠ 0 ∧ base + i = k) →
      patchArray toA mask base idxs arr k = toA k := by
  intro idxs
  induction idxs with
  | nil => intro arr k h; obtain ⟨i, hi, _⟩ := h; cases hi
  | cons i rest ih =>
    intro arr k h
    unfold patchArray
    by_cases hrest : ∃ j ∈ rest, mask &&& (1 <<< j) ≠ 0 ∧ base + j = k
    · exact ih _ k hrest
    · have hno : ∀ j ∈ rest, mask &&& (1 <<< j) ≠ 0 → base + j ≠ k :=
        fun j hj hb he => hrest ⟨j, hj, hb, he⟩
      rw [patchArray_other toA mask base rest _ k hno]
      obtain ⟨j, hj, hb, he⟩ := h
      rcases List.mem_cons.mp hj with rfl | hj2
      · rw [if_pos hb, ← he]
        exact Function.update_same _ _ _
      · exact absurd he (hno j hj2 hb)

/-- What a block of the reader leaves in the array when the mask is the one
the writer computed: the entries of the block are those of `to`, the others
are kept. -/
theorem patchArray_block (fromA toA arr : Nat → Int) (base n : Nat)
    (harr : ∀ i, i < n → arr (base + i) = fromA (base + i)) :
    (∀ i, i < n → patchArray toA (changeMask fromA toA base n) base (List.range n) arr
        (base + i) = toA (base + i)) ∧
    (∀ k, (∀ i, i < n → base + i ≠ k) →
      patchArray toA (changeMask fromA toA base n) base (List.range n) arr k = arr k) := by
  constructor
  · intro i hi
    by_cases hd : toA (base + i) ≠ fromA (base + i)
    · apply patchArray_mem
      exact ⟨i, List.mem_range.mpr hi,
        (maskBit_testBit _ _).mpr ((changeMask_testBit fromA toA base n i).mpr ⟨hi, hd⟩), rfl⟩
    · rw [patchArray_other, harr i hi]
      · exact (not_not.mp hd).symm
      · intro j _ hb he
        have := (changeMask_testBit fromA toA base n j).mp ((maskBit_testBit _ _).mp hb)
        have hji : j = i := by omega
        exact hd (hji ▸ this.2)
  · intro k hk
    apply patchArray_other
    intro j hj _
    exact hk j (List.mem_range.mp hj)

theorem arrayValues_codec {H : huffman_t} {Inv : (Nat → Nat) → Nat → Prop}
    (write : msg_t → Int → Except ComError msg_t)
    (read : msg_t → Except ComError (Int × msg_t))
    (mask : Nat) (bitsR : Int) (toA : Nat → Int) (base : Nat) :
    ∀ (idxs : List Nat) (arr0 : Nat → Int),
      (∀ i ∈ idxs, mask &&& (1 <<< i) ≠ 0 →
        Codec H Inv (fun m => write m (toA (base + i))) read (toA (base + i))) →
      (∀ i ∈ idxs, intTestBit bitsR i = true ↔ mask &&& (1 <<< i) ≠ 0) →
      Codec H Inv (fun m => writeArrayValues write mask toA base idxs m)
        (fun rm => readArrayValues read bitsR base idxs arr0 rm)
        (patchArray toA mask base idxs arr0) := by
  intro idxs
  induction idxs with
  | nil =>
    intro arr0 _ _
    exact Codec.pure H Inv arr0
  | cons i rest ih =>
    intro arr0 hc hb
    have hbi := hb i (List.mem_cons_self _ _)
    by_cases hbit : mask &&& (1 <<< i) ≠ 0
    · have hr : intTestBit bitsR i = true := hbi.mpr hbit
      have c2 := ih (Function.update arr0 (base + i) (toA (base + i)))
        (fun j hj => hc j (List.mem_cons_of_mem _ hj))
        (fun j hj => hb j (List.mem_cons_of_mem _ hj))
      have c := Codec.bind (hc i (List.mem_cons_self _ _) hbit) c2
        (w := fun m => writeArrayValues write mask toA base (i :: rest) m)
        (r := fun rm => readArrayValues read bitsR base (i :: rest) arr0 rm)
        (fun m => by simp [writeArrayValues, hbit])
        (fun rm rm1 h => by simp [readArrayValues, hr, h, bind, Except.bind])
      refine c.congr (fun m => rfl) (fun rm => rfl) ?_
      simp [patchArray, hbit]
    · have hr : ¬ intTestBit bitsR i = true := fun h => hbit (hbi.mp h)
      have c2 := ih arr0 (fun j hj => hc j (List.mem_cons_of_mem _ hj))
        (fun j hj => hb j (List.mem_cons_of_mem _ hj))
      refine c2.congr (fun m => ?_) (fun rm => ?_) ?_
      · simp [writeArrayValues, hbit]
      · simp [readArrayValues, hr]
      · simp [patchArray, hbit]

/-- One array block: the reader leaves `patchArray` of the mask the writer
computed. -/
theorem arrayBlock_codec {H : huffman_t} {Inv : (Nat → Nat) → Nat → Prop}
    (L : HuffLaws H Inv)
    (write : msg_t → Int → Except ComError msg_t)
    (read : msg_t → Except ComError (Int × msg_t))
    (fromA toA arr0 : Nat → Int) (base n : Nat) (hn : n ≤ 16)
    (hval : ∀ i, i < n → toA (base + i) ≠ fromA (base + i) →
      Codec H Inv (fun m => write m (toA (base + i))) read (toA (base + i))) :
    Codec H Inv
      (fun m => writeArrayBlock H write m (changeMask fromA toA base n) toA base n)
      (fun rm => readArrayBlock H read rm arr0 base n)
      (patchArray toA (changeMask fromA toA base n) base (List.range n) arr0) := by
  have hmask : ∀ i, changeMask fromA toA base n &&& (1 <<< i) ≠ 0 →
      i < n ∧ toA (base + i) ≠ fromA (base + i) :=
    fun i hb => (changeMask_testBit fromA toA base n i).mp ((maskBit_testBit _ _).mp hb)
  generalize changeMask fromA toA base n = mask at hmask
  by_cases h0 : mask = 0
  · subst h0
    rw [patchArray_zero]
    refine Codec.bind (codec_bit0 L) (Codec.pure H Inv arr0) ?_ ?_
    · intro m; simp [writeArrayBlock, except_bind_ok]
    · intro rm rm1 h
      simp [readArrayBlock, h, bind, Except.bind, pure, Except.pure]
  · have cV := @arrayValues_codec H Inv write read mask (toI16 mask) toA base
      (List.range n) arr0
      (fun i hi hb => hval i (List.mem_range.mp hi) (hmask i hb).2)
      (fun i hi => intTestBit_toI16 mask i (by have := List.mem_range.mp hi; omega))
    have cS := Codec.bind (short_codec L (mask : Int)) cV
      (w := fun m => MSG_WriteShort H m mask >>= fun m =>
        writeArrayValues write mask toA base (List.range n) m)
      (r := fun rm => do
        let (bits, msg) ← MSG_ReadShort H rm
        readArrayValues read bits base (List.range n) arr0 msg)
      (fun m => rfl) (fun rm rm1 h => by simp [h, bind, Except.bind])
    refine Codec.bind (codec_bit1 L) cS ?_ ?_
    · intro m; simp [writeArrayBlock, h0]
    · intro rm rm1 h
      simp [readArrayBlock, h, bind, Except.bind]

/-! ## The groups of arrays and the whole player state -/

theorem shortValue_codec {H : huffman_t} {Inv : (Nat → Nat) → Nat → Prop} (L : HuffLaws H Inv)
    (c : Int) (hc : isInt16 c) :
    Codec H Inv (fun m => MSG_WriteShort H m c) (MSG_ReadShort H) c :=
  (short_codec L c).congr (fun _ => rfl) (fun _ => rfl) (toI16_small c hc.1 hc.2).symm

theorem longValue_codec {H : huffman_t} {Inv : (Nat → Nat) → Nat → Prop} (L : HuffLaws H Inv)
    (c : Int) (hc : isInt32 c) :
    Codec H Inv (fun m => MSG_WriteLong H m c) (MSG_ReadLong H) c :=
  long_codec L c hc

/-- A block of `short` entries. -/
theorem shortBlock_codec {H : huffman_t} {Inv : (Nat → Nat) → Nat → Prop}
    (L : HuffLaws H Inv) (fromA toA arr0 : Nat → Int) (base n : Nat) (hn : n ≤ 16)
    (hfit : ∀ i, i < n → toA (base + i) ≠ fromA (base + i) → isInt16 (toA (base + i))) :
    Codec H Inv
      (fun m => writeArrayBlock H (MSG_WriteShort H) m (changeMask fromA toA base n) toA base n)
      (fun rm => readArrayBlock H (MSG_ReadShort H) rm arr0 base n)
      (patchBlock fromA toA base n arr0) :=
  arrayBlock_codec L (MSG_WriteShort H) (MSG_ReadShort H) fromA toA arr0 base n hn
    (fun i hi hd => shortValue_codec L _ (hfit i hi hd))

/-- A block of `int` entries. -/
theorem longBlock_codec {H : huffman_t} {Inv : (Nat → Nat) → Nat → Prop}
    (L : HuffLaws H Inv) (fromA toA arr0 : Nat → Int) (base n : Nat) (hn : n ≤ 16)
    (hfit : ∀ i, i < n → toA (base + i) ≠ fromA (base + i) → isInt32 (toA (base + i))) :
    Codec H Inv
      (fun m => writeArrayBlock H (MSG_WriteLong H) m (changeMask fromA toA base n) toA base n)
      (fun rm => readArrayBlock H (MSG_ReadLong H) rm arr0 base n)
      (patchBlock fromA toA base n arr0) :=
  arrayBlock_codec L (MSG_WriteLong H) (MSG_ReadLong H) fromA toA arr0 base n hn
    (fun i hi hd => longValue_codec L _ (hfit i hi hd))

theorem patchBlock_zero (fromA toA arr : Nat → Int) (base n : Nat)
    (h : changeMask fromA toA base n = 0) : patchBlock fromA toA base n arr = arr := by
  unfold patchBlock; rw [h, patchArray_zero]

/-- The group of `stats`, `persistant`, `holdable` and `powerups`. -/
theorem statsGroup_codec {H : huffman_t} {Inv : (Nat → Nat) → Nat → Prop}
    (L : HuffLaws H Inv) (K : constants_t) (hK : constantsOK K) (f t st : playerState_t)
    (hs : ∀ i, i < K.MAX_STATS → t.stats (0 + i) ≠ f.stats (0 + i) → isInt16 (t.stats (0 + i)))
    (hp : ∀ i, i < K.MAX_PERSISTANT → t.persistant (0 + i) ≠ f.persistant (0 + i) →
      isInt16 (t.persistant (0 + i)))
    (hh : ∀ i, i < K.MAX_HOLDABLE → t.holdable (0 + i) ≠ f.holdable (0 + i) →
      isInt16 (t.holdable (0 + i)))
    (hw : ∀ i, i < K.MAX_POWERUPS → t.powerups (0 + i) ≠ f.powerups (0 + i) →
      isInt32 (t.powerups (0 + i))) :
    Codec H Inv (fun m => writeStatsGroup H K m f t) (fun rm => readStatsGroup H K rm st)
      (patchStats K f t st) := by
  obtain ⟨_, _, _, _, _, _, _, k1, k2, k3, k4⟩ := hK
  have c1 := shortBlock_codec L f.stats t.stats st.stats 0 K.MAX_STATS k1 hs
  have c2 := shortBlock_codec L f.persistant t.persistant st.persistant 0 K.MAX_PERSISTANT k2 hp
  have c3 := shortBlock_codec L f.holdable t.holdable st.holdable 0 K.MAX_HOLDABLE k3 hh
  have c4 := longBlock_codec L f.powerups t.powerups st.powerups 0 K.MAX_POWERUPS k4 hw
  by_cases hany : changeMask f.stats t.stats 0 K.MAX_STATS ≠ 0 ∨
      changeMask f.persistant t.persistant 0 K.MAX_PERSISTANT ≠ 0 ∨
      changeMask f.holdable t.holdable 0 K.MAX_HOLDABLE ≠ 0 ∨
      changeMask f.powerups t.powerups 0 K.MAX_POWERUPS ≠ 0
  · have d4 := c4.post
      (q := fun rm => do
        let (powerups, msg) ← readArrayBlock H (MSG_ReadLong H) rm st.powerups 0 K.MAX_POWERUPS
        pure (({ st with
          stats := patchBlock f.stats t.stats 0 K.MAX_STATS st.stats,
          persistant := patchBlock f.persistant t.persistant 0 K.MAX_PERSISTANT st.persistant,
          holdable := patchBlock f.holdable t.holdable 0 K.MAX_HOLDABLE st.holdable,
          powerups := powerups } : playerState_t), msg))
      (b := patchStats K f t st)
      (fun rm rm1 h _ => by simp [h, bind, Except.bind, pure, Except.pure, patchStats])
    have d3 := Codec.bind c3 d4
      (w := fun m => writeArrayBlock H (MSG_WriteShort H) m
          (changeMask f.holdable t.holdable 0 K.MAX_HOLDABLE) t.holdable 0 K.MAX_HOLDABLE
        >>= fun m => writeArrayBlock H (MSG_WriteLong H) m
          (changeMask f.powerups t.powerups 0 K.MAX_POWERUPS) t.powerups 0 K.MAX_POWERUPS)
      (r := fun rm => do
        let (holdable, msg) ← readArrayBlock H (MSG_ReadShort H) rm st.holdable 0
          K.MAX_HOLDABLE
        let (powerups, msg) ← readArrayBlock H (MSG_ReadLong H) msg st.powerups 0
          K.MAX_POWERUPS
        pure (({ st with
          stats := patchBlock f.stats t.stats 0 K.MAX_STATS st.stats,
          persistant := patchBlock f.persistant t.persistant 0 K.MAX_PERSISTANT st.persistant,
          holdable := holdable,
          powerups := powerups } : playerState_t), msg))
      (fun m => rfl) (fun rm rm1 h => by simp [h, bind, Except.bind])
    have d2 := Codec.bind c2 d3
      (w := fun m => writeArrayBlock H (MSG_WriteShort H) m
          (changeMask f.persistant t.persistant 0 K.MAX_PERSISTANT) t.persistant 0
          K.MAX_PERSISTANT
        >>= fun m => writeArrayBlock H (MSG_WriteShort H) m
          (changeMask f.holdable t.holdable 0 K.MAX_HOLDABLE) t.holdable 0 K.MAX_HOLDABLE
        >>= fun m => writeArrayBlock H (MSG_WriteLong H) m
          (changeMask f.powerups t.powerups 0 K.MAX_POWERUPS) t.powerups 0 K.MAX_POWERUPS)
      (r := fun rm => do
        let (persistant, msg) ← readArrayBlock H (MSG_ReadShort H) rm st.persistant 0
          K.MAX_PERSISTANT
        let (holdable, msg) ← readArrayBlock H (MSG_ReadShort H) msg st.holdable 0
          K.MAX_HOLDABLE
        let (powerups, msg) ← readArrayBlock H (MSG_ReadLong H) msg st.powerups 0
          K.MAX_POWERUPS
        pure (({ st with
          stats := patchBlock f.stats t.stats 0 K.MAX_STATS st.stats,
          persistant := persistant,
          holdable := holdable,
          powerups := powerups } : playerState_t), msg))
      (fun m => rfl) (fun rm rm1 h => by simp [h, bind, Except.bind])
    have d1 := Codec.bind c1 d2
      (w := fun m => writeArrayBlock H (MSG_WriteShort H) m
          (changeMask f.stats t.stats 0 K.MAX_STATS) t.stats 0 K.MAX_STATS
        >>= fun m => writeArrayBlock H (MSG_WriteShort H) m
          (changeMask f.persistant t.persistant 0 K.MAX_PERSISTANT) t.persistant 0
          K.MAX_PERSISTANT
        >>= fun m => writeArrayBlock H (MSG_WriteShort H) m
          (changeMask f.holdable t.holdable 0 K.MAX_HOLDABLE) t.holdable 0 K.MAX_HOLDABLE
        >>= fun m => writeArrayBlock H (MSG_WriteLong H) m
          (changeMask f.powerups t.powerups 0 K.MAX_POWERUPS) t.powerups 0 K.MAX_POWERUPS)
      (r := fun rm => do
        let (stats, msg) ← readArrayBlock H (MSG_ReadShort H) rm st.stats 0 K.MAX_STATS
        let (persistant, msg) ← readArrayBlock H (MSG_ReadShort H) msg st.persistant 0
          K.MAX_PERSISTANT
        let (holdable, msg) ← readArrayBlock H (MSG_ReadShort H) msg st.holdable 0
          K.MAX_HOLDABLE
        let (powerups, msg) ← readArrayBlock H (MSG_ReadLong H) msg st.powerups 0
          K.MAX_POWERUPS
        pure (({ st with
          stats := stats,
          persistant := persistant,
          holdable := holdable,
          powerups := powerups } : playerState_t), msg))
      (fun m => rfl) (fun rm rm1 h => by simp [h, bind, Except.bind])
    refine Codec.bind (codec_bit1 L) d1 ?_ ?_
    · intro m
      simp only [writeStatsGroup]
      rw [if_pos hany]
    · intro rm rm1 h
      simp [readStatsGroup, h, bind, Except.bind]
  · have hz : patchStats K f t st = st := by
      have e1 : changeMask f.stats t.stats 0 K.MAX_STATS = 0 := by
        by_contra h; exact hany (Or.inl h)
      have e2 : changeMask f.persistant t.persistant 0 K.MAX_PERSISTANT = 0 := by
        by_contra h; exact hany (Or.inr (Or.inl h))
      have e3 : changeMask f.holdable t.holdable 0 K.MAX_HOLDABLE = 0 := by
        by_contra h; exact hany (Or.inr (Or.inr (Or.inl h)))
      have e4 : changeMask f.powerups t.powerups 0 K.MAX_POWERUPS = 0 := by
        by_contra h; exact hany (Or.inr (Or.inr (Or.inr h)))
      unfold patchStats
      rw [patchBlock_zero _ _ _ _ _ e1, patchBlock_zero _ _ _ _ _ e2,
        patchBlock_zero _ _ _ _ _ e3, patchBlock_zero _ _ _ _ _ e4]
    rw [hz]
    refine Codec.bind (codec_bit0 L) (Codec.pure H Inv st) ?_ ?_
    · intro m
      simp only [writeStatsGroup]
      rw [if_neg hany]
      exact (except_bind_ok _).symm
    · intro rm rm1 h
      simp [readStatsGroup, h, bind, Except.bind, pure, Except.pure]

/-- Four blocks of `short` entries over the same 64-entry array. -/
theorem fourBlocks_codec {H : huffman_t} {Inv : (Nat → Nat) → Nat → Prop}
    (L : HuffLaws H Inv) (fromA toA arr0 : Nat → Int)
    (hfit : ∀ i, i < 64 → toA i ≠ fromA i → isInt16 (toA i)) :
    Codec H Inv
      (fun m => do
        let m ← writeArrayBlock H (MSG_WriteShort H) m (changeMask fromA toA 0 16) toA 0 16
        let m ← writeArrayBlock H (MSG_WriteShort H) m (changeMask fromA toA 16 16) toA 16 16
        let m ← writeArrayBlock H (MSG_WriteShort H) m (changeMask fromA toA 32 16) toA 32 16
        writeArrayBlock H (MSG_WriteShort H) m (changeMask fromA toA 48 16) toA 48 16)
      (fun rm => do
        let (a, msg) ← readArrayBlock H (MSG_ReadShort H) rm arr0 0 16
        let (a, msg) ← readArrayBlock H (MSG_ReadShort H) msg a 16 16
        let (a, msg) ← readArrayBlock H (MSG_ReadShort H) msg a 32 16
        readArrayBlock H (MSG_ReadShort H) msg a 48 16)
      (patchBlocks fromA toA arr0) := by
  have c1 := shortBlock_codec L fromA toA arr0 0 16 (le_refl _)
    (fun i hi hd => hfit (0 + i) (by omega) hd)
  have c2 := shortBlock_codec L fromA toA (patchBlock fromA toA 0 16 arr0) 16 16 (le_refl _)
    (fun i hi hd => hfit (16 + i) (by omega) hd)
  have c3 := shortBlock_codec L fromA toA
    (patchBlock fromA toA 16 16 (patchBlock fromA toA 0 16 arr0)) 32 16 (le_refl _)
    (fun i hi hd => hfit (32 + i) (by omega) hd)
  have c4 := shortBlock_codec L fromA toA
    (patchBlock fromA toA 32 16 (patchBlock fromA toA 16 16 (patchBlock fromA toA 0 16 arr0)))
    48 16 (le_refl _) (fun i hi hd => hfit (48 + i) (by omega) hd)
  have d3 := Codec.bind c3 c4
    (w := fun m => writeArrayBlock H (MSG_WriteShort H) m (changeMask fromA toA 32 16) toA 32 16
      >>= fun m =>
        writeArrayBlock H (MSG_WriteShort H) m (changeMask fromA toA 48 16) toA 48 16)
    (r := fun rm => do
      let (a, msg) ← readArrayBlock H (MSG_ReadShort H) rm
        (patchBlock fromA toA 16 16 (patchBlock fromA toA 0 16 arr0)) 32 16
      readArrayBlock H (MSG_ReadShort H) msg a 48 16)
    (fun m => rfl) (fun rm rm1 h => by simp [h, bind, Except.bind])
  have d2 := Codec.bind c2 d3
    (w := fun m => writeArrayBlock H (MSG_WriteShort H) m (changeMask fromA toA 16 16) toA 16 16
      >>= fun m =>
        writeArrayBlock H (MSG_WriteShort H) m (changeMask fromA toA 32 16) toA 32 16
      >>= fun m =>
        writeArrayBlock H (MSG_WriteShort H) m (changeMask fromA toA 48 16) toA 48 16)
    (r := fun rm => do
      let (a, msg) ← readArrayBlock H (MSG_ReadShort H) rm (patchBlock fromA toA 0 16 arr0) 16 16
      let (a, msg) ← readArrayBlock H (MSG_ReadShort H) msg a 32 16
      readArrayBlock H (MSG_ReadShort H) msg a 48 16)
    (fun m => rfl) (fun rm rm1 h => by simp [h, bind, Except.bind])
  exact Codec.bind c1 d2 (fun m => rfl) (fun rm rm1 h => by simp [h, bind, Except.bind])

theorem patchBlocks_zero (fromA toA arr : Nat → Int)
    (h : ¬ (changeMask fromA toA (0 * 16) 16 ≠ 0 ∨ changeMask fromA toA (1 * 16) 16 ≠ 0 ∨
      changeMask fromA toA (2 * 16) 16 ≠ 0 ∨ changeMask fromA toA (3 * 16) 16 ≠ 0)) :
    patchBlocks fromA toA arr = arr := by
  have e1 : changeMask fromA toA 0 16 = 0 := by
    by_contra h1; exact h (Or.inl h1)
  have e2 : changeMask fromA toA 16 16 = 0 := by
    by_contra h1; exact h (Or.inr (Or.inl h1))
  have e3 : changeMask fromA toA 32 16 = 0 := by
    by_contra h1; exact h (Or.inr (Or.inr (Or.inl h1)))
  have e4 : changeMask fromA toA 48 16 = 0 := by
    by_contra h1; exact h (Or.inr (Or.inr (Or.inr h1)))
  unfold patchBlocks
  rw [patchBlock_zero _ _ _ _ _ e1, patchBlock_zero _ _ _ _ _ e2,
    patchBlock_zero _ _ _ _ _ e3, patchBlock_zero _ _ _ _ _ e4]

/-- The group of `ammo`. -/
theorem ammoGroup_codec {H : huffman_t} {Inv : (Nat → Nat) → Nat → Prop}
    (L : HuffLaws H Inv) (f t st : playerState_t)
    (hfit : ∀ i, i < 64 → t.ammo i ≠ f.ammo i → isInt16 (t.ammo i)) :
    Codec H Inv (fun m => writeAmmoGroup H m f t) (fun rm => readAmmoGroup H rm st)
      { st with ammo := patchBlocks f.ammo t.ammo st.ammo } := by
  by_cases hany : changeMask f.ammo t.ammo (0 * 16) 16 ≠ 0 ∨
      changeMask f.ammo t.ammo (1 * 16) 16 ≠ 0 ∨
      changeMask f.ammo t.ammo (2 * 16) 16 ≠ 0 ∨ changeMask f.ammo t.ammo (3 * 16) 16 ≠ 0
  · have c4 := (fourBlocks_codec L f.ammo t.ammo st.ammo hfit).post
      (q := fun rm => do
        let (ammo, msg) ← readArrayBlock H (MSG_ReadShort H) rm st.ammo 0 16
        let (ammo, msg) ← readArrayBlock H (MSG_ReadShort H) msg ammo 16 16
        let (ammo, msg) ← readArrayBlock H (MSG_ReadShort H) msg ammo 32 16
        let (ammo, msg) ← readArrayBlock H (MSG_ReadShort H) msg ammo 48 16
        pure (({ st with ammo := ammo } : playerState_t), msg))
      (b := { st with ammo := patchBlocks f.ammo t.ammo st.ammo })
      (fun rm rm1 h _ => by
        obtain ⟨p1, e1, h⟩ := bind_eq_ok h
        obtain ⟨p2, e2, h⟩ := bind_eq_ok h
        obtain ⟨p3, e3, h⟩ := bind_eq_ok h
        have h4 : readArrayBlock H (MSG_ReadShort H) p3.2 p3.1 48 16 =
          Except.ok (patchBlocks f.ammo t.ammo st.ammo, rm1) := h
        simp [e1, e2, e3, h4, bind, Except.bind, pure, Except.pure])
    refine Codec.bind (codec_bit1 L) c4 ?_ ?_
    · intro m
      simp only [writeAmmoGroup]
      rw [if_pos hany]
    · intro rm rm1 h
      simp [readAmmoGroup, h, bind, Except.bind]
  · rw [patchBlocks_zero _ _ _ hany]
    refine Codec.bind (codec_bit0 L) (Codec.pure H Inv st) ?_ ?_
    · intro m
      simp only [writeAmmoGroup]
      rw [if_neg hany]
      exact (except_bind_ok _).symm
    · intro rm rm1 h
      simp [readAmmoGroup, h, bind, Except.bind, pure, Except.pure]

/-- The group of `ammoclip`. -/
theorem clipGroup_codec {H : huffman_t} {Inv : (Nat → Nat) → Nat → Prop}
    (L : HuffLaws H Inv) (f t st : playerState_t)
    (hfit : ∀ i, i < 64 → t.ammoclip i ≠ f.ammoclip i → isInt16 (t.ammoclip i)) :
    Codec H Inv (fun m => writeClipGroup H m f t) (fun rm => readClipGroup H rm st)
      { st with ammoclip := patchBlocks f.ammoclip t.ammoclip st.ammoclip } := by
  refine ((fourBlocks_codec L f.ammoclip t.ammoclip st.ammoclip hfit).post
      (q := fun rm => readClipGroup H rm st)
      (b := { st with ammoclip := patchBlocks f.ammoclip t.ammoclip st.ammoclip })
      (fun rm rm1 h _ => by
        obtain ⟨p1, e1, h⟩ := bind_eq_ok h
        obtain ⟨p2, e2, h⟩ := bind_eq_ok h
        obtain ⟨p3, e3, h⟩ := bind_eq_ok h
        have h4 : readArrayBlock H (MSG_ReadShort H) p3.2 p3.1 48 16 =
          Except.ok (patchBlocks f.ammoclip t.ammoclip st.ammoclip, rm1) := h
        simp [readClipGroup, e1, e2, e3, h4, bind, Except.bind, pure, Except.pure])).congr
    (fun m => rfl) (fun rm => rfl) rfl

/-! ## The whole player state -/

theorem deltaTable_strict {H : huffman_t} {Inv : (Nat → Nat) → Nat → Prop}
    (L : HuffLaws H Inv)
    (wbody : msg_t → netField_t → Int → Int → Except ComError msg_t)
    (rbody : msg_t → netField_t → Int → Except ComError (Int × msg_t))
    (table : List netField_t) (fromC toC toC0 : Nat → Int)
    (hlen : table.length < 256)
    (hbody : ∀ f ∈ table, Codec H Inv (fun m => wbody m f (fromC f.offset) (toC f.offset))
        (fun rm => rbody rm f (fromC f.offset)) (toC f.offset)) :
    StrictWriter Inv
      (fun m => writeDeltaTable H wbody table (lastChangedLoop fromC toC table 0 0) m
        fromC toC) := by
  obtain ⟨hle, _⟩ := lastChanged_tail fromC toC table
  generalize lastChangedLoop fromC toC table 0 0 = lc at hle
  have cB := byte_codec L (lc : Int) (by omega) (by omega)
  have cF := @writeFields_codec H Inv wbody rbody fromC toC (table.take lc) toC0
    (fun f hf => hbody f (List.mem_of_mem_take hf))
  exact strict_bind (strict_bits H Inv (lc : Int) 8 (by norm_num) (by norm_num)) cB cF
    (fun m => rfl)

theorem patchBlock_spec (fromA toA arr : Nat → Int) (base n : Nat)
    (harr : ∀ i, i < n → arr (base + i) = fromA (base + i)) :
    (∀ i, i < n → patchBlock fromA toA base n arr (base + i) = toA (base + i)) ∧
    (∀ k, (∀ i, i < n → base + i ≠ k) → patchBlock fromA toA base n arr k = arr k) :=
  patchArray_block fromA toA arr base n harr

theorem patchBlock_first (fromA toA : Nat → Int) (n : Nat) :
    ∀ i, i < n → patchBlock fromA toA 0 n fromA i = toA i := by
  intro i hi
  have := (patchBlock_spec fromA toA fromA 0 n (fun _ _ => rfl)).1 i hi
  simpa using this

theorem patchBlocks_spec (fromA toA : Nat → Int) :
    ∀ i, i < 64 → patchBlocks fromA toA fromA i = toA i := by
  have b0 := patchBlock_spec fromA toA fromA 0 16 (fun _ _ => rfl)
  have b1 := patchBlock_spec fromA toA (patchBlock fromA toA 0 16 fromA) 16 16
    (fun i hi => b0.2 (16 + i) (fun j hj => by omega))
  have b2 := patchBlock_spec fromA toA
    (patchBlock fromA toA 16 16 (patchBlock fromA toA 0 16 fromA)) 32 16
    (fun i hi => by
      rw [b1.2 (32 + i) (fun j hj => by omega), b0.2 (32 + i) (fun j hj => by omega)])
  have b3 := patchBlock_spec fromA toA
    (patchBlock fromA toA 32 16 (patchBlock fromA toA 16 16 (patchBlock fromA toA 0 16 fromA)))
    48 16
    (fun i hi => by
      rw [b2.2 (48 + i) (fun j hj => by omega), b1.2 (48 + i) (fun j hj => by omega),
        b0.2 (48 + i) (fun j hj => by omega)])
  intro i hi
  unfold patchBlocks
  by_cases h0 : i < 16
  · rw [b3.2 i (fun j hj => by omega), b2.2 i (fun j hj => by omega),
      b1.2 i (fun j hj => by omega)]
    have := b0.1 i h0
    simpa using this
  by_cases h1 : i < 32
  · rw [b3.2 i (fun j hj => by omega), b2.2 i (fun j hj => by omega)]
    have := b1.1 (i - 16) (by omega)
    rwa [show 16 + (i - 16) = i by omega] at this
  by_cases h2 : i < 48
  · rw [b3.2 i (fun j hj => by omega)]
    have := b2.1 (i - 32) (by omega)
    rwa [show 32 + (i - 32) = i by omega] at this
  · have := b3.1 (i - 48) (by omega)
    rwa [show 48 + (i - 48) = i by omega] at this

/-- The player-state writer against the player-state reader. -/
theorem player_codec {H : huffman_t} {Inv : (Nat → Nat) → Nat → Prop}
    (L : HuffLaws H Inv) (K : constants_t) (hK : constantsOK K)
    (from_ : Option playerState_t) (t : playerState_t)
    (hcells : ∀ fld ∈ playerStateFields K,
      (from_.getD zeroPlayerState).cells fld.offset ≠ t.cells fld.offset →
      playerFieldFits fld (t.cells fld.offset))
    (hs : ∀ i, i < K.MAX_STATS → t.stats i ≠ (from_.getD zeroPlayerState).stats i →
      isInt16 (t.stats i))
    (hp : ∀ i, i < K.MAX_PERSISTANT →
      t.persistant i ≠ (from_.getD zeroPlayerState).persistant i → isInt16 (t.persistant i))
    (hh : ∀ i, i < K.MAX_HOLDABLE →
      t.holdable i ≠ (from_.getD zeroPlayerState).holdable i → isInt16 (t.holdable i))
    (hw : ∀ i, i < K.MAX_POWERUPS →
      t.powerups i ≠ (from_.getD zeroPlayerState).powerups i → isInt32 (t.powerups i))
    (ha : ∀ i, i < 64 → t.ammo i ≠ (from_.getD zeroPlayerState).ammo i → isInt16 (t.ammo i))
    (hc : ∀ i, i < 64 → t.ammoclip i ≠ (from_.getD zeroPlayerState).ammoclip i →
      isInt16 (t.ammoclip i)) :
    Codec H Inv (fun m => MSG_WriteDeltaPlayerstate H K m from_ t)
      (fun rm => MSG_ReadDeltaPlayerstate H K rm from_)
      (decodedPlayer K (from_.getD zeroPlayerState) t
        (copyTailFields (from_.getD zeroPlayerState).cells
          ((playerStateFields K).drop
            (lastChangedLoop (from_.getD zeroPlayerState).cells t.cells (playerStateFields K) 0 0))
          (copyTailFields t.cells
            ((playerStateFields K).take
              (lastChangedLoop (from_.getD zeroPlayerState).cells t.cells
                (playerStateFields K) 0 0))
            (from_.getD zeroPlayerState).cells))) ∧
    StrictWriter Inv (fun m => MSG_WriteDeltaPlayerstate H K m from_ t) := by
  set f := from_.getD zeroPlayerState with hf
  have hbody : ∀ fld ∈ playerStateFields K,
      Codec H Inv (fun m => writePlayerField H m fld (f.cells fld.offset) (t.cells fld.offset))
        (fun rm => readPlayerField H rm fld (f.cells fld.offset)) (t.cells fld.offset) :=
    fun fld hf => playerField_codec L fld _ _ (playerStateFields_bits K hK fld hf)
      (hcells fld hf)
  have hlen : (playerStateFields K).length < 256 := by
    rw [playerStateFields_length]; norm_num
  have cT := deltaTable_codec L (writePlayerField H) (readPlayerField H) (playerStateFields K)
    "invalid playerState field count" f.cells t.cells f.cells hlen hbody
  have sT := deltaTable_strict L (writePlayerField H) (readPlayerField H) (playerStateFields K)
    f.cells t.cells f.cells hlen hbody
  generalize copyTailFields f.cells
    ((playerStateFields K).drop (lastChangedLoop f.cells t.cells (playerStateFields K) 0 0))
    (copyTailFields t.cells
      ((playerStateFields K).take (lastChangedLoop f.cells t.cells (playerStateFields K) 0 0))
      f.cells) = cells at cT ⊢
  have cS := statsGroup_codec L K hK f t { f with cells := cells }
    (fun i hi hd => by simpa using hs i hi (by simpa using hd))
    (fun i hi hd => by simpa using hp i hi (by simpa using hd))
    (fun i hi hd => by simpa using hh i hi (by simpa using hd))
    (fun i hi hd => by simpa using hw i hi (by simpa using hd))
  have cA := ammoGroup_codec L f t (patchStats K f t { f with cells := cells }) ha
  have cC := clipGroup_codec L f t
    { patchStats K f t { f with cells := cells } with
      ammo := patchBlocks f.ammo t.ammo f.ammo } hc
  have dA := Codec.bind cA cC
    (w := fun m => writeAmmoGroup H m f t >>= fun m => writeClipGroup H m f t)
    (r := fun rm => do
      let (to_, msg) ← readAmmoGroup H rm (patchStats K f t { f with cells := cells })
      readClipGroup H msg to_)
    (fun m => rfl) (fun rm rm1 h => by simp [h, bind, Except.bind]; rfl)
  have dS := Codec.bind cS dA
    (w := fun m => writeStatsGroup H K m f t >>= fun m =>
      writeAmmoGroup H m f t >>= fun m => writeClipGroup H m f t)
    (r := fun rm => do
      let (to_, msg) ← readStatsGroup H K rm { f with cells := cells }
      let (to_, msg) ← readAmmoGroup H msg to_
      readClipGroup H msg to_)
    (fun m => rfl) (fun rm rm1 h => by simp [h, bind, Except.bind])
  constructor
  · refine (Codec.bind cT dS (fun m => rfl)
      (r := fun rm => MSG_ReadDeltaPlayerstate H K rm from_)
      (fun rm rm1 h => ?_)).congr (fun m => rfl) (fun rm => rfl) rfl
    simp only [MSG_ReadDeltaPlayerstate, ← hf, h, bind, Except.bind]
  · exact strict_bind sT cT dS (fun m => rfl)

/-! ## The readers return on a bitstream message -/

theorem MSG_ReadBits_total (H : huffman_t) (bits : Int) :
    TotalReader (fun m => MSG_ReadBits H m bits) := by
  intro msg ho
  unfold MSG_ReadBits
  simp only [ho, Bool.false_eq_true, if_false]
  split_ifs <;> first | exact ⟨_, _, rfl, rfl⟩ | exact ⟨_, _, rfl, ho⟩

theorem total_bind {α β : Type} {r1 : msg_t → Except ComError (α × msg_t)}
    {k : α → msg_t → Except ComError (β × msg_t)}
    (h1 : TotalReader r1) (h2 : ∀ a, TotalReader (k a)) :
    TotalReader (fun m => r1 m >>= fun p => k p.1 p.2) := by
  intro msg ho
  obtain ⟨v, m1, e, ho1⟩ := h1 msg ho
  obtain ⟨v2, m2, e2, ho2⟩ := h2 v m1 ho1
  exact ⟨v2, m2, by simp [e, bind, Except.bind, e2], ho2⟩

theorem total_pure {α : Type} (v : α) :
    TotalReader (fun m => (Except.ok (v, m) : Except ComError (α × msg_t))) :=
  fun msg ho => ⟨v, msg, rfl, ho⟩

theorem total_ite {α : Type} (c : Prop) [Decidable c]
    {r1 r2 : msg_t → Except ComError (α × msg_t)}
    (h1 : TotalReader r1) (h2 : TotalReader r2) :
    TotalReader (fun m => if c then r1 m else r2 m) := by
  by_cases hc : c
  · simpa [hc] using h1
  · simpa [hc] using h2

theorem MSG_ReadByte_total (H : huffman_t) : TotalReader (MSG_ReadByte H) := by
  intro msg ho
  obtain ⟨v, m1, e, ho1⟩ := MSG_ReadBits_total H 8 msg ho
  unfold MSG_ReadByte
  simp only [e, bind, Except.bind]
  split_ifs <;> exact ⟨_, _, rfl, ho1⟩

theorem MSG_ReadShort_total (H : huffman_t) : TotalReader (MSG_ReadShort H) := by
  intro msg ho
  obtain ⟨v, m1, e, ho1⟩ := MSG_ReadBits_total H 16 msg ho
  unfold MSG_ReadShort
  simp only [e, bind, Except.bind]
  split_ifs <;> exact ⟨_, _, rfl, ho1⟩

theorem MSG_ReadLong_total (H : huffman_t) : TotalReader (MSG_ReadLong H) := by
  intro msg ho
  obtain ⟨v, m1, e, ho1⟩ := MSG_ReadBits_total H 32 msg ho
  unfold MSG_ReadLong
  simp only [e, bind, Except.bind]
  split_ifs <;> exact ⟨_, _, rfl, ho1⟩

theorem readTruncFloat_total (H : huffman_t) : TotalReader (readTruncFloat H) :=
  total_bind (MSG_ReadBits_total H 1) (fun full =>
    total_ite (full = 0)
      (total_bind (MSG_ReadBits_total H FLOAT_INT_BITS) (fun trunc =>
        total_pure (toI32 (f32_ofInt (trunc - FLOAT_INT_BIAS)))))
      (MSG_ReadBits_total H 32))

theorem readFloatField_total (H : huffman_t) : TotalReader (readFloatField H) :=
  total_bind (MSG_ReadBits_total H 1) (fun nonzero =>
    total_ite (nonzero = 0) (total_pure 0) (readTruncFloat_total H))

theorem readIntField_total (H : huffman_t) (bits : Int) :
    TotalReader (fun m => readIntField H m bits) :=
  total_bind (MSG_ReadBits_total H 1) (fun nonzero =>
    total_ite (nonzero = 0) (total_pure 0) (MSG_ReadBits_total H bits))

theorem readDeltaField_total (H : huffman_t) (field : netField_t) (fromF : Int) :
    TotalReader (fun m => readDeltaField H m field fromF) :=
  total_bind (MSG_ReadBits_total H 1) (fun changed =>
    total_ite (changed = 0) (total_pure fromF)
      (total_ite (field.bits = 0) (readFloatField_total H)
        (readIntField_total H field.bits)))

theorem readPlayerField_total (H : huffman_t) (field : netField_t) (fromF : Int) :
    TotalReader (fun m => readPlayerField H m field fromF) :=
  total_bind (MSG_ReadBits_total H 1) (fun changed =>
    total_ite (changed = 0) (total_pure fromF)
      (total_ite (field.bits = 0) (readTruncFloat_total H)
        (MSG_ReadBits_total H field.bits)))

theorem readFields_total (body : msg_t → netField_t → Int → Except ComError (Int × msg_t))
    (fromC : Nat → Int)
    (hbody : ∀ field fromF, TotalReader (fun m => body m field fromF)) :
    ∀ (fields : List netField_t) (toC : Nat → Int),
      TotalReader (fun m => readFields body fromC fields toC m) := by
  intro fields
  induction fields with
  | nil => intro toC; exact total_pure toC
  | cons g rest ih =>
    intro toC
    exact total_bind (hbody g (fromC g.offset))
      (fun v => ih (Function.update toC g.offset v))

theorem readArrayValues_total (read : msg_t → Except ComError (Int × msg_t))
    (hread : TotalReader read) (bits : Int) (base : Nat) :
    ∀ (idxs : List Nat) (arr : Nat → Int),
      TotalReader (fun m => readArrayValues read bits base idxs arr m) := by
  intro idxs
  induction idxs with
  | nil => intro arr; exact total_pure arr
  | cons i rest ih =>
    intro arr
    by_cases hb : intTestBit bits i = true
    · have := total_bind hread (fun v => ih (Function.update arr (base + i) v))
      intro msg ho
      obtain ⟨v, m2, e, ho2⟩ := this msg ho
      refine ⟨v, m2, ?_, ho2⟩
      rw [← e]
      simp [readArrayValues, hb]
    · intro msg ho
      obtain ⟨v, m2, e, ho2⟩ := ih arr msg ho
      refine ⟨v, m2, ?_, ho2⟩
      rw [← e]
      simp [readArrayValues, hb]

theorem readArrayBlock_total (H : huffman_t) (read : msg_t → Except ComError (Int × msg_t))
    (hread : TotalReader read) (arr : Nat → Int) (base n : Nat) :
    TotalReader (fun m => readArrayBlock H read m arr base n) :=
  total_bind (MSG_ReadBits_total H 1) (fun changed =>
    total_ite (changed ≠ 0)
      (total_bind (MSG_ReadShort_total H) (fun bits =>
        readArrayValues_total read hread bits base (List.range n) arr))
      (total_pure arr))

theorem readStatsGroup_total (H : huffman_t) (K : constants_t) (st : playerState_t) :
    TotalReader (fun m => readStatsGroup H K m st) :=
  total_bind (MSG_ReadBits_total H 1) (fun any =>
    total_ite (any ≠ 0)
      (total_bind (readArrayBlock_total H _ (MSG_ReadShort_total H) st.stats 0 K.MAX_STATS)
        (fun stats => total_bind
          (readArrayBlock_total H _ (MSG_ReadShort_total H) st.persistant 0 K.MAX_PERSISTANT)
          (fun persistant => total_bind
            (readArrayBlock_total H _ (MSG_ReadShort_total H) st.holdable 0 K.MAX_HOLDABLE)
            (fun holdable => total_bind
              (readArrayBlock_total H _ (MSG_ReadLong_total H) st.powerups 0 K.MAX_POWERUPS)
              (fun powerups => total_pure
                ({ st with stats := stats, persistant := persistant, holdable := holdable,
                           powerups := powerups } : playerState_t))))))
      (total_pure st))

theorem fourBlocks_total (H : huffman_t) (arr : Nat → Int) {β : Type}
    (k : (Nat → Int) → β) :
    TotalReader (fun m => do
      let (a, msg) ← readArrayBlock H (MSG_ReadShort H) m arr 0 16
      let (a, msg) ← readArrayBlock H (MSG_ReadShort H) msg a 16 16
      let (a, msg) ← readArrayBlock H (MSG_ReadShort H) msg a 32 16
      let (a, msg) ← readArrayBlock H (MSG_ReadShort H) msg a 48 16
      (pure (k a, msg) : Except ComError (β × msg_t))) :=
  total_bind (readArrayBlock_total H _ (MSG_ReadShort_total H) arr 0 16)
    (fun a => total_bind (readArrayBlock_total H _ (MSG_ReadShort_total H) a 16 16)
      (fun a => total_bind (readArrayBlock_total H _ (MSG_ReadShort_total H) a 32 16)
        (fun a => total_bind (readArrayBlock_total H _ (MSG_ReadShort_total H) a 48 16)
          (fun a => total_pure (k a)))))

theorem readAmmoGroup_total (H : huffman_t) (st : playerState_t) :
    TotalReader (fun m => readAmmoGroup H m st) :=
  total_bind (MSG_ReadBits_total H 1) (fun any =>
    total_ite (any ≠ 0)
      (fourBlocks_total H st.ammo (fun a => ({ st with ammo := a } : playerState_t)))
      (total_pure st))

theorem readClipGroup_total (H : huffman_t) (st : playerState_t) :
    TotalReader (fun m => readClipGroup H m st) :=
  fourBlocks_total H st.ammoclip (fun a => ({ st with ammoclip := a } : playerState_t))

/-- The count and the two loops of a reader: with a count in range the
cells are returned on a bitstream message, and whenever they are returned
the fields from the count on hold the cells of `from`. -/
theorem readDeltaTable_tail (H : huffman_t)
    (body : msg_t → netField_t → Int → Except ComError (Int × msg_t))
    (table : List netField_t) (text : String) (msg m1 : msg_t) (fromC toC0 : Nat → Int)
    (lc : Int) (hlc : MSG_ReadByte H msg = .ok (lc, m1)) (h0 : 0 ≤ lc)
    (h1 : lc ≤ table.length) :
    (∀ cells rm, readDeltaTable H body table text msg fromC toC0 = .ok (cells, rm) →
      ∀ i : Nat, lc ≤ (i : Int) → ∀ h : i < table.length,
        cells (table.get ⟨i, h⟩).offset = fromC (table.get ⟨i, h⟩).offset) ∧
    ((∀ field fromF, TotalReader (fun m => body m field fromF)) → m1.oob = false →
      ∃ cells rm, readDeltaTable H body table text msg fromC toC0 = .ok (cells, rm) ∧
        rm.oob = false) := by
  have hn : ¬ (lc > (table.length : Int) ∨ lc < 0) := by omega
  have hdef : readDeltaTable H body table text msg fromC toC0 =
      (readFields body fromC (table.take lc.toNat) toC0 m1 >>= fun p =>
        (Except.ok (copyTailFields fromC (table.drop lc.toNat) p.1, p.2) :
          Except ComError ((Nat → Int) × msg_t))) := by
    simp only [readDeltaTable, hlc, bind, Except.bind, hn, if_false, pure, Except.pure]
  constructor
  · intro cells rm hr i hi h
    rw [hdef] at hr
    obtain ⟨p, _, e2⟩ := bind_eq_ok hr
    have hc : cells = copyTailFields fromC (table.drop lc.toNat) p.1 := by
      cases e2; rfl
    rw [hc]
    apply copyTailFields_mem
    refine ⟨table.get ⟨i, h⟩, ?_, rfl⟩
    rw [List.mem_drop_iff_getElem]
    refine ⟨i - lc.toNat, by omega, ?_⟩
    have : lc.toNat + (i - lc.toNat) = i := by omega
    simp [this]
  · intro hbody ho
    obtain ⟨v, m2, e, ho2⟩ := readFields_total body fromC hbody (table.take lc.toNat) toC0 m1 ho
    have e2 : readFields body fromC (table.take lc.toNat) toC0 m1 = .ok (v, m2) := e
    refine ⟨copyTailFields fromC (table.drop lc.toNat) v, m2, ?_, ho2⟩
    rw [hdef]
    simp only [e2, bind, Except.bind]

/-! ## The array groups leave the cells alone -/

theorem readStatsGroup_cells (H : huffman_t) (K : constants_t) (st st2 : playerState_t)
    (m m2 : msg_t) (h : readStatsGroup H K m st = .ok (st2, m2)) : st2.cells = st.cells := by
  unfold readStatsGroup at h
  obtain ⟨p0, _, h⟩ := bind_eq_ok h
  by_cases hany : p0.1 ≠ 0
  · have h : (readArrayBlock H (MSG_ReadShort H) p0.2 st.stats 0 K.MAX_STATS >>= fun p1 =>
        readArrayBlock H (MSG_ReadShort H) p1.2 st.persistant 0 K.MAX_PERSISTANT >>= fun p2 =>
        readArrayBlock H (MSG_ReadShort H) p2.2 st.holdable 0 K.MAX_HOLDABLE >>= fun p3 =>
        readArrayBlock H (MSG_ReadLong H) p3.2 st.powerups 0 K.MAX_POWERUPS >>= fun p4 =>
        (Except.ok (({ st with stats := p1.1, persistant := p2.1, holdable := p3.1,
                               powerups := p4.1 } : playerState_t), p4.2) :
          Except ComError (playerState_t × msg_t)))
        = .ok (st2, m2) := by
      simpa [hany] using h
    obtain ⟨p1, _, h⟩ := bind_eq_ok h
    obtain ⟨p2, _, h⟩ := bind_eq_ok h
    obtain ⟨p3, _, h⟩ := bind_eq_ok h
    obtain ⟨p4, _, h⟩ := bind_eq_ok h
    cases h
    rfl
  · have h : (Except.ok (st, p0.2) : Except ComError (playerState_t × msg_t)) = .ok (st2, m2) := by
      simpa [hany, pure, Except.pure] using h
    cases h
    rfl

theorem fourBlocks_result (H : huffman_t) (arr : Nat → Int) {β : Type} (k : (Nat → Int) → β)
    (m m2 : msg_t) (b : β)
    (h : (do
      let (a, msg) ← readArrayBlock H (MSG_ReadShort H) m arr 0 16
      let (a, msg) ← readArrayBlock H (MSG_ReadShort H) msg a 16 16
      let (a, msg) ← readArrayBlock H (MSG_ReadShort H) msg a 32 16
      let (a, msg) ← readArrayBlock H (MSG_ReadShort H) msg a 48 16
      (pure (k a, msg) : Except ComError (β × msg_t))) = .ok (b, m2)) :
    ∃ a, b = k a := by
  obtain ⟨p1, _, h⟩ := bind_eq_ok h
  obtain ⟨p2, _, h⟩ := bind_eq_ok h
  obtain ⟨p3, _, h⟩ := bind_eq_ok h
  obtain ⟨p4, _, h⟩ := bind_eq_ok h
  cases h
  exact ⟨_, rfl⟩

theorem readAmmoGroup_cells (H : huffman_t) (st st2 : playerState_t)
    (m m2 : msg_t) (h : readAmmoGroup H m st = .ok (st2, m2)) : st2.cells = st.cells := by
  unfold readAmmoGroup at h
  obtain ⟨p0, _, h⟩ := bind_eq_ok h
  by_cases hany : p0.1 ≠ 0
  · obtain ⟨a, e⟩ := fourBlocks_result H st.ammo
      (fun a => ({ st with ammo := a } : playerState_t)) p0.2 m2 st2 (by simpa [hany] using h)
    rw [e]
  · have h : (Except.ok (st, p0.2) : Except ComError (playerState_t × msg_t)) = .ok (st2, m2) := by
      simpa [hany, pure, Except.pure] using h
    cases h
    rfl

theorem readClipGroup_cells (H : huffman_t) (st st2 : playerState_t)
    (m m2 : msg_t) (h : readClipGroup H m st = .ok (st2, m2)) : st2.cells = st.cells := by
  obtain ⟨a, e⟩ := fourBlocks_result H st.ammoclip
    (fun a => ({ st with ammoclip := a } : playerState_t)) m m2 st2 h
  rw [e]

/-! ## The buffer on overflow and past its end -/

theorem width_natAbs (bits : Int) :
    (if bits < 0 then (-bits).toNat else bits.toNat) = bits.natAbs := by
  split <;> omega

theorem toI8_range (v : Int) : -128 ≤ toI8 v ∧ toI8 v < 128 ∧ toI8 v % 256 = v % 256 := by
  unfold toI8
  split <;> omega

theorem toI16_range (v : Int) :
    -32768 ≤ toI16 v ∧ toI16 v < 32768 ∧ toI16 v % 65536 = v % 65536 := by
  unfold toI16
  split <;> omega

theorem readBitsSeq_past_end (H : huffman_t) (msg : msg_t) (h : msg.readcount > msg.cursize) :
    ∀ ws : List Int, readBitsSeq H ws msg = .ok (ws.map (fun _ => 0), msg) := by
  intro ws
  induction ws with
  | nil => rfl
  | cons w rest ih =>
    have h1 : MSG_ReadBits H msg w = .ok (0, msg) := by
      unfold MSG_ReadBits
      rw [if_pos h]
    simp only [readBitsSeq, h1, ih, bind, Except.bind, pure, Except.pure, List.map_cons]

theorem transmitLoop_frame (H : huffman_t) :
    ∀ (n : Nat) (v : Int) (m : msg_t),
      (transmitLoop H n v m).cursize = m.cursize ∧
      (transmitLoop H n v m).maxsize = m.maxsize ∧
      (transmitLoop H n v m).oob = m.oob := by
  intro n
  induction n with
  | zero => intro v m; exact ⟨rfl, rfl, rfl⟩
  | succ n ih =>
    intro v m
    unfold transmitLoop
    simp only []
    split_ifs
    · exact ⟨rfl, rfl, rfl⟩
    · exact ih _ _

theorem putBitsLoop_bit (H : huffman_t)
    (hput : ∀ b d o, (H.Huff_putBit b d o).2 = o + 1) :
    ∀ (n : Nat) (v : Int) (d : Nat → Nat) (o : Nat), (putBitsLoop H n v d o).2.1 = o + n := by
  intro n
  induction n with
  | zero => intro v d o; rfl
  | succ n ih =>
    intro v d o
    unfold putBitsLoop
    simp only []
    rw [ih, hput]
    omega

theorem transmitLoop_bound (H : huffman_t)
    (htx : ∀ ch d o mx, o ≤ mx → (H.Huff_offsetTransmit ch d o mx).2 ≤ mx) :
    ∀ (n : Nat) (v : Int) (m : msg_t), m.bit ≤ m.maxsize <<< 3 →
      (transmitLoop H n v m).bit ≤ m.maxsize <<< 3 := by
  intro n
  induction n with
  | zero => intro v m h; exact h
  | succ n ih =>
    intro v m h
    unfold transmitLoop
    simp only []
    have hb := htx (v % 256).toNat m.data m.bit (m.maxsize <<< 3) h
    split_ifs
    · exact hb
    · exact ih _ _ hb

theorem MSG_WriteBits_cursorInv (H : huffman_t)
    (hput : ∀ b d o, (H.Huff_putBit b d o).2 = o + 1)
    (htx : ∀ ch d o mx, o ≤ mx → (H.Huff_offsetTransmit ch d o mx).2 ≤ mx)
    (m m2 : msg_t) (value bits : Int) (hI : cursorInv m)
    (h : MSG_WriteBits H m value bits = .ok m2) :
    cursorInv m2 ∧ m2.maxsize = m.maxsize ∧ m2.oob = m.oob := by
  unfold MSG_WriteBits at h
  simp only [width_natAbs] at h
  by_cases hov : m.overflowed = true
  · simp only [hov, if_true] at h
    cases h
    exact ⟨hI, rfl, rfl⟩
  · have hov2 : m.overflowed = false := by simpa using hov
    simp only [hov2, Bool.false_eq_true, if_false] at h
    split_ifs at h with hbad ho h1 h8 h16 h32 hraw hovl
    · cases h
      exact ⟨hI, rfl, rfl⟩
    · cases h
      obtain ⟨a, b⟩ := hI.1 ho
      refine ⟨⟨fun _ => ?_, fun hc => ?_⟩, rfl, rfl⟩
      · rw [h8] at h1
        simp only [Nat.reduceShiftRight] at h1
        constructor
        · show m.bit + 8 = 8 * (m.cursize + 1)
          omega
        · show m.cursize + 1 ≤ m.maxsize
          omega
      · have : m.oob = false := hc
        rw [ho] at this; cases this
    · cases h
      obtain ⟨a, b⟩ := hI.1 ho
      refine ⟨⟨fun _ => ?_, fun hc => ?_⟩, rfl, rfl⟩
      · rw [h16] at h1
        simp only [Nat.reduceShiftRight] at h1
        constructor
        · show m.bit + 16 = 8 * (m.cursize + 2)
          omega
        · show m.cursize + 2 ≤ m.maxsize
          omega
      · have : m.oob = false := hc
        rw [ho] at this; cases this
    · cases h
      obtain ⟨a, b⟩ := hI.1 ho
      refine ⟨⟨fun _ => ?_, fun hc => ?_⟩, rfl, rfl⟩
      · rw [h32] at h1
        simp only [Nat.reduceShiftRight] at h1
        constructor
        · show m.bit + 32 = 8 * (m.cursize + 4)
          omega
        · show m.cursize + 4 ≤ m.maxsize
          omega
      · have : m.oob = false := hc
        rw [ho] at this; cases this
    · cases h
      exact ⟨hI, rfl, rfl⟩
    · have ho2 : m.oob = false := by simpa using ho
      have hb0 := hI.2 ho2
      have hstart : m.bit + (bits.natAbs &&& 7) ≤ m.maxsize <<< 3 := by
        rw [shl3]
        by_cases hn : bits.natAbs &&& 7 = 0
        · rw [hn]; omega
        · have := not_and.mp hraw hn
          rw [shl3] at this
          omega
      cases h
      refine ⟨⟨fun hc => ?_, fun _ => ?_⟩, (transmitLoop_frame H _ _ _).2.1,
        (transmitLoop_frame H _ _ _).2.2⟩
      · rw [(transmitLoop_frame H _ _ _).2.2] at hc
        have : m.oob = true := hc
        rw [ho2] at this; cases this
      · rw [(transmitLoop_frame H _ _ _).2.1, ← shl3]
        refine transmitLoop_bound H htx _ _ _ ?_
        show (putBitsLoop H (bits.natAbs &&& 7) _ m.data m.bit).2.1 ≤ m.maxsize <<< 3
        rw [putBitsLoop_bit H hput]
        exact hstart
    · have ho2 : m.oob = false := by simpa using ho
      have hb0 := hI.2 ho2
      have hstart : m.bit + (bits.natAbs &&& 7) ≤ m.maxsize <<< 3 := by
        rw [shl3]
        by_cases hn : bits.natAbs &&& 7 = 0
        · rw [hn]; omega
        · have := not_and.mp hraw hn
          rw [shl3] at this
          omega
      cases h
      refine ⟨⟨fun hc => ?_, fun _ => ?_⟩, (transmitLoop_frame H _ _ _).2.1,
        (transmitLoop_frame H _ _ _).2.2⟩
      · have hc2 : (transmitLoop H ((bits.natAbs - (bits.natAbs &&& 7)) / 8) _ _).oob = true :=
          hc
        rw [(transmitLoop_frame H _ _ _).2.2] at hc2
        have : m.oob = true := hc2
        rw [ho2] at this; cases this
      · show (transmitLoop H ((bits.natAbs - (bits.natAbs &&& 7)) / 8) _ _).bit
          ≤ 8 * (transmitLoop H ((bits.natAbs - (bits.natAbs &&& 7)) / 8) _ _).maxsize
        rw [(transmitLoop_frame H _ _ _).2.1, ← shl3]
        refine transmitLoop_bound H htx _ _ _ ?_
        show (putBitsLoop H (bits.natAbs &&& 7) _ m.data m.bit).2.1 ≤ m.maxsize <<< 3
        rw [putBitsLoop_bit H hput]
        exact hstart

theorem writeBitsSeq_cursorInv (H : huffman_t)
    (hput : ∀ b d o, (H.Huff_putBit b d o).2 = o + 1)
    (htx : ∀ ch d o mx, o ≤ mx → (H.Huff_offsetTransmit ch d o mx).2 ≤ mx) :
    ∀ (ops : List (Int × Int)) (m m2 : msg_t), cursorInv m →
      writeBitsSeq H ops m = .ok m2 → cursorInv m2 ∧ m2.maxsize = m.maxsize ∧ m2.oob = m.oob := by
  intro ops
  induction ops with
  | nil =>
    intro m m2 hI h
    cases h
    exact ⟨hI, rfl, rfl⟩
  | cons op rest ih =>
    intro m m2 hI h
    obtain ⟨v, b⟩ := op
    obtain ⟨m1, e1, e2⟩ := bind_eq_ok h
    obtain ⟨i1, a1, a2⟩ := MSG_WriteBits_cursorInv H hput htx m m1 v b hI e1
    obtain ⟨i2, b1, b2⟩ := ih m1 m2 i1 e2
    exact ⟨i2, by rw [b1, a1], by rw [b2, a2]⟩

theorem writeBitsSeq_total (H : huffman_t) :
    ∀ (ops : List (Int × Int)) (m : msg_t), m.oob = false →
      (∀ op ∈ ops, legalWidth op.2) → ∃ m2, writeBitsSeq H ops m = .ok m2 ∧ m2.oob = false := by
  intro ops
  induction ops with
  | nil => intro m ho _; exact ⟨m, rfl, ho⟩
  | cons op rest ih =>
    intro m ho hl
    obtain ⟨v, b⟩ := op
    have hb : legalWidth b := hl (v, b) (List.mem_cons_self _ _)
    have h1 : ∃ m1, MSG_WriteBits H m v b = .ok m1 ∧ m1.oob = false := by
      unfold legalWidth at hb
      unfold MSG_WriteBits
      simp only [hb, ho, if_false, Bool.false_eq_true]
      split_ifs <;> first
        | exact ⟨_, rfl, rfl⟩
        | exact ⟨_, rfl, ho⟩
        | exact ⟨_, rfl, (transmitLoop_frame H _ _ _).2.2⟩
    obtain ⟨m1, e1, ho1⟩ := h1
    obtain ⟨m2, e2, ho2⟩ := ih m1 ho1 (fun op hop => hl op (List.mem_cons_of_mem _ hop))
    exact ⟨m2, by simp only [writeBitsSeq, e1, bind, Except.bind, e2], ho2⟩

/-! ## Writers on an overflowed buffer -/

theorem noop_bits (H : huffman_t) (value bits : Int) :
    OverflowNoop (fun m => MSG_WriteBits H m value bits) := by
  intro m hm
  unfold MSG_WriteBits
  simp only [hm, if_true]
  exact ⟨_, rfl, rfl, rfl, rfl, hm.symm⟩

theorem noop_pure : OverflowNoop (fun m => Except.ok m) :=
  fun m _ => ⟨m, rfl, rfl, rfl, rfl, rfl⟩

theorem noop_bind {w1 w2 : msg_t → Except ComError msg_t}
    (h1 : OverflowNoop w1) (h2 : OverflowNoop w2) : OverflowNoop (fun m => w1 m >>= w2) := by
  intro m hm
  obtain ⟨m1, e1, a1, a2, a3, a4⟩ := h1 m hm
  obtain ⟨m2, e2, b1, b2, b3, b4⟩ := h2 m1 (by rw [a4]; exact hm)
  refine ⟨m2, ?_, ?_, ?_, ?_, ?_⟩
  · simp only [e1, bind, Except.bind, e2]
  · rw [b1, a1]
  · rw [b2, a2]
  · rw [b3, a3]
  · rw [b4, a4]

theorem noop_ite (c : Prop) [Decidable c] {w1 w2 : msg_t → Except ComError msg_t}
    (h1 : OverflowNoop w1) (h2 : OverflowNoop w2) :
    OverflowNoop (fun m => if c then w1 m else w2 m) := by
  by_cases hc : c
  · simpa [hc] using h1
  · simpa [hc] using h2

theorem noop_data (H : huffman_t) (data : Nat → Nat) :
    ∀ (n i : Nat), OverflowNoop (fun m => writeDataLoop H data n i m) := by
  intro n
  induction n with
  | zero => intro i; exact noop_pure
  | succ n ih => intro i; exact noop_bind (noop_bits H (data i) 8) (ih (i + 1))

theorem noop_string (H : huffman_t) (Q : qshared_t) (size : Nat) (s : Option (List Nat)) :
    OverflowNoop (fun m => writeStringSized H Q size m s) := by
  intro m hm
  cases s with
  | none => exact noop_data H (fun _ => 0) 1 0 m hm
  | some s =>
    by_cases hl : s.length ≥ size
    · simp only [writeStringSized, hl, if_true]
      exact noop_data H (fun _ => 0) 1 0 m hm
    · simp only [writeStringSized, hl, if_false]
      exact noop_data H _ (s.length + 1) 0 m hm

theorem noop_deltaKey (H : huffman_t) (key oldV newV bits : Int) :
    OverflowNoop (fun m => MSG_WriteDeltaKey H m key oldV newV bits) :=
  noop_ite (oldV = newV) (noop_bits H 0 1)
    (noop_bind (noop_bits H 1 1) (noop_bits H (xorInt newV key) bits))

theorem noop_deltaKeyFloat (H : huffman_t) (key oldV newV : Int) :
    OverflowNoop (fun m => MSG_WriteDeltaKeyFloat H m key oldV newV) :=
  noop_ite (f32_eq (toU32 oldV) (toU32 newV) = true) (noop_bits H 0 1)
    (noop_bind (noop_bits H 1 1) (noop_bits H (xorInt newV key) 32))

theorem noop_usercmdFields (H : huffman_t) (key : Int) (f t : usercmd_t) :
    OverflowNoop (fun m => writeUsercmdFields H m key f t) :=
  noop_bind (noop_deltaKey H key (f.angles 0) (t.angles 0) 16)
  (noop_bind (noop_deltaKey H key (f.angles 1) (t.angles 1) 16)
  (noop_bind (noop_deltaKey H key (f.angles 2) (t.angles 2) 16)
  (noop_bind (noop_deltaKey H key f.forwardmove t.forwardmove 8)
  (noop_bind (noop_deltaKey H key f.rightmove t.rightmove 8)
  (noop_bind (noop_deltaKey H key f.upmove t.upmove 8)
  (noop_bind (noop_deltaKey H key f.buttons t.buttons 8)
  (noop_bind (noop_deltaKey H key f.wbuttons t.wbuttons 8)
  (noop_bind (noop_deltaKey H key f.weapon t.weapon 8)
  (noop_bind (noop_deltaKey H key f.flags t.flags 8)
  (noop_bind (noop_deltaKey H key f.doubleTap t.doubleTap 3)
    (noop_deltaKey H key f.identClient t.identClient 8)))))))))))

theorem noop_usercmdTime (H : huffman_t) (f t : usercmd_t) :
    OverflowNoop (fun m => writeUsercmdTime H m f t) :=
  noop_ite (toI32 (toU32 (t.serverTime - f.serverTime)) < 256)
    (noop_bind (noop_bits H 1 1)
      (noop_bits H (toI32 (toU32 (t.serverTime - f.serverTime))) 8))
    (noop_bind (noop_bits H 0 1) (noop_bits H t.serverTime 32))

theorem noop_usercmd (H : huffman_t) (key : Int) (f t : usercmd_t) :
    OverflowNoop (fun m => MSG_WriteDeltaUsercmdKey H m key f t) :=
  noop_bind (noop_usercmdTime H f t)
    (noop_ite (usercmdSame f t) (noop_bits H 0 1)
      (noop_bind (noop_bits H 1 1) (noop_usercmdFields H (xorInt key t.serverTime) f t)))

theorem noop_truncFloat (H : huffman_t) (toF : Int) :
    OverflowNoop (fun m => writeTruncFloat H m toF) :=
  noop_ite (floatFitsInt (toU32 toF) (f32_toInt (toU32 toF)) = true)
    (noop_bind (noop_bits H 0 1)
      (noop_bits H (f32_toInt (toU32 toF) + FLOAT_INT_BIAS) FLOAT_INT_BITS))
    (noop_bind (noop_bits H 1 1) (noop_bits H toF 32))

theorem noop_deltaField (H : huffman_t) (field : netField_t) (fromF toF : Int) :
    OverflowNoop (fun m => writeDeltaField H m field fromF toF) :=
  noop_ite (fromF = toF) (noop_bits H 0 1)
    (noop_bind (noop_bits H 1 1)
      (noop_ite (field.bits = 0)
        (noop_ite (f32_isZero (toU32 toF) = true) (noop_bits H 0 1)
          (noop_bind (noop_bits H 1 1) (noop_truncFloat H toF)))
        (noop_ite (toF = 0) (noop_bits H 0 1)
          (noop_bind (noop_bits H 1 1) (noop_bits H toF field.bits)))))

theorem noop_playerField (H : huffman_t) (field : netField_t) (fromF toF : Int) :
    OverflowNoop (fun m => writePlayerField H m field fromF toF) :=
  noop_ite (fromF = toF) (noop_bits H 0 1)
    (noop_bind (noop_bits H 1 1)
      (noop_ite (field.bits = 0) (noop_truncFloat H toF) (noop_bits H toF field.bits)))

theorem noop_fields (body : msg_t → netField_t → Int → Int → Except ComError msg_t)
    (hbody : ∀ field fromF toF, OverflowNoop (fun m => body m field fromF toF))
    (fromC toC : Nat → Int) :
    ∀ fields : List netField_t, OverflowNoop (fun m => writeFields body fromC toC fields m) := by
  intro fields
  induction fields with
  | nil => exact noop_pure
  | cons g rest ih => exact noop_bind (hbody g (fromC g.offset) (toC g.offset)) ih

theorem noop_table (H : huffman_t)
    (body : msg_t → netField_t → Int → Int → Except ComError msg_t)
    (hbody : ∀ field fromF toF, OverflowNoop (fun m => body m field fromF toF))
    (table : List netField_t) (lc : Nat) (fromC toC : Nat → Int) :
    OverflowNoop (fun m => writeDeltaTable H body table lc m fromC toC) :=
  noop_bind (noop_bits H (lc : Int) 8) (noop_fields body hbody fromC toC (table.take lc))

theorem noop_arrayValues (write : msg_t → Int → Except ComError msg_t)
    (hw : ∀ v, OverflowNoop (fun m => write m v)) (bits : Nat) (toA : Nat → Int) (base : Nat) :
    ∀ idxs : List Nat, OverflowNoop (fun m => writeArrayValues write bits toA base idxs m) := by
  intro idxs
  induction idxs with
  | nil => exact noop_pure
  | cons i rest ih =>
    exact noop_ite (bits &&& (1 <<< i) ≠ 0) (noop_bind (hw (toA (base + i))) ih) ih

theorem noop_arrayBlock (H : huffman_t) (write : msg_t → Int → Except ComError msg_t)
    (hw : ∀ v, OverflowNoop (fun m => write m v)) (bits : Nat) (toA : Nat → Int)
    (base n : Nat) :
    OverflowNoop (fun m => writeArrayBlock H write m bits toA base n) :=
  noop_ite (bits ≠ 0)
    (noop_bind (noop_bits H 1 1)
      (noop_bind (noop_bits H (bits : Int) 16)
        (noop_arrayValues write hw bits toA base (List.range n))))
    (noop_bits H 0 1)

theorem noop_short (H : huffman_t) : ∀ v, OverflowNoop (fun m => MSG_WriteShort H m v) :=
  fun v => noop_bits H v 16

theorem noop_long (H : huffman_t) : ∀ v, OverflowNoop (fun m => MSG_WriteLong H m v) :=
  fun v => noop_bits H v 32

theorem noop_player (H : huffman_t) (K : constants_t) (from_ : Option playerState_t)
    (t : playerState_t) :
    OverflowNoop (fun m => MSG_WriteDeltaPlayerstate H K m from_ t) :=
  noop_bind
    (noop_table H (writePlayerField H) (noop_playerField H) (playerStateFields K) _ _ _)
  (noop_bind
    (noop_ite _
      (noop_bind (noop_bits H 1 1)
        (noop_bind (noop_arrayBlock H _ (noop_short H) _ _ 0 K.MAX_STATS)
        (noop_bind (noop_arrayBlock H _ (noop_short H) _ _ 0 K.MAX_PERSISTANT)
        (noop_bind (noop_arrayBlock H _ (noop_short H) _ _ 0 K.MAX_HOLDABLE)
          (noop_arrayBlock H _ (noop_long H) _ _ 0 K.MAX_POWERUPS)))))
      (noop_bits H 0 1))
  (noop_bind
    (noop_ite _
      (noop_bind (noop_bits H 1 1)
        (noop_bind (noop_arrayBlock H _ (noop_short H) _ _ 0 16)
        (noop_bind (noop_arrayBlock H _ (noop_short H) _ _ 16 16)
        (noop_bind (noop_arrayBlock H _ (noop_short H) _ _ 32 16)
          (noop_arrayBlock H _ (noop_short H) _ _ 48 16)))))
      (noop_bits H 0 1))
    (noop_bind (noop_arrayBlock H _ (noop_short H) _ _ 0 16)
    (noop_bind (noop_arrayBlock H _ (noop_short H) _ _ 16 16)
    (noop_bind (noop_arrayBlock H _ (noop_short H) _ _ 32 16)
      (noop_arrayBlock H _ (noop_short H) _ _ 48 16))))))

theorem noop_entity (H : huffman_t) (K : constants_t) (from_ to_ : Option entityState_t)
    (force : Bool)
    (hok : ∀ t, to_ = some t → (0 ≤ t.number ∧ t.number < K.MAX_GENTITIES) ∧ from_ ≠ none) :
    OverflowNoop (fun m => MSG_WriteDeltaEntity H K m from_ to_ force) := by
  cases to_ with
  | none =>
    cases from_ with
    | none => exact noop_pure
    | some f => exact noop_bind (noop_bits H f.number K.GENTITYNUM_BITS) (noop_bits H 1 1)
  | some t =>
    obtain ⟨hnum, hfrom⟩ := hok t rfl
    have hvalid : ¬ (t.number < 0 ∨ t.number ≥ K.MAX_GENTITIES) := by omega
    cases from_ with
    | none => exact absurd rfl hfrom
    | some f =>
      have h := noop_ite (lastChangedLoop f.cells t.cells (entityStateFields K) 0 0 = 0)
        (noop_ite ((!force) = true) noop_pure
          (noop_bind (noop_bits H t.number K.GENTITYNUM_BITS)
            (noop_bind (noop_bits H 0 1) (noop_bits H 0 1))))
        (noop_bind (noop_bits H t.number K.GENTITYNUM_BITS)
          (noop_bind (noop_bits H 0 1)
            (noop_bind (noop_bits H 1 1)
              (noop_table H (writeDeltaField H) (noop_deltaField H) (entityStateFields K)
                (lastChangedLoop f.cells t.cells (entityStateFields K) 0 0) f.cells t.cells))))
      intro m hm
      obtain ⟨m2, e, hs⟩ := h m hm
      refine ⟨m2, ?_, hs⟩
      rw [← e]
      simp only [MSG_WriteDeltaEntity, hvalid, if_false]
      rfl

theorem noop_shared (H : huffman_t) (K : constants_t) (from_ to_ : entityShared_t)
    (force : Bool) (number : Int) :
    OverflowNoop (fun m => MSG_WriteDeltaSharedEntity H K m from_ to_ force number) :=
  noop_ite (lastChangedLoop from_.cells to_.cells (entitySharedFields K) 0 0 = 0)
    (noop_ite ((!force) = true) noop_pure
      (noop_bind (noop_bits H number K.GENTITYNUM_BITS) (noop_bits H 0 1)))
    (noop_bind (noop_bits H number K.GENTITYNUM_BITS)
      (noop_bind (noop_bits H 1 1)
        (noop_table H (writeDeltaField H) (noop_deltaField H) (entitySharedFields K)
          (lastChangedLoop from_.cells to_.cells (entitySharedFields K) 0 0)
          from_.cells to_.cells)))

theorem noop_ettv (H : huffman_t) (from_ to_ : Option entityShared_t) (force : Bool)
    (hok : to_ ≠ none → from_ ≠ none) :
    OverflowNoop (fun m => MSG_ETTV_WriteDeltaSharedEntity H m from_ to_ force) := by
  cases to_ with
  | none =>
    cases from_ with
    | none => exact noop_bind (noop_bits H 0x77 8) noop_pure
    | some f => exact noop_bind (noop_bits H 0x77 8) (noop_bits H 1 1)
  | some t =>
    cases from_ with
    | none => exact absurd rfl (hok (by simp))
    | some f =>
      exact noop_bind (noop_bits H 0x77 8)
        (noop_ite (lastChangedLoop f.cells t.cells ettventitySharedFields 0 0 = 0)
          (noop_ite ((!force) = true) noop_pure
            (noop_bind (noop_bits H 0 1) (noop_bits H 0 1)))
          (noop_bind (noop_bits H 0 1)
            (noop_bind (noop_bits H 1 1)
              (noop_table H (writeDeltaField H) (noop_deltaField H) ettventitySharedFields
                (lastChangedLoop f.cells t.cells ettventitySharedFields 0 0)
                f.cells t.cells))))

/-! ## The keyed delta of one value -/

theorem toU32_lt (v : Int) : toU32 v < 4294967296 := by
  unfold toU32
  have h0 : 0 ≤ v % 4294967296 := Int.emod_nonneg v (by norm_num)
  have h1 : v % 4294967296 < 4294967296 := Int.emod_lt_of_pos v (by norm_num)
  omega

theorem toU32_toI32 (n : Nat) : toU32 (toI32 n) = n % 4294967296 := by
  unfold toU32 toI32
  split <;> omega

theorem toU32_toI32_small (n : Nat) (h : n < 4294967296) : toU32 (toI32 n) = n := by
  rw [toU32_toI32, Nat.mod_eq_of_lt h]

theorem xor_unmask (a b w : Nat) : (a ^^^ b) % 2 ^ w ^^^ b % 2 ^ w = a % 2 ^ w := by
  apply Nat.eq_of_testBit_eq
  intro i
  simp only [Nat.testBit_xor, Nat.testBit_mod_two_pow]
  cases decide (i < w) <;> cases a.testBit i <;> cases b.testBit i <;> rfl

theorem pow_le_2_32 (w : Nat) (hw : w ≤ 32) : 2 ^ w ≤ 4294967296 := by
  have : 2 ^ w ≤ 2 ^ 32 := Nat.pow_le_pow_right (by norm_num) hw
  simpa using this

theorem kbitmask_spec (w : Nat) (hw1 : 1 ≤ w) (hw32 : w ≤ 32) :
    kbitmask.getD (w - 1) 0 = toI32 (2 ^ w - 1) := by
  interval_cases w <;> rfl

/-- What the reader computes from the value it reads: the key comes off. -/
theorem unkey (newV key : Int) (w : Nat) (hw1 : 1 ≤ w) (hw32 : w ≤ 32) :
    xorInt (toI32 (toU32 (xorInt newV key) % 2 ^ w))
      (andInt key (kbitmask.getD (((w : Int) - 1).toNat) 0))
      = toI32 (toU32 newV % 2 ^ w) := by
  have hidx : ((w : Int) - 1).toNat = w - 1 := by omega
  have hp := pow_le_2_32 w hw32
  have hpos : 0 < 2 ^ w := Nat.two_pow_pos w
  rw [hidx, kbitmask_spec w hw1 hw32]
  unfold xorInt andInt
  have hx : toU32 newV ^^^ toU32 key < 4294967296 :=
    Nat.xor_lt_two_pow (n := 32) (toU32_lt newV) (toU32_lt key)
  rw [toU32_toI32_small _ hx, toU32_toI32_small (2 ^ w - 1) (by omega),
    Nat.and_pow_two_sub_one_eq_mod]
  have h1 : (toU32 newV ^^^ toU32 key) % 2 ^ w < 4294967296 :=
    lt_of_lt_of_le (Nat.mod_lt _ hpos) hp
  have h2 : toU32 key % 2 ^ w < 4294967296 := lt_of_lt_of_le (Nat.mod_lt _ hpos) hp
  rw [toU32_toI32_small _ h1, toU32_toI32_small _ h2, xor_unmask]

theorem deltaKey_strict (H : huffman_t) (Inv : (Nat → Nat) → Nat → Prop)
    (L : HuffLaws H Inv) (key oldV newV : Int) (w : Nat) (hw1 : 1 ≤ w) (hw32 : w ≤ 32) :
    StrictWriter Inv (fun m => MSG_WriteDeltaKey H m key oldV newV w) := by
  by_cases hsame : oldV = newV
  · have := strict_bits H Inv 0 1 (by norm_num) (by norm_num)
    intro m m2 a b c d e
    apply this m m2 a b c _ e
    simpa [MSG_WriteDeltaKey, hsame] using d
  · exact strict_bind (strict_bits H Inv 1 1 (by norm_num) (by norm_num)) (codec_bit1 L)
      (codec_unsigned L (xorInt newV key) w hw1 hw32)
      (fun m => by simp [MSG_WriteDeltaKey, hsame])

/-- `MSG_ReadDeltaKey` against `MSG_WriteDeltaKey` with the same key. -/
theorem deltaKey_codec {H : huffman_t} {Inv : (Nat → Nat) → Nat → Prop}
    (L : HuffLaws H Inv) (key oldV newV : Int) (w : Nat) (hw1 : 1 ≤ w) (hw32 : w ≤ 32) :
    Codec H Inv (fun m => MSG_WriteDeltaKey H m key oldV newV w)
      (fun rm => MSG_ReadDeltaKey H rm key oldV w) (keyedValue oldV newV w) := by
  have hr : (1 : Int) ≤ (w : Int) ∧ (w : Int) ≤ 32 := by omega
  by_cases hsame : oldV = newV
  · refine Codec.bind (codec_bit0 L) (Codec.pure H Inv (keyedValue oldV newV w)) ?_ ?_
    · intro m; simp [MSG_WriteDeltaKey, hsame, except_bind_ok]
    · intro rm rm1 h
      simp [MSG_ReadDeltaKey, h, bind, Except.bind, pure, Except.pure, keyedValue, hsame]
  · have cv := (codec_unsigned L (xorInt newV key) w hw1 hw32).post
      (q := fun rm => do
        let (v, msg) ← MSG_ReadBits H rm w
        if (1 : Int) ≤ (w : Int) ∧ (w : Int) ≤ 32 then
          pure (xorInt v (andInt key (kbitmask.getD (((w : Int) - 1).toNat) 0)), msg)
        else .error .BAD_INDEX)
      (b := keyedValue oldV newV w)
      (fun rm rm1 h _ => by
        simp only [h, bind, Except.bind, hr, and_self, if_true, pure, Except.pure,
          unkey newV key w hw1 hw32, keyedValue, hsame, if_false])
    refine Codec.bind (codec_bit1 L) cv ?_ ?_
    · intro m; simp [MSG_WriteDeltaKey, hsame]
    · intro rm rm1 h
      simp [MSG_ReadDeltaKey, h, bind, Except.bind]

theorem keyedValue_small (oldV newV : Int) (w : Nat) (hw32 : w ≤ 32) (hint : isInt32 newV)
    (h : (0 ≤ newV ∧ newV < 2 ^ w) ∨ w = 32) : keyedValue oldV newV w = newV := by
  unfold keyedValue
  split
  · assumption
  · rcases h with ⟨h0, h1⟩ | h32
    · have hp := pow_le_2_32 w hw32
      have hlt : (newV.toNat) < 2 ^ w := by
        have : ((newV.toNat : Nat) : Int) < ((2 ^ w : Nat) : Int) := by
          rw [Int.toNat_of_nonneg h0]; exact_mod_cast h1
        exact_mod_cast this
      have hu : toU32 newV = newV.toNat := toU32_nonneg newV h0 (by
        have := hint.2; omega)
      rw [hu, Nat.mod_eq_of_lt hlt, toI32_small _ (by
        have := hint.2
        have : ((newV.toNat : Nat) : Int) < 2147483648 := by
          rw [Int.toNat_of_nonneg h0]; exact this
        exact_mod_cast this), Int.toNat_of_nonneg h0]
    · subst h32
      have : toU32 newV % 2 ^ 32 = toU32 newV := Nat.mod_eq_of_lt (toU32_lt newV)
      rw [this, toI32_toU32 newV hint.1 hint.2]

/-! ## The user command -/

/-- A matched pair followed by a matched pair whose reader is the
continuation of the first reader. -/
theorem Codec.seq {α β : Type} {H : huffman_t} {Inv : (Nat → Nat) → Nat → Prop}
    {w1 w2 : msg_t → Except ComError msg_t}
    {r1 : msg_t → Except ComError (α × msg_t)}
    {k : α × msg_t → Except ComError (β × msg_t)} {a : α} {b : β}
    (h1 : Codec H Inv w1 r1 a) (h2 : Codec H Inv w2 (fun rm => k (a, rm)) b) :
    Codec H Inv (fun m => w1 m >>= w2) (fun rm => r1 rm >>= k) b :=
  Codec.bind h1 h2 (fun _ => rfl) (fun rm rm1 h => by
    show r1 rm >>= k = k (a, rm1)
    rw [h]; rfl)

theorem usercmdFields_codec {H : huffman_t} {Inv : (Nat → Nat) → Nat → Prop}
    (L : HuffLaws H Inv) (key : Int) (f t : usercmd_t) (st : Int) :
    Codec H Inv (fun m => writeUsercmdFields H m key f t)
      (fun rm => readUsercmdFields H rm key f st) (decodedFields f t st) := by
  have c16 : ∀ o n, Codec H Inv (fun m => MSG_WriteDeltaKey H m key o n 16)
      (fun rm => MSG_ReadDeltaKey H rm key o 16) (keyedValue o n 16) :=
    fun o n => deltaKey_codec L key o n 16 (by norm_num) (by norm_num)
  have c8 : ∀ o n, Codec H Inv (fun m => MSG_WriteDeltaKey H m key o n 8)
      (fun rm => MSG_ReadDeltaKey H rm key o 8) (keyedValue o n 8) :=
    fun o n => deltaKey_codec L key o n 8 (by norm_num) (by norm_num)
  have c3 : ∀ o n, Codec H Inv (fun m => MSG_WriteDeltaKey H m key o n 3)
      (fun rm => MSG_ReadDeltaKey H rm key o 3) (keyedValue o n 3) :=
    fun o n => deltaKey_codec L key o n 3 (by norm_num) (by norm_num)
  unfold writeUsercmdFields readUsercmdFields
  refine Codec.seq (c16 _ _) ?_
  refine Codec.seq (c16 _ _) ?_
  refine Codec.seq (c16 _ _) ?_
  refine Codec.seq (c8 _ _) ?_
  refine Codec.seq (c8 _ _) ?_
  refine Codec.seq (c8 _ _) ?_
  refine Codec.seq (c8 _ _) ?_
  refine Codec.seq (c8 _ _) ?_
  refine Codec.seq (c8 _ _) ?_
  refine Codec.seq (c8 _ _) ?_
  refine Codec.seq (c3 _ _) ?_
  refine (c8 f.identClient t.identClient).post ?_
  intro rm rm1 h _
  simp only [h, bind, Except.bind, pure, Except.pure]
  rfl

theorem usercmdTime_codec {H : huffman_t} {Inv : (Nat → Nat) → Nat → Prop}
    (L : HuffLaws H Inv) (f t : usercmd_t) :
    Codec H Inv (fun m => writeUsercmdTime H m f t) (fun rm => readUsercmdTime H rm f)
      (decodedTime f t) := by
  unfold writeUsercmdTime readUsercmdTime decodedTime
  by_cases hd : toI32 (toU32 (t.serverTime - f.serverTime)) < 256
  · simp only [hd, if_true]
    refine Codec.bind (codec_bit1 L)
      ((codec_unsigned L (toI32 (toU32 (t.serverTime - f.serverTime))) 8 (by norm_num)
        (by norm_num)).post
        (q := fun rm => do
          let (d, msg) ← MSG_ReadBits H rm 8
          pure (toI32 (toU32 (f.serverTime + d)), msg))
        (fun rm rm1 h _ => by
          have h' : MSG_ReadBits H rm 8 = .ok
            (toI32 (toU32 (toI32 (toU32 (t.serverTime - f.serverTime))) % 2 ^ 8), rm1) := h
          simp only [h', bind, Except.bind, pure, Except.pure])) (fun m => rfl) ?_
    intro rm rm1 h
    simp [h, bind, Except.bind]
  · simp only [hd, if_false]
    refine Codec.bind (codec_bit0 L)
      (codec_unsigned L t.serverTime 32 (by norm_num) (by norm_num)) (fun m => rfl) ?_
    intro rm rm1 h
    simp [h, bind, Except.bind]

theorem usercmdTime_strict {H : huffman_t} {Inv : (Nat → Nat) → Nat → Prop}
    (L : HuffLaws H Inv) (f t : usercmd_t) :
    StrictWriter Inv (fun m => writeUsercmdTime H m f t) := by
  by_cases hd : toI32 (toU32 (t.serverTime - f.serverTime)) < 256
  · exact strict_bind (strict_bits H Inv 1 1 (by norm_num) (by norm_num)) (codec_bit1 L)
      (codec_unsigned L (toI32 (toU32 (t.serverTime - f.serverTime))) 8 (by norm_num)
        (by norm_num))
      (fun m => by simp [writeUsercmdTime, hd])
  · exact strict_bind (strict_bits H Inv 0 1 (by norm_num) (by norm_num)) (codec_bit0 L)
      (codec_unsigned L t.serverTime 32 (by norm_num) (by norm_num))
      (fun m => by simp [writeUsercmdTime, hd])

/-- The time comes back as sent when the 32-bit difference is not negative. -/
theorem decodedTime_eq (f t : usercmd_t) (ht : isInt32 t.serverTime)
    (h0 : 0 ≤ t.serverTime - f.serverTime) (h1 : t.serverTime - f.serverTime < 2147483648) :
    decodedTime f t = t.serverTime := by
  have hd : toI32 (toU32 (t.serverTime - f.serverTime)) = t.serverTime - f.serverTime :=
    toI32_toU32 _ (by omega) h1
  unfold decodedTime
  rw [hd]
  by_cases hlt : t.serverTime - f.serverTime < 256
  · rw [if_pos hlt]
    have hu : toU32 (t.serverTime - f.serverTime) % 2 ^ 8
        = (t.serverTime - f.serverTime).toNat := by
      rw [toU32_nonneg _ h0 (by omega)]
      apply Nat.mod_eq_of_lt
      have : (((t.serverTime - f.serverTime).toNat : Nat) : Int) < 256 := by
        rw [Int.toNat_of_nonneg h0]; exact hlt
      norm_num
      exact_mod_cast this
    have hs : toI32 (toU32 (t.serverTime - f.serverTime) % 2 ^ 8)
        = t.serverTime - f.serverTime := by
      rw [hu, toI32_small _ (by
        have : (((t.serverTime - f.serverTime).toNat : Nat) : Int) < 2147483648 := by
          rw [Int.toNat_of_nonneg h0]; exact h1
        exact_mod_cast this), Int.toNat_of_nonneg h0]
    rw [hs]
    have : f.serverTime + (t.serverTime - f.serverTime) = t.serverTime := by ring
    rw [this, toI32_toU32 _ ht.1 ht.2]
  · rw [if_neg hlt]
    have : toU32 t.serverTime % 2 ^ 32 = toU32 t.serverTime :=
      Nat.mod_eq_of_lt (toU32_lt t.serverTime)
    rw [this, toI32_toU32 _ ht.1 ht.2]

/-- `MSG_ReadDeltaUsercmdKey` against `MSG_WriteDeltaUsercmdKey` with the
same key, when the time comes back as sent. -/
theorem usercmd_codec {H : huffman_t} {Inv : (Nat → Nat) → Nat → Prop}
    (L : HuffLaws H Inv) (key : Int) (f t : usercmd_t)
    (htime : decodedTime f t = t.serverTime) :
    Codec H Inv (fun m => MSG_WriteDeltaUsercmdKey H m key f t)
      (fun rm => MSG_ReadDeltaUsercmdKey H rm key f) (decodedUsercmd f t t.serverTime) ∧
    StrictWriter Inv (fun m => MSG_WriteDeltaUsercmdKey H m key f t) := by
  have cT := usercmdTime_codec L f t
  rw [htime] at cT
  have cR : Codec H Inv
      (fun m => if usercmdSame f t then MSG_WriteBits H m 0 1
        else MSG_WriteBits H m 1 1 >>= fun m =>
          writeUsercmdFields H m (xorInt key t.serverTime) f t)
      (fun rm => do
        let (changed, msg) ← MSG_ReadBits H rm 1
        if changed ≠ 0 then
          readUsercmdFields H msg (xorInt key t.serverTime) f t.serverTime
        else pure ({ f with serverTime := t.serverTime }, msg))
      (decodedUsercmd f t t.serverTime) := by
    by_cases hs : usercmdSame f t
    · refine Codec.bind (codec_bit0 L)
        (Codec.pure H Inv (decodedUsercmd f t t.serverTime)) ?_ ?_
      · intro m; simp [hs, except_bind_ok]
      · intro rm rm1 h
        simp [h, bind, Except.bind, pure, Except.pure, decodedUsercmd, hs]
    · have cF := usercmdFields_codec L (xorInt key t.serverTime) f t t.serverTime
      have hv : decodedUsercmd f t t.serverTime = decodedFields f t t.serverTime := by
        simp [decodedUsercmd, hs]
      rw [hv]
      refine Codec.bind (codec_bit1 L) cF ?_ ?_
      · intro m; simp [hs]
      · intro rm rm1 h
        simp [h, bind, Except.bind]
  constructor
  · refine Codec.bind cT cR (fun m => rfl) ?_
    intro rm rm1 h
    simp only [MSG_ReadDeltaUsercmdKey, h, bind, Except.bind]
  · exact strict_bind (usercmdTime_strict L f t) cT cR (fun m => rfl)

theorem MSG_WriteBits_uncompsize (H : huffman_t) (m m2 : msg_t) (value bits : Int)
    (h : MSG_WriteBits H m value bits = .ok m2) : m2.uncompsize = m.uncompsize + bits := by
  have ht : ∀ (n : Nat) (v : Int) (m : msg_t),
      (transmitLoop H n v m).uncompsize = m.uncompsize := by
    intro n
    induction n with
    | zero => intro v m; rfl
    | succ n ih =>
      intro v m
      unfold transmitLoop
      simp only []
      split_ifs
      · rfl
      · exact ih _ _
  unfold MSG_WriteBits at h
  simp only [width_natAbs] at h
  by_cases hov : m.overflowed = true
  · simp only [hov, if_true] at h
    cases h
    rfl
  · have hov2 : m.overflowed = false := by simpa using hov
    simp only [hov2, Bool.false_eq_true, if_false] at h
    split_ifs at h <;> first
      | (cases h; rfl)
      | (cases h; exact ht _ _ _)

theorem MSG_ReadDeltaKey_total (H : huffman_t) (key oldV : Int) (w : Nat)
    (hw1 : 1 ≤ w) (hw32 : w ≤ 32) :
    TotalReader (fun m => MSG_ReadDeltaKey H m key oldV w) := by
  have hr : (1 : Int) ≤ (w : Int) ∧ (w : Int) ≤ 32 := by omega
  have := total_bind (MSG_ReadBits_total H 1) (fun changed =>
    total_ite (changed ≠ 0)
      (total_bind (MSG_ReadBits_total H w) (fun v =>
        total_pure (xorInt v (andInt key (kbitmask.getD (((w : Int) - 1).toNat) 0)))))
      (total_pure oldV))
  intro msg ho
  obtain ⟨v, m2, e, ho2⟩ := this msg ho
  refine ⟨v, m2, ?_, ho2⟩
  rw [← e]
  simp only [MSG_ReadDeltaKey, hr, and_self, if_true]
  rfl

theorem readUsercmdFields_total (H : huffman_t) (key : Int) (f : usercmd_t) (st : Int) :
    TotalReader (fun m => readUsercmdFields H m key f st) := by
  have t16 : ∀ o, TotalReader (fun m => MSG_ReadDeltaKey H m key o 16) :=
    fun o => MSG_ReadDeltaKey_total H key o 16 (by norm_num) (by norm_num)
  have t8 : ∀ o, TotalReader (fun m => MSG_ReadDeltaKey H m key o 8) :=
    fun o => MSG_ReadDeltaKey_total H key o 8 (by norm_num) (by norm_num)
  have t3 : ∀ o, TotalReader (fun m => MSG_ReadDeltaKey H m key o 3) :=
    fun o => MSG_ReadDeltaKey_total H key o 3 (by norm_num) (by norm_num)
  exact total_bind (t16 _) (fun a0 => total_bind (t16 _) (fun a1 => total_bind (t16 _)
    (fun a2 => total_bind (t8 _) (fun fm => total_bind (t8 _) (fun rm => total_bind (t8 _)
    (fun um => total_bind (t8 _) (fun b => total_bind (t8 _) (fun wb => total_bind (t8 _)
    (fun wp => total_bind (t8 _) (fun fl => total_bind (t3 _) (fun dt => total_bind (t8 _)
    (fun ic => total_pure
      ({ serverTime := st,
         angles := fun i => if i = 0 then a0 else if i = 1 then a1
           else if i = 2 then a2 else f.angles i,
         forwardmove := clampMove (toI8 fm), rightmove := clampMove (toI8 rm),
         upmove := clampMove (toI8 um),
         buttons := b % 256, wbuttons := wb % 256, weapon := wp % 256,
         flags := fl % 256, doubleTap := andInt dt 7 % 256,
         identClient := ic % 256 } : usercmd_t)))))))))))))

theorem MSG_ReadDeltaUsercmdKey_total (H : huffman_t) (key : Int) (f : usercmd_t) :
    TotalReader (fun m => MSG_ReadDeltaUsercmdKey H m key f) := by
  have tT : TotalReader (fun m => readUsercmdTime H m f) :=
    total_bind (MSG_ReadBits_total H 1) (fun short =>
      total_ite (short ≠ 0)
        (total_bind (MSG_ReadBits_total H 8) (fun d =>
          total_pure (toI32 (toU32 (f.serverTime + d)))))
        (MSG_ReadBits_total H 32))
  exact total_bind tT (fun st => total_bind (MSG_ReadBits_total H 1) (fun changed =>
    total_ite (changed ≠ 0) (readUsercmdFields_total H (xorInt key st) f st)
      (total_pure ({ f with serverTime := st } : usercmd_t))))

theorem clampMove_ne (v : Int) : clampMove v ≠ -128 := by
  unfold clampMove
  split <;> omega

/-- What `readUsercmdFields` returns in the three moves. -/
theorem readUsercmdFields_moves (H : huffman_t) (msg : msg_t) (key : Int) (f : usercmd_t)
    (st : Int) (out : usercmd_t) (rm : msg_t)
    (h : readUsercmdFields H msg key f st = .ok (out, rm)) :
    ∃ (m3 : msg_t) (vf : Int) (m4 : msg_t) (vr : Int) (m5 : msg_t) (vu : Int) (m6 : msg_t),
      MSG_ReadDeltaKey H m3 key f.forwardmove 8 = .ok (vf, m4) ∧
      MSG_ReadDeltaKey H m4 key f.rightmove 8 = .ok (vr, m5) ∧
      MSG_ReadDeltaKey H m5 key f.upmove 8 = .ok (vu, m6) ∧
      out.forwardmove = (if toI8 vf = -128 then -127 else toI8 vf) ∧
      out.rightmove = (if toI8 vr = -128 then -127 else toI8 vr) ∧
      out.upmove = (if toI8 vu = -128 then -127 else toI8 vu) := by
  unfold readUsercmdFields at h
  obtain ⟨p0, _, h⟩ := bind_eq_ok h
  obtain ⟨p1, _, h⟩ := bind_eq_ok h
  obtain ⟨p2, _, h⟩ := bind_eq_ok h
  obtain ⟨p3, e3, h⟩ := bind_eq_ok h
  obtain ⟨p4, e4, h⟩ := bind_eq_ok h
  obtain ⟨p5, e5, h⟩ := bind_eq_ok h
  obtain ⟨p6, _, h⟩ := bind_eq_ok h
  obtain ⟨p7, _, h⟩ := bind_eq_ok h
  obtain ⟨p8, _, h⟩ := bind_eq_ok h
  obtain ⟨p9, _, h⟩ := bind_eq_ok h
  obtain ⟨p10, _, h⟩ := bind_eq_ok h
  obtain ⟨p11, _, h⟩ := bind_eq_ok h
  cases h
  exact ⟨p2.2, p3.1, p3.2, p4.1, p4.2, p5.1, p5.2, e3, e4, e5, rfl, rfl, rfl⟩

theorem errIn_ok {α : Type} (P : ComError → Prop) (a : α) : ErrIn P (.ok a : Except ComError α) := by
  intro e h; cases h

theorem errIn_pure {α : Type} (P : ComError → Prop) (a : α) :
    ErrIn P (pure a : Except ComError α) := by
  intro e h; cases h

theorem errIn_bind {α β : Type} {P : ComError → Prop} {x : Except ComError α}
    {f : α → Except ComError β} (hx : ErrIn P x) (hf : ∀ a, ErrIn P (f a)) :
    ErrIn P (x >>= f) := by
  intro e h
  cases x with
  | error e1 =>
    have : e1 = e := by cases h; rfl
    exact hx e (by rw [this])
  | ok a => exact hf a e h

theorem errIn_ite {α : Type} {P : ComError → Prop} (c : Prop) [Decidable c]
    {x y : Except ComError α} (hx : ErrIn P x) (hy : ErrIn P y) :
    ErrIn P (if c then x else y) := by
  split
  · exact hx
  · exact hy

theorem MSG_WriteBits_err (H : huffman_t) (m : msg_t) (value bits : Int) :
    ErrIn bitError (MSG_WriteBits H m value bits) := by
  intro e h
  unfold MSG_WriteBits at h
  simp only [width_natAbs] at h
  split_ifs at h <;> cases h <;> first
    | exact Or.inl rfl
    | exact Or.inr (Or.inl rfl)

theorem MSG_ReadBits_err (H : huffman_t) (m : msg_t) (bits : Int) :
    ErrIn bitError (MSG_ReadBits H m bits) := by
  intro e h
  unfold MSG_ReadBits at h
  simp only [width_natAbs] at h
  split_ifs at h
  cases h
  exact Or.inr (Or.inr rfl)

theorem MSG_ReadByte_err (H : huffman_t) (m : msg_t) : ErrIn bitError (MSG_ReadByte H m) :=
  errIn_bind (MSG_ReadBits_err H m 8) (fun _ => errIn_ite _ (errIn_pure _ _) (errIn_pure _ _))

theorem MSG_ReadShort_err (H : huffman_t) (m : msg_t) : ErrIn bitError (MSG_ReadShort H m) :=
  errIn_bind (MSG_ReadBits_err H m 16) (fun _ => errIn_ite _ (errIn_pure _ _) (errIn_pure _ _))

theorem MSG_ReadLong_err (H : huffman_t) (m : msg_t) : ErrIn bitError (MSG_ReadLong H m) :=
  errIn_bind (MSG_ReadBits_err H m 32) (fun _ => errIn_ite _ (errIn_pure _ _) (errIn_pure _ _))

theorem readTruncFloat_err (H : huffman_t) (m : msg_t) : ErrIn bitError (readTruncFloat H m) :=
  errIn_bind (MSG_ReadBits_err H m 1) (fun _ => errIn_ite _
    (errIn_bind (MSG_ReadBits_err H _ _) (fun _ => errIn_pure _ _)) (MSG_ReadBits_err H _ _))

theorem readFloatField_err (H : huffman_t) (m : msg_t) : ErrIn bitError (readFloatField H m) :=
  errIn_bind (MSG_ReadBits_err H m 1) (fun _ => errIn_ite _ (errIn_pure _ _)
    (readTruncFloat_err H _))

theorem readIntField_err (H : huffman_t) (m : msg_t) (bits : Int) :
    ErrIn bitError (readIntField H m bits) :=
  errIn_bind (MSG_ReadBits_err H m 1) (fun _ => errIn_ite _ (errIn_pure _ _)
    (MSG_ReadBits_err H _ _))

theorem readDeltaField_err (H : huffman_t) (m : msg_t) (field : netField_t) (fromF : Int) :
    ErrIn bitError (readDeltaField H m field fromF) :=
  errIn_bind (MSG_ReadBits_err H m 1) (fun _ => errIn_ite _ (errIn_pure _ _)
    (errIn_ite _ (readFloatField_err H _) (readIntField_err H _ _)))

theorem readPlayerField_err (H : huffman_t) (m : msg_t) (field : netField_t) (fromF : Int) :
    ErrIn bitError (readPlayerField H m field fromF) :=
  errIn_bind (MSG_ReadBits_err H m 1) (fun _ => errIn_ite _ (errIn_pure _ _)
    (errIn_ite _ (readTruncFloat_err H _) (MSG_ReadBits_err H _ _)))

theorem readFields_err (body : msg_t → netField_t → Int → Except ComError (Int × msg_t))
    (hbody : ∀ m f v, ErrIn bitError (body m f v)) (fromC : Nat → Int) :
    ∀ (fields : List netField_t) (toC : Nat → Int) (m : msg_t),
      ErrIn bitError (readFields body fromC fields toC m) := by
  intro fields
  induction fields with
  | nil => intro toC m; exact errIn_pure _ _
  | cons f rest ih =>
    intro toC m
    exact errIn_bind (hbody _ _ _) (fun _ => ih _ _)

theorem readArrayValues_err (read : msg_t → Except ComError (Int × msg_t))
    (hread : ∀ m, ErrIn bitError (read m)) (bits : Int) (base : Nat) :
    ∀ (is : List Nat) (arr : Nat → Int) (m : msg_t),
      ErrIn bitError (readArrayValues read bits base is arr m) := by
  intro is
  induction is with
  | nil => intro arr m; exact errIn_pure _ _
  | cons i rest ih =>
    intro arr m
    unfold readArrayValues
    split
    · exact errIn_bind (hread _) (fun _ => ih _ _)
    · exact ih _ _

theorem readArrayBlock_err (H : huffman_t) (read : msg_t → Except ComError (Int × msg_t))
    (hread : ∀ m, ErrIn bitError (read m)) (m : msg_t) (arr : Nat → Int) (base n : Nat) :
    ErrIn bitError (readArrayBlock H read m arr base n) :=
  errIn_bind (MSG_ReadBits_err H m 1) (fun _ => errIn_ite _
    (errIn_bind (MSG_ReadShort_err H _) (fun _ => readArrayValues_err read hread _ _ _ _ _))
    (errIn_pure _ _))

theorem readStatsGroup_err (H : huffman_t) (K : constants_t) (m : msg_t) (t : playerState_t) :
    ErrIn bitError (readStatsGroup H K m t) :=
  errIn_bind (MSG_ReadBits_err H m 1) (fun _ => errIn_ite _
    (errIn_bind (readArrayBlock_err H _ (MSG_ReadShort_err H) _ _ _ _) (fun _ =>
      errIn_bind (readArrayBlock_err H _ (MSG_ReadShort_err H) _ _ _ _) (fun _ =>
      errIn_bind (readArrayBlock_err H _ (MSG_ReadShort_err H) _ _ _ _) (fun _ =>
      errIn_bind (readArrayBlock_err H _ (MSG_ReadLong_err H) _ _ _ _) (fun _ =>
      errIn_pure _ _)))))
    (errIn_pure _ _))

theorem readAmmoGroup_err (H : huffman_t) (m : msg_t) (t : playerState_t) :
    ErrIn bitError (readAmmoGroup H m t) :=
  errIn_bind (MSG_ReadBits_err H m 1) (fun _ => errIn_ite _
    (errIn_bind (readArrayBlock_err H _ (MSG_ReadShort_err H) _ _ _ _) (fun _ =>
      errIn_bind (readArrayBlock_err H _ (MSG_ReadShort_err H) _ _ _ _) (fun _ =>
      errIn_bind (readArrayBlock_err H _ (MSG_ReadShort_err H) _ _ _ _) (fun _ =>
      errIn_bind (readArrayBlock_err H _ (MSG_ReadShort_err H) _ _ _ _) (fun _ =>
      errIn_pure _ _)))))
    (errIn_pure _ _))

theorem readClipGroup_err (H : huffman_t) (m : msg_t) (t : playerState_t) :
    ErrIn bitError (readClipGroup H m t) :=
  errIn_bind (readArrayBlock_err H _ (MSG_ReadShort_err H) _ _ _ _) (fun _ =>
    errIn_bind (readArrayBlock_err H _ (MSG_ReadShort_err H) _ _ _ _) (fun _ =>
    errIn_bind (readArrayBlock_err H _ (MSG_ReadShort_err H) _ _ _ _) (fun _ =>
    errIn_bind (readArrayBlock_err H _ (MSG_ReadShort_err H) _ _ _ _) (fun _ =>
    errIn_pure _ _))))

/-- What `readDeltaTable` does once `MSG_ReadByte` has returned `lc`. -/
theorem readDeltaTable_lc (H : huffman_t)
    (body : msg_t → netField_t → Int → Except ComError (Int × msg_t))
    (table : List netField_t) (text : String) (msg m1 : msg_t) (fromC toC : Nat → Int)
    (lc : Int) (h : MSG_ReadByte H msg = .ok (lc, m1)) :
    readDeltaTable H body table text msg fromC toC =
      if lc > table.length ∨ lc < 0 then .error (.ERR_DROP text)
      else readFields body fromC (table.take lc.toNat) toC m1 >>= fun p =>
        pure (copyTailFields fromC (table.drop lc.toNat) p.1, p.2) := by
  show (MSG_ReadByte H msg >>= fun q =>
      if q.1 > table.length ∨ q.1 < 0 then .error (.ERR_DROP text)
      else readFields body fromC (table.take q.1.toNat) toC q.2 >>= fun p =>
        pure (copyTailFields fromC (table.drop q.1.toNat) p.1, p.2)) = _
  rw [h]
  rfl

theorem bitError_text (text : String)
    (h1 : text ≠ "MSG_WriteBits: bad bits") (h2 : text ≠ "MSG_WriteBits: can not read bits")
    (h3 : text ≠ "MSG_ReadBits: can not read bits") : ¬ bitError (.ERR_DROP text) := by
  intro h
  rcases h with h | h | h
  · exact h1 (by injection h)
  · exact h2 (by injection h)
  · exact h3 (by injection h)

theorem writeTruncFloat_err (H : huffman_t) (m : msg_t) (toF : Int) :
    ErrIn bitError (writeTruncFloat H m toF) := by
  unfold writeTruncFloat
  exact errIn_ite _ (errIn_bind (MSG_WriteBits_err H _ _ _) (fun _ => MSG_WriteBits_err H _ _ _))
    (errIn_bind (MSG_WriteBits_err H _ _ _) (fun _ => MSG_WriteBits_err H _ _ _))

theorem writeDeltaField_err (H : huffman_t) (m : msg_t) (field : netField_t) (fromF toF : Int) :
    ErrIn bitError (writeDeltaField H m field fromF toF) :=
  errIn_ite _ (MSG_WriteBits_err H _ _ _)
    (errIn_bind (MSG_WriteBits_err H _ _ _) (fun _ => errIn_ite _
      (errIn_ite _ (MSG_WriteBits_err H _ _ _)
        (errIn_bind (MSG_WriteBits_err H _ _ _) (fun _ => writeTruncFloat_err H _ _)))
      (errIn_ite _ (MSG_WriteBits_err H _ _ _)
        (errIn_bind (MSG_WriteBits_err H _ _ _) (fun _ => MSG_WriteBits_err H _ _ _)))))

theorem writePlayerField_err (H : huffman_t) (m : msg_t) (field : netField_t)
    (fromF toF : Int) : ErrIn bitError (writePlayerField H m field fromF toF) :=
  errIn_ite _ (MSG_WriteBits_err H _ _ _)
    (errIn_bind (MSG_WriteBits_err H _ _ _) (fun _ => errIn_ite _
      (writeTruncFloat_err H _ _) (MSG_WriteBits_err H _ _ _)))

theorem writeFields_err (body : msg_t → netField_t → Int → Int → Except ComError msg_t)
    (hbody : ∀ m f a b, ErrIn bitError (body m f a b)) (fromC toC : Nat → Int) :
    ∀ (fields : List netField_t) (m : msg_t),
      ErrIn bitError (writeFields body fromC toC fields m) := by
  intro fields
  induction fields with
  | nil => intro m; exact errIn_pure _ _
  | cons f rest ih =>
    intro m
    exact errIn_bind (hbody _ _ _ _) (fun _ => ih _)

theorem writeDeltaTable_err (H : huffman_t)
    (body : msg_t → netField_t → Int → Int → Except ComError msg_t)
    (hbody : ∀ m f a b, ErrIn bitError (body m f a b)) (table : List netField_t) (lc : Nat)
    (m : msg_t) (fromC toC : Nat → Int) :
    ErrIn bitError (writeDeltaTable H body table lc m fromC toC) :=
  errIn_bind (MSG_WriteBits_err H _ _ _) (fun _ => writeFields_err body hbody _ _ _ _)

theorem readDeltaTable_err
    (body : msg_t → netField_t → Int → Except ComError (Int × msg_t))
    (hbody : ∀ m f v, ErrIn bitError (body m f v))
    (table : List netField_t) (lc : Int) (m1 : msg_t) (fromC toC : Nat → Int) :
    ErrIn bitError (readFields body fromC (table.take lc.toNat) toC m1 >>= fun p =>
      (pure (copyTailFields fromC (table.drop lc.toNat) p.1, p.2) :
        Except ComError ((Nat → Int) × msg_t))) :=
  errIn_bind (readFields_err body hbody _ _ _ _) (fun _ => errIn_pure _ _)

theorem lastChangedLoop_last (fromC toC : Nat → Int) :
    ∀ (fields : List netField_t) (i lc : Nat), lc ≤ i →
      lastChangedLoop fromC toC fields i lc = lc ∨
      (i < lastChangedLoop fromC toC fields i lc ∧
        cellDiffers fromC toC fields (lastChangedLoop fromC toC fields i lc - i - 1)) := by
  intro fields
  induction fields with
  | nil => intro i lc _; exact Or.inl rfl
  | cons g rest ih =>
    intro i lc h
    simp only [lastChangedLoop]
    have hlc1 : (if fromC g.offset ≠ toC g.offset then i + 1 else lc) ≤ i + 1 := by
      split <;> omega
    rcases ih (i + 1) _ hlc1 with e | ⟨hlt, f, hf, hd⟩
    · by_cases hg : fromC g.offset ≠ toC g.offset
      · right
        rw [if_pos hg] at e ⊢
        rw [e]
        refine ⟨by omega, g, ?_, hg⟩
        have : i + 1 - i - 1 = 0 := by omega
        rw [this]
        simp
      · left
        rw [if_neg hg] at e ⊢
        exact e
    · right
      refine ⟨by omega, f, ?_, hd⟩
      have : lastChangedLoop fromC toC rest (i + 1)
            (if fromC g.offset ≠ toC g.offset then i + 1 else lc) - i - 1
          = (lastChangedLoop fromC toC rest (i + 1)
            (if fromC g.offset ≠ toC g.offset then i + 1 else lc) - (i + 1) - 1) + 1 := by omega
      rw [this, List.getElem?_cons_succ]
      exact hf

/-- The count `lc` in terms of indices: 0 when no entry differs, and
otherwise one more than the last index whose cells differ. -/
theorem lastChanged_index (fromC toC : Nat → Int) (table : List netField_t) :
    ((∀ i, ¬ cellDiffers fromC toC table i) → lastChangedLoop fromC toC table 0 0 = 0) ∧
    (lastChangedLoop fromC toC table 0 0 = 0 → ∀ i, ¬ cellDiffers fromC toC table i) ∧
    (∀ i, cellDiffers fromC toC table i → (∀ j, i < j → ¬ cellDiffers fromC toC table j) →
      lastChangedLoop fromC toC table 0 0 = i + 1) := by
  have hsame : ∀ j, lastChangedLoop fromC toC table 0 0 ≤ j → ¬ cellDiffers fromC toC table j := by
    intro j hj ⟨f, hf, hd⟩
    have hmem : f ∈ table.drop (lastChangedLoop fromC toC table 0 0) := by
      rw [List.mem_iff_getElem?]
      refine ⟨j - lastChangedLoop fromC toC table 0 0, ?_⟩
      rw [List.getElem?_drop]
      have : lastChangedLoop fromC toC table 0 0 + (j - lastChangedLoop fromC toC table 0 0) = j := by
        omega
      rw [this]
      exact hf
    exact hd ((lastChanged_tail fromC toC table).2 f hmem)
  refine ⟨?_, ?_, ?_⟩
  · intro h
    rcases lastChangedLoop_last fromC toC table 0 0 (le_refl _) with e | ⟨_, hd⟩
    · exact e
    · exact absurd hd (h _)
  · intro h i
    exact hsame i (by omega)
  · intro i hi hlast
    rcases lastChangedLoop_last fromC toC table 0 0 (le_refl _) with e | ⟨hpos, hd⟩
    · exact absurd hi (hsame i (by omega))
    · by_contra hne
      rcases Nat.lt_or_gt_of_ne hne with hlt | hgt
      · exact hsame i (by omega) hi
      · exact hlast _ (by omega) hd

theorem keyed_move (f t : Int) (h : -128 ≤ t ∧ t ≤ 127) (hne : t ≠ -128) :
    clampMove (toI8 (keyedValue f t 8)) = t := by
  have h8 : toI8 (keyedValue f t 8) = t := by
    unfold keyedValue
    split
    · next e => rw [e]; unfold toI8; split <;> omega
    · unfold toI32 toU32 toI8
      norm_num
      split_ifs <;> omega
  rw [h8]
  unfold clampMove
  rw [if_neg hne]

theorem keyed_byte (f t : Int) (h : 0 ≤ t ∧ t ≤ 255) : keyedValue f t 8 % 256 = t := by
  rw [keyedValue_small f t 8 (by norm_num) ⟨by omega, by omega⟩
    (Or.inl ⟨h.1, by norm_num; omega⟩)]
  omega

theorem keyed_angle (f t : Int) (h : 0 ≤ t ∧ t ≤ 65535) : keyedValue f t 16 = t :=
  keyedValue_small f t 16 (by norm_num) ⟨by omega, by omega⟩ (Or.inl ⟨h.1, by norm_num; omega⟩)

theorem keyed_doubleTap (f t : Int) (h : 0 ≤ t ∧ t ≤ 7) :
    andInt (keyedValue f t 3) 7 % 256 = t := by
  rw [keyedValue_small f t 3 (by norm_num) ⟨by omega, by omega⟩
    (Or.inl ⟨h.1, by norm_num; omega⟩)]
  obtain ⟨h0, h1⟩ := h
  interval_cases t <;> decide

/-- The record that the reader rebuilds is `to` in every member sent, when
the members of `to` are in the ranges their encodings carry. -/
theorem decodedUsercmd_eq (f t : usercmd_t) (ht : usercmdTyped t)
    (hang : ∀ i, i < 3 → 0 ≤ t.angles i ∧ t.angles i ≤ 65535)
    (hdt : 0 ≤ t.doubleTap ∧ t.doubleTap ≤ 7)
    (hmove : t.forwardmove ≠ -128 ∧ t.rightmove ≠ -128 ∧ t.upmove ≠ -128) :
    (decodedUsercmd f t t.serverTime).serverTime = t.serverTime ∧
    (∀ i, i < 3 → (decodedUsercmd f t t.serverTime).angles i = t.angles i) ∧
    (decodedUsercmd f t t.serverTime).forwardmove = t.forwardmove ∧
    (decodedUsercmd f t t.serverTime).rightmove = t.rightmove ∧
    (decodedUsercmd f t t.serverTime).upmove = t.upmove ∧
    (decodedUsercmd f t t.serverTime).buttons = t.buttons ∧
    (decodedUsercmd f t t.serverTime).wbuttons = t.wbuttons ∧
    (decodedUsercmd f t t.serverTime).weapon = t.weapon ∧
    (decodedUsercmd f t t.serverTime).flags = t.flags ∧
    (decodedUsercmd f t t.serverTime).doubleTap = t.doubleTap ∧
    (decodedUsercmd f t t.serverTime).identClient = t.identClient := by
  obtain ⟨_, t1, t2, t3, t4, t5, t6, t7, _, t9⟩ := ht
  unfold decodedUsercmd
  split
  · next hs =>
    obtain ⟨a0, a1, a2, s1, s2, s3, s4, s5, s6, s7, s8, s9⟩ := hs
    refine ⟨rfl, ?_, s1, s2, s3, s4, s5, s6, s7, s8, s9⟩
    intro i hi
    show f.angles i = t.angles i
    interval_cases i
    · exact a0
    · exact a1
    · exact a2
  · refine ⟨rfl, ?_, keyed_move _ _ t1 hmove.1, keyed_move _ _ t2 hmove.2.1,
      keyed_move _ _ t3 hmove.2.2, keyed_byte _ _ t4, keyed_byte _ _ t5, keyed_byte _ _ t6,
      keyed_byte _ _ t7, keyed_doubleTap _ _ hdt, keyed_byte _ _ t9⟩
    intro i hi
    show (decodedFields f t t.serverTime).angles i = t.angles i
    unfold decodedFields
    interval_cases i
    · exact keyed_angle _ _ (hang 0 (by norm_num))
    · exact keyed_angle _ _ (hang 1 (by norm_num))
    · exact keyed_angle _ _ (hang 2 (by norm_num))

theorem addRefLoop_foldl {σ : Type} (addRef : σ → Nat → σ) (ch : Nat) :
    ∀ (n : Nat) (s : σ × σ), addRefLoop addRef ch n s
      = ((List.replicate n ch).foldl addRef s.1, (List.replicate n ch).foldl addRef s.2) := by
  intro n
  induction n with
  | zero => intro s; rfl
  | succ n ih =>
    intro s
    simp only [addRefLoop, ih, List.replicate_succ, List.foldl_cons]

theorem initLoop_foldl {σ : Type} (addRef : σ → Nat → σ) :
    ∀ (ws : List Int) (i : Nat) (s : σ × σ), initLoop addRef ws i s
      = (((List.range ws.length).flatMap
            (fun j => List.replicate (ws.getD j 0).toNat ((i + j) % 256))).foldl addRef s.1,
         ((List.range ws.length).flatMap
            (fun j => List.replicate (ws.getD j 0).toNat ((i + j) % 256))).foldl addRef s.2) := by
  intro ws
  induction ws with
  | nil => intro i s; rfl
  | cons w rest ih =>
    intro i s
    have hr : (List.range (w :: rest).length).flatMap
          (fun j => List.replicate ((w :: rest).getD j 0).toNat ((i + j) % 256))
        = List.replicate w.toNat (i % 256) ++ (List.range rest.length).flatMap
          (fun j => List.replicate (rest.getD j 0).toNat ((i + 1 + j) % 256)) := by
      rw [List.length_cons, List.range_succ_eq_map, List.flatMap_cons, List.flatMap_map]
      congr 1
      apply List.flatMap_congr
      intro j _
      have : i + j.succ = i + 1 + j := by omega
      simp [this]
    rw [hr]
    simp only [initLoop, ih, addRefLoop_foldl, List.foldl_append]

set_option maxRecDepth 100000 in
theorem msg_hData_length : msg_hData.length = 256 := by rfl

set_option maxRecDepth 100000 in
theorem msg_hData_positive : ∀ w ∈ msg_hData, 1 ≤ w := by decide

theorem refSequence_eq :
    (List.range msg_hData.length).flatMap
        (fun j => List.replicate (msg_hData.getD j 0).toNat ((0 + j) % 256))
      = refSequence := by
  unfold refSequence
  rw [msg_hData_length]
  apply List.flatMap_congr
  intro j hj
  have : j < 256 := List.mem_range.mp hj
  have h2 : (0 + j) % 256 = j := by omega
  rw [h2]

theorem hashSanitize_zero (strip : Int) : hashSanitize strip 0 = 0 := by
  unfold hashSanitize
  rw [if_neg]
  rintro (h | ⟨_, h⟩)
  · omega
  · exact h (by decide)

theorem hashSanitize_getD (strip : Int) (s : List Int) (i : Nat) :
    (s.map (hashSanitize strip)).getD i 0 = hashSanitize strip (s.getD i 0) := by
  by_cases hi : i < s.length
  · rw [List.getD_eq_getElem _ _ (by simpa using hi), List.getD_eq_getElem _ _ hi]
    simp
  · rw [List.getD_eq_default _ _ (by simpa using hi), List.getD_eq_default _ _ (by omega),
      hashSanitize_zero]

theorem hashLoop_sanitize (s : List Int) (maxlen strip : Int) :
    ∀ (fuel i : Nat) (hash : Int),
      hashLoop (s.map (hashSanitize strip)) maxlen strip fuel i hash
        = hashLoop s maxlen strip fuel i hash := by
  intro fuel
  induction fuel with
  | zero => intro i hash; rfl
  | succ fuel ih =>
    intro i hash
    simp only [hashLoop, hashSanitize_getD, ih]
    have h46a : ¬ ((46 : Int) = 37) := by decide
    have h46b : ¬ (andInt 46 0x80 ≠ 0) := by decide
    by_cases hsp : s.getD i 0 = 37 ∨ (strip ≠ 0 ∧ andInt (s.getD i 0) 0x80 ≠ 0)
    · have hc : hashSanitize strip (s.getD i 0) = 46 := by
        unfold hashSanitize; rw [if_pos hsp]
      have hnz : s.getD i 0 ≠ 0 := by
        rcases hsp with h | ⟨_, h⟩
        · omega
        · intro h0; rw [h0] at h; exact h (by decide)
      have hsp2 : (strip ≠ 0 ∧ andInt (s.getD i 0) 0x80 ≠ 0) ∨ s.getD i 0 = 37 := by tauto
      have hn46 : ¬ ((strip ≠ 0 ∧ andInt (46 : Int) 0x80 ≠ 0) ∨ (46 : Int) = 37) := by tauto
      rw [hc]
      simp only [hnz, hsp2, hn46, if_true, if_false, ne_eq, not_false_eq_true, and_true]
      norm_num
    · have hc : hashSanitize strip (s.getD i 0) = s.getD i 0 := by
        unfold hashSanitize; rw [if_neg hsp]
      rw [hc]

theorem writeDataLoop_seq (H : huffman_t) (data : Nat → Nat) :
    ∀ (n i : Nat) (m : msg_t), writeDataLoop H data n i m
      = writeBitsSeq H ((List.range n).map (fun k => (((data (i + k) : Nat) : Int), (8 : Int)))) m := by
  intro n
  induction n with
  | zero => intro i m; rfl
  | succ n ih =>
    intro i m
    rw [List.range_succ_eq_map, List.map_cons, List.map_map]
    simp only [writeDataLoop, writeBitsSeq, MSG_WriteByte, ih]
    congr 1
    funext m1
    congr 2
    funext k
    simp only [Function.comp, Nat.succ_eq_add_one]
    have : i + 1 + k = i + (k + 1) := by omega
    rw [this]

/-- Out of band, with room for them, `MSG_WriteData` stores its `n` bytes
after the bytes already in the buffer. -/
theorem writeDataLoop_oob (H : huffman_t) (data : Nat → Nat) :
    ∀ (n i : Nat) (m : msg_t), m.oob = true → m.overflowed = false →
      m.cursize + n ≤ m.maxsize →
      ∃ m2, writeDataLoop H data n i m = .ok m2 ∧ m2.cursize = m.cursize + n ∧
        m2.overflowed = false ∧ m2.oob = true ∧ m2.maxsize = m.maxsize ∧
        (∀ k, k < n → m2.data (m.cursize + k) = data (i + k) % 256) ∧
        (∀ j, j < m.cursize → m2.data j = m.data j) := by
  intro n
  induction n with
  | zero =>
    intro i m ho hov _
    exact ⟨m, rfl, rfl, hov, ho, rfl, fun k hk => absurd hk (Nat.not_lt_zero _), fun _ _ => rfl⟩
  | succ n ih =>
    intro i m ho hov hroom
    have h1 := MSG_WriteBits_oob8 H m (data i) ho hov (by omega)
    obtain ⟨m2, e, c1, c2, c3, c4, c5, c6⟩ := ih (i + 1)
      { m with uncompsize := m.uncompsize + 8,
               data := Function.update m.data m.cursize (((data i : Nat) : Int) % 256).toNat,
               cursize := m.cursize + 1, bit := m.bit + 8 } ho hov
      (by show m.cursize + 1 + n ≤ m.maxsize; omega)
    refine ⟨m2, ?_, ?_, c2, c3, c4, ?_, ?_⟩
    · simp only [writeDataLoop, MSG_WriteByte, h1]
      exact e
    · rw [c1]; show m.cursize + 1 + n = m.cursize + (n + 1); omega
    · intro k hk
      rcases Nat.eq_zero_or_pos k with h0 | hpos
      · subst h0
        have := c6 m.cursize (by show m.cursize < m.cursize + 1; omega)
        rw [Nat.add_zero, this]
        show Function.update m.data m.cursize (((data i : Nat) : Int) % 256).toNat m.cursize = _
        rw [Function.update_same, Nat.add_zero]
        omega
      · have := c5 (k - 1) (by omega)
        have e1 : m.cursize + 1 + (k - 1) = m.cursize + k := by omega
        have e2 : i + 1 + (k - 1) = i + k := by omega
        simp only [e1, e2] at this
        exact this
    · intro j hj
      have := c6 j (by show j < m.cursize + 1; omega)
      rw [this]
      show Function.update m.data m.cursize _ j = _
      rw [Function.update_noteq (by omega)]

/-- The body shared by the two string writers. -/
theorem writeStringSized_spec (H : huffman_t) (Q : qshared_t) (size : Nat) (msg : msg_t)
    (s : List Nat)
    (hQ : ∀ b n strip, (Q.Q_SafeNetString b n strip).getD n 0 = b.getD n 0) :
    writeStringSized H Q size msg none = MSG_WriteByte H msg 0 ∧
    (s.length ≥ size → writeStringSized H Q size msg (some s) = MSG_WriteByte H msg 0) ∧
    (s.length < size → ∃ bytes : List Nat, bytes.length = s.length + 1 ∧
      bytes.getD s.length 1 = 0 ∧
      writeStringSized H Q size msg (some s)
        = writeBitsSeq H (bytes.map (fun b => (((b : Nat) : Int), (8 : Int)))) msg) ∧
    (s.length < size → msg.oob = true → msg.overflowed = false →
      msg.cursize + (s.length + 1) ≤ msg.maxsize →
      ∃ m2, writeStringSized H Q size msg (some s) = .ok m2 ∧
        m2.cursize = msg.cursize + (s.length + 1) ∧ m2.overflowed = false ∧
        m2.data (msg.cursize + s.length) = 0 ∧
        (∀ j, j < msg.cursize → m2.data j = msg.data j)) := by
  have h1 : ∀ m : msg_t, MSG_WriteData H m (fun _ => 0) 1 = MSG_WriteByte H m 0 := by
    intro m
    simp [MSG_WriteData, writeDataLoop]
  have hlast : (Q.Q_SafeNetString (s ++ [0]) s.length msg.strip).getD s.length 0 = 0 := by
    rw [hQ]
    simp
  refine ⟨h1 msg, ?_, ?_, ?_⟩
  · intro h
    simp only [writeStringSized, h, if_true, ge_iff_le, h1]
  · intro h
    have hn : ¬ s.length ≥ size := by omega
    refine ⟨(List.range (s.length + 1)).map
      (fun i => (Q.Q_SafeNetString (s ++ [0]) s.length msg.strip).getD i 0), by simp, ?_, ?_⟩
    · rw [List.getD_eq_getElem _ _ (by simp)]
      simpa [List.getD_eq_getElem?_getD] using hlast
    · simp only [writeStringSized, hn, if_false, MSG_WriteData, writeDataLoop_seq, List.map_map]
      congr 1
      apply List.map_congr_left
      intro k _
      simp
  · intro h ho hov hroom
    have hn : ¬ s.length ≥ size := by omega
    obtain ⟨m2, e, c1, c2, _, _, c5, c6⟩ := writeDataLoop_oob H
      (fun i => (Q.Q_SafeNetString (s ++ [0]) s.length msg.strip).getD i 0)
      (s.length + 1) 0 msg ho hov hroom
    refine ⟨m2, ?_, c1, c2, ?_, c6⟩
    · simp only [writeStringSized, hn, if_false, MSG_WriteData]
      exact e
    · rw [c5 s.length (by omega), Nat.zero_add, hlast]

theorem MSG_ReadBits_strip (H : huffman_t) (m m1 : msg_t) (bits v : Int)
    (h : MSG_ReadBits H m bits = .ok (v, m1)) : m1.strip = m.strip := by
  unfold MSG_ReadBits at h
  simp only [width_natAbs] at h
  split_ifs at h <;> cases h <;> rfl

theorem MSG_ReadByte_spec (H : huffman_t) (m m1 : msg_t) (c : Int)
    (h : MSG_ReadByte H m = .ok (c, m1)) :
    m1.strip = m.strip ∧ (c = -1 ∨ (0 ≤ c ∧ c < 256)) := by
  unfold MSG_ReadByte at h
  obtain ⟨p, hp, h⟩ := bind_eq_ok h
  have hs := MSG_ReadBits_strip H m p.2 8 p.1 hp
  simp only at h
  split_ifs at h
  · cases h; exact ⟨hs, Or.inl rfl⟩
  · cases h; exact ⟨hs, Or.inr ⟨Int.emod_nonneg _ (by norm_num), Int.emod_lt_of_pos _ (by norm_num)⟩⟩

set_option maxRecDepth 100000 in
theorem high_bit (c : Int) (h0 : 0 ≤ c) (h1 : c < 256) : andInt c 0x80 ≠ 0 ↔ 128 ≤ c := by
  interval_cases c <;> decide

theorem sanitize_eq (strip : Bool) (c : Int) (h0 : 0 ≤ c) (h1 : c < 256) :
    (if (strip = true ∧ andInt c 0x80 ≠ 0) ∨ c = 37 then 46 else c) = specSanitize strip c := by
  unfold specSanitize
  have := high_bit c h0 h1
  by_cases h : (strip = true ∧ andInt c 0x80 ≠ 0) ∨ c = 37
  · rw [if_pos h, if_pos]
    rcases h with ⟨hs, hb⟩ | h37
    · exact Or.inr ⟨hs, this.mp hb⟩
    · exact Or.inl h37
  · rw [if_neg h, if_neg]
    rintro (h37 | ⟨hs, hb⟩)
    · exact h (Or.inr h37)
    · exact h (Or.inl ⟨hs, this.mpr hb⟩)

theorem readStringLoop_spec (H : huffman_t) :
    ∀ (bs : List Int) (room : Nat) (msg msg2 : msg_t),
      nextBytes H (bs ++ [0]) msg msg2 → (∀ b ∈ bs, b ≠ 0 ∧ b ≠ -1) → bs.length ≤ room →
      readStringLoop H room msg = .ok (bs.map (specSanitize msg.strip), msg2) := by
  intro bs
  induction bs with
  | nil =>
    intro room msg msg2 hb _ _
    obtain ⟨m1, e, h2⟩ := hb
    have h2 : msg2 = m1 := h2
    subst h2
    cases room with
    | zero => simp only [readStringLoop, e]; rfl
    | succ r => simp only [readStringLoop, e]; rfl
  | cons b rest ih =>
    intro room msg msg2 hb hnz hlen
    obtain ⟨m1, e, h2⟩ := hb
    obtain ⟨hs, hr⟩ := MSG_ReadByte_spec H msg m1 b e
    obtain ⟨hb0, hb1⟩ := hnz b (List.mem_cons_self _ _)
    have hrange : 0 ≤ b ∧ b < 256 := by
      rcases hr with h | h
      · exact absurd h hb1
      · exact h
    cases room with
    | zero => simp at hlen
    | succ r =>
      have hrec := ih r m1 msg2 h2 (fun x hx => hnz x (List.mem_cons_of_mem _ hx))
        (by simp at hlen; omega)
      have hno : ¬ (b = -1 ∨ b = 0) := by
        rintro (h | h)
        · exact hb1 h
        · exact hb0 h
      simp only [readStringLoop, e]
      show (if b = -1 ∨ b = 0 then pure ([], m1)
        else readStringLoop H r m1 >>= fun p =>
          pure ((if (m1.strip = true ∧ andInt b 0x80 ≠ 0) ∨ b = 37 then 46 else b) :: p.1, p.2))
        = _
      rw [if_neg hno, hrec, sanitize_eq _ _ hrange.1 hrange.2, hs]
      rfl

/-- Whatever the message, a string that the loop returns holds neither
`'%'` nor, with `strip` set, a byte with the high bit set, and fits the room. -/
theorem readStringLoop_clean (H : huffman_t) :
    ∀ (room : Nat) (msg m2 : msg_t) (s : List Int),
      readStringLoop H room msg = .ok (s, m2) →
      s.length ≤ room ∧ m2.strip = msg.strip ∧
      ∀ c ∈ s, c ≠ 37 ∧ 0 < c ∧ c < 256 ∧ (msg.strip = true → c < 128) := by
  intro room
  induction room with
  | zero =>
    intro msg m2 s h
    simp only [readStringLoop] at h
    obtain ⟨p, hp, h⟩ := bind_eq_ok h
    cases h
    exact ⟨le_refl _, (MSG_ReadByte_spec H msg p.2 p.1 hp).1, fun c hc => by cases hc⟩
  | succ r ih =>
    intro msg m2 s h
    simp only [readStringLoop] at h
    obtain ⟨p, hp, h⟩ := bind_eq_ok h
    obtain ⟨hs, hr⟩ := MSG_ReadByte_spec H msg p.2 p.1 hp
    split_ifs at h with hend hsp
    · cases h
      exact ⟨Nat.zero_le _, hs, fun c hc => by cases hc⟩
    · obtain ⟨q, hq, h⟩ := bind_eq_ok h
      cases h
      obtain ⟨i1, i2, i3⟩ := ih p.2 q.2 q.1 hq
      refine ⟨by simp; omega, by rw [i2, hs], ?_⟩
      intro c hc
      rcases List.mem_cons.mp hc with h46 | hin
      · subst h46
        exact ⟨by decide, by decide, by decide, fun _ => by decide⟩
      · have := i3 c hin
        rw [hs] at this
        exact this
    · obtain ⟨q, hq, h⟩ := bind_eq_ok h
      cases h
      obtain ⟨i1, i2, i3⟩ := ih p.2 q.2 q.1 hq
      have hrange : 0 ≤ p.1 ∧ p.1 < 256 := by
        rcases hr with h | h
        · exact absurd (Or.inl h) hend
        · exact h
      refine ⟨by simp; omega, by rw [i2, hs], ?_⟩
      intro c hc
      rcases List.mem_cons.mp hc with hp1 | hin
      · subst hp1
        refine ⟨fun h => hsp (Or.inr h), ?_, hrange.2, ?_⟩
        · have : p.1 ≠ 0 := fun h => hend (Or.inr h)
          omega
        · intro hst
          by_contra hge
          rw [← hs] at hst
          exact hsp (Or.inl ⟨hst, (high_bit p.1 hrange.1 hrange.2).mpr (by omega)⟩)
      · have := i3 c hin
        rw [hs] at this
        exact this

theorem MSG_ReadBits_past (H : huffman_t) (msg : msg_t) (bits : Int)
    (h : msg.readcount > msg.cursize) : MSG_ReadBits H msg bits = .ok (0, msg) := by
  unfold MSG_ReadBits
  rw [if_pos h]

theorem MSG_ReadByte_past (H : huffman_t) (msg : msg_t) (h : msg.readcount > msg.cursize) :
    MSG_ReadByte H msg = .ok (-1, msg) := by
  unfold MSG_ReadByte
  rw [MSG_ReadBits_past H msg 8 h]
  show (if msg.readcount > msg.cursize then pure (-1, msg) else pure ((0 : Int) % 256, msg))
    = _
  rw [if_pos h]
  rfl

theorem MSG_ReadShort_past (H : huffman_t) (msg : msg_t) (h : msg.readcount > msg.cursize) :
    MSG_ReadShort H msg = .ok (-1, msg) := by
  unfold MSG_ReadShort
  rw [MSG_ReadBits_past H msg 16 h]
  show (if msg.readcount > msg.cursize then pure (-1, msg) else pure (toI16 0, msg)) = _
  rw [if_pos h]
  rfl

theorem readPlayerField_past (H : huffman_t) (msg : msg_t) (field : netField_t) (fromF : Int)
    (h : msg.readcount > msg.cursize) :
    readPlayerField H msg field fromF = .ok (fromF, msg) := by
  simp [readPlayerField, MSG_ReadBits_past H msg 1 h, bind, Except.bind, pure, Except.pure]

theorem readFields_past (body : msg_t → netField_t → Int → Except ComError (Int × msg_t))
    (msg : msg_t) (hbody : ∀ f v, body msg f v = .ok (v, msg)) (fromC : Nat → Int) :
    ∀ (fields : List netField_t) (toC : Nat → Int),
      readFields body fromC fields toC msg = .ok (copyTailFields fromC fields toC, msg) := by
  intro fields
  induction fields with
  | nil => intro toC; rfl
  | cons f rest ih =>
    intro toC
    simp only [readFields, hbody, copyTailFields]
    exact ih _

theorem readArrayBlock_past (H : huffman_t) (read : msg_t → Except ComError (Int × msg_t))
    (msg : msg_t) (arr : Nat → Int) (base n : Nat) (h : msg.readcount > msg.cursize) :
    readArrayBlock H read msg arr base n = .ok (arr, msg) := by
  simp [readArrayBlock, MSG_ReadBits_past H msg 1 h, bind, Except.bind, pure, Except.pure]

theorem groups_past (H : huffman_t) (K : constants_t) (msg : msg_t) (t : playerState_t)
    (h : msg.readcount > msg.cursize) :
    readStatsGroup H K msg t = .ok (t, msg) ∧ readAmmoGroup H msg t = .ok (t, msg) ∧
    readClipGroup H msg t = .ok (t, msg) := by
  refine ⟨?_, ?_, ?_⟩
  · simp [readStatsGroup, MSG_ReadBits_past H msg 1 h, bind, Except.bind, pure, Except.pure]
  · simp [readAmmoGroup, MSG_ReadBits_past H msg 1 h, bind, Except.bind, pure, Except.pure]
  · simp [readClipGroup, readArrayBlock_past H _ msg _ _ _ h, bind, Except.bind, pure,
      Except.pure]

theorem changeMask_same (fromA toA : Nat → Int) (base n : Nat)
    (h : ∀ i, i < n → toA (base + i) = fromA (base + i)) : changeMask fromA toA base n = 0 := by
  apply Nat.eq_of_testBit_eq
  intro i
  rw [Nat.zero_testBit]
  cases hb : (changeMask fromA toA base n).testBit i with
  | false => rfl
  | true =>
    obtain ⟨hi, hne⟩ := (changeMask_testBit fromA toA base n i).mp hb
    exact absurd (h i hi) hne

theorem and_align (x : Nat) (hx : x < 4294967296) : x &&& 4294967288 = x - x % 8 := by
  have hx8 : x - x % 8 = (x >>> 3) <<< 3 := by
    rw [Nat.shiftRight_eq_div_pow, Nat.shiftLeft_eq]
    norm_num
    omega
  rw [hx8]
  apply Nat.eq_of_testBit_eq
  intro i
  rw [Nat.testBit_and, Nat.testBit_shiftLeft, Nat.testBit_shiftRight]
  by_cases h3 : i < 3
  · have : (4294967288 : Nat).testBit i = false := by
      interval_cases i <;> decide
    simp [this, h3]
  · by_cases h32 : i < 32
    · have : (4294967288 : Nat).testBit i = true := by
        interval_cases i <;> first | omega | decide
      have h4 : 3 + (i - 3) = i := by omega
      simp [this, h4]
      omega
    · have hxi : x.testBit i = false := by
        apply Nat.testBit_lt_two_pow
        calc x < 4294967296 := hx
          _ = 2 ^ 32 := by norm_num
          _ ≤ 2 ^ i := Nat.pow_le_pow_right (by norm_num) (by omega)
      have h4 : 3 + (i - 3) = i := by omega
      simp [hxi, h4]

theorem alignBit_eq (b : Int) (h0 : 0 ≤ b) (h1 : b ≤ 2147483640) :
    alignBit b = (b + 7) - (b + 7) % 8 := by
  unfold alignBit andInt wrapInt
  rw [toI32_toU32 (b + 7) (by omega) (by omega), toU32_nonneg (b + 7) (by omega) (by omega)]
  have hm : toU32 (-8) = 4294967288 := by decide
  rw [hm, and_align _ (by omega)]
  rw [toI32_small _ (by omega)]
  omega

/-- Past the last cursor whose sum `bit + 7` is an `int` the wrapped value of
`(bit + 7) & ~7` is `INT_MIN`, and the entry points give no message. -/
theorem alignBit_wrap (b : Nat) (h1 : 2147483640 < b) (h2 : b ≤ 2147483647) :
    alignBit (b : Int) = -2147483648 ∧
    (∀ m : msg_t, m.bit = b → MSG_Uncompressed m = none ∧
      MSG_BeginReadingUncompressed m = none) := by
  have h : alignBit (b : Int) = -2147483648 := by
    interval_cases b <;> decide
  refine ⟨h, fun m hm => ?_⟩
  unfold MSG_Uncompressed MSG_BeginReadingUncompressed
  simp only [hm, h]
  exact ⟨rfl, rfl⟩

/-- A write of four raw bits that ends at or before the last bit of the
buffer: the bit cursor moves by four and `cursize` is set from it. -/
theorem write_four_bits (H : huffman_t) (hput : ∀ b d o, (H.Huff_putBit b d o).2 = o + 1)
    (m : msg_t) (v : Int) (hov : m.overflowed = false) (hoob : m.oob = false)
    (hroom : m.bit + 4 ≤ m.maxsize <<< 3) :
    MSG_WriteBits H m v 4 = .ok { m with
      overflowed := false,
      uncompsize := m.uncompsize + 4,
      data := (putBitsLoop H 4 (toI32 (toU32 v % 2 ^ 4)) m.data m.bit).1,
      bit := m.bit + 4,
      cursize := ((m.bit + 4) >>> 3) + 1 } := by
  have hn : ¬ (4 % 8 ≠ 0 ∧ m.bit + 4 % 8 > m.maxsize <<< 3) := by
    rintro ⟨_, h⟩
    have : (4 : Nat) % 8 = 4 := rfl
    rw [this] at h
    omega
  have h48 : (4 : Nat) / 8 = 0 := rfl
  have h4m : (4 : Nat) % 8 = 4 := rfl
  have hw := MSG_WriteBits_bitstream H m v 4 4 (by norm_num) (by norm_num) (Or.inl rfl) hov hoob
  rw [if_neg hn] at hw
  simp only [h48, h4m, transmitLoop, hov, Bool.false_eq_true, if_false,
    putBitsLoop_bit H hput] at hw
  exact hw

theorem MSG_WriteBits_oob_size (H : huffman_t) (m m2 : msg_t) (v bits : Int)
    (ho : m.oob = true) (hc : m.cursize ≤ m.maxsize)
    (h : MSG_WriteBits H m v bits = .ok m2) :
    m2.oob = true ∧ m2.maxsize = m.maxsize ∧ m2.cursize ≤ m2.maxsize := by
  unfold MSG_WriteBits at h
  simp only [width_natAbs, ho, if_true] at h
  have e8 : (8 : Nat) >>> 3 = 1 := rfl
  have e16 : (16 : Nat) >>> 3 = 2 := rfl
  have e32 : (32 : Nat) >>> 3 = 4 := rfl
  split_ifs at h with h1 h2 h3 h4 h5 h6
  · cases h; exact ⟨rfl, rfl, hc⟩
  · cases h; exact ⟨rfl, rfl, hc⟩
  · cases h
    rw [h4, e8] at h3
    exact ⟨rfl, rfl, by show m.cursize + 1 ≤ m.maxsize; omega⟩
  · cases h
    rw [h5, e16] at h3
    exact ⟨rfl, rfl, by show m.cursize + 2 ≤ m.maxsize; omega⟩
  · cases h
    rw [h6, e32] at h3
    exact ⟨rfl, rfl, by show m.cursize + 4 ≤ m.maxsize; omega⟩

theorem writeBitsSeq_oob_size (H : huffman_t) :
    ∀ (ops : List (Int × Int)) (m m2 : msg_t), m.oob = true → m.cursize ≤ m.maxsize →
      writeBitsSeq H ops m = .ok m2 → m2.maxsize = m.maxsize ∧ m2.cursize ≤ m2.maxsize := by
  intro ops
  induction ops with
  | nil => intro m m2 _ hc h; cases h; exact ⟨rfl, hc⟩
  | cons op rest ih =>
    intro m m2 ho hc h
    obtain ⟨v, b⟩ := op
    obtain ⟨m1, e1, e2⟩ := bind_eq_ok h
    obtain ⟨a1, a2, a3⟩ := MSG_WriteBits_oob_size H m m1 v b ho hc e1
    obtain ⟨b1, b2⟩ := ih m1 m2 a1 a3 e2
    exact ⟨by rw [b1, a2], b2⟩

theorem MSG_ReadByte_ok (H : huffman_t) (m : msg_t) :
    ∃ c m1, MSG_ReadByte H m = .ok (c, m1) := by
  have h8 : ∃ v m1, MSG_ReadBits H m 8 = .ok (v, m1) := by
    have e : (8 : Int).natAbs = 8 := rfl
    unfold MSG_ReadBits
    simp only [width_natAbs, e, eq_self_iff_true, if_true]
    split_ifs <;> exact ⟨_, _, rfl⟩
  obtain ⟨v, m1, e⟩ := h8
  unfold MSG_ReadByte
  rw [e]
  show ∃ c m2, (if m1.readcount > m1.cursize then pure (-1, m1) else pure (v % 256, m1))
    = Except.ok (c, m2)
  split
  · exact ⟨_, _, rfl⟩
  · exact ⟨_, _, rfl⟩

/-- The loop of `MSG_ReadString` returns on every message, with at most
`room` characters, after at most `room + 1` calls of `MSG_ReadByte`. -/
theorem readStringLoop_total (H : huffman_t) :
    ∀ (room : Nat) (msg : msg_t), ∃ s m2 bs,
      readStringLoop H room msg = .ok (s, m2) ∧ s.length ≤ room ∧
      nextBytes H bs msg m2 ∧ bs.length ≤ room + 1 ∧ s.length ≤ bs.length := by
  intro room
  induction room with
  | zero =>
    intro msg
    obtain ⟨c, m1, e⟩ := MSG_ReadByte_ok H msg
    refine ⟨[], m1, [c], ?_, le_refl _, ⟨m1, e, rfl⟩, le_refl _, Nat.zero_le _⟩
    simp only [readStringLoop, e]
    rfl
  | succ r ih =>
    intro msg
    obtain ⟨c, m1, e⟩ := MSG_ReadByte_ok H msg
    by_cases hend : c = -1 ∨ c = 0
    · refine ⟨[], m1, [c], ?_, Nat.zero_le _, ⟨m1, e, rfl⟩, by simp, Nat.zero_le _⟩
      simp only [readStringLoop, e]
      show (if c = -1 ∨ c = 0 then pure ([], m1) else _) = _
      rw [if_pos hend]
      rfl
    · obtain ⟨s, m2, bs, e2, l1, nb, l2, l3⟩ := ih m1
      refine ⟨(if (m1.strip = true ∧ andInt c 0x80 ≠ 0) ∨ c = 37 then 46 else c) :: s, m2,
        c :: bs, ?_, by simp; omega, ⟨m1, e, nb⟩, by simp; omega,
        by simp; omega⟩
      simp only [readStringLoop, e]
      show (if c = -1 ∨ c = 0 then pure ([], m1)
        else readStringLoop H r m1 >>= fun p =>
          pure ((if (m1.strip = true ∧ andInt c 0x80 ≠ 0) ∨ c = 37 then 46 else c) :: p.1, p.2))
        = _
      rw [if_neg hend, e2]
      rfl

theorem readStringLineLoop_total (H : huffman_t) :
    ∀ (room : Nat) (msg : msg_t), ∃ s m2 bs,
      readStringLineLoop H room msg = .ok (s, m2) ∧ s.length ≤ room ∧
      nextBytes H bs msg m2 ∧ bs.length ≤ room + 1 ∧ s.length ≤ bs.length := by
  intro room
  induction room with
  | zero =>
    intro msg
    obtain ⟨c, m1, e⟩ := MSG_ReadByte_ok H msg
    refine ⟨[], m1, [c], ?_, le_refl _, ⟨m1, e, rfl⟩, le_refl _, Nat.zero_le _⟩
    simp only [readStringLineLoop, e]
    rfl
  | succ r ih =>
    intro msg
    obtain ⟨c, m1, e⟩ := MSG_ReadByte_ok H msg
    by_cases hend : c = -1 ∨ c = 0 ∨ c = 10
    · refine ⟨[], m1, [c], ?_, Nat.zero_le _, ⟨m1, e, rfl⟩, by simp, Nat.zero_le _⟩
      simp only [readStringLineLoop, e]
      show (if c = -1 ∨ c = 0 ∨ c = 10 then pure ([], m1) else _) = _
      rw [if_pos hend]
      rfl
    · obtain ⟨s, m2, bs, e2, l1, nb, l2, l3⟩ := ih m1
      refine ⟨(if (m1.strip = true ∧ andInt c 0x80 ≠ 0) ∨ c = 37 then 46 else c) :: s, m2,
        c :: bs, ?_, by simp; omega, ⟨m1, e, nb⟩, by simp; omega,
        by simp; omega⟩
      simp only [readStringLineLoop, e]
      show (if c = -1 ∨ c = 0 ∨ c = 10 then pure ([], m1)
        else readStringLineLoop H r m1 >>= fun p =>
          pure ((if (m1.strip = true ∧ andInt c 0x80 ≠ 0) ∨ c = 37 then 46 else c) :: p.1, p.2))
        = _
      rw [if_neg hend, e2]
      rfl

/-- Every width of the shared-entity table is between 0 and 32. -/
theorem entitySharedFields_bits (K : constants_t) (hK : constantsOK K) :
    ∀ f ∈ entitySharedFields K, 0 ≤ f.bits ∧ f.bits ≤ 32 := by
  obtain ⟨g1, g2, _, a1, a2, c1, c2, _⟩ := hK
  unfold CLIENTNUM_BITS at c1 c2
  simp only [entitySharedFields, CLIENTNUM_BITS, List.forall_mem_cons, List.not_mem_nil,
    false_implies, implies_true, and_true]
  and_intros <;> omega

/-- A C `int` in `0 .. 2 ^ w - 1` is its own low `w` bits. -/
theorem masked_fits (v : Int) (w : Nat) (hint : isInt32 v) (h0 : 0 ≤ v)
    (h1 : v < 2 ^ w) : toI32 (toU32 v % 2 ^ w) = v := by
  obtain ⟨_, hi⟩ := hint
  rw [toU32_nonneg v h0 (by omega)]
  have hlt : v.toNat < 2 ^ w := by
    have : ((v.toNat : Nat) : Int) < ((2 ^ w : Nat) : Int) := by
      rw [Int.toNat_of_nonneg h0]; push_cast; exact h1
    exact_mod_cast this
  rw [Nat.mod_eq_of_lt hlt, toI32_small]
  · exact Int.toNat_of_nonneg h0
  · omega

/-- A changed integer cell of the entity codecs, any value: the reader gives 0
for the value 0 and the value masked to the width otherwise. -/
theorem intField_codec_masked {H : huffman_t} {Inv : (Nat → Nat) → Nat → Prop}
    (L : HuffLaws H Inv) (toF : Int) (w : Nat) (hw1 : 1 ≤ w) (hw32 : w ≤ 32) :
    Codec H Inv (fun m => writeIntField H m toF w) (fun rm => readIntField H rm w)
      (if toF = 0 then 0 else toI32 (toU32 toF % 2 ^ w)) := by
  by_cases h0 : toF = 0
  · rw [if_pos h0]
    refine Codec.bind (codec_bit0 L) (Codec.pure H Inv (0 : Int)) ?_ ?_
    · intro m; simp [writeIntField, h0, except_bind_ok]
    · intro rm rm1 h
      simp [readIntField, h, bind, Except.bind, pure, Except.pure]
  · rw [if_neg h0]
    refine Codec.bind (codec_bit1 L) (codec_unsigned L toF w hw1 hw32) ?_ ?_
    · intro m; simp [writeIntField, h0]
    · intro rm rm1 h
      simp [readIntField, h, bind, Except.bind]

/-- The writer of a changed integer cell is strict. -/
theorem intField_strict {H : huffman_t} {Inv : (Nat → Nat) → Nat → Prop}
    (L : HuffLaws H Inv) (toF : Int) (w : Nat) (hw1 : 1 ≤ w) (hw32 : w ≤ 32) :
    StrictWriter Inv (fun m => writeIntField H m toF w) := by
  by_cases h0 : toF = 0
  · have e : (fun m => writeIntField H m toF w) = fun m => MSG_WriteBits H m 0 ((1 : Nat) : Int) := by
      funext m; simp [writeIntField, h0]
    rw [e]
    exact strict_bits H Inv 0 1 (by norm_num) (by norm_num)
  · exact strict_bind (strict_bits H Inv 1 1 (by norm_num) (by norm_num)) (codec_bit1 L)
      (codec_unsigned L toF w hw1 hw32) (fun m => by simp [writeIntField, h0])

/-- A changed cell of positive width in the entity codecs: codec and strict
writer of the loop body. -/
theorem changedInt_codec {H : huffman_t} {Inv : (Nat → Nat) → Nat → Prop}
    (L : HuffLaws H Inv) (field : netField_t) (fromF toF : Int) (w : Nat)
    (hbits : field.bits = w) (hw1 : 1 ≤ w) (hw32 : w ≤ 32) (hne : fromF ≠ toF) :
    Codec H Inv (fun m => writeDeltaField H m field fromF toF)
      (fun rm => readDeltaField H rm field fromF)
      (if toF = 0 then 0 else toI32 (toU32 toF % 2 ^ w)) ∧
    StrictWriter Inv (fun m => writeDeltaField H m field fromF toF) := by
  have hw0 : w ≠ 0 := by omega
  have hw : ∀ m, writeDeltaField H m field fromF toF =
      (MSG_WriteBits H m 1 1 >>= fun m1 => writeIntField H m1 toF w) := by
    intro m; simp [writeDeltaField, hne, hw0, hbits]
  constructor
  · refine Codec.bind (codec_bit1 L) (intField_codec_masked L toF w hw1 hw32) hw ?_
    intro rm rm1 h
    simp [readDeltaField, h, hw0, hbits, bind, Except.bind]
  · exact strict_bind (strict_bits H Inv 1 1 (by norm_num) (by norm_num)) (codec_bit1 L)
      (intField_codec_masked L toF w hw1 hw32) hw

/-- The non-zero `float` encoding keeps writer and reader in step for every
cell value: the reader returns some value at the position the writer stopped. -/
theorem truncFloat_sync {H : huffman_t} {Inv : (Nat → Nat) → Nat → Prop}
    (L : HuffLaws H Inv) (toF : Int) :
    ∃ v, Codec H Inv (fun m => writeTruncFloat H m toF) (fun rm => readTruncFloat H rm) v := by
  by_cases hfit : floatFitsInt (toU32 toF) (f32_toInt (toU32 toF)) = true
  · have cv := codec_unsigned L (f32_toInt (toU32 toF) + FLOAT_INT_BIAS) 13
      (by norm_num) (by norm_num)
    refine ⟨_, Codec.bind (codec_bit0 L)
      (Codec.bind cv (Codec.pure H Inv
          (toI32 (f32_ofInt (toI32 (toU32 (f32_toInt (toU32 toF) + FLOAT_INT_BIAS) % 2 ^ 13)
            - FLOAT_INT_BIAS))))
        (fun m => (except_bind_ok _).symm)
        (r := fun rm => MSG_ReadBits H rm FLOAT_INT_BITS >>= fun p =>
          (Except.ok (toI32 (f32_ofInt (p.1 - FLOAT_INT_BIAS)), p.2) :
            Except ComError (Int × msg_t)))
        (fun rm rm1 h => by
          have h' : MSG_ReadBits H rm FLOAT_INT_BITS = .ok (_, rm1) := h
          simp [h', bind, Except.bind])) ?_ ?_⟩
    · intro m; simp [writeTruncFloat, hfit]; rfl
    · intro rm rm1 h
      simp [readTruncFloat, h, bind, Except.bind, pure, Except.pure]
  · refine ⟨_, Codec.bind (codec_bit1 L) (codec_unsigned L toF 32 (by norm_num) (by norm_num))
      ?_ ?_⟩
    · intro m; simp [writeTruncFloat, hfit]
    · intro rm rm1 h
      simp [readTruncFloat, h, bind, Except.bind]

/-- One field of the player-state codec keeps writer and reader in step for
every pair of cell values. -/
theorem playerField_sync {H : huffman_t} {Inv : (Nat → Nat) → Nat → Prop}
    (L : HuffLaws H Inv) (field : netField_t) (fromF toF : Int)
    (hbits : (0 ≤ field.bits ∧ field.bits ≤ 32) ∨ field.bits = -8 ∨ field.bits = -16) :
    ∃ v, Codec H Inv (fun m => writePlayerField H m field fromF toF)
      (fun rm => readPlayerField H rm field fromF) v := by
  by_cases hsame : fromF = toF
  · refine ⟨_, Codec.bind (codec_bit0 L) (Codec.pure H Inv fromF) ?_ ?_⟩
    · intro m; simp [writePlayerField, hsame, except_bind_ok]
    · intro rm rm1 h
      simp [readPlayerField, h, bind, Except.bind, pure, Except.pure]
  by_cases hfl : field.bits = 0
  · obtain ⟨v, cf⟩ := truncFloat_sync L toF
    refine ⟨v, Codec.bind (codec_bit1 L) cf ?_ ?_⟩
    · intro m; simp [writePlayerField, hsame, hfl]
    · intro rm rm1 h
      simp [readPlayerField, h, hfl, bind, Except.bind]
  · have cv : ∃ v, Codec H Inv (fun m => MSG_WriteBits H m toF field.bits)
        (fun rm => MSG_ReadBits H rm field.bits) v := by
      rcases hbits with ⟨b0, b32⟩ | b8 | b16
      · have hbn : field.bits = ((field.bits.toNat : Nat) : Int) :=
          (Int.toNat_of_nonneg b0).symm
        exact ⟨_, writeBits_codec L toF field.bits.toNat field.bits field.bits (by omega)
          (by omega) (Or.inl hbn) (Or.inl hbn)⟩
      · exact ⟨_, writeBits_codec L toF 8 field.bits field.bits (by norm_num) (by norm_num)
          (Or.inr ⟨by rw [b8]; rfl, by norm_num⟩) (Or.inr (by rw [b8]; rfl))⟩
      · exact ⟨_, writeBits_codec L toF 16 field.bits field.bits (by norm_num) (by norm_num)
          (Or.inr ⟨by rw [b16]; rfl, by norm_num⟩) (Or.inr (by rw [b16]; rfl))⟩
    obtain ⟨v, cv⟩ := cv
    refine ⟨v, Codec.bind (codec_bit1 L) cv ?_ ?_⟩
    · intro m; simp [writePlayerField, hsame, hfl]
    · intro rm rm1 h
      simp [readPlayerField, h, hfl, bind, Except.bind]

/-- The field loops keep writer and reader in step when the loop body does. -/
theorem writeFields_sync {H : huffman_t} {Inv : (Nat → Nat) → Nat → Prop}
    (wbody : msg_t → netField_t → Int → Int → Except ComError msg_t)
    (rbody : msg_t → netField_t → Int → Except ComError (Int × msg_t))
    (fromC toC : Nat → Int) :
    ∀ (fields : List netField_t) (toC0 : Nat → Int),
      (∀ f ∈ fields, ∃ v, Codec H Inv (fun m => wbody m f (fromC f.offset) (toC f.offset))
        (fun rm => rbody rm f (fromC f.offset)) v) →
      ∃ cells, Codec H Inv (fun m => writeFields wbody fromC toC fields m)
        (fun rm => readFields rbody fromC fields toC0 rm) cells := by
  intro fields
  induction fields with
  | nil =>
    intro toC0 _
    exact ⟨toC0, Codec.pure H Inv toC0⟩
  | cons g rest ih =>
    intro toC0 h
    obtain ⟨v, cg⟩ := h g (List.mem_cons_self _ _)
    obtain ⟨cells, cr⟩ := ih (Function.update toC0 g.offset v)
      (fun f hf => h f (List.mem_cons_of_mem _ hf))
    refine ⟨cells, Codec.bind cg cr ?_ ?_⟩
    · intro m; rfl
    · intro rm rm1 hr
      simp [readFields, hr, bind, Except.bind]

/-- The count byte and the two loops keep writer and reader in step when the
loop body does, and the writer is strict. -/
theorem deltaTable_sync {H : huffman_t} {Inv : (Nat → Nat) → Nat → Prop}
    (L : HuffLaws H Inv)
    (wbody : msg_t → netField_t → Int → Int → Except ComError msg_t)
    (rbody : msg_t → netField_t → Int → Except ComError (Int × msg_t))
    (table : List netField_t) (text : String) (fromC toC toC0 : Nat → Int)
    (hlen : table.length < 256)
    (hbody : ∀ f ∈ table, ∃ v, Codec H Inv
        (fun m => wbody m f (fromC f.offset) (toC f.offset))
        (fun rm => rbody rm f (fromC f.offset)) v) :
    ∃ cells, Codec H Inv
      (fun m => writeDeltaTable H wbody table (lastChangedLoop fromC toC table 0 0) m fromC toC)
      (fun rm => readDeltaTable H rbody table text rm fromC toC0) cells ∧
    StrictWriter Inv
      (fun m => writeDeltaTable H wbody table (lastChangedLoop fromC toC table 0 0) m
        fromC toC) := by
  obtain ⟨hle, _⟩ := lastChanged_tail fromC toC table
  generalize lastChangedLoop fromC toC table 0 0 = lc at hle
  have cB := byte_codec L (lc : Int) (by omega) (by omega)
  obtain ⟨cells, cF⟩ := @writeFields_sync H Inv wbody rbody fromC toC (table.take lc) toC0
    (fun f hf => hbody f (List.mem_of_mem_take hf))
  have cF2 : Codec H Inv (fun m => writeFields wbody fromC toC (table.take lc) m)
      (fun rm => readFields rbody fromC (table.take lc) toC0 rm >>= fun p =>
        (Except.ok (copyTailFields fromC (table.drop lc) p.1, p.2) :
          Except ComError ((Nat → Int) × msg_t)))
      (copyTailFields fromC (table.drop lc) cells) :=
    cF.post (fun rm rm1 h _ => by simp [h, bind, Except.bind])
  refine ⟨_, Codec.bind cB cF2 (fun m => rfl) ?_,
    strict_bind (strict_bits H Inv (lc : Int) 8 (by norm_num) (by norm_num)) cB cF
      (fun m => rfl)⟩
  intro rm rm1 h
  have hn : ¬ ((lc : Int) > (table.length : Int) ∨ (lc : Int) < 0) := by omega
  simp only [readDeltaTable, h, bind, Except.bind, hn, if_false, Int.toNat_ofNat, pure,
    Except.pure]

/-- The player-state writer against the player-state reader, with no
condition on the table cells: the reader returns a record whose six arrays
are those of `decodedPlayer`, whatever cells it has decoded. -/
theorem player_sync {H : huffman_t} {Inv : (Nat → Nat) → Nat → Prop}
    (L : HuffLaws H Inv) (K : constants_t) (hK : constantsOK K)
    (from_ : Option playerState_t) (t : playerState_t)
    (hs : ∀ i, i < K.MAX_STATS → isInt16 (t.stats i))
    (hp : ∀ i, i < K.MAX_PERSISTANT → isInt16 (t.persistant i))
    (hh : ∀ i, i < K.MAX_HOLDABLE → isInt16 (t.holdable i))
    (hw : ∀ i, i < K.MAX_POWERUPS → isInt32 (t.powerups i))
    (ha : ∀ i, i < 64 → isInt16 (t.ammo i))
    (hc : ∀ i, i < 64 → isInt16 (t.ammoclip i)) :
    ∃ cells, Codec H Inv (fun m => MSG_WriteDeltaPlayerstate H K m from_ t)
      (fun rm => MSG_ReadDeltaPlayerstate H K rm from_)
      (decodedPlayer K (from_.getD zeroPlayerState) t cells) ∧
    StrictWriter Inv (fun m => MSG_WriteDeltaPlayerstate H K m from_ t) := by
  set f := from_.getD zeroPlayerState with hf
  have hbody : ∀ fld ∈ playerStateFields K, ∃ v,
      Codec H Inv (fun m => writePlayerField H m fld (f.cells fld.offset) (t.cells fld.offset))
        (fun rm => readPlayerField H rm fld (f.cells fld.offset)) v :=
    fun fld hf => playerField_sync L fld _ _ (playerStateFields_bits K hK fld hf)
  have hlen : (playerStateFields K).length < 256 := by
    rw [playerStateFields_length]; norm_num
  obtain ⟨cells, cT, sT⟩ := deltaTable_sync L (writePlayerField H) (readPlayerField H)
    (playerStateFields K) "invalid playerState field count" f.cells t.cells f.cells hlen hbody
  have cS := statsGroup_codec L K hK f t { f with cells := cells }
    (fun i hi _ => by simpa using hs i hi)
    (fun i hi _ => by simpa using hp i hi)
    (fun i hi _ => by simpa using hh i hi)
    (fun i hi _ => by simpa using hw i hi)
  have cA := ammoGroup_codec L f t (patchStats K f t { f with cells := cells })
    (fun i hi _ => ha i hi)
  have cC := clipGroup_codec L f t
    { patchStats K f t { f with cells := cells } with
      ammo := patchBlocks f.ammo t.ammo f.ammo } (fun i hi _ => hc i hi)
  have dA := Codec.bind cA cC
    (w := fun m => writeAmmoGroup H m f t >>= fun m => writeClipGroup H m f t)
    (r := fun rm => do
      let (to_, msg) ← readAmmoGroup H rm (patchStats K f t { f with cells := cells })
      readClipGroup H msg to_)
    (fun m => rfl) (fun rm rm1 h => by simp [h, bind, Except.bind]; rfl)
  have dS := Codec.bind cS dA
    (w := fun m => writeStatsGroup H K m f t >>= fun m =>
      writeAmmoGroup H m f t >>= fun m => writeClipGroup H m f t)
    (r := fun rm => do
      let (to_, msg) ← readStatsGroup H K rm { f with cells := cells }
      let (to_, msg) ← readAmmoGroup H msg to_
      readClipGroup H msg to_)
    (fun m => rfl) (fun rm rm1 h => by simp [h, bind, Except.bind])
  refine ⟨cells, ?_, strict_bind sT cT dS (fun m => rfl)⟩
  refine (Codec.bind cT dS (fun m => rfl)
    (r := fun rm => MSG_ReadDeltaPlayerstate H K rm from_)
    (fun rm rm1 h => ?_)).congr (fun m => rfl) (fun rm => rfl) rfl
  simp only [MSG_ReadDeltaPlayerstate, ← hf, h, bind, Except.bind]

/-! ## Bits below the cursor on an overflowing write -/

/-- The byte loop of `MSG_WriteBits` keeps every bit below the cursor it
starts at, also when it ends on an overflow, once `Huff_offsetTransmit`
stores only at and after the offset it is given; and a cursor inside the
buffer does not move back. -/
theorem transmitLoop_agree {H : huffman_t} {Inv : (Nat → Nat) → Nat → Prop}
    (L : HuffLaws H Inv)
    (hfr : ∀ ch d o mx, ch < 256 → Inv d o → agree d (H.Huff_offsetTransmit ch d o mx).1 o) :
    ∀ (n : Nat) (x : Int) (m : msg_t), Inv m.data m.bit →
      agree m.data (transmitLoop H n x m).data m.bit ∧
      (m.bit ≤ m.maxsize <<< 3 → m.bit ≤ (transmitLoop H n x m).bit) := by
  intro n
  induction n with
  | zero => intro x m _; exact ⟨agree_refl _ _, fun _ => le_refl _⟩
  | succ n ih =>
    intro x m hI
    have hch := int_mod_256_toNat_lt x
    have hag := hfr (x % 256).toNat m.data m.bit (m.maxsize <<< 3) hch hI
    unfold transmitLoop
    simp only []
    split_ifs with hfull
    · exact ⟨hag, fun hle => le_trans hle hfull⟩
    · have hlt : (H.Huff_offsetTransmit (x % 256).toNat m.data m.bit (m.maxsize <<< 3)).2
          < m.maxsize <<< 3 := by omega
      obtain ⟨h1, h2, _⟩ := L.transmit_inv _ _ _ _ hch hI hlt
      obtain ⟨i1, i2⟩ := ih (x / 256)
        { m with
          data := (H.Huff_offsetTransmit (x % 256).toNat m.data m.bit (m.maxsize <<< 3)).1,
          bit := (H.Huff_offsetTransmit (x % 256).toNat m.data m.bit (m.maxsize <<< 3)).2 } h2
      exact ⟨agree_trans hag i1 h1, fun _ => le_trans h1 (i2 (le_of_lt hlt))⟩

/-- The reference codec stores only at and after the offset it is given. -/
theorem rawTransmitLoop_frame :
    ∀ (n ch : Nat) (d : Nat → Nat) (o mx : Nat), agree d (rawTransmitLoop n ch d o mx).1 o := by
  intro n
  induction n with
  | zero => intro ch d o mx; exact agree_refl _ _
  | succ n ih =>
    intro ch d o mx
    unfold rawTransmitLoop
    split_ifs
    · exact agree_refl _ _
    · exact agree_trans (rawPutBit_frame (ch % 2) d o)
        (ih (ch / 2) (rawPutBit (ch % 2) d o).1 (rawPutBit (ch % 2) d o).2 mx) (Nat.le_succ o)

/-- A bitstream write keeps every bit below the cursor it starts at, whether
or not it ends on an overflow. -/
theorem MSG_WriteBits_agree {H : huffman_t} {Inv : (Nat → Nat) → Nat → Prop}
    (L : HuffLaws H Inv)
    (hfr : ∀ ch d o mx, ch < 256 → Inv d o → agree d (H.Huff_offsetTransmit ch d o mx).1 o)
    (m m2 : msg_t) (v bits : Int) (hw : legalWidth bits)
    (hov : m.overflowed = false) (hoob : m.oob = false) (hI : Inv m.data m.bit)
    (h : MSG_WriteBits H m v bits = .ok m2) :
    agree m.data m2.data m.bit ∧ (m.bit ≤ m.maxsize <<< 3 → m.bit ≤ m2.bit) := by
  unfold legalWidth at hw
  have hbits : bits = (bits.natAbs : Nat) ∨ (bits = -(bits.natAbs : Nat) ∧ bits.natAbs ≤ 31) := by
    omega
  rw [MSG_WriteBits_bitstream H m v bits bits.natAbs (by omega) (by omega) hbits hov hoob] at h
  generalize toI32 (toU32 v % 2 ^ bits.natAbs) = x at h
  obtain ⟨p1, _, p3, p4, _⟩ := putBitsLoop_spec L (bits.natAbs % 8) x m.data m.bit hI
  have hI1 : Inv (putBitsLoop H (bits.natAbs % 8) x m.data m.bit).1
      (putBitsLoop H (bits.natAbs % 8) x m.data m.bit).2.1 := by rw [p1]; exact p3
  obtain ⟨t1, t2⟩ := transmitLoop_agree L hfr (bits.natAbs / 8)
    (putBitsLoop H (bits.natAbs % 8) x m.data m.bit).2.2
    { m with uncompsize := m.uncompsize + bits,
             data := (putBitsLoop H (bits.natAbs % 8) x m.data m.bit).1,
             bit := (putBitsLoop H (bits.natAbs % 8) x m.data m.bit).2.1 } hI1
  have hle : m.bit ≤ (putBitsLoop H (bits.natAbs % 8) x m.data m.bit).2.1 := by
    rw [p1]; omega
  split_ifs at h with h1 h2
  · cases h
    exact ⟨agree_refl _ _, fun _ => le_refl _⟩
  · cases h
    refine ⟨agree_trans p4 t1 hle, fun hm => le_trans hle (t2 ?_)⟩
    show (putBitsLoop H (bits.natAbs % 8) x m.data m.bit).2.1 ≤ m.maxsize <<< 3
    rw [p1]
    by_cases h0 : bits.natAbs % 8 = 0
    · omega
    · have := not_and.mp h1 h0
      omega
  · cases h
    refine ⟨agree_trans p4 t1 hle, fun hm => le_trans hle (t2 ?_)⟩
    show (putBitsLoop H (bits.natAbs % 8) x m.data m.bit).2.1 ≤ m.maxsize <<< 3
    rw [p1]
    by_cases h0 : bits.natAbs % 8 = 0
    · omega
    · have := not_and.mp h1 h0
      omega

/-- Bytes wholly below the bit offset `n` are the same, in their low 8 bits,
in two byte arrays that hold the same first `n` bits. -/
theorem agree_byte {d e : Nat → Nat} {n : Nat} (h : agree d e n) (i : Nat) (hi : i < n / 8) :
    d i % 256 = e i % 256 := by
  apply Nat.eq_of_testBit_eq
  intro j
  have e8 : (256 : Nat) = 2 ^ 8 := by norm_num
  rw [e8, Nat.testBit_mod_two_pow, Nat.testBit_mod_two_pow]
  by_cases hj : j < 8
  · have := h (8 * i + j) (by omega)
    unfold bitAt at this
    have h1 : (8 * i + j) / 8 = i := by omega
    have h2 : (8 * i + j) % 8 = j := by omega
    rw [h1, h2] at this
    simp [hj, this]
  · simp [hj]

/-- When the first part of `MSG_ReadDeltaEntity` ends on an error the output
record is as it was and the reader raises that error; when it ends on a
`return` the reader returns the record it has stored. -/
theorem readEntityCount_spec (H : huffman_t) (K : constants_t) (msg : msg_t)
    (f t : entityState_t) (number : Int) :
    (∀ e, (readEntityCount H K msg f t number).2 = .error e →
      (readEntityCount H K msg f t number).1 = t ∧
      MSG_ReadDeltaEntity H K msg f t number = .error e) ∧
    (∀ m, (readEntityCount H K msg f t number).2 = .ok (none, m) →
      MSG_ReadDeltaEntity H K msg f t number
        = .ok ((readEntityCount H K msg f t number).1, m)) := by
  have key : ∀ (r : entityState_t) (o : Except ComError (Option Int × msg_t)),
      readEntityCount H K msg f t number = (r, o) →
      ((∀ e, o = .error e → r = t ∧ MSG_ReadDeltaEntity H K msg f t number = .error e) ∧
       (∀ m, o = .ok (none, m) → MSG_ReadDeltaEntity H K msg f t number = .ok (r, m))) →
      ((∀ e, (readEntityCount H K msg f t number).2 = .error e →
          (readEntityCount H K msg f t number).1 = t ∧
          MSG_ReadDeltaEntity H K msg f t number = .error e) ∧
        (∀ m, (readEntityCount H K msg f t number).2 = .ok (none, m) →
          MSG_ReadDeltaEntity H K msg f t number
            = .ok ((readEntityCount H K msg f t number).1, m))) := by
    intro r o h hh
    rw [h]
    exact hh
  by_cases hnum : number < 0 ∨ number ≥ K.MAX_GENTITIES
  · refine key _ _ (by simp only [readEntityCount, hnum, if_true]; exact rfl) ⟨fun e h => ?_, fun m h => ?_⟩
    · cases h
      exact ⟨rfl, by simp only [MSG_ReadDeltaEntity, hnum, if_true]⟩
    · cases h
  cases h1 : MSG_ReadBits H msg 1 with
  | error e1 =>
    refine key _ _ (by simp only [readEntityCount, hnum, if_false, h1]; exact rfl)
      ⟨fun e h => ?_, fun m h => ?_⟩
    · cases h
      exact ⟨rfl, by simp [MSG_ReadDeltaEntity, hnum, h1, bind, Except.bind]⟩
    · cases h
  | ok p1 =>
    obtain ⟨removed, ma⟩ := p1
    by_cases hr : removed = 1
    · refine key _ _ (by simp only [readEntityCount, hnum, if_false, h1, hr, if_true]; exact rfl)
        ⟨fun e h => ?_, fun m h => ?_⟩
      · cases h
      · cases h
        simp [MSG_ReadDeltaEntity, hnum, h1, hr, bind, Except.bind, pure, Except.pure]
    cases h2 : MSG_ReadBits H ma 1 with
    | error e2 =>
      refine key _ _ (by simp only [readEntityCount, hnum, if_false, h1, hr, h2]; exact rfl)
        ⟨fun e h => ?_, fun m h => ?_⟩
      · cases h
        exact ⟨rfl, by simp [MSG_ReadDeltaEntity, hnum, h1, hr, h2, bind, Except.bind]⟩
      · cases h
    | ok p2 =>
      obtain ⟨delta, mb⟩ := p2
      by_cases hd : delta = 0
      · refine key _ _ (by simp only [readEntityCount, hnum, if_false, h1, hr, h2, hd, if_true]; exact rfl)
          ⟨fun e h => ?_, fun m h => ?_⟩
        · cases h
        · cases h
          simp [MSG_ReadDeltaEntity, hnum, h1, hr, h2, hd, bind, Except.bind, pure, Except.pure]
      have hfull : MSG_ReadDeltaEntity H K msg f t number
          = (readDeltaTable H (readDeltaField H) (entityStateFields K)
              "invalid entityState field count" mb f.cells t.cells >>= fun p =>
              pure ({ number := number, cells := p.1 }, p.2)) := by
        simp only [MSG_ReadDeltaEntity, hnum, if_false]
        show (MSG_ReadBits H msg 1 >>= fun q => _) = _
        rw [h1]
        show (if removed = 1 then _ else (MSG_ReadBits H ma 1 >>= fun q => _)) = _
        rw [if_neg hr, h2]
        show (if delta = 0 then _ else _) = _
        rw [if_neg hd]
      cases h3 : MSG_ReadByte H mb with
      | error e3 =>
        refine key _ _ (by simp only [readEntityCount, hnum, if_false, h1, hr, h2, hd, h3]; exact rfl)
          ⟨fun e h => ?_, fun m h => ?_⟩
        · cases h
          refine ⟨rfl, ?_⟩
          rw [hfull]
          simp [readDeltaTable, h3, bind, Except.bind]
        · cases h
      | ok p3 =>
        obtain ⟨lc, mc⟩ := p3
        by_cases hl : lc > (entityStateFields K).length ∨ lc < 0
        · refine key _ _
            (by simp only [readEntityCount, hnum, if_false, h1, hr, h2, hd, h3, hl, if_true]; exact rfl)
            ⟨fun e h => ?_, fun m h => ?_⟩
          · cases h
            refine ⟨rfl, ?_⟩
            rw [hfull, readDeltaTable_lc H _ _ _ mb mc _ _ lc h3, if_pos hl]
            rfl
          · cases h
        · refine key _ _
            (by simp only [readEntityCount, hnum, if_false, h1, hr, h2, hd, h3, hl]; exact rfl)
            ⟨fun e h => ?_, fun m h => ?_⟩
          · cases h
          · cases h

/-- When the first part of `MSG_ReadDeltaSharedEntity` ends on an error the
output record is as it was and the reader raises that error; when it ends on
a `return` the reader returns the record it has stored. -/
theorem readSharedCount_spec (H : huffman_t) (K : constants_t) (msg : msg_t)
    (f t : entityShared_t) :
    (∀ e, (readSharedCount H K msg f t).2 = .error e →
      (readSharedCount H K msg f t).1 = t ∧
      MSG_ReadDeltaSharedEntity H K msg f t = .error e) ∧
    (∀ m, (readSharedCount H K msg f t).2 = .ok (none, m) →
      MSG_ReadDeltaSharedEntity H K msg f t = .ok ((readSharedCount H K msg f t).1, m)) := by
  have key : ∀ (r : entityShared_t) (o : Except ComError (Option Int × msg_t)),
      readSharedCount H K msg f t = (r, o) →
      ((∀ e, o = .error e → r = t ∧ MSG_ReadDeltaSharedEntity H K msg f t = .error e) ∧
       (∀ m, o = .ok (none, m) → MSG_ReadDeltaSharedEntity H K msg f t = .ok (r, m))) →
      ((∀ e, (readSharedCount H K msg f t).2 = .error e →
          (readSharedCount H K msg f t).1 = t ∧
          MSG_ReadDeltaSharedEntity H K msg f t = .error e) ∧
        (∀ m, (readSharedCount H K msg f t).2 = .ok (none, m) →
          MSG_ReadDeltaSharedEntity H K msg f t
            = .ok ((readSharedCount H K msg f t).1, m))) := by
    intro r o h hh
    rw [h]
    exact hh
  cases h2 : MSG_ReadBits H msg 1 with
  | error e2 =>
    refine key _ _ (by simp only [readSharedCount, h2]; exact rfl)
      ⟨fun e h => ?_, fun m h => ?_⟩
    · cases h
      exact ⟨rfl, by simp [MSG_ReadDeltaSharedEntity, h2, bind, Except.bind]⟩
    · cases h
  | ok p2 =>
    obtain ⟨delta, mb⟩ := p2
    by_cases hd : delta = 0
    · refine key _ _ (by simp only [readSharedCount, h2, hd, if_true]; exact rfl)
        ⟨fun e h => ?_, fun m h => ?_⟩
      · cases h
      · cases h
        simp [MSG_ReadDeltaSharedEntity, h2, hd, bind, Except.bind, pure, Except.pure]
    have hfull : MSG_ReadDeltaSharedEntity H K msg f t
        = (readDeltaTable H (readDeltaField H) (entitySharedFields K)
            "invalid entityShared field count" mb f.cells t.cells >>= fun p =>
            pure ({ cells := p.1 }, p.2)) := by
      show (MSG_ReadBits H msg 1 >>= fun q => _) = _
      rw [h2]
      show (if delta = 0 then _ else _) = _
      rw [if_neg hd]
    cases h3 : MSG_ReadByte H mb with
    | error e3 =>
      refine key _ _ (by simp only [readSharedCount, h2, hd, if_false, h3]; exact rfl)
        ⟨fun e h => ?_, fun m h => ?_⟩
      · cases h
        refine ⟨rfl, ?_⟩
        rw [hfull]
        simp [readDeltaTable, h3, bind, Except.bind]
      · cases h
    | ok p3 =>
      obtain ⟨lc, mc⟩ := p3
      by_cases hl : lc > (entitySharedFields K).length ∨ lc < 0
      · refine key _ _
          (by simp only [readSharedCount, h2, hd, if_false, h3, hl, if_true]; exact rfl)
          ⟨fun e h => ?_, fun m h => ?_⟩
        · cases h
          refine ⟨rfl, ?_⟩
          rw [hfull, readDeltaTable_lc H _ _ _ mb mc _ _ lc h3, if_pos hl]
          rfl
        · cases h
      · refine key _ _
          (by simp only [readSharedCount, h2, hd, if_false, h3, hl]; exact rfl)
          ⟨fun e h => ?_, fun m h => ?_⟩
        · cases h
        · cases h

/-- The first part of `MSG_ReadDeltaPlayerstate` leaves `from` in the output
record however it ends, and when it ends on an error the reader raises that
error. -/
theorem readPlayerstateCount_spec (H : huffman_t) (K : constants_t) (msg : msg_t)
    (from_ : Option playerState_t) (t : playerState_t) :
    (readPlayerstateCount H K msg from_ t).1 = from_.getD zeroPlayerState ∧
    (∀ e, (readPlayerstateCount H K msg from_ t).2 = .error e →
      MSG_ReadDeltaPlayerstate H K msg from_ = .error e) := by
  have hfull : MSG_ReadDeltaPlayerstate H K msg from_
      = (readDeltaTable H (readPlayerField H) (playerStateFields K)
          "invalid playerState field count" msg (from_.getD zeroPlayerState).cells
          (from_.getD zeroPlayerState).cells >>= fun p =>
          readStatsGroup H K p.2 { from_.getD zeroPlayerState with cells := p.1 } >>= fun q =>
          readAmmoGroup H q.2 q.1 >>= fun r => readClipGroup H r.2 r.1) := rfl
  cases h3 : MSG_ReadByte H msg with
  | error e3 =>
    have hc : readPlayerstateCount H K msg from_ t
        = (from_.getD zeroPlayerState, .error e3) := by
      simp only [readPlayerstateCount, h3]
    rw [hc]
    refine ⟨rfl, fun e h => ?_⟩
    cases h
    rw [hfull]
    simp [readDeltaTable, h3, bind, Except.bind]
  | ok p3 =>
    obtain ⟨lc, mc⟩ := p3
    by_cases hl : lc > (playerStateFields K).length ∨ lc < 0
    · have hc : readPlayerstateCount H K msg from_ t
          = (from_.getD zeroPlayerState,
              .error (.ERR_DROP "invalid playerState field count")) := by
        simp only [readPlayerstateCount, h3, hl, if_true]
      rw [hc]
      refine ⟨rfl, fun e h => ?_⟩
      cases h
      rw [hfull, readDeltaTable_lc H _ _ _ msg mc _ _ lc h3, if_pos hl]
      rfl
    · have hc : readPlayerstateCount H K msg from_ t
          = (from_.getD zeroPlayerState, .ok (some lc, mc)) := by
        simp only [readPlayerstateCount, h3, hl, if_false]
      rw [hc]
      exact ⟨rfl, fun e h => by cases h⟩

/-! ## The claims -/

/-- C1 (amended): entity-state round trip. For every pair of entity states
`from_`, `to_` with `0 ≤ to_.number < MAX_GENTITIES` in which every table
field of `to_` that differs from `from_` holds a value its encoding carries
(`fieldFits`: for an integer field of width `w < 32` a value in
`0 .. 2 ^ w - 1`, for a `float` field any pattern but the negative zero), and
every `force` for which the writer writes something, `MSG_WriteDeltaEntity`
returns, and when it has not overflowed, reading the entity number from the
written bits and then calling `MSG_ReadDeltaEntity` with it yields an output
record equal to `to_` in `number` and in every cell of `entityStateFields`,
whatever the output record held before. -/
theorem C1_entity_round_trip {H : huffman_t} {Inv : (Nat → Nat) → Nat → Prop}
    (L : HuffLaws H Inv) (K : constants_t) (hK : constantsOK K) (m : msg_t)
    (from_ to_ out0 : entityState_t) (force : Bool)
    (hov : m.overflowed = false) (hoob : m.oob = false) (hI : Inv m.data m.bit)
    (hnum : 0 ≤ to_.number ∧ to_.number < K.MAX_GENTITIES)
    (hfit : ∀ fld ∈ entityStateFields K, from_.cells fld.offset ≠ to_.cells fld.offset →
      fieldFits fld (to_.cells fld.offset))
    (hwrites : force = true ∨
      ∃ fld ∈ entityStateFields K, from_.cells fld.offset ≠ to_.cells fld.offset) :
    ∃ m2, MSG_WriteDeltaEntity H K m (some from_) (some to_) force = .ok m2 ∧
      (m2.overflowed = false → ∀ rc, rc ≤ m2.cursize →
        ∃ rm1 out rm2,
          MSG_ReadBits H { m2 with bit := m.bit, readcount := rc } K.GENTITYNUM_BITS
            = .ok (to_.number, rm1) ∧
          MSG_ReadDeltaEntity H K rm1 from_ out0 to_.number = .ok (out, rm2) ∧
          out.number = to_.number ∧
          (∀ fld ∈ entityStateFields K, out.cells fld.offset = to_.cells fld.offset) ∧
          rm2.bit = m2.bit) := by
  have cN := entityNumber_codec L K hK to_.number hnum
  have sN := strict_bits H Inv to_.number K.GENTITYNUM_BITS hK.1 (by have := hK.2.1; omega)
  by_cases hlc : lastChangedLoop from_.cells to_.cells (entityStateFields K) 0 0 = 0
  · have hall := (lastChanged_eq_zero _ _ _).mp hlc
    have hforce : force = true := by
      rcases hwrites with h | ⟨fld, hf, hne⟩
      · exact h
      · exact absurd (hall fld hf) hne
    subst hforce
    obtain ⟨m2, e, hread⟩ := Codec.run2 cN sN (forcedEntity_codec L K from_ out0 to_.number hnum)
      m hov hoob hI
    rw [← MSG_WriteDeltaEntity_forced H K m from_ to_ hnum hlc] at e
    refine ⟨m2, e, fun hov2 rc hrc => ?_⟩
    obtain ⟨rm1, rc2, _, h1, h2⟩ := hread hov2 rc hrc
    exact ⟨rm1, _, _, h1, h2, rfl, fun fld hf => hall fld hf, rfl⟩
  · obtain ⟨m2, e, hread⟩ := Codec.run2 cN sN (deltaEntity_codec L K hK from_ to_ out0 hnum hfit)
      m hov hoob hI
    rw [← MSG_WriteDeltaEntity_delta H K m from_ to_ force hnum hlc] at e
    refine ⟨m2, e, fun hov2 rc hrc => ?_⟩
    obtain ⟨rm1, rc2, _, h1, h2⟩ := hread hov2 rc hrc
    refine ⟨rm1, _, _, h1, h2, rfl, ?_, rfl⟩
    exact (finalCells_spec from_.cells to_.cells out0.cells (entityStateFields K) _
      (lastChanged_tail _ _ _).2).1

/-- Witness of C1: the delta from the zero state to `sampleEntity`, which
holds an integer, an integral float and a non-integral float. -/
theorem C1_entity_round_trip_witness :
    HuffLaws rawCodec cleanAt ∧ constantsOK etl_constants ∧
    msg64.overflowed = false ∧ msg64.oob = false ∧ cleanAt msg64.data msg64.bit ∧
    (0 ≤ sampleEntity.number ∧ sampleEntity.number < etl_constants.MAX_GENTITIES) ∧
    (∀ fld ∈ entityStateFields etl_constants,
      zeroEntity.cells fld.offset ≠ sampleEntity.cells fld.offset →
      fieldFits fld (sampleEntity.cells fld.offset)) ∧
    (false = true ∨ ∃ fld ∈ entityStateFields etl_constants,
      zeroEntity.cells fld.offset ≠ sampleEntity.cells fld.offset) ∧
    ∃ m2, MSG_WriteDeltaEntity rawCodec etl_constants msg64 (some zeroEntity)
        (some sampleEntity) false = .ok m2 ∧
      (m2.overflowed = false → ∀ rc, rc ≤ m2.cursize →
        ∃ rm1 out rm2,
          MSG_ReadBits rawCodec { m2 with bit := msg64.bit, readcount := rc }
            etl_constants.GENTITYNUM_BITS = .ok (sampleEntity.number, rm1) ∧
          MSG_ReadDeltaEntity rawCodec etl_constants rm1 zeroEntity zeroEntity
            sampleEntity.number = .ok (out, rm2) ∧
          out.number = sampleEntity.number ∧
          (∀ fld ∈ entityStateFields etl_constants,
            out.cells fld.offset = sampleEntity.cells fld.offset) ∧
          rm2.bit = m2.bit) :=
  ⟨rawCodec_laws, etl_constants_ok, rfl, rfl, fun h => absurd rfl h, by decide, by decide,
    Or.inr (by decide),
    C1_entity_round_trip rawCodec_laws etl_constants etl_constants_ok msg64 zeroEntity
      sampleEntity zeroEntity false rfl rfl (fun h => absurd rfl h) (by decide) (by decide)
      (Or.inr (by decide))⟩

/-- Counterexample to C1 as stated: with `from_` all zero, a `to_` whose
`eType` (8 bits) is 256 is decoded with `eType` 0, and a `to_` whose
`pos.trBase[0]` is the negative zero (pattern 0x80000000) is decoded with the
positive zero (pattern 0). -/
theorem C1_counterexample :
    (valueOf (entityRoundTrip rawCodec etl_constants zeroEntity (entityWith 1 0 256)
      zeroEntity false)).map (fun e => e.cells 0) = some 0 ∧
    (entityWith 1 0 256).cells 0 = 256 ∧
    (valueOf (entityRoundTrip rawCodec etl_constants zeroEntity
      (entityWith 1 5 (-2147483648)) zeroEntity false)).map (fun e => e.cells 5) = some 0 ∧
    (entityWith 1 5 (-2147483648)).cells 5 = -2147483648 := by
  refine ⟨?_, ?_, ?_, ?_⟩ <;> decide

/-- C3 (amended): bitstream round trip of the bit primitives. For every
width `w` with `1 ≤ w ≤ 32` and every value `v`, on a bitstream buffer at bit
0 that is not overflowed, `MSG_WriteBits(v, w)`, or `MSG_WriteBits(v, -w)`
with `w ≤ 31`, returns, and when it has not overflowed, `MSG_BeginReading`
followed by `MSG_ReadBits(w)` returns `v` masked to its low `w` bits, given
the assumptions `HuffLaws` on the Huffman entry points. The low `w % 8` bits
go to `Huff_putBit` least significant first, the remaining `w / 8` bytes to
`Huff_offsetTransmit` least significant byte first. -/
theorem C3_bitstream_round_trip {H : huffman_t} {Inv : (Nat → Nat) → Nat → Prop}
    (L : HuffLaws H Inv) (m : msg_t) (v : Int) (w : Nat) (bits : Int)
    (hw1 : 1 ≤ w) (hw32 : w ≤ 32) (hbits : bits = w ∨ (bits = -w ∧ w ≤ 31))
    (hov : m.overflowed = false) (hoob : m.oob = false) (hbit : m.bit = 0)
    (hI : Inv m.data m.bit) :
    ∃ m2, MSG_WriteBits H m v bits = .ok m2 ∧
      (m2.overflowed = false →
        (∃ rm, MSG_ReadBits H (MSG_BeginReading m2) w = .ok (toI32 (toU32 v % 2 ^ w), rm) ∧
          rm.bit = m2.bit) ∧
        (m2.data, m2.bit) = transmitSeq H (m.maxsize <<< 3) (bytesOf v (w % 8) (w / 8))
          (putBitsSeq H (rawBitsOf v (w % 8)) (m.data, m.bit))) := by
  have hc := writeBits_codec L v w bits w hw1 hw32 hbits (Or.inl rfl)
  have hs : decide ((w : Int) < 0) = false := by simp
  rw [hs, signExtend_false] at hc
  have hstrict : StrictWriter Inv (fun m => MSG_WriteBits H m v bits) :=
    fun m m2 hov hoob _ hw hov2 =>
      MSG_WriteBits_cursize H m m2 v bits w hw1 hw32 hbits hov hoob hw hov2
  obtain ⟨m2, e, hread⟩ := hc.run hstrict m hov hoob hI
  refine ⟨m2, e, fun hov2 => ⟨?_, MSG_WriteBits_layout H m m2 v bits w hw1 hw32 hbits hov hoob e hov2⟩⟩
  obtain ⟨rc2, _, hr⟩ := hread hov2 0 (Nat.zero_le _)
  obtain ⟨o2, _⟩ := hc.sound m m2 hov hoob hI e hov2
  have hrm : MSG_BeginReading m2 = { m2 with bit := m.bit, readcount := 0 } := by
    unfold MSG_BeginReading; rw [hbit, ← o2]
  rw [hrm]
  exact ⟨_, hr, rfl⟩

/-- Witness of C3: the value -5 written with width -8 into a fresh message
and read with width 8 yields 251. -/
theorem C3_bitstream_round_trip_witness :
    HuffLaws rawCodec cleanAt ∧ 1 ≤ 8 ∧ 8 ≤ 32 ∧ msg64.overflowed = false ∧ msg64.oob = false ∧
    msg64.bit = 0 ∧ cleanAt msg64.data msg64.bit ∧
    ∃ m2, MSG_WriteBits rawCodec msg64 (-5) (-8) = .ok m2 ∧
      (m2.overflowed = false →
        (∃ rm, MSG_ReadBits rawCodec (MSG_BeginReading m2) 8 = .ok (251, rm) ∧
          rm.bit = m2.bit) ∧
        (m2.data, m2.bit) = transmitSeq rawCodec (msg64.maxsize <<< 3) (bytesOf (-5) (8 % 8) (8 / 8))
          (putBitsSeq rawCodec (rawBitsOf (-5) (8 % 8)) (msg64.data, msg64.bit))) :=
  ⟨rawCodec_laws, by decide, by decide, rfl, rfl, rfl, fun h => absurd rfl h,
    C3_bitstream_round_trip rawCodec_laws msg64 (-5) 8 (-8) (by decide) (by decide)
      (Or.inr ⟨rfl, by decide⟩) rfl rfl rfl (fun h => absurd rfl h)⟩

/-- Counterexample to C3 as stated: for `w = 32` the write `MSG_WriteBits(v,
-32)` raises the bad-bits error, so nothing is read back. -/
theorem C3_counterexample :
    raised (MSG_WriteBits rawCodec msg64 5 (-32)) = some (.ERR_DROP "MSG_WriteBits: bad bits") ∧
    valueOf (writeThenRead rawCodec 5 (-32) 32) = none := by
  constructor <;> decide

/-- C4: out-of-band encoding is byte-aligned little-endian. In out-of-band
mode, for `w` in 8, 16, 32 and a buffer that is not overflowed and has room
for `w / 8` more bytes, `MSG_WriteBits(v, w)` stores the low `w` bits of `v`
in `data[cursize .. cursize + w / 8)` least significant byte first, adds
`w / 8` to `cursize` and `w` to `bit`, and changes no other byte; and
`MSG_ReadBits(w)` on an out-of-band message that holds those bytes at its
read position returns `v` masked to `w` bits and adds `w / 8` to `readcount`. -/
theorem C4_oob_little_endian (H : huffman_t) (m : msg_t) (v : Int) (w : Nat)
    (hw : w = 8 ∨ w = 16 ∨ w = 32) (hoob : m.oob = true) (hov : m.overflowed = false)
    (hroom : m.cursize + w / 8 ≤ m.maxsize) :
    ∃ m2, MSG_WriteBits H m v w = .ok m2 ∧
      m2.cursize = m.cursize + w / 8 ∧ m2.bit = m.bit + w ∧ m2.overflowed = false ∧
      (∀ j, j < w / 8 → m2.data (m.cursize + j) = (v / 256 ^ j % 256).toNat) ∧
      (∀ i, (i < m.cursize ∨ m.cursize + w / 8 ≤ i) → m2.data i = m.data i) ∧
      ∀ rm : msg_t, rm.oob = true → rm.readcount + w / 8 ≤ rm.cursize →
        (∀ j, j < w / 8 → rm.data (rm.readcount + j) = m2.data (m.cursize + j)) →
        MSG_ReadBits H rm w = .ok (toI32 (toU32 v % 2 ^ w),
          { rm with readcount := rm.readcount + w / 8, bit := rm.bit + w }) := by
  rcases hw with rfl | rfl | rfl
  · refine ⟨_, MSG_WriteBits_oob8 H m v hoob hov hroom, rfl, rfl, hov, ?_, ?_, ?_⟩
    · intro j hj
      have : j = 0 := by omega
      subst this
      simp
    · intro i hi
      have : i ≠ m.cursize := by omega
      simp [Function.update_noteq this]
    · intro rm hroob hrc hdata
      have h0 := hdata 0 (by norm_num)
      simp only [Nat.add_zero, Function.update_same] at h0
      show MSG_ReadBits H rm 8 = _
      rw [MSG_ReadBits_oob8 H rm 8 (Or.inl rfl) hroob hrc, h0, toU32_mod_pow v 8 (by norm_num)]
      have hm : (v % 256).toNat % 256 = (v % 2 ^ 8).toNat := by
        have := int_mod_256_toNat_lt v
        have e8 : (2 : Int) ^ 8 = 256 := by norm_num
        rw [e8]; omega
      rw [hm]
      simp [signExtend]
  · refine ⟨_, MSG_WriteBits_oob16 H m v hoob hov hroom, rfl, rfl, hov, ?_, ?_, ?_⟩
    · intro j hj
      have : j = 0 ∨ j = 1 := by omega
      rcases this with rfl | rfl <;> simp
    · intro i hi
      have h1 : i ≠ m.cursize := by omega
      have h2 : i ≠ m.cursize + 1 := by omega
      simp [Function.update_noteq h1, Function.update_noteq h2]
    · intro rm hroob hrc hdata
      have h0 := hdata 0 (by norm_num)
      have h1 := hdata 1 (by norm_num)
      simp only [Nat.add_zero, Function.update_same, ne_eq, Nat.self_eq_add_right,
        one_ne_zero, not_false_eq_true, Function.update_noteq] at h0 h1
      show MSG_ReadBits H rm 16 = _
      rw [MSG_ReadBits_oob16 H rm 16 (Or.inl rfl) hroob hrc, h0, h1, bytes2,
        toU32_mod_pow v 16 (by norm_num)]
      simp [signExtend]
  · refine ⟨_, MSG_WriteBits_oob32 H m v hoob hov hroom, rfl, rfl, hov, ?_, ?_, ?_⟩
    · intro j hj
      have : j = 0 ∨ j = 1 ∨ j = 2 ∨ j = 3 := by omega
      rcases this with rfl | rfl | rfl | rfl <;> simp
    · intro i hi
      have h1 : i ≠ m.cursize := by omega
      have h2 : i ≠ m.cursize + 1 := by omega
      have h3 : i ≠ m.cursize + 2 := by omega
      have h4 : i ≠ m.cursize + 3 := by omega
      simp [Function.update_noteq h1, Function.update_noteq h2, Function.update_noteq h3,
        Function.update_noteq h4]
    · intro rm hroob hrc hdata
      have h0 := hdata 0 (by norm_num)
      have h1 := hdata 1 (by norm_num)
      have h2 := hdata 2 (by norm_num)
      have h3 := hdata 3 (by norm_num)
      simp at h0 h1 h2 h3
      show MSG_ReadBits H rm 32 = _
      rw [MSG_ReadBits_oob32 H rm 32 (Or.inl rfl) hroob hrc, h0, h1, h2, h3, bytes4,
        toU32_mod_pow v 32 (by norm_num)]
      simp [signExtend]

/-- Witness of C4: the value -5 written with width 16 into a fresh
out-of-band message. -/
theorem C4_oob_little_endian_witness :
    (16 = 8 ∨ 16 = 16 ∨ 16 = 32) ∧ oob64.oob = true ∧ oob64.overflowed = false ∧
    oob64.cursize + 16 / 8 ≤ oob64.maxsize ∧
    ∃ m2, MSG_WriteBits rawCodec oob64 (-5) (16 : Nat) = .ok m2 ∧
      m2.cursize = oob64.cursize + 16 / 8 ∧ m2.bit = oob64.bit + 16 ∧ m2.overflowed = false ∧
      (∀ j, j < 16 / 8 → m2.data (oob64.cursize + j) = ((-5 : Int) / 256 ^ j % 256).toNat) ∧
      (∀ i, (i < oob64.cursize ∨ oob64.cursize + 16 / 8 ≤ i) → m2.data i = oob64.data i) ∧
      ∀ rm : msg_t, rm.oob = true → rm.readcount + 16 / 8 ≤ rm.cursize →
        (∀ j, j < 16 / 8 → rm.data (rm.readcount + j) = m2.data (oob64.cursize + j)) →
        MSG_ReadBits rawCodec rm (16 : Nat) = .ok (toI32 (toU32 (-5) % 2 ^ 16),
          { rm with readcount := rm.readcount + 16 / 8, bit := rm.bit + 16 }) :=
  ⟨by decide, rfl, rfl, by decide,
    C4_oob_little_endian rawCodec oob64 (-5) 16 (by decide) rfl rfl (by decide)⟩

/-- C5 (the code at the failing input): in bitstream mode the value -5
written with `MSG_WriteBits(-5, -5)` and read with `MSG_ReadBits(-5)` comes
back as 27: the five bits read are not sign-extended, because the source has
taken the raw-bit count off `bits` before the test
`sgn && bits > 0 && bits < 32`. With width 13 the extension is made from bit
7 instead of bit 12: -4096 comes back as 4096 and 128 as -128. For the widths
8 and 16 the value comes back unchanged, in both modes. -/
theorem C5_sign_extension_slip :
    valueOf (writeThenRead rawCodec (-5) (-5) (-5)) = some 27 ∧
    valueOf (writeThenRead rawCodec (-4096) (-13) (-13)) = some 4096 ∧
    valueOf (writeThenRead rawCodec 128 (-13) (-13)) = some (-128) ∧
    valueOf (writeThenRead rawCodec (-5) (-8) (-8)) = some (-5) ∧
    valueOf (writeThenRead rawCodec (-5) (-16) (-16)) = some (-5) ∧
    valueOf (writeThenReadOOB rawCodec (-5) (-8) (-8)) = some (-5) ∧
    valueOf (writeThenReadOOB rawCodec (-5) (-16) (-16)) = some (-5) := by
  refine ⟨?_, ?_, ?_, ?_, ?_, ?_, ?_⟩ <;> decide

/-- C8: a no-op encode writes nothing. When every cell of `entityStateFields`
is the same in `from_` and `to_`, `MSG_WriteDeltaEntity` with `force` false
makes no write: if it returns, the message is the one it was given, and it
returns whenever `to_.number` is a valid entity number. When every cell of
`entitySharedFields` is the same in `sfrom` and `sto`,
`MSG_WriteDeltaSharedEntity` with `force` false returns the message it was
given. -/
theorem C8_noop_writes_nothing (H : huffman_t) (K : constants_t) (msg : msg_t)
    (from_ to_ : entityState_t) (sfrom sto : entityShared_t) (number : Int) :
    ((∀ fld ∈ entityStateFields K, from_.cells fld.offset = to_.cells fld.offset) →
      (∀ m2, MSG_WriteDeltaEntity H K msg (some from_) (some to_) false = .ok m2 → m2 = msg) ∧
      (0 ≤ to_.number ∧ to_.number < K.MAX_GENTITIES →
        MSG_WriteDeltaEntity H K msg (some from_) (some to_) false = .ok msg)) ∧
    ((∀ fld ∈ entitySharedFields K, sfrom.cells fld.offset = sto.cells fld.offset) →
      MSG_WriteDeltaSharedEntity H K msg sfrom sto false number = .ok msg) := by
  constructor
  · intro hsame
    have hlc := (lastChanged_eq_zero _ _ _).mpr hsame
    constructor
    · intro m2 h
      by_cases hvalid : to_.number < 0 ∨ to_.number ≥ K.MAX_GENTITIES
      · simp [MSG_WriteDeltaEntity, hvalid] at h
      · simp [MSG_WriteDeltaEntity, hvalid, hlc, pure, Except.pure] at h
        exact h.symm
    · intro hnum
      have hvalid : ¬ (to_.number < 0 ∨ to_.number ≥ K.MAX_GENTITIES) := by omega
      simp [MSG_WriteDeltaEntity, hvalid, hlc, pure, Except.pure]
  · intro hsame
    have hlc := (lastChanged_eq_zero _ _ _).mpr hsame
    simp [MSG_WriteDeltaSharedEntity, hlc, pure, Except.pure]

/-- Witness of C8: the zero records encoded against themselves. -/
theorem C8_noop_writes_nothing_witness :
    (∀ fld ∈ entityStateFields etl_constants,
      zeroEntity.cells fld.offset = zeroEntity.cells fld.offset) ∧
    (0 ≤ zeroEntity.number ∧ zeroEntity.number < etl_constants.MAX_GENTITIES) ∧
    (∀ fld ∈ entitySharedFields etl_constants,
      zeroShared.cells fld.offset = zeroShared.cells fld.offset) ∧
    MSG_WriteDeltaEntity rawCodec etl_constants msg64 (some zeroEntity) (some zeroEntity) false
      = .ok msg64 ∧
    MSG_WriteDeltaSharedEntity rawCodec etl_constants msg64 zeroShared zeroShared false 5
      = .ok msg64 :=
  ⟨fun _ _ => rfl, by decide, fun _ _ => rfl,
    ((C8_noop_writes_nothing rawCodec etl_constants msg64 zeroEntity zeroEntity zeroShared
      zeroShared 5).1 (fun _ _ => rfl)).2 (by decide),
    (C8_noop_writes_nothing rawCodec etl_constants msg64 zeroEntity zeroEntity zeroShared
      zeroShared 5).2 (fun _ _ => rfl)⟩

/-- C10: entity removal. `MSG_WriteDeltaEntity` with a null `to` and a
non-null `from` makes exactly two writes, `from.number` in `GENTITYNUM_BITS`
bits and a single 1 bit, and with both null it returns the message it was
given; `MSG_ReadDeltaEntity` with a valid number, on reading a first bit
equal to 1, returns the record whose cells are all zero and whose number is
`MAX_GENTITIES - 1`, with the message as that one read left it. -/
theorem C10_entity_removal (H : huffman_t) (K : constants_t) (msg : msg_t)
    (from_ : entityState_t) (force : Bool) :
    MSG_WriteDeltaEntity H K msg (some from_) none force
      = (MSG_WriteBits H msg from_.number K.GENTITYNUM_BITS >>= fun m =>
          MSG_WriteBits H m 1 1) ∧
    MSG_WriteDeltaEntity H K msg none none force = .ok msg ∧
    ∀ (rm rm1 : msg_t) (g out0 : entityState_t) (number : Int),
      0 ≤ number → number < K.MAX_GENTITIES → MSG_ReadBits H rm 1 = .ok (1, rm1) →
      MSG_ReadDeltaEntity H K rm g out0 number
        = .ok ({ number := (K.MAX_GENTITIES : Int) - 1, cells := fun _ => 0 }, rm1) := by
  refine ⟨rfl, rfl, ?_⟩
  intro rm rm1 g out0 number h0 h1 hread
  have hvalid : ¬ (number < 0 ∨ number ≥ K.MAX_GENTITIES) := by omega
  simp only [MSG_ReadDeltaEntity, hvalid, if_false, hread, bind, Except.bind]
  simp [pure, Except.pure]

/-- Witness of C10: decoding a message whose first bit is 1 over the sample
record. -/
theorem C10_entity_removal_witness :
    (0 : Int) ≤ 7 ∧ (7 : Int) < etl_constants.MAX_GENTITIES ∧
    MSG_ReadBits rawCodec oneBitMsg 1 = .ok (1, { oneBitMsg with bit := 1, readcount := 1 }) ∧
    MSG_ReadDeltaEntity rawCodec etl_constants oneBitMsg sampleEntity sampleEntity 7
      = .ok ({ number := (etl_constants.MAX_GENTITIES : Int) - 1, cells := fun _ => 0 },
          { oneBitMsg with bit := 1, readcount := 1 }) :=
  ⟨by decide, by decide, rfl,
    (C10_entity_removal rawCodec etl_constants msg64 sampleEntity false).2.2 oneBitMsg
      { oneBitMsg with bit := 1, readcount := 1 } sampleEntity sampleEntity 7
      (by decide) (by decide) rfl⟩

/-- C9: the forced no-op marker. For `from_` and `to_` with the same table
cells and a valid `to_.number`, `MSG_WriteDeltaEntity` with `force` set makes
exactly three writes: `to_.number` in `GENTITYNUM_BITS` bits, a 0 bit (not
removed) and a 0 bit (no delta). It returns, and when it has not overflowed,
the reader gets `to_.number`, then `MSG_ReadDeltaEntity` with that number
yields the copy of `from_` with `number` set to it, the bit it meets after
the number being 0; in the removal message of the same entity the bit after
the number is read as 1. -/
theorem C9_forced_noop_marker {H : huffman_t} {Inv : (Nat → Nat) → Nat → Prop}
    (L : HuffLaws H Inv) (K : constants_t) (hK : constantsOK K) (m : msg_t)
    (from_ to_ out0 : entityState_t)
    (hov : m.overflowed = false) (hoob : m.oob = false) (hI : Inv m.data m.bit)
    (hnum : 0 ≤ to_.number ∧ to_.number < K.MAX_GENTITIES)
    (hsame : ∀ fld ∈ entityStateFields K, from_.cells fld.offset = to_.cells fld.offset) :
    MSG_WriteDeltaEntity H K m (some from_) (some to_) true
      = (MSG_WriteBits H m to_.number K.GENTITYNUM_BITS >>= fun m =>
          MSG_WriteBits H m 0 1 >>= fun m => MSG_WriteBits H m 0 1) ∧
    (∃ m2, MSG_WriteDeltaEntity H K m (some from_) (some to_) true = .ok m2 ∧
      (m2.overflowed = false → ∀ rc, rc ≤ m2.cursize →
        ∃ rm1 rmA rm2,
          MSG_ReadBits H { m2 with bit := m.bit, readcount := rc } K.GENTITYNUM_BITS
            = .ok (to_.number, rm1) ∧
          MSG_ReadBits H rm1 1 = .ok (0, rmA) ∧
          MSG_ReadDeltaEntity H K rm1 from_ out0 to_.number
            = .ok ({ from_ with number := to_.number }, rm2) ∧
          rm2.bit = m2.bit)) ∧
    (∃ m3, MSG_WriteDeltaEntity H K m (some to_) none true = .ok m3 ∧
      (m3.overflowed = false → ∀ rc, rc ≤ m3.cursize →
        ∃ rm1 rmA,
          MSG_ReadBits H { m3 with bit := m.bit, readcount := rc } K.GENTITYNUM_BITS
            = .ok (to_.number, rm1) ∧
          MSG_ReadBits H rm1 1 = .ok (1, rmA))) := by
  have hlc := (lastChanged_eq_zero _ _ _).mpr hsame
  have heq := MSG_WriteDeltaEntity_forced H K m from_ to_ hnum hlc
  have cN := entityNumber_codec L K hK to_.number hnum
  have sN := strict_bits H Inv to_.number K.GENTITYNUM_BITS hK.1 (by have := hK.2.1; omega)
  refine ⟨heq, ?_, ?_⟩
  · obtain ⟨m2, e, hread⟩ := Codec.run2 cN sN (forcedEntity_codec L K from_ out0 to_.number hnum)
      m hov hoob hI
    have cPre : Codec H Inv
        (fun m => MSG_WriteBits H m to_.number K.GENTITYNUM_BITS >>= fun m =>
          MSG_WriteBits H m 0 1)
        (fun rm => MSG_ReadBits H rm K.GENTITYNUM_BITS >>= fun p => MSG_ReadBits H p.2 1)
        (0 : Int) :=
      Codec.bind cN (codec_bit0 L) (fun m => rfl)
        (fun rm rm1 h => by simp [h, bind, Except.bind])
    have sPre : StrictWriter Inv
        (fun m => MSG_WriteBits H m to_.number K.GENTITYNUM_BITS >>= fun m =>
          MSG_WriteBits H m 0 1) :=
      strict_bind sN cN (codec_bit0 L) (fun m => rfl)
    obtain ⟨m2', e', hread'⟩ := Codec.run2 cPre sPre (codec_bit0 L) m hov hoob hI
    have eqw : (MSG_WriteBits H m to_.number K.GENTITYNUM_BITS >>= fun m =>
          MSG_WriteBits H m 0 1 >>= fun m => MSG_WriteBits H m 0 1) = .ok m2' := by
      rw [← e']
      cases MSG_WriteBits H m to_.number K.GENTITYNUM_BITS with
      | error _ => rfl
      | ok a =>
        simp only [bind, Except.bind]
    have hm : m2' = m2 := by
      rw [e] at eqw; cases eqw; rfl
    subst hm
    rw [← heq] at e
    refine ⟨m2', e, fun hov2 rc hrc => ?_⟩
    obtain ⟨rm1, rc2, _, h1, h2⟩ := hread hov2 rc hrc
    obtain ⟨rmA, _, _, h3, _⟩ := hread' hov2 rc hrc
    simp only [h1, bind, Except.bind] at h3
    exact ⟨rm1, rmA, _, h1, h3, h2, rfl⟩
  · obtain ⟨m3, e, hread⟩ := Codec.run2 cN sN (codec_bit1 L) m hov hoob hI
    refine ⟨m3, e, fun hov3 rc hrc => ?_⟩
    obtain ⟨rm1, rc2, _, h1, h2⟩ := hread hov3 rc hrc
    exact ⟨rm1, _, h1, h2⟩

/-- Witness of C9: the sample record encoded against itself with `force` set. -/
theorem C9_forced_noop_marker_witness :
    HuffLaws rawCodec cleanAt ∧ constantsOK etl_constants ∧
    msg64.overflowed = false ∧ msg64.oob = false ∧ cleanAt msg64.data msg64.bit ∧
    (0 ≤ sampleEntity.number ∧ sampleEntity.number < etl_constants.MAX_GENTITIES) ∧
    (∀ fld ∈ entityStateFields etl_constants,
      sampleEntity.cells fld.offset = sampleEntity.cells fld.offset) ∧
    MSG_WriteDeltaEntity rawCodec etl_constants msg64 (some sampleEntity) (some sampleEntity) true
      = (MSG_WriteBits rawCodec msg64 sampleEntity.number etl_constants.GENTITYNUM_BITS
          >>= fun m => MSG_WriteBits rawCodec m 0 1 >>= fun m => MSG_WriteBits rawCodec m 0 1) ∧
    (valueOf (entityRoundTrip rawCodec etl_constants sampleEntity sampleEntity zeroEntity
      true)).map (fun e => (e.number, e.cells 0, e.cells 5)) = some (7, 3, 1120403456) :=
  ⟨rawCodec_laws, etl_constants_ok, rfl, rfl, fun h => absurd rfl h, by decide,
    fun _ _ => rfl,
    (C9_forced_noop_marker rawCodec_laws etl_constants etl_constants_ok msg64 sampleEntity
      sampleEntity zeroEntity rfl rfl (fun h => absurd rfl h) (by decide)
      (fun _ _ => rfl)).1,
    by decide⟩

/-- C6: the float fast path of the entity-state codec. For a changed cell of
a `float` field whose new value is not a zero: if the new value is the float
of an integer `t` with `-4096 ≤ t ≤ 4095`, the body of the writing loop makes
exactly the writes 1 (changed), 1 (non-zero), 0 (truncated) and `t + 4096` in
13 bits (`FLOAT_INT_BIAS` is 4096, `FLOAT_INT_BITS` is 13); if the new value
is not integral (its truncation converted back is not equal to it) or its
truncation lies outside `-4096 .. 4095`, it makes exactly the writes 1, 1, 1
and the cell in 32 bits; in both cases the body of the reading loop
reconstructs the cell with the bit pattern it had. -/
theorem C6_float_fast_path {H : huffman_t} {Inv : (Nat → Nat) → Nat → Prop}
    (L : HuffLaws H Inv) (field : netField_t) (fromF toF : Int)
    (hfl : field.bits = 0) (hch : fromF ≠ toF) (hint : isInt32 toF)
    (hnz : f32_isZero (toU32 toF) = false) :
    FLOAT_INT_BIAS = 4096 ∧ FLOAT_INT_BITS = 13 ∧
    (∀ t : Int, -4096 ≤ t → t ≤ 4095 → toU32 toF = f32_ofInt t →
      ∀ m, writeDeltaField H m field fromF toF
        = (MSG_WriteBits H m 1 1 >>= fun m => MSG_WriteBits H m 1 1 >>= fun m =>
            MSG_WriteBits H m 0 1 >>= fun m =>
            MSG_WriteBits H m (t + FLOAT_INT_BIAS) FLOAT_INT_BITS)) ∧
    ((f32_eq (f32_ofInt (f32_toInt (toU32 toF))) (toU32 toF) = false ∨
        f32_toInt (toU32 toF) < -4096 ∨ 4095 < f32_toInt (toU32 toF)) →
      ∀ m, writeDeltaField H m field fromF toF
        = (MSG_WriteBits H m 1 1 >>= fun m => MSG_WriteBits H m 1 1 >>= fun m =>
            MSG_WriteBits H m 1 1 >>= fun m => MSG_WriteBits H m toF 32)) ∧
    (∀ m : msg_t, m.overflowed = false → m.oob = false → Inv m.data m.bit →
      ∃ m2, writeDeltaField H m field fromF toF = .ok m2 ∧
        (m2.overflowed = false → ∀ rc, rc ≤ m2.cursize → ∃ rc2, rc2 ≤ m2.cursize ∧
          readDeltaField H { m2 with bit := m.bit, readcount := rc } field fromF
            = .ok (toF, { m2 with readcount := rc2 }))) := by
  have hne : toF ≠ -2147483648 := by
    intro h
    rw [h] at hnz
    revert hnz
    decide
  refine ⟨by decide, rfl, ?_, ?_, ?_⟩
  · intro t hlo hhi hp m
    have ht0 : t ≠ 0 := by
      intro h
      rw [h] at hp
      rw [hp] at hnz
      revert hnz
      decide
    have h1 := (smallInt_float t ht0 hlo (by omega)).1
    have h2 := smallInt_fits t ht0 hlo hhi
    rw [← hp] at h1 h2
    rw [h1] at h2
    simp [writeDeltaField, hch, hfl, writeFloatField, hnz, writeTruncFloat, h2, h1]
  · intro hcase m
    have hfit : floatFitsInt (toU32 toF) (f32_toInt (toU32 toF)) = false := by
      cases hf : floatFitsInt (toU32 toF) (f32_toInt (toU32 toF)) with
      | false => rfl
      | true =>
        exfalso
        simp only [floatFitsInt, Bool.and_eq_true, decide_eq_true_eq] at hf
        obtain ⟨⟨he, hlo⟩, hhi⟩ := hf
        have e1 : FLOAT_INT_BIAS = 4096 := by decide
        have e2 : ((1 <<< FLOAT_INT_BITS : Nat) : Int) = 8192 := by decide
        rw [e1] at hlo hhi
        rw [e2] at hhi
        rcases hcase with h | h | h
        · rw [h] at he; cases he
        · omega
        · omega
    simp [writeDeltaField, hch, hfl, writeFloatField, hnz, writeTruncFloat, hfit]
  · intro m hov hoob hI
    have hfits : fromF ≠ toF → fieldFits field toF := fun _ => ⟨hint, by rw [if_pos hfl]; exact hne⟩
    have hc := writeDeltaField_codec L field fromF toF (by rw [hfl]; norm_num) hfits
    have hs : StrictWriter Inv (fun m => writeDeltaField H m field fromF toF) :=
      strict_bind (strict_bits H Inv 1 1 (by norm_num) (by norm_num)) (codec_bit1 L)
        (floatField_codec L toF hint hne)
        (fun m => by simp [writeDeltaField, hch, hfl])
    exact hc.run hs m hov hoob hI

/-- Witness of C6: from 0.0, the value 100.0 (pattern 0x42C80000) takes the
13-bit path and the value 123456.75 (pattern 0x47F12060) the 32-bit path. -/
theorem C6_float_fast_path_witness :
    HuffLaws rawCodec cleanAt ∧ (netField_t.mk "pos.trBase[0]" 5 0).bits = 0 ∧
    (0 : Int) ≠ 1120403456 ∧ isInt32 1120403456 ∧ f32_isZero (toU32 1120403456) = false ∧
    toU32 1120403456 = f32_ofInt 100 ∧
    (∀ m, writeDeltaField rawCodec m (netField_t.mk "pos.trBase[0]" 5 0) 0 1120403456
      = (MSG_WriteBits rawCodec m 1 1 >>= fun m => MSG_WriteBits rawCodec m 1 1 >>= fun m =>
          MSG_WriteBits rawCodec m 0 1 >>= fun m =>
          MSG_WriteBits rawCodec m (100 + FLOAT_INT_BIAS) FLOAT_INT_BITS)) ∧
    (0 : Int) ≠ 1206984800 ∧ isInt32 1206984800 ∧ f32_isZero (toU32 1206984800) = false ∧
    f32_eq (f32_ofInt (f32_toInt (toU32 1206984800))) (toU32 1206984800) = false ∧
    (∀ m, writeDeltaField rawCodec m (netField_t.mk "pos.trBase[0]" 5 0) 0 1206984800
      = (MSG_WriteBits rawCodec m 1 1 >>= fun m => MSG_WriteBits rawCodec m 1 1 >>= fun m =>
          MSG_WriteBits rawCodec m 1 1 >>= fun m => MSG_WriteBits rawCodec m 1206984800 32)) :=
  ⟨rawCodec_laws, rfl, by decide, by decide, by decide, by decide,
    (C6_float_fast_path rawCodec_laws (netField_t.mk "pos.trBase[0]" 5 0) 0 1120403456 rfl
      (by decide) (by decide) (by decide)).2.2.1 100 (by decide) (by decide) (by decide),
    by decide, by decide, by decide, by decide,
    (C6_float_fast_path rawCodec_laws (netField_t.mk "pos.trBase[0]" 5 0) 0 1206984800 rfl
      (by decide) (by decide) (by decide)).2.2.2.1 (Or.inl (by decide))⟩

/-- C2 (amended): player-state round trip. For every pair of player states
`from_`, `to_` (a null `from_` being the all-zero state) such that every
table cell of `to_` that differs from `from_` holds a value its field can
carry (`playerFieldFits`: for a `float` field any pattern but the negative
zero, for a field of width 32 any `int`, for a field of positive width `w`
below 32 a value in `0 .. 2 ^ w - 1`, for a field of negative width `-w` a
value in `-2 ^ (w - 1) .. 2 ^ (w - 1) - 1`), every changed entry of `stats`,
`persistant`, `holdable`, `ammo` and `ammoclip` is a `short` and every
changed entry of `powerups` an `int`: on a bitstream buffer that is not
overflowed `MSG_WriteDeltaPlayerstate` returns, and when it has not
overflowed, `MSG_ReadDeltaPlayerstate` on the written bits returns a record
equal to `to_` in every `playerStateFields` cell and in every entry of the
six arrays, given the assumptions `HuffLaws` on the Huffman entry points and
`constantsOK` on the header constants. -/
theorem C2_player_round_trip {H : huffman_t} {Inv : (Nat → Nat) → Nat → Prop}
    (L : HuffLaws H Inv) (K : constants_t) (hK : constantsOK K) (m : msg_t)
    (from_ : Option playerState_t) (to_ : playerState_t)
    (hov : m.overflowed = false) (hoob : m.oob = false) (hI : Inv m.data m.bit)
    (hcells : ∀ fld ∈ playerStateFields K,
      (from_.getD zeroPlayerState).cells fld.offset ≠ to_.cells fld.offset →
      playerFieldFits fld (to_.cells fld.offset))
    (hstats : ∀ i, i < K.MAX_STATS → to_.stats i ≠ (from_.getD zeroPlayerState).stats i →
      isInt16 (to_.stats i))
    (hpers : ∀ i, i < K.MAX_PERSISTANT →
      to_.persistant i ≠ (from_.getD zeroPlayerState).persistant i →
      isInt16 (to_.persistant i))
    (hhold : ∀ i, i < K.MAX_HOLDABLE →
      to_.holdable i ≠ (from_.getD zeroPlayerState).holdable i → isInt16 (to_.holdable i))
    (hpow : ∀ i, i < K.MAX_POWERUPS →
      to_.powerups i ≠ (from_.getD zeroPlayerState).powerups i → isInt32 (to_.powerups i))
    (hammo : ∀ i, i < 64 → to_.ammo i ≠ (from_.getD zeroPlayerState).ammo i →
      isInt16 (to_.ammo i))
    (hclip : ∀ i, i < 64 → to_.ammoclip i ≠ (from_.getD zeroPlayerState).ammoclip i →
      isInt16 (to_.ammoclip i)) :
    ∃ m2, MSG_WriteDeltaPlayerstate H K m from_ to_ = .ok m2 ∧
      (m2.overflowed = false → ∀ rc, rc ≤ m2.cursize →
        ∃ out rm2,
          MSG_ReadDeltaPlayerstate H K { m2 with bit := m.bit, readcount := rc } from_
            = .ok (out, rm2) ∧
          (∀ fld ∈ playerStateFields K, out.cells fld.offset = to_.cells fld.offset) ∧
          (∀ i, i < K.MAX_STATS → out.stats i = to_.stats i) ∧
          (∀ i, i < K.MAX_PERSISTANT → out.persistant i = to_.persistant i) ∧
          (∀ i, i < K.MAX_HOLDABLE → out.holdable i = to_.holdable i) ∧
          (∀ i, i < K.MAX_POWERUPS → out.powerups i = to_.powerups i) ∧
          (∀ i, i < 64 → out.ammo i = to_.ammo i) ∧
          (∀ i, i < 64 → out.ammoclip i = to_.ammoclip i) ∧
          rm2.bit = m2.bit) := by
  obtain ⟨cP, sP⟩ := player_codec L K hK from_ to_ hcells hstats hpers hhold hpow hammo hclip
  obtain ⟨m2, e, hread⟩ := Codec.run cP sP m hov hoob hI
  refine ⟨m2, e, fun hov2 rc hrc => ?_⟩
  obtain ⟨rc2, _, h⟩ := hread hov2 rc hrc
  refine ⟨_, _, h, ?_, ?_, ?_, ?_, ?_, ?_, ?_, rfl⟩
  · exact (finalCells_spec (from_.getD zeroPlayerState).cells to_.cells
      (from_.getD zeroPlayerState).cells (playerStateFields K) _ (lastChanged_tail _ _ _).2).1
  · exact patchBlock_first _ _ _
  · exact patchBlock_first _ _ _
  · exact patchBlock_first _ _ _
  · exact patchBlock_first _ _ _
  · exact patchBlocks_spec _ _
  · exact patchBlocks_spec _ _

theorem C2_player_round_trip_witness :
    HuffLaws rawCodec cleanAt ∧ constantsOK etl_constants ∧
    msg64.overflowed = false ∧ msg64.oob = false ∧ cleanAt msg64.data msg64.bit ∧
    (∀ fld ∈ playerStateFields etl_constants,
      ((none : Option playerState_t).getD zeroPlayerState).cells fld.offset
        ≠ samplePlayer.cells fld.offset →
      playerFieldFits fld (samplePlayer.cells fld.offset)) ∧
    ∃ m2, MSG_WriteDeltaPlayerstate rawCodec etl_constants msg64 none samplePlayer = .ok m2 ∧
      (m2.overflowed = false → ∀ rc, rc ≤ m2.cursize →
        ∃ out rm2,
          MSG_ReadDeltaPlayerstate rawCodec etl_constants
            { m2 with bit := msg64.bit, readcount := rc } none = .ok (out, rm2) ∧
          (∀ fld ∈ playerStateFields etl_constants,
            out.cells fld.offset = samplePlayer.cells fld.offset) ∧
          (∀ i, i < etl_constants.MAX_STATS → out.stats i = samplePlayer.stats i) ∧
          (∀ i, i < etl_constants.MAX_PERSISTANT →
            out.persistant i = samplePlayer.persistant i) ∧
          (∀ i, i < etl_constants.MAX_HOLDABLE → out.holdable i = samplePlayer.holdable i) ∧
          (∀ i, i < etl_constants.MAX_POWERUPS → out.powerups i = samplePlayer.powerups i) ∧
          (∀ i, i < 64 → out.ammo i = samplePlayer.ammo i) ∧
          (∀ i, i < 64 → out.ammoclip i = samplePlayer.ammoclip i) ∧
          rm2.bit = m2.bit) :=
  ⟨rawCodec_laws, etl_constants_ok, rfl, rfl, fun h => absurd rfl h, by decide,
    C2_player_round_trip rawCodec_laws etl_constants etl_constants_ok msg64 none samplePlayer
      rfl rfl (fun h => absurd rfl h) (by decide) (by decide) (by decide) (by decide)
      (by decide) (by decide) (by decide)⟩

/-- Counterexample to C2 as stated: with a null `from_`, a `to_` whose
`pm_type` (8 bits) is 256 is decoded with `pm_type` 0, a `to_` whose
`pm_time` (-16 bits) is 40000 is decoded with `pm_time` -25536, a `to_` whose
`origin[0]` is the negative zero (pattern 0x80000000) is decoded with the
positive zero, and a `to_` whose `stats[0]` is 40000 is decoded with
`stats[0]` -25536. -/
theorem C2_counterexample :
    (valueOf (playerRoundTrip rawCodec etl_constants none (playerWith 1 256))).map
      (fun p => p.cells 1) = some 0 ∧
    (playerWith 1 256).cells 1 = 256 ∧
    (valueOf (playerRoundTrip rawCodec etl_constants none (playerWith 4 40000))).map
      (fun p => p.cells 4) = some (-25536) ∧
    (playerWith 4 40000).cells 4 = 40000 ∧
    (valueOf (playerRoundTrip rawCodec etl_constants none (playerWith 5 (-2147483648)))).map
      (fun p => p.cells 5) = some 0 ∧
    (playerWith 5 (-2147483648)).cells 5 = -2147483648 ∧
    (valueOf (playerRoundTrip rawCodec etl_constants none (playerWithStat 0 40000))).map
      (fun p => p.stats 0) = some (-25536) ∧
    (playerWithStat 0 40000).stats 0 = 40000 := by
  refine ⟨?_, ?_, ?_, ?_, ?_, ?_, ?_, ?_⟩ <;> decide

/-- C7: tail copy on decode. In each of `MSG_ReadDeltaEntity`,
`MSG_ReadDeltaSharedEntity` and `MSG_ReadDeltaPlayerstate`, for every
message, every `from_`, every output record `out0` and every count `lc` that
the reader gets from `MSG_ReadByte` with `0 ≤ lc ≤ numFields`: whenever the
reader returns, each table field with index `i ≥ lc` has in the returned
record the cell value it has in `from_`; and on a bitstream message the
reader does return. The player-state reader starts with `*to = *from`, so
its model has no `out0`. -/
theorem C7_tail_copy (H : huffman_t) (K : constants_t) :
    (∀ (msg m1 m2 m3 : msg_t) (from_ out0 : entityState_t) (number b1 b2 lc : Int),
      ¬ (number < 0 ∨ number ≥ K.MAX_GENTITIES) →
      MSG_ReadBits H msg 1 = .ok (b1, m1) → b1 ≠ 1 →
      MSG_ReadBits H m1 1 = .ok (b2, m2) → b2 ≠ 0 →
      MSG_ReadByte H m2 = .ok (lc, m3) → 0 ≤ lc → lc ≤ (entityStateFields K).length →
      (∀ out rm, MSG_ReadDeltaEntity H K msg from_ out0 number = .ok (out, rm) →
        ∀ i : Nat, lc ≤ (i : Int) → ∀ h : i < (entityStateFields K).length,
          out.cells ((entityStateFields K).get ⟨i, h⟩).offset
            = from_.cells ((entityStateFields K).get ⟨i, h⟩).offset) ∧
      (m3.oob = false →
        ∃ out rm, MSG_ReadDeltaEntity H K msg from_ out0 number = .ok (out, rm))) ∧
    (∀ (msg m1 m2 : msg_t) (from_ out0 : entityShared_t) (b1 lc : Int),
      MSG_ReadBits H msg 1 = .ok (b1, m1) → b1 ≠ 0 →
      MSG_ReadByte H m1 = .ok (lc, m2) → 0 ≤ lc → lc ≤ (entitySharedFields K).length →
      (∀ out rm, MSG_ReadDeltaSharedEntity H K msg from_ out0 = .ok (out, rm) →
        ∀ i : Nat, lc ≤ (i : Int) → ∀ h : i < (entitySharedFields K).length,
          out.cells ((entitySharedFields K).get ⟨i, h⟩).offset
            = from_.cells ((entitySharedFields K).get ⟨i, h⟩).offset) ∧
      (m2.oob = false →
        ∃ out rm, MSG_ReadDeltaSharedEntity H K msg from_ out0 = .ok (out, rm))) ∧
    (∀ (msg m1 : msg_t) (from_ : Option playerState_t) (lc : Int),
      MSG_ReadByte H msg = .ok (lc, m1) → 0 ≤ lc → lc ≤ (playerStateFields K).length →
      (∀ out rm, MSG_ReadDeltaPlayerstate H K msg from_ = .ok (out, rm) →
        ∀ i : Nat, lc ≤ (i : Int) → ∀ h : i < (playerStateFields K).length,
          out.cells ((playerStateFields K).get ⟨i, h⟩).offset
            = (from_.getD zeroPlayerState).cells ((playerStateFields K).get ⟨i, h⟩).offset) ∧
      (m1.oob = false →
        ∃ out rm, MSG_ReadDeltaPlayerstate H K msg from_ = .ok (out, rm))) := by
  refine ⟨?_, ?_, ?_⟩
  · intro msg m1 m2 m3 from_ out0 number b1 b2 lc hv e1 hb1 e2 hb2 hlc h0 h1
    have hdef : MSG_ReadDeltaEntity H K msg from_ out0 number =
        (readDeltaTable H (readDeltaField H) (entityStateFields K)
          "invalid entityState field count" m2 from_.cells out0.cells >>= fun p =>
          (Except.ok (({ number := number, cells := p.1 } : entityState_t), p.2) :
            Except ComError (entityState_t × msg_t))) := by
      simp only [MSG_ReadDeltaEntity, hv, if_false, e1, bind, Except.bind, hb1, e2, hb2, pure,
        Except.pure]
    obtain ⟨t1, t2⟩ := readDeltaTable_tail H (readDeltaField H) (entityStateFields K)
      "invalid entityState field count" m2 m3 from_.cells out0.cells lc hlc h0 h1
    constructor
    · intro out rm hr i hi h
      rw [hdef] at hr
      obtain ⟨p, e, e3⟩ := bind_eq_ok hr
      cases e3
      exact t1 p.1 p.2 e i hi h
    · intro ho
      obtain ⟨cells, rm, e, _⟩ := t2 (readDeltaField_total H) ho
      exact ⟨{ number := number, cells := cells }, rm, by
        rw [hdef]; simp only [e, bind, Except.bind]⟩
  · intro msg m1 m2 from_ out0 b1 lc e1 hb1 hlc h0 h1
    have hdef : MSG_ReadDeltaSharedEntity H K msg from_ out0 =
        (readDeltaTable H (readDeltaField H) (entitySharedFields K)
          "invalid entityShared field count" m1 from_.cells out0.cells >>= fun p =>
          (Except.ok (({ cells := p.1 } : entityShared_t), p.2) :
            Except ComError (entityShared_t × msg_t))) := by
      simp only [MSG_ReadDeltaSharedEntity, e1, bind, Except.bind, hb1, if_false, pure,
        Except.pure]
    obtain ⟨t1, t2⟩ := readDeltaTable_tail H (readDeltaField H) (entitySharedFields K)
      "invalid entityShared field count" m1 m2 from_.cells out0.cells lc hlc h0 h1
    constructor
    · intro out rm hr i hi h
      rw [hdef] at hr
      obtain ⟨p, e, e3⟩ := bind_eq_ok hr
      cases e3
      exact t1 p.1 p.2 e i hi h
    · intro ho
      obtain ⟨cells, rm, e, _⟩ := t2 (readDeltaField_total H) ho
      exact ⟨{ cells := cells }, rm, by rw [hdef]; simp only [e, bind, Except.bind]⟩
  · intro msg m1 from_ lc hlc h0 h1
    have hdef : MSG_ReadDeltaPlayerstate H K msg from_ =
        (readDeltaTable H (readPlayerField H) (playerStateFields K)
          "invalid playerState field count" msg (from_.getD zeroPlayerState).cells
          (from_.getD zeroPlayerState).cells >>= fun p =>
          readStatsGroup H K p.2 { from_.getD zeroPlayerState with cells := p.1 } >>= fun q =>
          readAmmoGroup H q.2 q.1 >>= fun r => readClipGroup H r.2 r.1) := rfl
    obtain ⟨t1, t2⟩ := readDeltaTable_tail H (readPlayerField H) (playerStateFields K)
      "invalid playerState field count" msg m1 (from_.getD zeroPlayerState).cells
      (from_.getD zeroPlayerState).cells lc hlc h0 h1
    constructor
    · intro out rm hr i hi h
      rw [hdef] at hr
      obtain ⟨p, e, hr⟩ := bind_eq_ok hr
      obtain ⟨q, eq, hr⟩ := bind_eq_ok hr
      obtain ⟨r, er, hr⟩ := bind_eq_ok hr
      have c1 := readStatsGroup_cells H K _ q.1 p.2 q.2 eq
      have c2 := readAmmoGroup_cells H q.1 r.1 q.2 r.2 er
      have c3 := readClipGroup_cells H r.1 out r.2 rm hr
      rw [c3, c2, c1]
      exact t1 p.1 p.2 e i hi h
    · intro ho
      obtain ⟨cells, rm1, e, ho1⟩ := t2 (readPlayerField_total H) ho
      obtain ⟨st2, rm2, e2, ho2⟩ := readStatsGroup_total H K
        { from_.getD zeroPlayerState with cells := cells } rm1 ho1
      obtain ⟨st3, rm3, e3, ho3⟩ := readAmmoGroup_total H st2 rm2 ho2
      obtain ⟨st4, rm4, e4, _⟩ := readClipGroup_total H st3 rm3 ho3
      refine ⟨st4, rm4, ?_⟩
      rw [hdef]
      simp only [e, bind, Except.bind]
      have e2b : readStatsGroup H K rm1 { from_.getD zeroPlayerState with cells := cells }
        = .ok (st2, rm2) := e2
      have e3b : readAmmoGroup H rm2 st2 = .ok (st3, rm3) := e3
      have e4b : readClipGroup H rm3 st3 = .ok (st4, rm4) := e4
      simp only [e2b, e3b, e4b]

theorem C7_tail_copy_witness :
    (∀ out rm, MSG_ReadDeltaEntity rawCodec etl_constants (msgOfByte 10) (entityWith 3 0 5)
        zeroEntity 3 = .ok (out, rm) →
      ∀ i : Nat, ((2 : Int) ≤ (i : Int)) → ∀ h : i < (entityStateFields etl_constants).length,
        out.cells ((entityStateFields etl_constants).get ⟨i, h⟩).offset
          = (entityWith 3 0 5).cells ((entityStateFields etl_constants).get ⟨i, h⟩).offset) ∧
    (∃ out rm, MSG_ReadDeltaEntity rawCodec etl_constants (msgOfByte 10) (entityWith 3 0 5)
        zeroEntity 3 = .ok (out, rm)) ∧
    (∃ out rm, MSG_ReadDeltaSharedEntity rawCodec etl_constants (msgOfByte 5) zeroShared
        zeroShared = .ok (out, rm)) ∧
    (∃ out rm, MSG_ReadDeltaPlayerstate rawCodec etl_constants (msgOfByte 2)
        (some samplePlayer) = .ok (out, rm)) :=
  ⟨((C7_tail_copy rawCodec etl_constants).1 (msgOfByte 10)
      { msgOfByte 10 with bit := 1, readcount := 1 }
      { msgOfByte 10 with bit := 2, readcount := 1 }
      { msgOfByte 10 with bit := 10, readcount := 2 }
      (entityWith 3 0 5) zeroEntity 3 0 1 2 (by decide) rfl (by decide) rfl (by decide) rfl
      (by decide) (by decide)).1,
   ((C7_tail_copy rawCodec etl_constants).1 (msgOfByte 10)
      { msgOfByte 10 with bit := 1, readcount := 1 }
      { msgOfByte 10 with bit := 2, readcount := 1 }
      { msgOfByte 10 with bit := 10, readcount := 2 }
      (entityWith 3 0 5) zeroEntity 3 0 1 2 (by decide) rfl (by decide) rfl (by decide) rfl
      (by decide) (by decide)).2 rfl,
   ((C7_tail_copy rawCodec etl_constants).2.1 (msgOfByte 5)
      { msgOfByte 5 with bit := 1, readcount := 1 }
      { msgOfByte 5 with bit := 9, readcount := 2 }
      zeroShared zeroShared 1 2 rfl (by decide) rfl (by decide) (by decide)).2 rfl,
   ((C7_tail_copy rawCodec etl_constants).2.2 (msgOfByte 2)
      { msgOfByte 2 with bit := 8, readcount := 2 }
      (some samplePlayer) 2 rfl (by decide) (by decide)).2 rfl⟩

/-- C20: illegal bit widths on write. On a buffer whose `overflowed` flag is
clear, `MSG_WriteBits` raises the "bad bits" error, which it does before any
store, exactly when `bits` is 0, below -31 or above 32; in bitstream mode
every other width makes it return. On a buffer whose flag is set it returns
for every width. -/
theorem C20_bad_bits (H : huffman_t) (msg : msg_t) (value bits : Int)
    (hov : msg.overflowed = false) :
    (MSG_WriteBits H msg value bits = .error (.ERR_DROP "MSG_WriteBits: bad bits") ↔
      (bits = 0 ∨ bits < -31 ∨ bits > 32)) ∧
    (msg.oob = false → ¬ (bits = 0 ∨ bits < -31 ∨ bits > 32) →
      ∃ m2, MSG_WriteBits H msg value bits = .ok m2) ∧
    (∀ m : msg_t, m.overflowed = true → ∃ m2, MSG_WriteBits H m value bits = .ok m2) := by
  refine ⟨?_, ?_, ?_⟩
  · constructor
    · intro h
      by_contra hb
      unfold MSG_WriteBits at h
      simp only [hov, hb, if_false, Bool.false_eq_true] at h
      split_ifs at h <;> simp at h
    · intro hb
      unfold MSG_WriteBits
      simp only [hov, hb, if_true, if_false, Bool.false_eq_true]
  · intro hoob hb
    unfold MSG_WriteBits
    simp only [hov, hoob, hb, if_false, Bool.false_eq_true]
    split_ifs <;> exact ⟨_, rfl⟩
  · intro m hm
    unfold MSG_WriteBits
    simp only [hm, if_true]
    exact ⟨_, rfl⟩

theorem C20_bad_bits_witness :
    msg64.overflowed = false ∧
    MSG_WriteBits rawCodec msg64 5 0 = .error (.ERR_DROP "MSG_WriteBits: bad bits") ∧
    MSG_WriteBits rawCodec msg64 5 33 = .error (.ERR_DROP "MSG_WriteBits: bad bits") ∧
    MSG_WriteBits rawCodec msg64 5 (-32) = .error (.ERR_DROP "MSG_WriteBits: bad bits") ∧
    ∃ m2, MSG_WriteBits rawCodec msg64 5 (-31) = .ok m2 :=
  ⟨rfl, (C20_bad_bits rawCodec msg64 5 0 rfl).1.mpr (by decide),
    (C20_bad_bits rawCodec msg64 5 33 rfl).1.mpr (by decide),
    (C20_bad_bits rawCodec msg64 5 (-32) rfl).1.mpr (by decide),
    (C20_bad_bits rawCodec msg64 5 (-31) rfl).2.1 rfl (by decide)⟩

/-- C19: the end-of-data sentinel of the typed readers. With `v` and `m1`
the value and the message that the underlying `MSG_ReadBits` call returns,
each of `MSG_ReadChar`, `MSG_ReadByte`, `MSG_ReadShort` and `MSG_ReadLong`
returns -1 when `m1.readcount > m1.cursize`, and otherwise `v` converted to
a signed 8-bit value (`toI8 v`), to an unsigned 8-bit value (`v % 256`), to
a signed 16-bit value (`toI16 v`), and `v` itself; the message is `m1`. -/
theorem C19_typed_read_sentinel (H : huffman_t) (msg m1 : msg_t) (v : Int) :
    (MSG_ReadBits H msg 8 = .ok (v, m1) →
      MSG_ReadChar H msg = .ok (if m1.readcount > m1.cursize then -1 else toI8 v, m1) ∧
      MSG_ReadByte H msg = .ok (if m1.readcount > m1.cursize then -1 else v % 256, m1)) ∧
    (MSG_ReadBits H msg 16 = .ok (v, m1) →
      MSG_ReadShort H msg = .ok (if m1.readcount > m1.cursize then -1 else toI16 v, m1)) ∧
    (MSG_ReadBits H msg 32 = .ok (v, m1) →
      MSG_ReadLong H msg = .ok (if m1.readcount > m1.cursize then -1 else v, m1)) ∧
    (-128 ≤ toI8 v ∧ toI8 v < 128 ∧ toI8 v % 256 = v % 256) ∧
    (0 ≤ v % 256 ∧ v % 256 < 256) ∧
    (-32768 ≤ toI16 v ∧ toI16 v < 32768 ∧ toI16 v % 65536 = v % 65536) := by
  refine ⟨?_, ?_, ?_, toI8_range v, ⟨Int.emod_nonneg v (by norm_num),
    Int.emod_lt_of_pos v (by norm_num)⟩, toI16_range v⟩
  · intro h
    constructor
    · simp only [MSG_ReadChar, h, bind, Except.bind]
      split_ifs <;> rfl
    · simp only [MSG_ReadByte, h, bind, Except.bind]
      split_ifs <;> rfl
  · intro h
    simp only [MSG_ReadShort, h, bind, Except.bind]
    split_ifs <;> rfl
  · intro h
    simp only [MSG_ReadLong, h, bind, Except.bind]
    split_ifs <;> rfl

theorem C19_typed_read_sentinel_witness :
    MSG_ReadBits rawCodec (msgOfByte 200) 8
      = .ok (200, { msgOfByte 200 with bit := 8, readcount := 2 }) ∧
    MSG_ReadChar rawCodec (msgOfByte 200)
      = .ok (-56, { msgOfByte 200 with bit := 8, readcount := 2 }) ∧
    MSG_ReadByte rawCodec (msgOfByte 200)
      = .ok (200, { msgOfByte 200 with bit := 8, readcount := 2 }) ∧
    MSG_ReadBits rawCodec { msgOfByte 200 with readcount := 65 } 8
      = .ok (0, { msgOfByte 200 with readcount := 65 }) ∧
    MSG_ReadChar rawCodec { msgOfByte 200 with readcount := 65 }
      = .ok (-1, { msgOfByte 200 with readcount := 65 }) :=
  ⟨rfl,
    ((C19_typed_read_sentinel rawCodec (msgOfByte 200)
      { msgOfByte 200 with bit := 8, readcount := 2 } 200).1 rfl).1,
    ((C19_typed_read_sentinel rawCodec (msgOfByte 200)
      { msgOfByte 200 with bit := 8, readcount := 2 } 200).1 rfl).2,
    rfl,
    ((C19_typed_read_sentinel rawCodec { msgOfByte 200 with readcount := 65 }
      { msgOfByte 200 with readcount := 65 } 0).1 rfl).1⟩

/-- C18: past-end reads latch to zero. When `readcount > cursize`,
`MSG_ReadBits` returns 0 for every width and the message it was given, so
every later `MSG_ReadBits` returns 0 as well. A read that starts inside the
message and would run past `cursize` returns 0 and sets `readcount` to
`cursize + 1`: out of band when `readcount + (|bits| >> 3) > cursize`, in
bitstream mode when the `|bits| & 7` raw bits would end after bit
`cursize << 3`, and in bitstream mode when the byte loop has moved the bit
cursor past `cursize << 3`. -/
theorem C18_past_end_latch (H : huffman_t) (msg : msg_t) (bits : Int) :
    (msg.readcount > msg.cursize →
      MSG_ReadBits H msg bits = .ok (0, msg) ∧
      ∀ ws : List Int, readBitsSeq H ws msg = .ok (ws.map (fun _ => 0), msg)) ∧
    (msg.readcount ≤ msg.cursize → msg.oob = true →
      msg.readcount + (bits.natAbs >>> 3) > msg.cursize →
      MSG_ReadBits H msg bits = .ok (0, { msg with readcount := msg.cursize + 1 })) ∧
    (msg.readcount ≤ msg.cursize → msg.oob = false →
      bits.natAbs &&& 7 ≠ 0 → msg.bit + (bits.natAbs &&& 7) > msg.cursize <<< 3 →
      MSG_ReadBits H msg bits = .ok (0, { msg with readcount := msg.cursize + 1 })) ∧
    (msg.readcount ≤ msg.cursize → msg.oob = false →
      ¬ (bits.natAbs &&& 7 ≠ 0 ∧ msg.bit + (bits.natAbs &&& 7) > msg.cursize <<< 3) →
      (receiveLoop H msg.data msg.cursize ((bits.natAbs - (bits.natAbs &&& 7)) / 8)
        (bits.natAbs &&& 7)
        (getBitsLoop H msg.data (bits.natAbs &&& 7) 0 0 msg.bit).1
        (getBitsLoop H msg.data (bits.natAbs &&& 7) 0 0 msg.bit).2).2.2 = false →
      MSG_ReadBits H msg bits
        = .ok (0, { msg with
            bit := (receiveLoop H msg.data msg.cursize
              ((bits.natAbs - (bits.natAbs &&& 7)) / 8) (bits.natAbs &&& 7)
              (getBitsLoop H msg.data (bits.natAbs &&& 7) 0 0 msg.bit).1
              (getBitsLoop H msg.data (bits.natAbs &&& 7) 0 0 msg.bit).2).2.1,
            readcount := msg.cursize + 1 })) := by
  refine ⟨?_, ?_, ?_, ?_⟩
  · intro h
    refine ⟨?_, readBitsSeq_past_end H msg h⟩
    unfold MSG_ReadBits
    rw [if_pos h]
  · intro h1 ho hp
    have hn : ¬ msg.readcount > msg.cursize := not_lt.mpr h1
    unfold MSG_ReadBits
    simp only [hn, if_false, ho, if_true, width_natAbs, hp]
  · intro h1 ho hn0 hp
    have hn : ¬ msg.readcount > msg.cursize := not_lt.mpr h1
    unfold MSG_ReadBits
    simp only [hn, if_false, ho, Bool.false_eq_true, width_natAbs, hn0, hp, and_self,
      if_true, ne_eq, not_false_eq_true]
  · intro h1 ho hc hf
    have hn : ¬ msg.readcount > msg.cursize := not_lt.mpr h1
    unfold MSG_ReadBits
    simp only [hn, if_false, ho, Bool.false_eq_true, width_natAbs, hc, hf, if_true]

theorem C18_past_end_latch_witness :
    ({ msgOfByte 200 with readcount := 65 } : msg_t).readcount
      > ({ msgOfByte 200 with readcount := 65 } : msg_t).cursize ∧
    MSG_ReadBits rawCodec { msgOfByte 200 with readcount := 65 } 13
      = .ok (0, { msgOfByte 200 with readcount := 65 }) ∧
    readBitsSeq rawCodec [1, 8, -16, 32] { msgOfByte 200 with readcount := 65 }
      = .ok ([0, 0, 0, 0], { msgOfByte 200 with readcount := 65 }) ∧
    MSG_ReadBits rawCodec { msgOfByte 200 with oob := true, readcount := 63 } 16
      = .ok (0, { msgOfByte 200 with oob := true, readcount := 65 }) ∧
    MSG_ReadBits rawCodec { msgOfByte 200 with bit := 510 } 3
      = .ok (0, { msgOfByte 200 with bit := 510, readcount := 65 }) ∧
    MSG_ReadBits rawCodec { msgOfByte 200 with bit := 508 } 8
      = .ok (0, { msgOfByte 200 with bit := 513, readcount := 65 }) :=
  ⟨by decide,
    ((C18_past_end_latch rawCodec { msgOfByte 200 with readcount := 65 } 13).1
      (by decide)).1,
    ((C18_past_end_latch rawCodec { msgOfByte 200 with readcount := 65 } 13).1
      (by decide)).2 [1, 8, -16, 32],
    (C18_past_end_latch rawCodec { msgOfByte 200 with oob := true, readcount := 63 } 16).2.1
      (by decide) rfl (by decide),
    (C18_past_end_latch rawCodec { msgOfByte 200 with bit := 510 } 3).2.2.1
      (by decide) rfl (by decide) (by decide),
    (C18_past_end_latch rawCodec { msgOfByte 200 with bit := 508 } 8).2.2.2
      (by decide) rfl (by decide) (by decide)⟩

/-- C15 (amended): a write that overflows. On a buffer whose flag is clear
and for a legal width: out of band, when `cursize + (|bits| >> 3)` exceeds
`maxsize`, and in bitstream mode, when the `|bits| & 7` raw bits would end
after bit `maxsize << 3`, `MSG_WriteBits` returns the message it was given
with `overflowed` set (and the bit count `uncompsize` advanced), so the data
bytes, `cursize` and the bit cursor are as they were. In bitstream mode it
always returns. Whenever it returns with `overflowed` set, `cursize` and
`maxsize` are as they were, and out of band so are the data bytes and the
bit cursor. In bitstream mode, also when the overflow is found in the byte
loop, every bit below the old bit cursor is as it was, so every byte wholly
below the cursor keeps its value, and a cursor that was inside the buffer
has not moved back: what the earlier calls stored stays intact and only
bits at and after the old cursor are touched. This last part uses the
assumptions `HuffLaws` on the Huffman entry points and the assumption that
`Huff_offsetTransmit` stores only at and after the offset it is given, also
when it stops at the end of the buffer. -/
theorem C15_overflow_frame (H : huffman_t) (msg : msg_t) (value bits : Int)
    (hov : msg.overflowed = false) (hw : legalWidth bits) :
    (msg.oob = true → msg.cursize + (bits.natAbs >>> 3) > msg.maxsize →
      MSG_WriteBits H msg value bits
        = .ok { msg with uncompsize := msg.uncompsize + bits, overflowed := true }) ∧
    (msg.oob = false → bits.natAbs &&& 7 ≠ 0 →
      msg.bit + (bits.natAbs &&& 7) > msg.maxsize <<< 3 →
      MSG_WriteBits H msg value bits
        = .ok { msg with uncompsize := msg.uncompsize + bits, overflowed := true }) ∧
    (msg.oob = false → ∃ m2, MSG_WriteBits H msg value bits = .ok m2) ∧
    (∀ m2, MSG_WriteBits H msg value bits = .ok m2 → m2.overflowed = true →
      m2.cursize = msg.cursize ∧ m2.maxsize = msg.maxsize ∧
      (msg.oob = true → m2.data = msg.data ∧ m2.bit = msg.bit)) ∧
    (∀ (Inv : (Nat → Nat) → Nat → Prop), HuffLaws H Inv →
      (∀ ch d o mx, ch < 256 → Inv d o → agree d (H.Huff_offsetTransmit ch d o mx).1 o) →
      msg.oob = false → Inv msg.data msg.bit →
      ∀ m2, MSG_WriteBits H msg value bits = .ok m2 →
        agree msg.data m2.data msg.bit ∧
        (∀ i, i < msg.bit / 8 → m2.data i % 256 = msg.data i % 256) ∧
        (msg.bit ≤ msg.maxsize <<< 3 → msg.bit ≤ m2.bit)) := by
  have hw0 := hw
  unfold legalWidth at hw
  refine ⟨?_, ?_, ?_, ?_, ?_⟩
  rotate_right
  · intro Inv L hfr ho hI m2 h
    obtain ⟨a1, a2⟩ := MSG_WriteBits_agree L hfr msg m2 value bits hw0 hov ho hI h
    exact ⟨a1, fun i hi => (agree_byte a1 i hi).symm, a2⟩
  · intro ho hp
    unfold MSG_WriteBits
    simp only [hov, hw, ho, if_false, if_true, Bool.false_eq_true, width_natAbs, hp]
  · intro ho hn0 hp
    unfold MSG_WriteBits
    simp only [hov, hw, ho, if_false, if_true, Bool.false_eq_true, width_natAbs, hn0, hp,
      and_self, ne_eq, not_false_eq_true]
  · intro ho
    unfold MSG_WriteBits
    simp only [hov, hw, ho, if_false, Bool.false_eq_true]
    split_ifs <;> exact ⟨_, rfl⟩
  · intro m2 h hov2
    unfold MSG_WriteBits at h
    simp only [hov, hw, if_false, Bool.false_eq_true, width_natAbs] at h
    by_cases ho : msg.oob = true
    · simp only [ho, if_true] at h
      split_ifs at h <;> first
        | (cases h; exact ⟨rfl, rfl, fun _ => ⟨rfl, rfl⟩⟩)
        | (cases h; simp [hov] at hov2)
    · have ho2 : msg.oob = false := by simpa using ho
      simp only [ho2, if_false, Bool.false_eq_true] at h
      split_ifs at h with h1 h2
      · cases h
        exact ⟨rfl, rfl, fun hc => by rw [ho2] at hc; cases hc⟩
      · cases h
        exact ⟨(transmitLoop_frame H _ _ _).1, (transmitLoop_frame H _ _ _).2.1,
          fun hc => by rw [ho2] at hc; cases hc⟩
      · cases h
        simp at hov2
        exact absurd hov2 h2

set_option maxRecDepth 8000 in
theorem C15_overflow_frame_witness :
    (MSG_InitOOB (fun _ => 0) 1).overflowed = false ∧ legalWidth 16 ∧
    MSG_WriteBits rawCodec (MSG_InitOOB (fun _ => 0) 1) 65535 16
      = .ok { MSG_InitOOB (fun _ => 0) 1 with uncompsize := 16, overflowed := true } ∧
    MSG_WriteBits rawCodec { MSG_Init (fun _ => 0) 1 with bit := 6 } 7 3
      = .ok { MSG_Init (fun _ => 0) 1 with bit := 6, uncompsize := 3, overflowed := true } ∧
    (∀ m2, MSG_WriteBits rawCodec
        { MSG_Init (fun i => if i = 0 then 171 else 0) 2 with bit := 8, cursize := 2 }
        65535 16 = .ok m2 →
      agree (fun i => if i = 0 then 171 else 0) m2.data 8 ∧
      (∀ i, i < 8 / 8 → m2.data i % 256 = (if i = 0 then 171 else 0) % 256) ∧
      ((8 : Nat) ≤ 2 <<< 3 → 8 ≤ m2.bit)) ∧
    (msgOf (MSG_WriteBits rawCodec
        { MSG_Init (fun i => if i = 0 then 171 else 0) 2 with bit := 8, cursize := 2 }
        65535 16)).map (fun m => (m.overflowed, m.bit, m.data 0, m.data 1, m.cursize))
      = some (true, 16, 171, 255, 2) :=
  ⟨rfl, by decide,
    (C15_overflow_frame rawCodec (MSG_InitOOB (fun _ => 0) 1) 65535 16 rfl (by decide)).1 rfl
      (by decide),
    (C15_overflow_frame rawCodec { MSG_Init (fun _ => 0) 1 with bit := 6 } 7 3 rfl
      (by decide)).2.1 rfl (by decide) (by decide),
    (C15_overflow_frame rawCodec
      { MSG_Init (fun i => if i = 0 then 171 else 0) 2 with bit := 8, cursize := 2 }
      65535 16 rfl (by decide)).2.2.2.2 cleanAt rawCodec_laws
      (fun ch d o mx _ _ => rawTransmitLoop_frame 8 ch d o mx) rfl (fun h => absurd rfl h),
    by decide⟩

/-- Counterexample to C15 as stated: in bitstream mode, on an empty buffer
of one byte, `MSG_WriteBits(0xFFFF, 16)` sets `overflowed` after the first
byte has gone through `Huff_offsetTransmit`: the bit cursor has moved from 0
to 8 and the first data byte has changed from 0 to 255; `cursize` is still
0. With width 13 the five raw bits are stored as well. -/
theorem C15_counterexample :
    (msgOf (MSG_WriteBits rawCodec (MSG_Init (fun _ => 0) 1) 65535 16)).map
      (fun m => (m.overflowed, m.bit, m.data 0, m.cursize)) = some (true, 8, 255, 0) ∧
    ((MSG_Init (fun _ => 0) 1).bit, (MSG_Init (fun _ => 0) 1).data 0) = (0, 0) ∧
    (msgOf (MSG_WriteBits rawCodec (MSG_Init (fun _ => 0) 1) 8191 13)).map
      (fun m => (m.overflowed, m.bit, m.data 0, m.cursize)) = some (true, 9, 255, 0) := by
  refine ⟨?_, ?_, ?_⟩ <;> decide

/-- C17: the bit-cursor bound. Given that `Huff_offsetTransmit` started at
an offset not beyond `maxoffset` does not return one beyond it (and that
`Huff_putBit` moves the offset by one bit), after any sequence of
`MSG_WriteBits` calls on a buffer initialised by `MSG_Init` or by
`MSG_InitOOB` with capacity `maxsize`, the bit cursor is at most
`8 * maxsize`; a sequence of legal widths on the `MSG_Init` buffer does
return. -/
theorem C17_bit_cursor_bound (H : huffman_t)
    (hput : ∀ b d o, (H.Huff_putBit b d o).2 = o + 1)
    (htx : ∀ ch d o mx, o ≤ mx → (H.Huff_offsetTransmit ch d o mx).2 ≤ mx)
    (data : Nat → Nat) (maxsize : Nat) (ops : List (Int × Int)) :
    (∀ m2, writeBitsSeq H ops (MSG_Init data maxsize) = .ok m2 → m2.bit ≤ 8 * maxsize) ∧
    (∀ m2, writeBitsSeq H ops (MSG_InitOOB data maxsize) = .ok m2 → m2.bit ≤ 8 * maxsize) ∧
    ((∀ op ∈ ops, legalWidth op.2) →
      ∃ m2, writeBitsSeq H ops (MSG_Init data maxsize) = .ok m2) := by
  refine ⟨?_, ?_, ?_⟩
  · intro m2 h
    have hI : cursorInv (MSG_Init data maxsize) :=
      ⟨fun hc => (by cases hc), fun _ => Nat.zero_le _⟩
    obtain ⟨i, a1, a2⟩ := writeBitsSeq_cursorInv H hput htx ops _ m2 hI h
    have := i.2 (by rw [a2]; rfl)
    rw [a1] at this
    exact this
  · intro m2 h
    have hI : cursorInv (MSG_InitOOB data maxsize) :=
      ⟨fun _ => ⟨rfl, Nat.zero_le _⟩, fun hc => (by cases hc)⟩
    obtain ⟨i, a1, a2⟩ := writeBitsSeq_cursorInv H hput htx ops _ m2 hI h
    have := i.1 (by rw [a2]; rfl)
    rw [a1] at this
    show m2.bit ≤ 8 * maxsize
    have h2 : m2.cursize ≤ maxsize := this.2
    omega
  · intro hl
    obtain ⟨m2, e, _⟩ := writeBitsSeq_total H ops (MSG_Init data maxsize) rfl hl
    exact ⟨m2, e⟩

theorem C17_bit_cursor_bound_witness :
    (∀ b d o, (boundedCodec.Huff_putBit b d o).2 = o + 1) ∧
    (∀ ch d o mx, o ≤ mx → (boundedCodec.Huff_offsetTransmit ch d o mx).2 ≤ mx) ∧
    (∀ m2, writeBitsSeq boundedCodec [(8191, 13), (5, 3)] (MSG_Init (fun _ => 0) 1) = .ok m2 →
      m2.bit ≤ 8 * 1) ∧
    (msgOf (writeBitsSeq boundedCodec [(8191, 13), (5, 3)] (MSG_Init (fun _ => 0) 1))).map
      (fun m => (m.overflowed, m.bit)) = some (true, 8) ∧
    (msgOf (writeBitsSeq rawCodec [(8191, 13), (5, 3)] (MSG_Init (fun _ => 0) 1))).map
      (fun m => (m.overflowed, m.bit)) = some (true, 9) :=
  ⟨fun _ _ _ => rfl, fun _ _ _ _ _ => Nat.min_le_right _ _,
    (C17_bit_cursor_bound boundedCodec (fun _ _ _ => rfl)
      (fun _ _ _ _ _ => Nat.min_le_right _ _) (fun _ => 0) 1 [(8191, 13), (5, 3)]).1,
    by decide, by decide⟩

/-- C16: writes after overflow are no-ops. On a buffer whose `overflowed`
flag is set, `MSG_WriteBits` returns for every value and every width, and
leaves the data bytes, `cursize`, the bit cursor and the flag as they were
(`OverflowNoop`); so do `MSG_WriteChar`, `MSG_WriteByte`, `MSG_WriteShort`,
`MSG_WriteLong`, `MSG_WriteData`, `MSG_WriteString`, `MSG_WriteBigString` and
the delta writers `MSG_WriteDeltaKey`, `MSG_WriteDeltaKeyFloat`,
`MSG_WriteDeltaUsercmdKey`, `MSG_WriteDeltaSharedEntity`,
`MSG_WriteDeltaPlayerstate`, and, when no guard placed before the first write
stops them (a `to` whose number is not an entity number, a null `from` with a
non-null `to`), `MSG_WriteDeltaEntity` and `MSG_ETTV_WriteDeltaSharedEntity`. -/
theorem C16_overflow_noop (H : huffman_t) (K : constants_t) (Q : qshared_t) :
    (∀ value bits, OverflowNoop (fun m => MSG_WriteBits H m value bits)) ∧
    (∀ c, OverflowNoop (fun m => MSG_WriteChar H m c)) ∧
    (∀ c, OverflowNoop (fun m => MSG_WriteByte H m c)) ∧
    (∀ c, OverflowNoop (fun m => MSG_WriteShort H m c)) ∧
    (∀ c, OverflowNoop (fun m => MSG_WriteLong H m c)) ∧
    (∀ data length, OverflowNoop (fun m => MSG_WriteData H m data length)) ∧
    (∀ s, OverflowNoop (fun m => MSG_WriteString H Q m s)) ∧
    (∀ s, OverflowNoop (fun m => MSG_WriteBigString H Q m s)) ∧
    (∀ key oldV newV bits, OverflowNoop (fun m => MSG_WriteDeltaKey H m key oldV newV bits)) ∧
    (∀ key oldV newV, OverflowNoop (fun m => MSG_WriteDeltaKeyFloat H m key oldV newV)) ∧
    (∀ key from_ to_, OverflowNoop (fun m => MSG_WriteDeltaUsercmdKey H m key from_ to_)) ∧
    (∀ (from_ to_ : Option entityState_t) (force : Bool),
      (∀ t, to_ = some t → (0 ≤ t.number ∧ t.number < K.MAX_GENTITIES) ∧ from_ ≠ none) →
      OverflowNoop (fun m => MSG_WriteDeltaEntity H K m from_ to_ force)) ∧
    (∀ from_ to_ force number,
      OverflowNoop (fun m => MSG_WriteDeltaSharedEntity H K m from_ to_ force number)) ∧
    (∀ from_ to_ force, (to_ ≠ none → from_ ≠ none) →
      OverflowNoop (fun m => MSG_ETTV_WriteDeltaSharedEntity H m from_ to_ force)) ∧
    (∀ from_ to_, OverflowNoop (fun m => MSG_WriteDeltaPlayerstate H K m from_ to_)) :=
  ⟨noop_bits H, fun c => noop_bits H c 8, fun c => noop_bits H c 8, noop_short H, noop_long H,
    fun data length => noop_data H data length 0,
    fun s => noop_string H Q Q.MAX_STRING_CHARS s,
    fun s => noop_string H Q Q.BIG_INFO_STRING s,
    noop_deltaKey H, noop_deltaKeyFloat H, noop_usercmd H,
    noop_entity H K, noop_shared H K, noop_ettv H, noop_player H K⟩

theorem C16_overflow_noop_witness :
    overflowed64.overflowed = true ∧
    (∃ m2, MSG_WriteBits rawCodec overflowed64 5 0 = .ok m2 ∧ sameBuffer overflowed64 m2) ∧
    (∃ m2, MSG_WriteString rawCodec plainQ overflowed64 (some [104, 105]) = .ok m2 ∧
      sameBuffer overflowed64 m2) ∧
    (∃ m2, MSG_WriteDeltaEntity rawCodec etl_constants overflowed64 (some zeroEntity)
      (some sampleEntity) true = .ok m2 ∧ sameBuffer overflowed64 m2) ∧
    (∃ m2, MSG_WriteDeltaPlayerstate rawCodec etl_constants overflowed64 none samplePlayer
      = .ok m2 ∧ sameBuffer overflowed64 m2) :=
  ⟨rfl,
    (C16_overflow_noop rawCodec etl_constants plainQ).1 5 0 overflowed64 rfl,
    (C16_overflow_noop rawCodec etl_constants plainQ).2.2.2.2.2.2.1 (some [104, 105])
      overflowed64 rfl,
    (C16_overflow_noop rawCodec etl_constants plainQ).2.2.2.2.2.2.2.2.2.2.2.1
      (some zeroEntity) (some sampleEntity) true
      (fun t ht => by cases ht; exact ⟨by decide, by simp⟩) overflowed64 rfl,
    (C16_overflow_noop rawCodec etl_constants plainQ).2.2.2.2.2.2.2.2.2.2.2.2.2.2 none
      samplePlayer overflowed64 rfl⟩

/-- C11: keyed scalar delta round trip. For every key, `oldV`, `newV` and
width `w` in 1 .. 32, `MSG_WriteDeltaKey` is the single write of a 0 bit
when `oldV = newV` and otherwise the write of a 1 bit followed by the write
of `newV ^ key` in `w` bits. On a bitstream buffer that is not overflowed it
returns, and when it has not overflowed, `MSG_ReadDeltaKey` with the same
key, `oldV` and `w` on the written bits returns `oldV` in the first case and
`newV` masked to its low `w` bits in the second; that value is `newV` when
`newV` is a C `int` with `0 ≤ newV < 2 ^ w` (or `w = 32`). The assumptions
`HuffLaws` on the Huffman entry points are used. -/
theorem C11_delta_key_round_trip {H : huffman_t} {Inv : (Nat → Nat) → Nat → Prop}
    (L : HuffLaws H Inv) (m : msg_t) (key oldV newV : Int) (w : Nat)
    (hw1 : 1 ≤ w) (hw32 : w ≤ 32)
    (hov : m.overflowed = false) (hoob : m.oob = false) (hI : Inv m.data m.bit) :
    (oldV = newV → MSG_WriteDeltaKey H m key oldV newV w = MSG_WriteBits H m 0 1) ∧
    (oldV ≠ newV → MSG_WriteDeltaKey H m key oldV newV w
      = (MSG_WriteBits H m 1 1 >>= fun m => MSG_WriteBits H m (xorInt newV key) w)) ∧
    (∃ m2, MSG_WriteDeltaKey H m key oldV newV w = .ok m2 ∧
      (m2.overflowed = false → ∀ rc, rc ≤ m2.cursize → ∃ rc2, rc2 ≤ m2.cursize ∧
        MSG_ReadDeltaKey H { m2 with bit := m.bit, readcount := rc } key oldV w
          = .ok (if oldV = newV then oldV else toI32 (toU32 newV % 2 ^ w),
              { m2 with readcount := rc2 }))) ∧
    (isInt32 newV → ((0 ≤ newV ∧ newV < 2 ^ w) ∨ w = 32) →
      (if oldV = newV then oldV else toI32 (toU32 newV % 2 ^ w)) = newV) := by
  refine ⟨?_, ?_, ?_, ?_⟩
  · intro h; simp [MSG_WriteDeltaKey, h]
  · intro h; simp [MSG_WriteDeltaKey, h]
  · exact Codec.run (deltaKey_codec L key oldV newV w hw1 hw32)
      (deltaKey_strict H Inv L key oldV newV w hw1 hw32) m hov hoob hI
  · intro hint hr
    exact keyedValue_small oldV newV w hw32 hint hr

theorem C11_delta_key_round_trip_witness :
    HuffLaws rawCodec cleanAt ∧ (1 ≤ 8 ∧ 8 ≤ 32) ∧
    msg64.overflowed = false ∧ msg64.oob = false ∧ cleanAt msg64.data msg64.bit ∧
    (∃ m2, MSG_WriteDeltaKey rawCodec msg64 12345 7 300 (8 : Nat) = .ok m2 ∧
      (m2.overflowed = false → ∀ rc, rc ≤ m2.cursize → ∃ rc2, rc2 ≤ m2.cursize ∧
        MSG_ReadDeltaKey rawCodec { m2 with bit := msg64.bit, readcount := rc } 12345 7
            (8 : Nat)
          = .ok (if (7 : Int) = 300 then 7 else toI32 (toU32 300 % 2 ^ 8),
              { m2 with readcount := rc2 }))) ∧
    valueOf (deltaKeyRoundTrip rawCodec 12345 7 300 8) = some 44 ∧
    valueOf (deltaKeyRoundTrip rawCodec 12345 7 200 8) = some 200 ∧
    valueOf (deltaKeyRoundTrip rawCodec (-99) 7 (-5) 32) = some (-5) :=
  ⟨rawCodec_laws, ⟨by decide, by decide⟩, rfl, rfl, fun h => absurd rfl h,
    (C11_delta_key_round_trip rawCodec_laws msg64 12345 7 300 8 (by decide) (by decide) rfl rfl
      (fun h => absurd rfl h)).2.2.1,
    by decide, by decide, by decide⟩

/-- C12 (amended): the user-command timestamp. The writer starts with
`writeUsercmdTime`, which sends the flag 1 and the low 8 bits of the 32-bit
difference `to_.serverTime - from_.serverTime` exactly when that difference
is below 256, and the flag 0 and `to_.serverTime` in 32 bits otherwise. For
every key and every pair of commands whose `to_.serverTime` is a C `int` with
`0 ≤ to_.serverTime - from_.serverTime < 2 ^ 31`, on a bitstream buffer that
is not overflowed `MSG_WriteDeltaUsercmdKey` returns, and when it has not
overflowed, `MSG_ReadDeltaUsercmdKey` with the same key on the written bits
returns a command whose `serverTime` is `to_.serverTime`. The assumptions
`HuffLaws` on the Huffman entry points are used. -/
theorem C12_usercmd_time_round_trip {H : huffman_t} {Inv : (Nat → Nat) → Nat → Prop}
    (L : HuffLaws H Inv) (m : msg_t) (key : Int) (from_ to_ : usercmd_t)
    (hov : m.overflowed = false) (hoob : m.oob = false) (hI : Inv m.data m.bit)
    (hint : isInt32 to_.serverTime)
    (h0 : 0 ≤ to_.serverTime - from_.serverTime)
    (h1 : to_.serverTime - from_.serverTime < 2147483648) :
    (to_.serverTime - from_.serverTime < 256 →
      writeUsercmdTime H m from_ to_ = (MSG_WriteBits H m 1 1 >>= fun m =>
        MSG_WriteBits H m (to_.serverTime - from_.serverTime) 8)) ∧
    (256 ≤ to_.serverTime - from_.serverTime →
      writeUsercmdTime H m from_ to_ = (MSG_WriteBits H m 0 1 >>= fun m =>
        MSG_WriteBits H m to_.serverTime 32)) ∧
    (∃ m2, MSG_WriteDeltaUsercmdKey H m key from_ to_ = .ok m2 ∧
      (m2.overflowed = false → ∀ rc, rc ≤ m2.cursize → ∃ out rm2,
        MSG_ReadDeltaUsercmdKey H { m2 with bit := m.bit, readcount := rc } key from_
          = .ok (out, rm2) ∧
        out.serverTime = to_.serverTime ∧ rm2.bit = m2.bit)) := by
  have hd : toI32 (toU32 (to_.serverTime - from_.serverTime))
      = to_.serverTime - from_.serverTime := toI32_toU32 _ (by omega) h1
  refine ⟨?_, ?_, ?_⟩
  · intro hlt
    simp only [writeUsercmdTime, hd, hlt, if_true]
  · intro hge
    have hn : ¬ to_.serverTime - from_.serverTime < 256 := by omega
    simp only [writeUsercmdTime, hd, hn, if_false]
  · obtain ⟨cU, sU⟩ := usercmd_codec L key from_ to_ (decodedTime_eq from_ to_ hint h0 h1)
    obtain ⟨m2, e, hread⟩ := Codec.run cU sU m hov hoob hI
    refine ⟨m2, e, fun hov2 rc hrc => ?_⟩
    obtain ⟨rc2, _, hr⟩ := hread hov2 rc hrc
    refine ⟨_, _, hr, ?_, rfl⟩
    unfold decodedUsercmd
    split <;> rfl

theorem C12_usercmd_time_round_trip_witness :
    HuffLaws rawCodec cleanAt ∧
    msg64.overflowed = false ∧ msg64.oob = false ∧ cleanAt msg64.data msg64.bit ∧
    isInt32 sampleUsercmd.serverTime ∧
    (0 ≤ sampleUsercmd.serverTime - zeroUsercmd.serverTime ∧
      sampleUsercmd.serverTime - zeroUsercmd.serverTime < 2147483648) ∧
    (∃ m2, MSG_WriteDeltaUsercmdKey rawCodec msg64 777 zeroUsercmd sampleUsercmd = .ok m2 ∧
      (m2.overflowed = false → ∀ rc, rc ≤ m2.cursize → ∃ out rm2,
        MSG_ReadDeltaUsercmdKey rawCodec { m2 with bit := msg64.bit, readcount := rc } 777
          zeroUsercmd = .ok (out, rm2) ∧
        out.serverTime = sampleUsercmd.serverTime ∧ rm2.bit = m2.bit)) :=
  ⟨rawCodec_laws, rfl, rfl, fun h => absurd rfl h, by decide, by decide,
    (C12_usercmd_time_round_trip rawCodec_laws msg64 777 zeroUsercmd sampleUsercmd rfl rfl
      (fun h => absurd rfl h) (by decide) (by decide) (by decide)).2.2⟩

/-- Counterexample to C12 as stated: from a command with `serverTime` 1000
to one with `serverTime` 995 (the other members the same) the difference -5
is below 256, so the writer sends the flag 1 and the 8 bits of -5 (251),
although -5 does not fit in 8 bits, and the reader reconstructs 1251. -/
theorem C12_counterexample :
    (valueOf (usercmdRoundTrip rawCodec 777 sampleUsercmd
      { sampleUsercmd with serverTime := 995 })).map (fun c => c.serverTime) = some 1251 ∧
    ({ sampleUsercmd with serverTime := 995 } : usercmd_t).serverTime = 995 ∧
    writeUsercmdTime rawCodec msg64 sampleUsercmd { sampleUsercmd with serverTime := 995 }
      = (MSG_WriteBits rawCodec msg64 1 1 >>= fun m => MSG_WriteBits rawCodec m (-5) 8) ∧
    valueOf (writeThenRead rawCodec (-5) 8 8) = some 251 := by
  refine ⟨?_, ?_, ?_, ?_⟩
  · decide
  · decide
  · rfl
  · decide

/-- C13: the no-change fast path of the user-command writer. For every key
and every pair of commands that agree in the three angles, the three moves,
`buttons`, `wbuttons`, `weapon`, `flags`, `doubleTap` and `identClient` and
have `0 ≤ to_.serverTime - from_.serverTime < 256`,
`MSG_WriteDeltaUsercmdKey` is exactly the three calls of `MSG_WriteBits`
with value 1 in 1 bit, the time difference in 8 bits and value 0 in 1 bit;
the widths add up to 10, on a bitstream message the writer returns, and
whenever it returns the count `uncompsize` of bits asked for has grown by
exactly 10. -/
theorem C13_usercmd_fast_path (H : huffman_t) (m : msg_t) (key : Int) (from_ to_ : usercmd_t)
    (hsame : usercmdSame from_ to_)
    (h0 : 0 ≤ to_.serverTime - from_.serverTime)
    (h1 : to_.serverTime - from_.serverTime < 256) :
    MSG_WriteDeltaUsercmdKey H m key from_ to_
      = writeBitsSeq H [(1, 1), (to_.serverTime - from_.serverTime, 8), (0, 1)] m ∧
    ((1 : Int) + 8 + 1 = 10) ∧
    (∀ m2, MSG_WriteDeltaUsercmdKey H m key from_ to_ = .ok m2 →
      m2.uncompsize = m.uncompsize + 10) ∧
    (m.oob = false → ∃ m2, MSG_WriteDeltaUsercmdKey H m key from_ to_ = .ok m2) := by
  have hd : toI32 (toU32 (to_.serverTime - from_.serverTime))
      = to_.serverTime - from_.serverTime := toI32_toU32 _ (by omega) (by omega)
  have heq : MSG_WriteDeltaUsercmdKey H m key from_ to_
      = writeBitsSeq H [(1, 1), (to_.serverTime - from_.serverTime, 8), (0, 1)] m := by
    simp only [MSG_WriteDeltaUsercmdKey, writeUsercmdTime, hd, h1, if_true, hsame,
      writeBitsSeq, bind_assoc, bind_pure]
  refine ⟨heq, by norm_num, ?_, ?_⟩
  · intro m2 h
    rw [heq] at h
    simp only [writeBitsSeq] at h
    obtain ⟨a, ea, h⟩ := bind_eq_ok h
    obtain ⟨b, eb, h⟩ := bind_eq_ok h
    obtain ⟨c, ec, h⟩ := bind_eq_ok h
    cases h
    rw [MSG_WriteBits_uncompsize H _ _ _ _ ec, MSG_WriteBits_uncompsize H _ _ _ _ eb,
      MSG_WriteBits_uncompsize H _ _ _ _ ea]
    ring
  · intro ho
    rw [heq]
    obtain ⟨m2, e, _⟩ := writeBitsSeq_total H
      [(1, 1), (to_.serverTime - from_.serverTime, 8), (0, 1)] m ho (by
        intro op hop
        simp only [List.mem_cons, List.mem_singleton, List.not_mem_nil, or_false] at hop
        rcases hop with rfl | rfl | rfl
        · show legalWidth 1; decide
        · show legalWidth 8; decide
        · show legalWidth 1; decide)
    exact ⟨m2, e⟩

theorem C13_usercmd_fast_path_witness :
    usercmdSame zeroUsercmd { zeroUsercmd with serverTime := 10 } ∧
    (0 ≤ ({ zeroUsercmd with serverTime := 10 } : usercmd_t).serverTime
        - zeroUsercmd.serverTime ∧
      ({ zeroUsercmd with serverTime := 10 } : usercmd_t).serverTime
        - zeroUsercmd.serverTime < 256) ∧
    (MSG_WriteDeltaUsercmdKey rawCodec msg64 777 zeroUsercmd
        { zeroUsercmd with serverTime := 10 }
      = writeBitsSeq rawCodec [(1, 1),
          (({ zeroUsercmd with serverTime := 10 } : usercmd_t).serverTime
            - zeroUsercmd.serverTime, 8), (0, 1)] msg64) ∧
    (msgOf (MSG_WriteDeltaUsercmdKey rawCodec msg64 777 zeroUsercmd
        { zeroUsercmd with serverTime := 10 })).map (fun m => (m.bit, m.uncompsize))
      = some (10, 10) :=
  ⟨by decide, by decide,
    (C13_usercmd_fast_path rawCodec msg64 777 zeroUsercmd { zeroUsercmd with serverTime := 10 }
      (by decide) (by decide) (by decide)).1,
    by decide⟩

/-- C14: the clamp of the moves on receive. Whenever
`MSG_ReadDeltaUsercmdKey` reads the field-change flag as non-zero, what it
returns is what the twelve keyed reads return, and each of `forwardmove`,
`rightmove` and `upmove` of the result is -127 if the value returned by
`MSG_ReadDeltaKey` for it, converted to signed 8-bit, is -128, and is that
value otherwise, so none of the three is -128; the reader returns on every
bitstream message. The writer passes the moves of `to_` to
`MSG_WriteDeltaKey` as they are, and a move of -128 written with
`MSG_WriteDeltaKey` in 8 bits is read back by `MSG_ReadDeltaKey` as a value
that is -128 as a signed 8-bit value. The assumptions `HuffLaws` on the
Huffman entry points are used for the last part. -/
theorem C14_move_clamp {H : huffman_t} {Inv : (Nat → Nat) → Nat → Prop}
    (L : HuffLaws H Inv) (key : Int) (from_ : usercmd_t) :
    (∀ msg st m1 c m2 out rm, readUsercmdTime H msg from_ = .ok (st, m1) →
      MSG_ReadBits H m1 1 = .ok (c, m2) → c ≠ 0 →
      MSG_ReadDeltaUsercmdKey H msg key from_ = .ok (out, rm) →
      ∃ (m3 : msg_t) (vf : Int) (m4 : msg_t) (vr : Int) (m5 : msg_t) (vu : Int) (m6 : msg_t),
        MSG_ReadDeltaKey H m3 (xorInt key st) from_.forwardmove 8 = .ok (vf, m4) ∧
        MSG_ReadDeltaKey H m4 (xorInt key st) from_.rightmove 8 = .ok (vr, m5) ∧
        MSG_ReadDeltaKey H m5 (xorInt key st) from_.upmove 8 = .ok (vu, m6) ∧
        out.forwardmove = (if toI8 vf = -128 then -127 else toI8 vf) ∧
        out.rightmove = (if toI8 vr = -128 then -127 else toI8 vr) ∧
        out.upmove = (if toI8 vu = -128 then -127 else toI8 vu) ∧
        out.forwardmove ≠ -128 ∧ out.rightmove ≠ -128 ∧ out.upmove ≠ -128) ∧
    (∀ msg, msg.oob = false →
      ∃ out rm, MSG_ReadDeltaUsercmdKey H msg key from_ = .ok (out, rm)) ∧
    (∀ (m : msg_t) (to_ : usercmd_t), writeUsercmdFields H m key from_ to_ =
      (MSG_WriteDeltaKey H m key (from_.angles 0) (to_.angles 0) 16 >>= fun m =>
       MSG_WriteDeltaKey H m key (from_.angles 1) (to_.angles 1) 16 >>= fun m =>
       MSG_WriteDeltaKey H m key (from_.angles 2) (to_.angles 2) 16 >>= fun m =>
       MSG_WriteDeltaKey H m key from_.forwardmove to_.forwardmove 8 >>= fun m =>
       MSG_WriteDeltaKey H m key from_.rightmove to_.rightmove 8 >>= fun m =>
       MSG_WriteDeltaKey H m key from_.upmove to_.upmove 8 >>= fun m =>
       MSG_WriteDeltaKey H m key from_.buttons to_.buttons 8 >>= fun m =>
       MSG_WriteDeltaKey H m key from_.wbuttons to_.wbuttons 8 >>= fun m =>
       MSG_WriteDeltaKey H m key from_.weapon to_.weapon 8 >>= fun m =>
       MSG_WriteDeltaKey H m key from_.flags to_.flags 8 >>= fun m =>
       MSG_WriteDeltaKey H m key from_.doubleTap to_.doubleTap 3 >>= fun m =>
       MSG_WriteDeltaKey H m key from_.identClient to_.identClient 8)) ∧
    (∀ (m : msg_t) (oldV : Int), m.overflowed = false → m.oob = false → Inv m.data m.bit →
      ∃ m2, MSG_WriteDeltaKey H m key oldV (-128) 8 = .ok m2 ∧
        (m2.overflowed = false → ∀ rc, rc ≤ m2.cursize → ∃ v rm2,
          MSG_ReadDeltaKey H { m2 with bit := m.bit, readcount := rc } key oldV 8
            = .ok (v, rm2) ∧ toI8 v = -128)) := by
  refine ⟨?_, ?_, ?_, ?_⟩
  · intro msg st m1 c m2 out rm ht hc hc0 h
    have hr : MSG_ReadDeltaUsercmdKey H msg key from_
        = readUsercmdFields H m2 (xorInt key st) from_ st := by
      show (readUsercmdTime H msg from_ >>= fun p => MSG_ReadBits H p.2 1 >>= fun q =>
        if q.1 ≠ 0 then readUsercmdFields H q.2 (xorInt key p.1) from_ p.1
        else pure ({ from_ with serverTime := p.1 }, q.2)) = _
      rw [ht]
      show (MSG_ReadBits H m1 1 >>= fun q =>
        if q.1 ≠ 0 then readUsercmdFields H q.2 (xorInt key st) from_ st
        else pure ({ from_ with serverTime := st }, q.2)) = _
      rw [hc]
      show (if c ≠ 0 then readUsercmdFields H m2 (xorInt key st) from_ st
        else pure ({ from_ with serverTime := st }, m2)) = _
      rw [if_pos hc0]
    rw [hr] at h
    obtain ⟨m3, vf, m4, vr, m5, vu, m6, e1, e2, e3, o1, o2, o3⟩ :=
      readUsercmdFields_moves H m2 (xorInt key st) from_ st out rm h
    refine ⟨m3, vf, m4, vr, m5, vu, m6, e1, e2, e3, o1, o2, o3, ?_, ?_, ?_⟩
    · rw [o1]; exact clampMove_ne _
    · rw [o2]; exact clampMove_ne _
    · rw [o3]; exact clampMove_ne _
  · intro msg ho
    obtain ⟨v, m2, e, _⟩ := MSG_ReadDeltaUsercmdKey_total H key from_ msg ho
    exact ⟨v, m2, e⟩
  · intro m to_
    rfl
  · intro m oldV hov hoob hI
    obtain ⟨m2, e, hread⟩ := Codec.run (deltaKey_codec L key oldV (-128) 8 (by norm_num)
      (by norm_num)) (deltaKey_strict H Inv L key oldV (-128) 8 (by norm_num) (by norm_num))
      m hov hoob hI
    refine ⟨m2, e, fun hov2 rc hrc => ?_⟩
    obtain ⟨rc2, _, hr⟩ := hread hov2 rc hrc
    refine ⟨_, _, hr, ?_⟩
    unfold keyedValue
    split
    · next h => rw [h]; decide
    · decide

set_option maxRecDepth 8000 in
theorem C14_move_clamp_witness :
    HuffLaws rawCodec cleanAt ∧
    (∀ msg, msg.oob = false →
      ∃ out rm, MSG_ReadDeltaUsercmdKey rawCodec msg 777 sampleUsercmd = .ok (out, rm)) ∧
    (valueOf (usercmdRoundTrip rawCodec 777 sampleUsercmd
      { sampleUsercmd with forwardmove := -128, rightmove := -128, upmove := -128 })).map
        (fun c => (c.forwardmove, c.rightmove, c.upmove)) = some (-127, -127, -127) ∧
    valueOf (deltaKeyRoundTrip rawCodec 777 5 (-128) 8) = some 128 ∧
    toI8 128 = -128 :=
  ⟨rawCodec_laws, (C14_move_clamp rawCodec_laws 777 sampleUsercmd).2.1,
    by decide, by decide, by decide⟩

/-- C21 (amended): the width restriction out of band. On an out-of-band
buffer that is not overflowed and has room for the `|bits| >> 3` bytes,
`MSG_WriteBits` raises an error exactly when `bits` is none of 8, 16, 32, -8
and -16 (width -32 is rejected by the test `bits < -31`, as in every mode).
On an out-of-band message that is not past its end and has `|bits| >> 3`
bytes left, `MSG_ReadBits` raises an error exactly when `|bits|` is none of
8, 16 and 32. When the bytes do not fit, a write of a legal width sets
`overflowed` and a read returns 0 with `readcount = cursize + 1`, and no
error is raised whatever the width. -/
theorem C21_oob_width (H : huffman_t) (msg : msg_t) (value bits : Int)
    (hoob : msg.oob = true) :
    (msg.overflowed = false → msg.cursize + (bits.natAbs >>> 3) ≤ msg.maxsize →
      ((∃ e, MSG_WriteBits H msg value bits = .error e) ↔
        ¬ (bits = 8 ∨ bits = 16 ∨ bits = 32 ∨ bits = -8 ∨ bits = -16))) ∧
    (msg.overflowed = false → msg.cursize + (bits.natAbs >>> 3) ≤ msg.maxsize →
      legalWidth bits → ¬ (bits.natAbs = 8 ∨ bits.natAbs = 16 ∨ bits.natAbs = 32) →
      MSG_WriteBits H msg value bits = .error (.ERR_DROP "MSG_WriteBits: can not read bits")) ∧
    (msg.overflowed = false → legalWidth bits →
      msg.cursize + (bits.natAbs >>> 3) > msg.maxsize →
      MSG_WriteBits H msg value bits
        = .ok { msg with uncompsize := msg.uncompsize + bits, overflowed := true }) ∧
    (¬ msg.readcount > msg.cursize → msg.readcount + (bits.natAbs >>> 3) ≤ msg.cursize →
      ((∃ e, MSG_ReadBits H msg bits = .error e) ↔
        ¬ (bits.natAbs = 8 ∨ bits.natAbs = 16 ∨ bits.natAbs = 32)) ∧
      ((∃ e, MSG_ReadBits H msg bits = .error e) →
        MSG_ReadBits H msg bits = .error (.ERR_DROP "MSG_ReadBits: can not read bits"))) ∧
    (¬ msg.readcount > msg.cursize → msg.readcount + (bits.natAbs >>> 3) > msg.cursize →
      MSG_ReadBits H msg bits = .ok (0, { msg with readcount := msg.cursize + 1 })) := by
  refine ⟨?_, ?_, ?_, ?_, ?_⟩
  · intro hov hroom
    have hr : ¬ msg.cursize + (bits.natAbs >>> 3) > msg.maxsize := by omega
    unfold MSG_WriteBits
    simp only [hov, hoob, if_true, if_false, Bool.false_eq_true, width_natAbs, hr]
    by_cases hb : bits = 0 ∨ bits < -31 ∨ bits > 32
    · simp only [hb, if_true]
      constructor
      · intro _; omega
      · intro _; exact ⟨_, rfl⟩
    · simp only [hb, if_false]
      split_ifs with h8 h16 h32
      · constructor
        · rintro ⟨e, he⟩; cases he
        · intro h; exfalso; omega
      · constructor
        · rintro ⟨e, he⟩; cases he
        · intro h; exfalso; omega
      · constructor
        · rintro ⟨e, he⟩; cases he
        · intro h; exfalso; omega
      · constructor
        · intro _; omega
        · intro _; exact ⟨_, rfl⟩
  · intro hov hroom hl hn
    have hr : ¬ msg.cursize + (bits.natAbs >>> 3) > msg.maxsize := by omega
    unfold legalWidth at hl
    unfold MSG_WriteBits
    simp only [hov, hoob, if_true, if_false, Bool.false_eq_true, width_natAbs, hr, hl]
    split_ifs with h8 h16 h32
    · exact absurd (Or.inl h8) hn
    · exact absurd (Or.inr (Or.inl h16)) hn
    · exact absurd (Or.inr (Or.inr h32)) hn
    · rfl
  · intro hov hl hfull
    unfold legalWidth at hl
    unfold MSG_WriteBits
    simp only [hov, hoob, if_true, if_false, Bool.false_eq_true, width_natAbs, hfull, hl]
  · intro hrc hroom
    have hr : ¬ msg.readcount + (bits.natAbs >>> 3) > msg.cursize := by omega
    unfold MSG_ReadBits
    simp only [hrc, hoob, if_true, if_false, width_natAbs, hr]
    split_ifs with h8 h16 h32
    · refine ⟨⟨?_, ?_⟩, ?_⟩
      · rintro ⟨e, he⟩; cases he
      · intro h; exact absurd (Or.inl h8) h
      · rintro ⟨e, he⟩; cases he
    · refine ⟨⟨?_, ?_⟩, ?_⟩
      · rintro ⟨e, he⟩; cases he
      · intro h; exact absurd (Or.inr (Or.inl h16)) h
      · rintro ⟨e, he⟩; cases he
    · refine ⟨⟨?_, ?_⟩, ?_⟩
      · rintro ⟨e, he⟩; cases he
      · intro h; exact absurd (Or.inr (Or.inr h32)) h
      · rintro ⟨e, he⟩; cases he
    · refine ⟨⟨?_, ?_⟩, ?_⟩
      · intro _; omega
      · intro _; exact ⟨_, rfl⟩
      · intro _; rfl
  · intro hrc hfull
    unfold MSG_ReadBits
    simp only [hrc, hoob, if_true, if_false, width_natAbs, hfull]

theorem C21_oob_width_witness :
    oob64.oob = true ∧
    ((∃ e, MSG_WriteBits rawCodec oob64 5 12 = .error e) ↔
      ¬ ((12 : Int) = 8 ∨ (12 : Int) = 16 ∨ (12 : Int) = 32 ∨ (12 : Int) = -8
        ∨ (12 : Int) = -16)) ∧
    MSG_WriteBits rawCodec oob64 5 12
      = .error (.ERR_DROP "MSG_WriteBits: can not read bits") ∧
    (∃ m2, MSG_WriteBits rawCodec oob64 5 (-16) = .ok m2) ∧
    MSG_ReadBits rawCodec { oob64 with cursize := 8 } 12
      = .error (.ERR_DROP "MSG_ReadBits: can not read bits") ∧
    valueOf (MSG_ReadBits rawCodec { oob64 with cursize := 8 } (-32)) = some 0 :=
  ⟨rfl, (C21_oob_width rawCodec oob64 5 12 rfl).1 rfl (by decide),
    (C21_oob_width rawCodec oob64 5 12 rfl).2.1 rfl (by decide) (by decide) (by decide),
    ⟨_, rfl⟩, rfl, by decide⟩

/-- Counterexample to C21 as stated: on an out-of-band buffer that is not
overflowed but is full, `MSG_WriteBits` with width 12 raises no error, it
sets `overflowed`; with width -32, of magnitude 32, it raises the "bad bits"
error; and on an out-of-band message that is not past its end but has no
byte left, `MSG_ReadBits` with width 12 raises no error, it returns 0. -/
theorem C21_counterexample :
    ({ oob64 with cursize := 64 } : msg_t).oob = true ∧
    ({ oob64 with cursize := 64 } : msg_t).overflowed = false ∧
    MSG_WriteBits rawCodec { oob64 with cursize := 64 } 5 12
      = .ok { oob64 with cursize := 64, uncompsize := 12, overflowed := true } ∧
    MSG_WriteBits rawCodec oob64 5 (-32) = .error (.ERR_DROP "MSG_WriteBits: bad bits") ∧
    ¬ (({ oob64 with cursize := 8, readcount := 8 } : msg_t).readcount
        > ({ oob64 with cursize := 8, readcount := 8 } : msg_t).cursize) ∧
    MSG_ReadBits rawCodec { oob64 with cursize := 8, readcount := 8 } 12
      = .ok (0, { oob64 with cursize := 8, readcount := 9 }) := by
  refine ⟨rfl, rfl, rfl, rfl, by decide, rfl⟩

/-- C23: the entity number range check. `MSG_WriteDeltaEntity` with a
non-null `to` raises the fatal error "Bad entity number" exactly when
`to.number < 0` or `to.number >= MAX_GENTITIES`, and then it is the first
thing it does: the call is the error, whatever the message, `from` and
`force`. `MSG_ReadDeltaEntity` raises the error "Bad delta entity number"
exactly when its `number` argument is below 0 or at least `MAX_GENTITIES`,
again before anything is read. -/
theorem C23_entity_number_range (H : huffman_t) (K : constants_t) (msg : msg_t)
    (from_ : Option entityState_t) (t : entityState_t) (force : Bool)
    (f0 t0 : entityState_t) (number : Int) :
    (MSG_WriteDeltaEntity H K msg from_ (some t) force
        = .error (.ERR_FATAL "MSG_WriteDeltaEntity: Bad entity number") ↔
      (t.number < 0 ∨ t.number ≥ K.MAX_GENTITIES)) ∧
    (MSG_ReadDeltaEntity H K msg f0 t0 number
        = .error (.ERR_DROP "MSG_ReadDeltaEntity: Bad delta entity number") ↔
      (number < 0 ∨ number ≥ K.MAX_GENTITIES)) := by
  constructor
  · constructor
    · intro h
      by_contra hn
      have hE : ErrIn (fun e => bitError e ∨ e = .NULL_DEREF)
          (MSG_WriteDeltaEntity H K msg from_ (some t) force) := by
        have hw : ∀ m v b, ErrIn (fun e => bitError e ∨ e = .NULL_DEREF)
            (MSG_WriteBits H m v b) := fun m v b e he => Or.inl (MSG_WriteBits_err H m v b e he)
        simp only [MSG_WriteDeltaEntity, hn, if_false]
        cases from_ with
        | none => intro e he; cases he; exact Or.inr rfl
        | some f =>
          simp only []
          split
          · split
            · exact errIn_pure _ _
            · exact errIn_bind (hw _ _ _) (fun _ => errIn_bind (hw _ _ _) (fun _ => hw _ _ _))
          · exact errIn_bind (hw _ _ _) (fun _ => errIn_bind (hw _ _ _) (fun _ =>
              errIn_bind (hw _ _ _) (fun _ => fun e he =>
                Or.inl (writeDeltaTable_err H _ (writeDeltaField_err H) _ _ _ _ _ e he))))
      rcases hE _ h with hb | hb
      · rcases hb with hb | hb | hb <;> cases hb
      · cases hb
    · intro hb
      simp only [MSG_WriteDeltaEntity, hb, if_true]
  · constructor
    · intro h
      by_contra hn
      have hE : ErrIn (fun e => bitError e ∨ e = .ERR_DROP "invalid entityState field count")
          (MSG_ReadDeltaEntity H K msg f0 t0 number) := by
        have hr : ∀ m b, ErrIn (fun e => bitError e ∨
            e = .ERR_DROP "invalid entityState field count") (MSG_ReadBits H m b) :=
          fun m b e he => Or.inl (MSG_ReadBits_err H m b e he)
        simp only [MSG_ReadDeltaEntity, hn, if_false]
        refine errIn_bind (hr _ _) (fun _ => errIn_ite _ (errIn_pure _ _)
          (errIn_bind (hr _ _) (fun _ => errIn_ite _ (errIn_pure _ _)
            (errIn_bind ?_ (fun _ => errIn_pure _ _)))))
        unfold readDeltaTable
        refine errIn_bind (fun e he => Or.inl (MSG_ReadByte_err H _ e he)) (fun _ =>
          errIn_ite _ (fun e he => by cases he; exact Or.inr rfl)
            (errIn_bind (fun e he => Or.inl (readFields_err _ (readDeltaField_err H) _ _ _ _ e he))
              (fun _ => errIn_pure _ _)))
      rcases hE _ h with hb | hb
      · exact bitError_text _ (by decide) (by decide) (by decide) hb
      · simp at hb
    · intro hb
      simp only [MSG_ReadDeltaEntity, hb, if_true]

/-- C22 (amended): the check of the delta field count. In
`MSG_ReadDeltaEntity`, `MSG_ReadDeltaSharedEntity` and
`MSG_ReadDeltaPlayerstate`, once `MSG_ReadByte` has returned `lc`, the call
raises the "invalid field count" error of that reader exactly when `lc` is
negative or greater than the length of the reader's table, before either
field loop: no field is read from the message. In the two entity readers
the output record is then as it was before the call: no field has been
stored. In `MSG_ReadDeltaPlayerstate` the assignment `*to = *from` stands
before the reading of the count, so when the error is raised the output
record holds `from` (the all-zero record for a null `from`), whatever it
held before; nothing else has been stored. For `0 <= lc <= length` the
reading loop runs over the first `lc` entries of the table and the copying
loop over the others, so the table is indexed below its length only. The
records are those of `readEntityCount`, `readSharedCount` and
`readPlayerstateCount`, the readers up to the test of the count; an error
they end on is the error the reader raises. -/
theorem C22_field_count (H : huffman_t) (K : constants_t)
    (msg m1 : msg_t) (lc : Int) (hlc : MSG_ReadByte H msg = .ok (lc, m1)) :
    (∀ (body : msg_t → netField_t → Int → Except ComError (Int × msg_t))
        (table : List netField_t) (text : String) (fromC toC : Nat → Int),
      ((lc > table.length ∨ lc < 0) →
        readDeltaTable H body table text msg fromC toC = .error (.ERR_DROP text)) ∧
      (¬ (lc > table.length ∨ lc < 0) →
        readDeltaTable H body table text msg fromC toC
          = (readFields body fromC (table.take lc.toNat) toC m1 >>= fun p =>
              pure (copyTailFields fromC (table.drop lc.toNat) p.1, p.2)) ∧
        (table.take lc.toNat).length = lc.toNat ∧ lc.toNat ≤ table.length ∧
        table.take lc.toNat ++ table.drop lc.toNat = table)) ∧
    (∀ (m0 ma : msg_t) (f t : entityState_t) (number removed delta : Int),
      ¬ (number < 0 ∨ number ≥ K.MAX_GENTITIES) →
      MSG_ReadBits H m0 1 = .ok (removed, ma) → removed ≠ 1 →
      MSG_ReadBits H ma 1 = .ok (delta, msg) → delta ≠ 0 →
      (MSG_ReadDeltaEntity H K m0 f t number
          = .error (.ERR_DROP "invalid entityState field count") ↔
        (lc > (entityStateFields K).length ∨ lc < 0))) ∧
    (∀ (m0 : msg_t) (f t : entityShared_t) (delta : Int),
      MSG_ReadBits H m0 1 = .ok (delta, msg) → delta ≠ 0 →
      (MSG_ReadDeltaSharedEntity H K m0 f t
          = .error (.ERR_DROP "invalid entityShared field count") ↔
        (lc > (entitySharedFields K).length ∨ lc < 0))) ∧
    (∀ (from_ : Option playerState_t),
      (MSG_ReadDeltaPlayerstate H K msg from_
          = .error (.ERR_DROP "invalid playerState field count") ↔
        (lc > (playerStateFields K).length ∨ lc < 0))) ∧
    (∀ (m0 ma : msg_t) (f t : entityState_t) (number removed delta : Int),
      ¬ (number < 0 ∨ number ≥ K.MAX_GENTITIES) →
      MSG_ReadBits H m0 1 = .ok (removed, ma) → removed ≠ 1 →
      MSG_ReadBits H ma 1 = .ok (delta, msg) → delta ≠ 0 →
      readEntityCount H K m0 f t number
        = (t, if lc > (entityStateFields K).length ∨ lc < 0 then
                .error (.ERR_DROP "invalid entityState field count")
              else .ok (some lc, m1))) ∧
    (∀ (m0 : msg_t) (f t : entityShared_t) (delta : Int),
      MSG_ReadBits H m0 1 = .ok (delta, msg) → delta ≠ 0 →
      readSharedCount H K m0 f t
        = (t, if lc > (entitySharedFields K).length ∨ lc < 0 then
                .error (.ERR_DROP "invalid entityShared field count")
              else .ok (some lc, m1))) ∧
    (∀ (from_ : Option playerState_t) (t : playerState_t),
      readPlayerstateCount H K msg from_ t
        = (from_.getD zeroPlayerState,
            if lc > (playerStateFields K).length ∨ lc < 0 then
              .error (.ERR_DROP "invalid playerState field count")
            else .ok (some lc, m1))) ∧
    (∀ (m0 : msg_t) (f t : entityState_t) (number : Int) (e : ComError),
      (readEntityCount H K m0 f t number).2 = .error e →
      (readEntityCount H K m0 f t number).1 = t ∧
      MSG_ReadDeltaEntity H K m0 f t number = .error e) ∧
    (∀ (m0 : msg_t) (f t : entityShared_t) (e : ComError),
      (readSharedCount H K m0 f t).2 = .error e →
      (readSharedCount H K m0 f t).1 = t ∧
      MSG_ReadDeltaSharedEntity H K m0 f t = .error e) ∧
    (∀ (m0 : msg_t) (from_ : Option playerState_t) (t : playerState_t) (e : ComError),
      (readPlayerstateCount H K m0 from_ t).2 = .error e →
      (readPlayerstateCount H K m0 from_ t).1 = from_.getD zeroPlayerState ∧
      MSG_ReadDeltaPlayerstate H K m0 from_ = .error e) := by
  refine ⟨?_, ?_, ?_, ?_, ?_, ?_, ?_, ?_, ?_, ?_⟩
  rotate_left 4
  · intro m0 ma f t number removed delta hnum hrem hrem1 hdel hdel0
    simp only [readEntityCount, hnum, if_false, hrem, hrem1, hdel, hdel0, hlc]
    split_ifs <;> rfl
  · intro m0 f t delta hdel hdel0
    simp only [readSharedCount, hdel, hdel0, if_false, hlc]
    split_ifs <;> rfl
  · intro from_ t
    simp only [readPlayerstateCount, hlc]
    split_ifs <;> rfl
  · intro m0 f t number e h
    exact (readEntityCount_spec H K m0 f t number).1 e h
  · intro m0 f t e h
    exact (readSharedCount_spec H K m0 f t).1 e h
  · intro m0 from_ t e h
    exact ⟨(readPlayerstateCount_spec H K m0 from_ t).1,
      (readPlayerstateCount_spec H K m0 from_ t).2 e h⟩
  · intro body table text fromC toC
    rw [readDeltaTable_lc H body table text msg m1 fromC toC lc hlc]
    constructor
    · intro h; rw [if_pos h]
    · intro h
      rw [if_neg h]
      have h1 : lc.toNat ≤ table.length := by omega
      exact ⟨rfl, by simp [h1], h1, List.take_append_drop _ _⟩
  · intro m0 ma f t number removed delta hnum hrem hrem1 hdel hdel0
    have he : MSG_ReadDeltaEntity H K m0 f t number
        = (readDeltaTable H (readDeltaField H) (entityStateFields K)
            "invalid entityState field count" msg f.cells t.cells >>= fun p =>
            pure ({ number := number, cells := p.1 }, p.2)) := by
      simp only [MSG_ReadDeltaEntity, hnum, if_false]
      show (MSG_ReadBits H m0 1 >>= fun q => _) = _
      rw [hrem]
      show (if removed = 1 then _ else (MSG_ReadBits H ma 1 >>= fun q => _)) = _
      rw [if_neg hrem1, hdel]
      show (if delta = 0 then _ else _) = _
      rw [if_neg hdel0]
    rw [he, readDeltaTable_lc H _ _ _ msg m1 _ _ lc hlc]
    constructor
    · intro h
      by_contra hn
      rw [if_neg hn] at h
      have := errIn_bind (readDeltaTable_err _ (readDeltaField_err H) (entityStateFields K)
        lc m1 f.cells t.cells) (fun p => errIn_pure bitError
          (({ number := number, cells := p.1 } : entityState_t), p.2)) _ h
      exact bitError_text _ (by decide) (by decide) (by decide) this
    · intro h; rw [if_pos h]; rfl
  · intro m0 f t delta hdel hdel0
    have he : MSG_ReadDeltaSharedEntity H K m0 f t
        = (readDeltaTable H (readDeltaField H) (entitySharedFields K)
            "invalid entityShared field count" msg f.cells t.cells >>= fun p =>
            pure ({ cells := p.1 }, p.2)) := by
      show (MSG_ReadBits H m0 1 >>= fun q => _) = _
      rw [hdel]
      show (if delta = 0 then _ else _) = _
      rw [if_neg hdel0]
    rw [he, readDeltaTable_lc H _ _ _ msg m1 _ _ lc hlc]
    constructor
    · intro h
      by_contra hn
      rw [if_neg hn] at h
      have := errIn_bind (readDeltaTable_err _ (readDeltaField_err H) (entitySharedFields K)
        lc m1 f.cells t.cells) (fun p => errIn_pure bitError
          (({ cells := p.1 } : entityShared_t), p.2)) _ h
      exact bitError_text _ (by decide) (by decide) (by decide) this
    · intro h; rw [if_pos h]; rfl
  · intro from_
    have he : MSG_ReadDeltaPlayerstate H K msg from_
        = (readDeltaTable H (readPlayerField H) (playerStateFields K)
            "invalid playerState field count" msg (from_.getD zeroPlayerState).cells
            (from_.getD zeroPlayerState).cells >>= fun p =>
            readStatsGroup H K p.2 { from_.getD zeroPlayerState with cells := p.1 } >>= fun q =>
            readAmmoGroup H q.2 q.1 >>= fun r => readClipGroup H r.2 r.1) := rfl
    rw [he, readDeltaTable_lc H _ _ _ msg m1 _ _ lc hlc]
    constructor
    · intro h
      by_contra hn
      rw [if_neg hn] at h
      have := errIn_bind (readDeltaTable_err _ (readPlayerField_err H) (playerStateFields K)
        lc m1 (from_.getD zeroPlayerState).cells (from_.getD zeroPlayerState).cells)
        (fun p => errIn_bind (readStatsGroup_err H K p.2
            { from_.getD zeroPlayerState with cells := p.1 }) (fun q =>
          errIn_bind (readAmmoGroup_err H q.2 q.1) (fun r => readClipGroup_err H r.2 r.1))) _ h
      exact bitError_text _ (by decide) (by decide) (by decide) this
    · intro h; rw [if_pos h]; rfl

theorem C22_field_count_witness :
    MSG_ReadByte rawCodec (msgOfByte 200)
      = .ok (200, { msgOfByte 200 with bit := 8, readcount := 2 }) ∧
    (MSG_ReadDeltaPlayerstate rawCodec etl_constants (msgOfByte 200) none
        = .error (.ERR_DROP "invalid playerState field count") ↔
      ((200 : Int) > (playerStateFields etl_constants).length ∨ (200 : Int) < 0)) ∧
    MSG_ReadDeltaPlayerstate rawCodec etl_constants (msgOfByte 200) none
      = .error (.ERR_DROP "invalid playerState field count") ∧
    (playerStateFields etl_constants).length = 77 ∧
    (∃ p, MSG_ReadDeltaPlayerstate rawCodec etl_constants (msgOfByte 0) none = .ok p) ∧
    readPlayerstateCount rawCodec etl_constants (msgOfByte 200) (some samplePlayer)
        zeroPlayerState
      = ((some samplePlayer).getD zeroPlayerState,
          if (200 : Int) > (playerStateFields etl_constants).length ∨ (200 : Int) < 0 then
            .error (.ERR_DROP "invalid playerState field count")
          else .ok (some 200, { msgOfByte 200 with bit := 8, readcount := 2 })) :=
  ⟨rfl,
    (C22_field_count rawCodec etl_constants (msgOfByte 200)
      { msgOfByte 200 with bit := 8, readcount := 2 } 200 rfl).2.2.2.1 none,
    rfl, rfl, ⟨_, rfl⟩,
    (C22_field_count rawCodec etl_constants (msgOfByte 200)
      { msgOfByte 200 with bit := 8, readcount := 2 } 200 rfl).2.2.2.2.2.2.1
      (some samplePlayer) zeroPlayerState⟩

/-- Counterexample to C22 as stated: with the field count 200, above the 77
entries of the table, `MSG_ReadDeltaPlayerstate` raises the error after it
has stored into the output record: called with `from` the sample state and
an all-zero output record, it leaves the sample state in the output record
(the cell `commandTime` has gone from 0 to 1000, `stats[0]` from 0 to 100).
`MSG_ReadDeltaEntity` and `MSG_ReadDeltaSharedEntity` on a message with a
count above their table (200 and 72) leave their output record as it was:
its first cell is still 0, not the 3 or 7 of `from`. -/
theorem C22_counterexample :
    (readPlayerstateCount rawCodec etl_constants (msgOfByte 200) (some samplePlayer)
        zeroPlayerState).2 = .error (.ERR_DROP "invalid playerState field count") ∧
    MSG_ReadDeltaPlayerstate rawCodec etl_constants (msgOfByte 200) (some samplePlayer)
      = .error (.ERR_DROP "invalid playerState field count") ∧
    ((readPlayerstateCount rawCodec etl_constants (msgOfByte 200) (some samplePlayer)
        zeroPlayerState).1.cells 0, zeroPlayerState.cells 0) = (1000, 0) ∧
    ((readPlayerstateCount rawCodec etl_constants (msgOfByte 200) (some samplePlayer)
        zeroPlayerState).1.stats 0, zeroPlayerState.stats 0) = (100, 0) ∧
    (readEntityCount rawCodec etl_constants msgCount200 sampleEntity zeroEntity 5).2
      = .error (.ERR_DROP "invalid entityState field count") ∧
    ((readEntityCount rawCodec etl_constants msgCount200 sampleEntity zeroEntity 5).1.cells 0,
      zeroEntity.cells 0, sampleEntity.cells 0) = (0, 0, 3) ∧
    (readSharedCount rawCodec etl_constants (msgOfByte 145)
        { cells := fun _ => 7 } zeroShared).2
      = .error (.ERR_DROP "invalid entityShared field count") ∧
    (readSharedCount rawCodec etl_constants (msgOfByte 145)
        { cells := fun _ => 7 } zeroShared).1.cells 0 = 0 := by
  refine ⟨rfl, rfl, ?_, ?_, rfl, ?_, rfl, ?_⟩ <;> decide

/-- C30: the last-changed count. For each of the four writers, with `lc`
the value its first loop computes over its table: `lc` is 0 when no entry
of the table has cells that differ between `from` and `to`, and otherwise
one more than the largest index whose cells differ; `lc` is at most the
length of the table, which is below 256 for the four tables, so that the
byte sent is `lc` itself and the test `lc > numFields || lc < 0` of the
readers fails. When a delta is written, `MSG_WriteByte(msg, lc)` is followed
by the writing loop over the first `lc` entries of the table, in table
order, and the record of each entry begins with one bit that is 0 for an
unchanged and 1 for a changed cell. -/
theorem C30_last_changed (H : huffman_t) (K : constants_t) (fromC toC : Nat → Int)
    (table : List netField_t)
    (htable : table = entityStateFields K ∨ table = entitySharedFields K ∨
      table = ettventitySharedFields ∨ table = playerStateFields K) :
    ((∀ i, ¬ cellDiffers fromC toC table i) → lastChangedLoop fromC toC table 0 0 = 0) ∧
    (∀ i, cellDiffers fromC toC table i → (∀ j, i < j → ¬ cellDiffers fromC toC table j) →
      lastChangedLoop fromC toC table 0 0 = i + 1) ∧
    lastChangedLoop fromC toC table 0 0 ≤ table.length ∧
    table.length < 256 ∧
    ((lastChangedLoop fromC toC table 0 0 : Nat) : Int) % 256
      = lastChangedLoop fromC toC table 0 0 ∧
    ¬ (((lastChangedLoop fromC toC table 0 0 : Nat) : Int) > table.length ∨
       ((lastChangedLoop fromC toC table 0 0 : Nat) : Int) < 0) ∧
    (∀ (body : msg_t → netField_t → Int → Int → Except ComError msg_t) (m : msg_t),
      writeDeltaTable H body table (lastChangedLoop fromC toC table 0 0) m fromC toC
        = (MSG_WriteByte H m (lastChangedLoop fromC toC table 0 0) >>= fun m =>
            writeFields body fromC toC
              (table.take (lastChangedLoop fromC toC table 0 0)) m)) ∧
    (table.take (lastChangedLoop fromC toC table 0 0)).length
      = lastChangedLoop fromC toC table 0 0 ∧
    (∀ (body : msg_t → netField_t → Int → Int → Except ComError msg_t) (m : msg_t)
        (f : netField_t) (rest : List netField_t),
      writeFields body fromC toC [] m = .ok m ∧
      writeFields body fromC toC (f :: rest) m
        = (body m f (fromC f.offset) (toC f.offset) >>= fun m =>
            writeFields body fromC toC rest m)) ∧
    (∀ (m : msg_t) (field : netField_t) (a b : Int),
      writeDeltaField H m field a b
        = (MSG_WriteBits H m (if a = b then 0 else 1) 1 >>= fun m =>
            if a = b then pure m
            else if field.bits = 0 then writeFloatField H m b
            else writeIntField H m b field.bits) ∧
      writePlayerField H m field a b
        = (MSG_WriteBits H m (if a = b then 0 else 1) 1 >>= fun m =>
            if a = b then pure m
            else if field.bits = 0 then writeTruncFloat H m b
            else MSG_WriteBits H m b field.bits)) ∧
    (∀ (m : msg_t) (f t : entityState_t) (force : Bool),
      ¬ (t.number < 0 ∨ t.number ≥ K.MAX_GENTITIES) →
      lastChangedLoop f.cells t.cells (entityStateFields K) 0 0 ≠ 0 →
      MSG_WriteDeltaEntity H K m (some f) (some t) force
        = (MSG_WriteBits H m t.number K.GENTITYNUM_BITS >>= fun m =>
            MSG_WriteBits H m 0 1 >>= fun m => MSG_WriteBits H m 1 1 >>= fun m =>
            writeDeltaTable H (writeDeltaField H) (entityStateFields K)
              (lastChangedLoop f.cells t.cells (entityStateFields K) 0 0) m
              f.cells t.cells)) ∧
    (∀ (m : msg_t) (f t : entityShared_t) (force : Bool) (number : Int),
      lastChangedLoop f.cells t.cells (entitySharedFields K) 0 0 ≠ 0 →
      MSG_WriteDeltaSharedEntity H K m f t force number
        = (MSG_WriteBits H m number K.GENTITYNUM_BITS >>= fun m =>
            MSG_WriteBits H m 1 1 >>= fun m =>
            writeDeltaTable H (writeDeltaField H) (entitySharedFields K)
              (lastChangedLoop f.cells t.cells (entitySharedFields K) 0 0) m
              f.cells t.cells)) ∧
    (∀ (m : msg_t) (f t : entityShared_t) (force : Bool),
      lastChangedLoop f.cells t.cells ettventitySharedFields 0 0 ≠ 0 →
      MSG_ETTV_WriteDeltaSharedEntity H m (some f) (some t) force
        = (MSG_WriteBits H m 0x77 8 >>= fun m =>
            MSG_WriteBits H m 0 1 >>= fun m => MSG_WriteBits H m 1 1 >>= fun m =>
            writeDeltaTable H (writeDeltaField H) ettventitySharedFields
              (lastChangedLoop f.cells t.cells ettventitySharedFields 0 0) m
              f.cells t.cells)) ∧
    (∀ (m : msg_t) (f t : playerState_t),
      MSG_WriteDeltaPlayerstate H K m (some f) t
        = (writeDeltaTable H (writePlayerField H) (playerStateFields K)
              (lastChangedLoop f.cells t.cells (playerStateFields K) 0 0) m
              f.cells t.cells >>= fun m =>
            writeStatsGroup H K m f t >>= fun m =>
            writeAmmoGroup H m f t >>= fun m => writeClipGroup H m f t)) := by
  have hlen : table.length < 256 := by
    rcases htable with h | h | h | h <;> subst h
    · have h : (entityStateFields K).length = 71 := rfl
      rw [h]; decide
    · have h : (entitySharedFields K).length = 29 := rfl
      rw [h]; decide
    · decide
    · have h : (playerStateFields K).length = 77 := rfl
      rw [h]; decide
  have hle := (lastChanged_tail fromC toC table).1
  have hidx := lastChanged_index fromC toC table
  refine ⟨hidx.1, hidx.2.2, hle, hlen, ?_, ?_, ?_, ?_, ?_, ?_, ?_, ?_, ?_, ?_⟩
  · omega
  · omega
  · intro body m; rfl
  · simp [hle]
  · intro body m f rest; exact ⟨rfl, rfl⟩
  · intro m field a b
    constructor
    · by_cases h : a = b
      · simp [writeDeltaField, h]
      · simp [writeDeltaField, h]
    · by_cases h : a = b
      · simp [writePlayerField, h]
      · simp [writePlayerField, h]
  · intro m f t force hnum hlc
    simp only [MSG_WriteDeltaEntity, hnum, hlc, if_false]
  · intro m f t force number hlc
    simp only [MSG_WriteDeltaSharedEntity, hlc, if_false]
  · intro m f t force hlc
    simp only [MSG_ETTV_WriteDeltaSharedEntity, hlc, if_false]
  · intro m f t; rfl

theorem C30_last_changed_witness :
    (entityStateFields etl_constants = entityStateFields etl_constants ∨
      entityStateFields etl_constants = entitySharedFields etl_constants ∨
      entityStateFields etl_constants = ettventitySharedFields ∨
      entityStateFields etl_constants = playerStateFields etl_constants) ∧
    lastChangedLoop zeroEntity.cells sampleEntity.cells (entityStateFields etl_constants) 0 0
      ≤ (entityStateFields etl_constants).length ∧
    lastChangedLoop zeroEntity.cells sampleEntity.cells (entityStateFields etl_constants) 0 0
      = 7 ∧
    lastChangedLoop zeroEntity.cells zeroEntity.cells (entityStateFields etl_constants) 0 0
      = 0 ∧
    (entityStateFields etl_constants).length = 71 ∧
    (entitySharedFields etl_constants).length = 29 ∧
    ettventitySharedFields.length = 14 ∧
    (playerStateFields etl_constants).length = 77 :=
  ⟨Or.inl rfl,
    (C30_last_changed rawCodec etl_constants zeroEntity.cells sampleEntity.cells
      (entityStateFields etl_constants) (Or.inl rfl)).2.2.1,
    by decide, by decide, rfl, rfl, rfl, rfl⟩

/-- C26 (amended): the record of a changed field. `MSG_WriteDeltaEntity`,
`MSG_WriteDeltaSharedEntity` and `MSG_ETTV_WriteDeltaSharedEntity` run the
same loop body, and for a changed field it makes the calls of
`specFieldRecord`: a 1 bit, the is-zero flag, and for a non-zero value the
is-truncated flag with the biased 13-bit integer or the raw 32 bits
(`float`) or the value in the declared width (integer).
`MSG_WriteDeltaPlayerstate` makes the calls of `playerFieldRecord`: the same
without the is-zero flag. Every writer sends a single 0 bit for an unchanged
field. -/
theorem C26_field_record (H : huffman_t) (K : constants_t) (m : msg_t) (field : netField_t)
    (fromF toF : Int) (hne : fromF ≠ toF) :
    writeDeltaField H m field fromF toF = writeBitsSeq H (specFieldRecord field.bits toF) m ∧
    writePlayerField H m field fromF toF
      = writeBitsSeq H (playerFieldRecord field.bits toF) m ∧
    (writeDeltaField H m field toF toF = MSG_WriteBits H m 0 1 ∧
      writePlayerField H m field toF toF = MSG_WriteBits H m 0 1) ∧
    (∀ (f t : entityState_t) (force : Bool),
      ¬ (t.number < 0 ∨ t.number ≥ K.MAX_GENTITIES) →
      lastChangedLoop f.cells t.cells (entityStateFields K) 0 0 ≠ 0 →
      MSG_WriteDeltaEntity H K m (some f) (some t) force
        = (MSG_WriteBits H m t.number K.GENTITYNUM_BITS >>= fun m =>
            MSG_WriteBits H m 0 1 >>= fun m => MSG_WriteBits H m 1 1 >>= fun m =>
            MSG_WriteByte H m (lastChangedLoop f.cells t.cells (entityStateFields K) 0 0)
            >>= fun m => writeFields (writeDeltaField H) f.cells t.cells
              ((entityStateFields K).take
                (lastChangedLoop f.cells t.cells (entityStateFields K) 0 0)) m)) ∧
    (∀ (f t : entityShared_t) (force : Bool) (number : Int),
      lastChangedLoop f.cells t.cells (entitySharedFields K) 0 0 ≠ 0 →
      MSG_WriteDeltaSharedEntity H K m f t force number
        = (MSG_WriteBits H m number K.GENTITYNUM_BITS >>= fun m =>
            MSG_WriteBits H m 1 1 >>= fun m =>
            MSG_WriteByte H m (lastChangedLoop f.cells t.cells (entitySharedFields K) 0 0)
            >>= fun m => writeFields (writeDeltaField H) f.cells t.cells
              ((entitySharedFields K).take
                (lastChangedLoop f.cells t.cells (entitySharedFields K) 0 0)) m)) ∧
    (∀ (f t : entityShared_t) (force : Bool),
      lastChangedLoop f.cells t.cells ettventitySharedFields 0 0 ≠ 0 →
      MSG_ETTV_WriteDeltaSharedEntity H m (some f) (some t) force
        = (MSG_WriteBits H m 0x77 8 >>= fun m =>
            MSG_WriteBits H m 0 1 >>= fun m => MSG_WriteBits H m 1 1 >>= fun m =>
            MSG_WriteByte H m (lastChangedLoop f.cells t.cells ettventitySharedFields 0 0)
            >>= fun m => writeFields (writeDeltaField H) f.cells t.cells
              (ettventitySharedFields.take
                (lastChangedLoop f.cells t.cells ettventitySharedFields 0 0)) m)) ∧
    (∀ (f t : playerState_t),
      MSG_WriteDeltaPlayerstate H K m (some f) t
        = (MSG_WriteByte H m (lastChangedLoop f.cells t.cells (playerStateFields K) 0 0)
            >>= fun m => writeFields (writePlayerField H) f.cells t.cells
              ((playerStateFields K).take
                (lastChangedLoop f.cells t.cells (playerStateFields K) 0 0)) m
            >>= fun m => writeStatsGroup H K m f t >>= fun m =>
            writeAmmoGroup H m f t >>= fun m => writeClipGroup H m f t)) := by
  refine ⟨?_, ?_, ⟨?_, ?_⟩, ?_, ?_, ?_, ?_⟩
  · unfold writeDeltaField specFieldRecord writeFloatField writeIntField writeTruncFloat
    simp only [hne, if_false]
    by_cases hb : field.bits = 0
    · simp only [hb, if_true]
      by_cases hz : f32_isZero (toU32 toF) = true
      · simp [hz, writeBitsSeq]
      · by_cases hf : floatFitsInt (toU32 toF) (f32_toInt (toU32 toF)) = true
        · simp [hz, hf, writeBitsSeq]
        · simp [hz, hf, writeBitsSeq]
    · simp only [hb, if_false]
      by_cases hz : toF = 0
      · simp [hz, writeBitsSeq]
      · simp [hz, writeBitsSeq]
  · unfold writePlayerField playerFieldRecord writeTruncFloat
    simp only [hne, if_false]
    by_cases hb : field.bits = 0
    · simp only [hb, if_true]
      by_cases hf : floatFitsInt (toU32 toF) (f32_toInt (toU32 toF)) = true
      · simp [hf, writeBitsSeq]
      · simp [hf, writeBitsSeq]
    · simp [hb, writeBitsSeq]
  · simp [writeDeltaField]
  · simp [writePlayerField]
  · intro f t force hnum hlc
    simp only [MSG_WriteDeltaEntity, hnum, hlc, if_false, writeDeltaTable]
  · intro f t force number hlc
    simp only [MSG_WriteDeltaSharedEntity, hlc, if_false, writeDeltaTable]
  · intro f t force hlc
    simp only [MSG_ETTV_WriteDeltaSharedEntity, hlc, if_false, writeDeltaTable]
  · intro f t
    simp only [MSG_WriteDeltaPlayerstate, writeDeltaTable, Option.getD_some, bind_assoc]

theorem C26_field_record_witness :
    (0 : Int) ≠ 5 ∧
    writeDeltaField rawCodec msg64 (netField_t.mk "eType" 0 8) 0 5
      = writeBitsSeq rawCodec (specFieldRecord 8 5) msg64 ∧
    specFieldRecord 8 5 = [(1, 1), (1, 1), (5, 8)] ∧
    playerFieldRecord 8 5 = [(1, 1), (5, 8)] ∧
    specFieldRecord 0 1120403456 = [(1, 1), (1, 1), (0, 1), (4196, 13)] ∧
    playerFieldRecord 0 1120403456 = [(1, 1), (0, 1), (4196, 13)] :=
  ⟨by decide,
    (C26_field_record rawCodec etl_constants msg64 (netField_t.mk "eType" 0 8) 0 5
      (by decide)).1,
    by decide, by decide, by decide, by decide⟩

/-- Counterexample to C26 as stated: for an 8-bit field whose cell changes
from 0 to 5 the entity writers send the bits 1, 1 and the value in 8 bits
(10 bits), the player-state writer the bit 1 and the value in 8 bits (9
bits); for the change from 5 to 0 they send 2 bits and 9 bits; and for a
`float` field that changes from 0 to 100.0 they send 16 and 15 bits. -/
theorem C26_counterexample :
    (msgOf (writeDeltaField rawCodec msg64 (netField_t.mk "eType" 0 8) 0 5)).map
      (fun m => (m.bit, m.data 0, m.data 1)) = some (10, 23, 0) ∧
    (msgOf (writePlayerField rawCodec msg64 (netField_t.mk "pm_type" 1 8) 0 5)).map
      (fun m => (m.bit, m.data 0, m.data 1)) = some (9, 11, 0) ∧
    (msgOf (writeDeltaField rawCodec msg64 (netField_t.mk "eType" 0 8) 5 0)).map
      (fun m => (m.bit, m.data 0, m.data 1)) = some (2, 1, 0) ∧
    (msgOf (writePlayerField rawCodec msg64 (netField_t.mk "pm_type" 1 8) 5 0)).map
      (fun m => (m.bit, m.data 0, m.data 1)) = some (9, 1, 0) ∧
    (msgOf (writeDeltaField rawCodec msg64 (netField_t.mk "origin[0]" 5 0) 0 1120403456)).map
      (fun m => (m.bit, m.data 0, m.data 1)) = some (16, 35, 131) ∧
    (msgOf (writePlayerField rawCodec msg64 (netField_t.mk "origin[0]" 5 0) 0 1120403456)).map
      (fun m => (m.bit, m.data 0, m.data 1)) = some (15, 145, 65) := by
  refine ⟨?_, ?_, ?_, ?_, ?_, ?_⟩ <;> decide

/-- C29: the full round trip of a user command. For every key and every
pair of commands `from_`, `to_` in which the members of `to_` have the
values of their types, `to_.serverTime - from_.serverTime` is non-negative
and below `2 ^ 31`, the three angles of `to_` are in 0 .. 65535, its
`doubleTap` is in 0 .. 7 and none of its moves is -128: on a bitstream
buffer that is not overflowed `MSG_WriteDeltaUsercmdKey` returns, and when
it has not overflowed, `MSG_ReadDeltaUsercmdKey` with the same key and
`from_` on the written bits returns a command equal to `to_` in
`serverTime`, the three angles, the three moves, `buttons`, `wbuttons`,
`weapon`, `flags`, `doubleTap` and `identClient`. When some member other
than the time differs, the writer passes `key ^ to_.serverTime` to the
twelve `MSG_WriteDeltaKey` calls, and a reader that reads the time `st` and
a non-zero change flag passes `key ^ st` to the twelve `MSG_ReadDeltaKey`
calls and returns `st` as the time. The assumptions `HuffLaws` on the
Huffman entry points are used. -/
theorem C29_usercmd_round_trip {H : huffman_t} {Inv : (Nat → Nat) → Nat → Prop}
    (L : HuffLaws H Inv) (m : msg_t) (key : Int) (from_ to_ : usercmd_t)
    (hov : m.overflowed = false) (hoob : m.oob = false) (hI : Inv m.data m.bit)
    (htyped : usercmdTyped to_)
    (h0 : 0 ≤ to_.serverTime - from_.serverTime)
    (h1 : to_.serverTime - from_.serverTime < 2147483648)
    (hang : ∀ i, i < 3 → 0 ≤ to_.angles i ∧ to_.angles i ≤ 65535)
    (hdt : 0 ≤ to_.doubleTap ∧ to_.doubleTap ≤ 7)
    (hmove : to_.forwardmove ≠ -128 ∧ to_.rightmove ≠ -128 ∧ to_.upmove ≠ -128) :
    (∃ m2, MSG_WriteDeltaUsercmdKey H m key from_ to_ = .ok m2 ∧
      (m2.overflowed = false → ∀ rc, rc ≤ m2.cursize → ∃ out rm2,
        MSG_ReadDeltaUsercmdKey H { m2 with bit := m.bit, readcount := rc } key from_
          = .ok (out, rm2) ∧
        out.serverTime = to_.serverTime ∧
        (∀ i, i < 3 → out.angles i = to_.angles i) ∧
        out.forwardmove = to_.forwardmove ∧ out.rightmove = to_.rightmove ∧
        out.upmove = to_.upmove ∧ out.buttons = to_.buttons ∧
        out.wbuttons = to_.wbuttons ∧ out.weapon = to_.weapon ∧ out.flags = to_.flags ∧
        out.doubleTap = to_.doubleTap ∧ out.identClient = to_.identClient)) ∧
    (¬ usercmdSame from_ to_ →
      MSG_WriteDeltaUsercmdKey H m key from_ to_
        = (writeUsercmdTime H m from_ to_ >>= fun m => MSG_WriteBits H m 1 1 >>= fun m =>
            writeUsercmdFields H m (xorInt key to_.serverTime) from_ to_)) ∧
    (∀ msg st m1 c m2, readUsercmdTime H msg from_ = .ok (st, m1) →
      MSG_ReadBits H m1 1 = .ok (c, m2) → c ≠ 0 →
      MSG_ReadDeltaUsercmdKey H msg key from_
        = readUsercmdFields H m2 (xorInt key st) from_ st ∧
      ∀ out rm, readUsercmdFields H m2 (xorInt key st) from_ st = .ok (out, rm) →
        out.serverTime = st) := by
  refine ⟨?_, ?_, ?_⟩
  · obtain ⟨cU, sU⟩ := usercmd_codec L key from_ to_
      (decodedTime_eq from_ to_ htyped.1 h0 h1)
    obtain ⟨m2, e, hread⟩ := Codec.run cU sU m hov hoob hI
    refine ⟨m2, e, fun hov2 rc hrc => ?_⟩
    obtain ⟨rc2, _, hr⟩ := hread hov2 rc hrc
    exact ⟨_, _, hr, decodedUsercmd_eq from_ to_ htyped hang hdt hmove⟩
  · intro hns
    simp only [MSG_WriteDeltaUsercmdKey, hns, if_false]
  · intro msg st m1 c m2 ht hc hc0
    constructor
    · show (readUsercmdTime H msg from_ >>= fun p => MSG_ReadBits H p.2 1 >>= fun q =>
        if q.1 ≠ 0 then readUsercmdFields H q.2 (xorInt key p.1) from_ p.1
        else pure ({ from_ with serverTime := p.1 }, q.2)) = _
      rw [ht]
      show (MSG_ReadBits H m1 1 >>= fun q =>
        if q.1 ≠ 0 then readUsercmdFields H q.2 (xorInt key st) from_ st
        else pure ({ from_ with serverTime := st }, q.2)) = _
      rw [hc]
      show (if c ≠ 0 then readUsercmdFields H m2 (xorInt key st) from_ st
        else pure ({ from_ with serverTime := st }, m2)) = _
      rw [if_pos hc0]
    · intro out rm h
      unfold readUsercmdFields at h
      obtain ⟨p0, _, h⟩ := bind_eq_ok h
      obtain ⟨p1, _, h⟩ := bind_eq_ok h
      obtain ⟨p2, _, h⟩ := bind_eq_ok h
      obtain ⟨p3, _, h⟩ := bind_eq_ok h
      obtain ⟨p4, _, h⟩ := bind_eq_ok h
      obtain ⟨p5, _, h⟩ := bind_eq_ok h
      obtain ⟨p6, _, h⟩ := bind_eq_ok h
      obtain ⟨p7, _, h⟩ := bind_eq_ok h
      obtain ⟨p8, _, h⟩ := bind_eq_ok h
      obtain ⟨p9, _, h⟩ := bind_eq_ok h
      obtain ⟨p10, _, h⟩ := bind_eq_ok h
      obtain ⟨p11, _, h⟩ := bind_eq_ok h
      cases h
      rfl

set_option maxRecDepth 8000 in
theorem C29_usercmd_round_trip_witness :
    HuffLaws rawCodec cleanAt ∧
    msg64.overflowed = false ∧ msg64.oob = false ∧ cleanAt msg64.data msg64.bit ∧
    usercmdTyped sampleUsercmd ∧
    (0 ≤ sampleUsercmd.serverTime - zeroUsercmd.serverTime ∧
      sampleUsercmd.serverTime - zeroUsercmd.serverTime < 2147483648) ∧
    (∀ i, i < 3 → 0 ≤ sampleUsercmd.angles i ∧ sampleUsercmd.angles i ≤ 65535) ∧
    (0 ≤ sampleUsercmd.doubleTap ∧ sampleUsercmd.doubleTap ≤ 7) ∧
    (sampleUsercmd.forwardmove ≠ -128 ∧ sampleUsercmd.rightmove ≠ -128 ∧
      sampleUsercmd.upmove ≠ -128) ∧
    (∃ m2, MSG_WriteDeltaUsercmdKey rawCodec msg64 777 zeroUsercmd sampleUsercmd = .ok m2 ∧
      (m2.overflowed = false → ∀ rc, rc ≤ m2.cursize → ∃ out rm2,
        MSG_ReadDeltaUsercmdKey rawCodec { m2 with bit := msg64.bit, readcount := rc } 777
          zeroUsercmd = .ok (out, rm2) ∧
        out.serverTime = sampleUsercmd.serverTime ∧
        (∀ i, i < 3 → out.angles i = sampleUsercmd.angles i) ∧
        out.forwardmove = sampleUsercmd.forwardmove ∧
        out.rightmove = sampleUsercmd.rightmove ∧
        out.upmove = sampleUsercmd.upmove ∧ out.buttons = sampleUsercmd.buttons ∧
        out.wbuttons = sampleUsercmd.wbuttons ∧ out.weapon = sampleUsercmd.weapon ∧
        out.flags = sampleUsercmd.flags ∧
        out.doubleTap = sampleUsercmd.doubleTap ∧
        out.identClient = sampleUsercmd.identClient)) ∧
    (valueOf (usercmdRoundTrip rawCodec 777 zeroUsercmd sampleUsercmd)).map
      (fun c => (c.serverTime, c.angles 0, c.angles 1, c.angles 2, c.forwardmove))
      = some (1000, 100, 200, 65535, 127) ∧
    (valueOf (usercmdRoundTrip rawCodec 777 zeroUsercmd sampleUsercmd)).map
      (fun c => (c.rightmove, c.upmove, c.buttons, c.weapon, c.doubleTap))
      = some (-127, 5, 1, 9, 3) :=
  ⟨rawCodec_laws, rfl, rfl, fun h => absurd rfl h, by decide, by decide,
    (by intro i hi; interval_cases i <;> decide), by decide, by decide,
    (C29_usercmd_round_trip rawCodec_laws msg64 777 zeroUsercmd sampleUsercmd rfl rfl
      (fun h => absurd rfl h) (by decide) (by decide) (by decide)
      (by intro i hi; interval_cases i <;> decide) (by decide) (by decide)).1,
    by decide, by decide⟩

/-- C28: the construction of the Huffman table. `MSG_initHuffman` applies
`Huff_addRef` to the compressor and to the decompressor with the same
sequence of symbols, `refSequence`: for each byte value `i` from 0 to 255 in
ascending order, `msg_hData[i]` references of `i`. The table has 256
weights, each at least 1, so every byte value occurs in the sequence. -/
theorem C28_huffman_init {σ : Type} (Huff_Init : σ × σ) (Huff_addRef : σ → Nat → σ) :
    MSG_initHuffman Huff_Init Huff_addRef
      = (refSequence.foldl Huff_addRef Huff_Init.1, refSequence.foldl Huff_addRef Huff_Init.2) ∧
    MSG_initHuffman (([] : List Nat), ([] : List Nat)) (fun s ch => s ++ [ch])
      = (refSequence, refSequence) ∧
    msg_hData.length = 256 ∧
    (∀ w ∈ msg_hData, 1 ≤ w) ∧
    (∀ i, i < 256 → i ∈ refSequence) ∧
    (∀ c ∈ refSequence, c < 256) := by
  have hgen : ∀ {τ : Type} (init : τ × τ) (addRef : τ → Nat → τ),
      MSG_initHuffman init addRef
        = (refSequence.foldl addRef init.1, refSequence.foldl addRef init.2) := by
    intro τ init addRef
    unfold MSG_initHuffman
    rw [initLoop_foldl, refSequence_eq]
  have hsnoc : ∀ (l acc : List Nat), l.foldl (fun s ch => s ++ [ch]) acc = acc ++ l := by
    intro l
    induction l with
    | nil => intro acc; simp
    | cons a rest ih => intro acc; simp [ih]
  refine ⟨hgen _ _, ?_, msg_hData_length, msg_hData_positive, ?_, ?_⟩
  · rw [hgen, hsnoc]
    rfl
  · intro i hi
    unfold refSequence
    rw [List.mem_flatMap]
    refine ⟨i, List.mem_range.mpr hi, ?_⟩
    have hlt : i < msg_hData.length := by rw [msg_hData_length]; exact hi
    have hw : 1 ≤ msg_hData.getD i 0 := by
      rw [List.getD_eq_getElem _ _ hlt]
      exact msg_hData_positive _ (List.getElem_mem _)
    rw [List.mem_replicate]
    exact ⟨by omega, rfl⟩
  · intro c hc
    unfold refSequence at hc
    rw [List.mem_flatMap] at hc
    obtain ⟨i, hi, hc⟩ := hc
    rw [List.mem_replicate] at hc
    rw [hc.2]
    exact List.mem_range.mp hi

/-- C27: `MSG_HashKey` is invariant under the sanitisation. For every
string `s`, every `maxlen` and every `strip`, the hash of `s` with every
`'%'` and, when `strip` is set, every character with the high bit set
replaced by `'.'` is the hash of `s` (the sums wrap at 32 bits). For
"100%health" and "100.health" the hash is the same. -/
theorem C27_hash_invariant (s : List Int) (maxlen strip : Int) :
    MSG_HashKey (s.map (hashSanitize strip)) maxlen strip = MSG_HashKey s maxlen strip ∧
    MSG_HashKey [49, 48, 48, 37, 104, 101, 97, 108, 116, 104] 64 0
      = MSG_HashKey [49, 48, 48, 46, 104, 101, 97, 108, 116, 104] 64 0 ∧
    [49, 48, 48, 37, 104, 101, 97, 108, 116, 104].map (hashSanitize 0)
      = [49, 48, 48, 46, 104, 101, 97, 108, 116, 104] := by
  refine ⟨?_, by decide, by decide⟩
  unfold MSG_HashKey
  simp only [List.length_map, hashLoop_sanitize]

/-- C25: the string writers and oversize input. `MSG_WriteString` given a
null pointer or a string of length at least `MAX_STRING_CHARS`, and
`MSG_WriteBigString` given a null pointer or a string of length at least
`BIG_INFO_STRING`, is one `MSG_WriteByte` of 0. For a shorter string `s`
they make `strlen(s) + 1` calls of `MSG_WriteByte`, the last with the value
0; out of band, with room for them, `cursize` grows by `strlen(s) + 1` and
the last byte stored is 0. `Q_SafeNetString(string, l, strip)` is assumed to
leave `string[l]` as it is. -/
theorem C25_string_writers (H : huffman_t) (Q : qshared_t) (msg : msg_t) (s : List Nat)
    (hQ : ∀ b n strip, (Q.Q_SafeNetString b n strip).getD n 0 = b.getD n 0) :
    (MSG_WriteString H Q msg none = MSG_WriteByte H msg 0 ∧
      MSG_WriteBigString H Q msg none = MSG_WriteByte H msg 0) ∧
    (s.length ≥ Q.MAX_STRING_CHARS →
      MSG_WriteString H Q msg (some s) = MSG_WriteByte H msg 0) ∧
    (s.length ≥ Q.BIG_INFO_STRING →
      MSG_WriteBigString H Q msg (some s) = MSG_WriteByte H msg 0) ∧
    (s.length < Q.MAX_STRING_CHARS → ∃ bytes : List Nat, bytes.length = s.length + 1 ∧
      bytes.getD s.length 1 = 0 ∧
      MSG_WriteString H Q msg (some s)
        = writeBitsSeq H (bytes.map (fun b => (((b : Nat) : Int), (8 : Int)))) msg) ∧
    (s.length < Q.BIG_INFO_STRING → ∃ bytes : List Nat, bytes.length = s.length + 1 ∧
      bytes.getD s.length 1 = 0 ∧
      MSG_WriteBigString H Q msg (some s)
        = writeBitsSeq H (bytes.map (fun b => (((b : Nat) : Int), (8 : Int)))) msg) ∧
    (s.length < Q.MAX_STRING_CHARS → msg.oob = true → msg.overflowed = false →
      msg.cursize + (s.length + 1) ≤ msg.maxsize →
      ∃ m2, MSG_WriteString H Q msg (some s) = .ok m2 ∧
        m2.cursize = msg.cursize + (s.length + 1) ∧ m2.overflowed = false ∧
        m2.data (msg.cursize + s.length) = 0 ∧
        (∀ j, j < msg.cursize → m2.data j = msg.data j)) ∧
    (s.length < Q.BIG_INFO_STRING → msg.oob = true → msg.overflowed = false →
      msg.cursize + (s.length + 1) ≤ msg.maxsize →
      ∃ m2, MSG_WriteBigString H Q msg (some s) = .ok m2 ∧
        m2.cursize = msg.cursize + (s.length + 1) ∧ m2.overflowed = false ∧
        m2.data (msg.cursize + s.length) = 0 ∧
        (∀ j, j < msg.cursize → m2.data j = msg.data j)) ∧
    (msg.oob = true → msg.overflowed = false → msg.cursize + 1 ≤ msg.maxsize →
      MSG_WriteByte H msg 0 = .ok { msg with
        uncompsize := msg.uncompsize + 8,
        data := Function.update msg.data msg.cursize 0,
        cursize := msg.cursize + 1, bit := msg.bit + 8 }) := by
  obtain ⟨a1, a2, a3, a4⟩ := writeStringSized_spec H Q Q.MAX_STRING_CHARS msg s hQ
  obtain ⟨b1, b2, b3, b4⟩ := writeStringSized_spec H Q Q.BIG_INFO_STRING msg s hQ
  refine ⟨⟨a1, b1⟩, a2, b2, a3, b3, a4, b4, ?_⟩
  intro ho hov hroom
  exact MSG_WriteBits_oob8 H msg 0 ho hov hroom

set_option maxRecDepth 100000 in
theorem C25_string_writers_witness :
    (∀ b n strip, (plainQ.Q_SafeNetString b n strip).getD n 0 = b.getD n 0) ∧
    (∃ bytes : List Nat, bytes.length = healthString.length + 1 ∧
      bytes.getD healthString.length 1 = 0 ∧
      MSG_WriteString rawCodec plainQ oob64 (some healthString)
        = writeBitsSeq rawCodec (bytes.map (fun b => (((b : Nat) : Int), (8 : Int)))) oob64) ∧
    (msgOf (MSG_WriteString rawCodec plainQ oob64 (some healthString))).map
      (fun m => (m.cursize, m.data 0, m.data 3, m.data 9, m.data 10)) = some (11, 49, 37, 104, 0) ∧
    (msgOf (MSG_WriteString rawCodec plainQ oob64 (some (List.replicate 1024 65)))).map
      (fun m => (m.cursize, m.data 0)) = some (1, 0) ∧
    (msgOf (MSG_WriteString rawCodec plainQ oob64 none)).map
      (fun m => (m.cursize, m.data 0)) = some (1, 0) :=
  ⟨fun _ _ _ => rfl,
    (C25_string_writers rawCodec plainQ oob64 healthString (fun _ _ _ => rfl)).2.2.2.1
      (by decide),
    by decide, by decide, by decide⟩

/-- C24: string sanitisation on read. For every message whose next bytes
(as `MSG_ReadByte` returns them) are `b_0 ... b_(n-1)`, none of them 0 or
the end-of-data value -1, followed by a zero byte, with
`n < MAX_STRING_CHARS`, `MSG_ReadString` returns the `n` characters whose
`i`-th is `'.'` if `b_i` is `'%'`, or if `strip` is set and `b_i >= 0x80`,
and is `b_i` otherwise, and leaves the message after the zero byte; the
same holds for `MSG_ReadBigString` with `BIG_INFO_STRING`. Whatever the
message, a string that either function returns holds no `'%'` and, with
`strip` set, no byte `>= 0x80`. -/
theorem C24_read_string (H : huffman_t) (Q : qshared_t) (msg msg2 : msg_t) (bs : List Int)
    (hbytes : nextBytes H (bs ++ [0]) msg msg2) (hnz : ∀ b ∈ bs, b ≠ 0 ∧ b ≠ -1) :
    (bs.length < Q.MAX_STRING_CHARS →
      MSG_ReadString H Q msg = .ok (bs.map (specSanitize msg.strip), msg2)) ∧
    (bs.length < Q.BIG_INFO_STRING →
      MSG_ReadBigString H Q msg = .ok (bs.map (specSanitize msg.strip), msg2)) ∧
    (bs.map (specSanitize msg.strip)).length = bs.length ∧
    (∀ c ∈ bs.map (specSanitize msg.strip), c ≠ 37 ∧ (msg.strip = true → c < 128)) ∧
    (∀ (m m2 : msg_t) (s : List Int),
      (MSG_ReadString H Q m = .ok (s, m2) ∨ MSG_ReadBigString H Q m = .ok (s, m2)) →
      ∀ c ∈ s, c ≠ 37 ∧ (m.strip = true → c < 128)) := by
  have hclean : ∀ (m m2 : msg_t) (s : List Int),
      (MSG_ReadString H Q m = .ok (s, m2) ∨ MSG_ReadBigString H Q m = .ok (s, m2)) →
      ∀ c ∈ s, c ≠ 37 ∧ (m.strip = true → c < 128) := by
    intro m m2 s h c hc
    rcases h with h | h
    · obtain ⟨a1, _, _, a4⟩ := (readStringLoop_clean H _ m m2 s h).2.2 c hc
      exact ⟨a1, a4⟩
    · obtain ⟨a1, _, _, a4⟩ := (readStringLoop_clean H _ m m2 s h).2.2 c hc
      exact ⟨a1, a4⟩
  refine ⟨?_, ?_, by simp, ?_, hclean⟩
  · intro hlen
    exact readStringLoop_spec H bs _ msg msg2 hbytes hnz (by omega)
  · intro hlen
    exact readStringLoop_spec H bs _ msg msg2 hbytes hnz (by omega)
  · have := readStringLoop_spec H bs bs.length msg msg2 hbytes hnz (le_refl _)
    intro c hc
    obtain ⟨a1, _, _, a4⟩ := (readStringLoop_clean H _ msg msg2 _ this).2.2 c hc
    exact ⟨a1, a4⟩

set_option maxRecDepth 100000 in
theorem C24_read_string_witness :
    nextBytes rawCodec ([49, 48, 48, 37, 104, 101, 97, 108, 116, 104] ++ [0])
      (oobMsgOf healthString false)
      { oobMsgOf healthString false with readcount := 11, bit := 88 } ∧
    (∀ b ∈ ([49, 48, 48, 37, 104, 101, 97, 108, 116, 104] : List Int), b ≠ 0 ∧ b ≠ -1) ∧
    MSG_ReadString rawCodec plainQ (oobMsgOf healthString false)
      = .ok (([49, 48, 48, 37, 104, 101, 97, 108, 116, 104] : List Int).map
          (specSanitize (oobMsgOf healthString false).strip),
        { oobMsgOf healthString false with readcount := 11, bit := 88 }) ∧
    ([49, 48, 48, 37, 104, 101, 97, 108, 116, 104] : List Int).map (specSanitize false)
      = [49, 48, 48, 46, 104, 101, 97, 108, 116, 104] ∧
    valueOf (stringRoundTrip rawCodec plainQ healthString false)
      = some [49, 48, 48, 46, 104, 101, 97, 108, 116, 104] ∧
    valueOf (MSG_ReadString rawCodec plainQ (oobMsgOf [200, 37, 65] true))
      = some [46, 46, 65] ∧
    valueOf (MSG_ReadString rawCodec plainQ (oobMsgOf [200, 37, 65] false))
      = some [200, 46, 65] :=
  ⟨⟨_, rfl, _, rfl, _, rfl, _, rfl, _, rfl, _, rfl, _, rfl, _, rfl, _, rfl, _, rfl, _, rfl, rfl⟩,
    by decide,
    (C24_read_string rawCodec plainQ (oobMsgOf healthString false)
      { oobMsgOf healthString false with readcount := 11, bit := 88 }
      [49, 48, 48, 37, 104, 101, 97, 108, 116, 104]
      ⟨_, rfl, _, rfl, _, rfl, _, rfl, _, rfl, _, rfl, _, rfl, _, rfl, _, rfl, _, rfl, _, rfl, rfl⟩
      (by decide)).1 (by decide),
    by decide, by decide, by decide, by decide⟩

/-- C34: key independence of the no-change fast path. For every pair of
commands that agree in every member other than `serverTime`,
`MSG_WriteDeltaUsercmdKey` is the writing of the time followed by one 0 bit,
in which the key plays no part: with two keys, from the same buffer, the
calls of `MSG_WriteBits` and the result are the same. -/
theorem C34_fast_path_key_free (H : huffman_t) (m : msg_t) (from_ to_ : usercmd_t)
    (hsame : usercmdSame from_ to_) :
    (∀ key, MSG_WriteDeltaUsercmdKey H m key from_ to_
      = (writeUsercmdTime H m from_ to_ >>= fun m => MSG_WriteBits H m 0 1)) ∧
    (∀ k1 k2, MSG_WriteDeltaUsercmdKey H m k1 from_ to_
      = MSG_WriteDeltaUsercmdKey H m k2 from_ to_) ∧
    writeUsercmdTime H m from_ to_
      = (if toI32 (toU32 (to_.serverTime - from_.serverTime)) < 256 then
          writeBitsSeq H [(1, 1), (toI32 (toU32 (to_.serverTime - from_.serverTime)), 8)] m
        else writeBitsSeq H [(0, 1), (to_.serverTime, 32)] m) := by
  have h1 : ∀ key, MSG_WriteDeltaUsercmdKey H m key from_ to_
      = (writeUsercmdTime H m from_ to_ >>= fun m => MSG_WriteBits H m 0 1) := by
    intro key
    simp only [MSG_WriteDeltaUsercmdKey, hsame, if_true]
  refine ⟨h1, fun k1 k2 => by rw [h1 k1, h1 k2], ?_⟩
  unfold writeUsercmdTime
  by_cases h : toI32 (toU32 (to_.serverTime - from_.serverTime)) < 256
  · simp [h, writeBitsSeq]
  · simp [h, writeBitsSeq]

set_option maxRecDepth 8000 in
theorem C34_fast_path_key_free_witness :
    usercmdSame sampleUsercmd { sampleUsercmd with serverTime := 2000 } ∧
    (∀ k1 k2, MSG_WriteDeltaUsercmdKey rawCodec msg64 k1 sampleUsercmd
        { sampleUsercmd with serverTime := 2000 }
      = MSG_WriteDeltaUsercmdKey rawCodec msg64 k2 sampleUsercmd
        { sampleUsercmd with serverTime := 2000 }) ∧
    (msgOf (MSG_WriteDeltaUsercmdKey rawCodec msg64 777 sampleUsercmd
        { sampleUsercmd with serverTime := 2000 })).map
      (fun m => (m.bit, m.data 0, m.data 1, m.data 2, m.data 3, m.data 4))
      = some (34, 160, 15, 0, 0, 0) ∧
    (msgOf (MSG_WriteDeltaKey rawCodec msg64 1 0 5 8)).map (fun m => m.data 0)
      ≠ (msgOf (MSG_WriteDeltaKey rawCodec msg64 2 0 5 8)).map (fun m => m.data 0) :=
  ⟨by decide,
    (C34_fast_path_key_free rawCodec msg64 sampleUsercmd
      { sampleUsercmd with serverTime := 2000 } (by decide)).2.1,
    by decide, by decide⟩

/-- C36: entity decode on an exhausted buffer. For every `from` and every
message whose read cursor is past the end (`readcount > cursize`),
`MSG_ReadDeltaEntity` with a number in range returns `from` with `number`
replaced by the number given, and `MSG_ReadDeltaSharedEntity` returns
`from`; neither raises an error, the message is left as it was, and the
result does not depend on the data bytes, none of which is read. -/
theorem C36_exhausted_entity (H : huffman_t) (K : constants_t) (msg : msg_t)
    (f t0 : entityState_t) (fs ts0 : entityShared_t) (number : Int)
    (hpast : msg.readcount > msg.cursize)
    (hnum : ¬ (number < 0 ∨ number ≥ K.MAX_GENTITIES)) :
    MSG_ReadDeltaEntity H K msg f t0 number = .ok ({ f with number := number }, msg) ∧
    MSG_ReadDeltaSharedEntity H K msg fs ts0 = .ok (fs, msg) ∧
    (∀ d : Nat → Nat,
      MSG_ReadDeltaEntity H K { msg with data := d } f t0 number
        = .ok ({ f with number := number }, { msg with data := d }) ∧
      MSG_ReadDeltaSharedEntity H K { msg with data := d } fs ts0
        = .ok (fs, { msg with data := d })) := by
  have hE : ∀ m : msg_t, m.readcount > m.cursize →
      MSG_ReadDeltaEntity H K m f t0 number = .ok ({ f with number := number }, m) := by
    intro m hm
    simp [MSG_ReadDeltaEntity, hnum, MSG_ReadBits_past H m 1 hm, bind, Except.bind, pure,
      Except.pure]
  have hS : ∀ m : msg_t, m.readcount > m.cursize →
      MSG_ReadDeltaSharedEntity H K m fs ts0 = .ok (fs, m) := by
    intro m hm
    simp [MSG_ReadDeltaSharedEntity, MSG_ReadBits_past H m 1 hm, bind, Except.bind, pure,
      Except.pure]
  exact ⟨hE msg hpast, hS msg hpast, fun d => ⟨hE _ hpast, hS _ hpast⟩⟩

theorem C36_exhausted_entity_witness :
    ({ msgOfByte 255 with readcount := 65 } : msg_t).readcount
      > ({ msgOfByte 255 with readcount := 65 } : msg_t).cursize ∧
    ¬ ((7 : Int) < 0 ∨ (7 : Int) ≥ etl_constants.MAX_GENTITIES) ∧
    MSG_ReadDeltaEntity rawCodec etl_constants { msgOfByte 255 with readcount := 65 }
        sampleEntity zeroEntity 7
      = .ok ({ sampleEntity with number := 7 }, { msgOfByte 255 with readcount := 65 }) ∧
    MSG_ReadDeltaSharedEntity rawCodec etl_constants { msgOfByte 255 with readcount := 65 }
        zeroShared zeroShared
      = .ok (zeroShared, { msgOfByte 255 with readcount := 65 }) :=
  ⟨by decide, by decide,
    (C36_exhausted_entity rawCodec etl_constants { msgOfByte 255 with readcount := 65 }
      sampleEntity zeroEntity zeroShared zeroShared 7 (by decide) (by decide)).1,
    rfl⟩

/-- C37 (amended): player-state decode on an exhausted buffer. For every
`from` and every message whose read cursor is past the end
(`readcount > cursize`), `MSG_ReadByte` returns -1 for the field count and
`MSG_ReadDeltaPlayerstate` raises the "invalid playerState field count"
error, the message being left as it was. What follows the field count is
graceful: on such a message the field loop over any entries reads every
field as unchanged and copies the cells of `from`, and the three array
groups read their flags as 0 and leave the record as it is. -/
theorem C37_exhausted_player (H : huffman_t) (K : constants_t) (msg : msg_t)
    (from_ : Option playerState_t) (hpast : msg.readcount > msg.cursize) :
    MSG_ReadDeltaPlayerstate H K msg from_
      = .error (.ERR_DROP "invalid playerState field count") ∧
    MSG_ReadByte H msg = .ok (-1, msg) ∧
    (∀ (fields : List netField_t) (fromC toC : Nat → Int),
      readFields (readPlayerField H) fromC fields toC msg
        = .ok (copyTailFields fromC fields toC, msg)) ∧
    (∀ t : playerState_t,
      readStatsGroup H K msg t = .ok (t, msg) ∧ readAmmoGroup H msg t = .ok (t, msg) ∧
      readClipGroup H msg t = .ok (t, msg)) := by
  refine ⟨?_, MSG_ReadByte_past H msg hpast, ?_, fun t => groups_past H K msg t hpast⟩
  · have he : MSG_ReadDeltaPlayerstate H K msg from_
        = (readDeltaTable H (readPlayerField H) (playerStateFields K)
            "invalid playerState field count" msg (from_.getD zeroPlayerState).cells
            (from_.getD zeroPlayerState).cells >>= fun p =>
            readStatsGroup H K p.2 { from_.getD zeroPlayerState with cells := p.1 } >>= fun q =>
            readAmmoGroup H q.2 q.1 >>= fun r => readClipGroup H r.2 r.1) := rfl
    rw [he, readDeltaTable_lc H _ _ _ msg msg _ _ (-1) (MSG_ReadByte_past H msg hpast),
      if_pos (Or.inr (by decide))]
    rfl
  · intro fields fromC toC
    exact readFields_past _ msg (fun f v => readPlayerField_past H msg f v hpast) fromC fields toC

theorem C37_exhausted_player_witness :
    ({ msgOfByte 0 with readcount := 65 } : msg_t).readcount
      > ({ msgOfByte 0 with readcount := 65 } : msg_t).cursize ∧
    MSG_ReadDeltaPlayerstate rawCodec etl_constants { msgOfByte 0 with readcount := 65 } none
      = .error (.ERR_DROP "invalid playerState field count") ∧
    MSG_ReadByte rawCodec { msgOfByte 0 with readcount := 65 }
      = .ok (-1, { msgOfByte 0 with readcount := 65 }) :=
  ⟨by decide,
    (C37_exhausted_player rawCodec etl_constants { msgOfByte 0 with readcount := 65 } none
      (by decide)).1,
    rfl⟩

/-- Counterexample to C37 as stated: on a message whose read cursor is past
the end (65 with 64 bytes), `MSG_ReadDeltaPlayerstate` with a non-null
`from` does not return a record, it raises the "invalid playerState field
count" error; out of band as well. On the same message
`MSG_ReadDeltaSharedEntity` returns `from`. -/
theorem C37_counterexample :
    MSG_ReadDeltaPlayerstate rawCodec etl_constants { msgOfByte 0 with readcount := 65 }
        (some samplePlayer)
      = .error (.ERR_DROP "invalid playerState field count") ∧
    MSG_ReadDeltaPlayerstate rawCodec etl_constants
        { oobMsgOf [] false with readcount := 65 } (some samplePlayer)
      = .error (.ERR_DROP "invalid playerState field count") ∧
    MSG_ReadDeltaSharedEntity rawCodec etl_constants { msgOfByte 0 with readcount := 65 }
        zeroShared zeroShared
      = .ok (zeroShared, { msgOfByte 0 with readcount := 65 }) := by
  refine ⟨rfl, rfl, rfl⟩

/-- C38 (the code at the failing input): the no-op encode of the reduced
entity-shared codec. Encoding the all-zero record against itself with
`force = false` into a fresh bitstream buffer of 64 bytes leaves the bit
cursor at 8, `cursize` at 2, the first data byte at 0x77 and `uncompsize` at
8, where they were 0, 0, 0 and 0; into a fresh out-of-band buffer it stores
the byte 0x77 and leaves `cursize` at 1. The statement
`MSG_WriteBits(msg, 0x77, 8)` stands before the test of `lc`, so for every
codec, every buffer and every pair of records equal in the cells of
`ettventitySharedFields` the call is that one write, although the return
taken is commented "nothing at all". The sibling
`MSG_WriteDeltaSharedEntity` does what the claim says: with records equal
in the cells of its table and `force = false` it returns the buffer as it
was. -/
theorem C38_magic_byte_slip :
    (msgOf (MSG_ETTV_WriteDeltaSharedEntity rawCodec msg64 (some zeroShared)
      (some zeroShared) false)).map (fun m => (m.bit, m.cursize, m.data 0, m.uncompsize))
      = some (8, 2, 119, 8) ∧
    (msg64.bit, msg64.cursize, msg64.data 0, msg64.uncompsize) = (0, 0, 0, 0) ∧
    (msgOf (MSG_ETTV_WriteDeltaSharedEntity rawCodec oob64 (some zeroShared)
      (some zeroShared) false)).map (fun m => (m.bit, m.cursize, m.data 0, m.uncompsize))
      = some (8, 1, 119, 8) ∧
    (oob64.bit, oob64.cursize, oob64.data 0, oob64.uncompsize) = (0, 0, 0, 0) ∧
    (∀ (H : huffman_t) (m : msg_t) (from_ to_ : entityShared_t),
      (∀ fld ∈ ettventitySharedFields, from_.cells fld.offset = to_.cells fld.offset) →
      MSG_ETTV_WriteDeltaSharedEntity H m (some from_) (some to_) false
        = MSG_WriteBits H m 0x77 8) ∧
    (∀ (H : huffman_t) (K : constants_t) (m : msg_t) (from_ to_ : entityShared_t)
        (number : Int),
      (∀ fld ∈ entitySharedFields K, from_.cells fld.offset = to_.cells fld.offset) →
      MSG_WriteDeltaSharedEntity H K m from_ to_ false number = .ok m) := by
  refine ⟨by decide, by decide, by decide, by decide, ?_, ?_⟩
  · intro H m from_ to_ hsame
    have hlc : lastChangedLoop from_.cells to_.cells ettventitySharedFields 0 0 = 0 :=
      (lastChanged_eq_zero _ _ _).mpr hsame
    simp [MSG_ETTV_WriteDeltaSharedEntity, hlc]
  · intro H K m from_ to_ number hsame
    have hlc : lastChangedLoop from_.cells to_.cells (entitySharedFields K) 0 0 = 0 :=
      (lastChanged_eq_zero _ _ _).mpr hsame
    simp [MSG_WriteDeltaSharedEntity, hlc]
    rfl

/-- C33: the encoding of an unchanged player state. When `to_` equals
`from_` (a null `from_` being the all-zero state) in every table cell and
in the entries of the six arrays, `MSG_WriteDeltaPlayerstate` is exactly the
calls of `MSG_WriteBits` with the byte 0 (`lc`) and six single 0 bits: one
for the group of `stats`, `persistant`, `holdable` and `powerups`, one for
the stored ammo and one for each of the four clip banks; the widths add up
to 14 and `uncompsize` grows by 14. In the two groups with an outer flag the
inner blocks are written only after an outer flag 1: with all masks zero the
group is the single 0 bit. -/
theorem C33_unchanged_player (H : huffman_t) (K : constants_t) (m : msg_t)
    (from_ : Option playerState_t) (to_ : playerState_t)
    (hcells : ∀ fld ∈ playerStateFields K,
      (from_.getD zeroPlayerState).cells fld.offset = to_.cells fld.offset)
    (hstats : ∀ i, i < K.MAX_STATS → to_.stats i = (from_.getD zeroPlayerState).stats i)
    (hpers : ∀ i, i < K.MAX_PERSISTANT →
      to_.persistant i = (from_.getD zeroPlayerState).persistant i)
    (hhold : ∀ i, i < K.MAX_HOLDABLE →
      to_.holdable i = (from_.getD zeroPlayerState).holdable i)
    (hpow : ∀ i, i < K.MAX_POWERUPS →
      to_.powerups i = (from_.getD zeroPlayerState).powerups i)
    (hammo : ∀ i, i < 64 → to_.ammo i = (from_.getD zeroPlayerState).ammo i)
    (hclip : ∀ i, i < 64 → to_.ammoclip i = (from_.getD zeroPlayerState).ammoclip i) :
    MSG_WriteDeltaPlayerstate H K m from_ to_
      = writeBitsSeq H [(0, 8), (0, 1), (0, 1), (0, 1), (0, 1), (0, 1), (0, 1)] m ∧
    ((8 : Int) + 1 + 1 + 1 + 1 + 1 + 1 = 14) ∧
    (∀ m2, MSG_WriteDeltaPlayerstate H K m from_ to_ = .ok m2 →
      m2.uncompsize = m.uncompsize + 14) ∧
    (m.oob = false → ∃ m2, MSG_WriteDeltaPlayerstate H K m from_ to_ = .ok m2) ∧
    (∀ (f t : playerState_t) (m1 : msg_t),
      (changeMask f.stats t.stats 0 K.MAX_STATS = 0 ∧
        changeMask f.persistant t.persistant 0 K.MAX_PERSISTANT = 0 ∧
        changeMask f.holdable t.holdable 0 K.MAX_HOLDABLE = 0 ∧
        changeMask f.powerups t.powerups 0 K.MAX_POWERUPS = 0 →
        writeStatsGroup H K m1 f t = MSG_WriteBits H m1 0 1) ∧
      (changeMask f.ammo t.ammo 0 16 = 0 ∧ changeMask f.ammo t.ammo 16 16 = 0 ∧
        changeMask f.ammo t.ammo 32 16 = 0 ∧ changeMask f.ammo t.ammo 48 16 = 0 →
        writeAmmoGroup H m1 f t = MSG_WriteBits H m1 0 1)) := by
  set f := from_.getD zeroPlayerState with hf
  have hlc : lastChangedLoop f.cells to_.cells (playerStateFields K) 0 0 = 0 :=
    (lastChanged_eq_zero _ _ _).mpr hcells
  have s1 := changeMask_same f.stats to_.stats 0 K.MAX_STATS (fun i hi => by simpa using hstats i hi)
  have s2 := changeMask_same f.persistant to_.persistant 0 K.MAX_PERSISTANT
    (fun i hi => by simpa using hpers i hi)
  have s3 := changeMask_same f.holdable to_.holdable 0 K.MAX_HOLDABLE
    (fun i hi => by simpa using hhold i hi)
  have s4 := changeMask_same f.powerups to_.powerups 0 K.MAX_POWERUPS
    (fun i hi => by simpa using hpow i hi)
  have a : ∀ j, j < 4 → changeMask f.ammo to_.ammo (j * 16) 16 = 0 :=
    fun j hj => changeMask_same _ _ _ _ (fun i hi => hammo _ (by omega))
  have c : ∀ j, j < 4 → changeMask f.ammoclip to_.ammoclip (j * 16) 16 = 0 :=
    fun j hj => changeMask_same _ _ _ _ (fun i hi => hclip _ (by omega))
  have heq : MSG_WriteDeltaPlayerstate H K m from_ to_
      = writeBitsSeq H [(0, 8), (0, 1), (0, 1), (0, 1), (0, 1), (0, 1), (0, 1)] m := by
    simp only [MSG_WriteDeltaPlayerstate, ← hf, hlc, writeDeltaTable, List.take_zero, writeFields,
      writeStatsGroup, s1, s2, s3, s4, writeAmmoGroup, a 0 (by norm_num), a 1 (by norm_num),
      a 2 (by norm_num), a 3 (by norm_num), writeClipGroup, writeArrayBlock,
      c 0 (by norm_num), c 1 (by norm_num), c 2 (by norm_num), c 3 (by norm_num),
      writeBitsSeq, MSG_WriteByte, ne_eq, not_true_eq_false, or_self, if_false, bind_assoc,
      pure_bind, bind_pure, Nat.cast_zero]
  refine ⟨heq, by norm_num, ?_, ?_, ?_⟩
  · intro m2 h
    rw [heq] at h
    simp only [writeBitsSeq] at h
    obtain ⟨p0, e0, h⟩ := bind_eq_ok h
    obtain ⟨p1, e1, h⟩ := bind_eq_ok h
    obtain ⟨p2, e2, h⟩ := bind_eq_ok h
    obtain ⟨p3, e3, h⟩ := bind_eq_ok h
    obtain ⟨p4, e4, h⟩ := bind_eq_ok h
    obtain ⟨p5, e5, h⟩ := bind_eq_ok h
    obtain ⟨p6, e6, h⟩ := bind_eq_ok h
    cases h
    rw [MSG_WriteBits_uncompsize H _ _ _ _ e6, MSG_WriteBits_uncompsize H _ _ _ _ e5,
      MSG_WriteBits_uncompsize H _ _ _ _ e4, MSG_WriteBits_uncompsize H _ _ _ _ e3,
      MSG_WriteBits_uncompsize H _ _ _ _ e2, MSG_WriteBits_uncompsize H _ _ _ _ e1,
      MSG_WriteBits_uncompsize H _ _ _ _ e0]
    ring
  · intro ho
    rw [heq]
    obtain ⟨m2, e, _⟩ := writeBitsSeq_total H
      [(0, 8), (0, 1), (0, 1), (0, 1), (0, 1), (0, 1), (0, 1)] m ho (by decide)
    exact ⟨m2, e⟩
  · intro f1 t1 m1
    constructor
    · rintro ⟨b1, b2, b3, b4⟩
      simp [writeStatsGroup, b1, b2, b3, b4]
    · rintro ⟨b1, b2, b3, b4⟩
      simp [writeAmmoGroup, b1, b2, b3, b4]

theorem C33_unchanged_player_witness :
    (∀ fld ∈ playerStateFields etl_constants,
      ((some samplePlayer).getD zeroPlayerState).cells fld.offset
        = samplePlayer.cells fld.offset) ∧
    MSG_WriteDeltaPlayerstate rawCodec etl_constants msg64 (some samplePlayer) samplePlayer
      = writeBitsSeq rawCodec [(0, 8), (0, 1), (0, 1), (0, 1), (0, 1), (0, 1), (0, 1)] msg64 ∧
    (msgOf (MSG_WriteDeltaPlayerstate rawCodec etl_constants msg64 (some samplePlayer)
      samplePlayer)).map (fun m => (m.bit, m.uncompsize, m.data 0, m.data 1))
      = some (14, 14, 0, 0) :=
  ⟨fun _ _ => rfl,
    (C33_unchanged_player rawCodec etl_constants msg64 (some samplePlayer) samplePlayer
      (fun _ _ => rfl) (fun _ _ => rfl) (fun _ _ => rfl) (fun _ _ => rfl) (fun _ _ => rfl)
      (fun _ _ => rfl) (fun _ _ => rfl)).1,
    by decide⟩

/-- C40: byte alignment of the uncompressed entry points. The bit cursor is
the `int` member `bit` and the code computes `(bit + 7) & ~7` in `int`. For
every bit cursor `b >= 0` for which the sum `b + 7` is an `int`,
`MSG_Uncompressed` and `MSG_BeginReadingUncompressed` return the buffer with
the bit cursor at the smallest multiple of 8 that is at least `b` (`b`
itself when it is a multiple of 8), with `oob` set and no other member
changed; applying either of them again, in any combination, gives what
applying it once gives. -/
theorem C40_byte_alignment (buf : msg_t) (hb : isInt32 ((buf.bit : Int) + 7)) :
    MSG_Uncompressed buf = some { buf with bit := (buf.bit + 7) / 8 * 8, oob := true } ∧
    MSG_BeginReadingUncompressed buf
      = some { buf with bit := (buf.bit + 7) / 8 * 8, oob := true } ∧
    (8 ∣ (buf.bit + 7) / 8 * 8 ∧ buf.bit ≤ (buf.bit + 7) / 8 * 8 ∧
      ∀ k, 8 ∣ k → buf.bit ≤ k → (buf.bit + 7) / 8 * 8 ≤ k) ∧
    (8 ∣ buf.bit → (buf.bit + 7) / 8 * 8 = buf.bit) ∧
    (MSG_Uncompressed buf).bind MSG_Uncompressed = MSG_Uncompressed buf ∧
    (MSG_BeginReadingUncompressed buf).bind MSG_BeginReadingUncompressed
      = MSG_BeginReadingUncompressed buf ∧
    (MSG_Uncompressed buf).bind MSG_BeginReadingUncompressed = MSG_Uncompressed buf ∧
    (MSG_BeginReadingUncompressed buf).bind MSG_Uncompressed
      = MSG_BeginReadingUncompressed buf := by
  have hb2 : buf.bit ≤ 2147483640 := by
    obtain ⟨_, h⟩ := hb
    omega
  have hal : ∀ b : Nat, b ≤ 2147483640 → alignBit (b : Int) = (((b + 7) / 8 * 8 : Nat) : Int) := by
    intro b hb
    rw [alignBit_eq b (by omega) (by omega)]
    omega
  have hU : ∀ m : msg_t, m.bit ≤ 2147483640 →
      MSG_Uncompressed m = some { m with bit := (m.bit + 7) / 8 * 8, oob := true } := by
    intro m hm
    unfold MSG_Uncompressed
    simp only [hal m.bit hm, Int.toNat_ofNat]
    rw [if_neg (by omega)]
  have hR : ∀ m : msg_t, m.bit ≤ 2147483640 →
      MSG_BeginReadingUncompressed m
        = some { m with bit := (m.bit + 7) / 8 * 8, oob := true } := by
    intro m hm
    unfold MSG_BeginReadingUncompressed
    simp only [hal m.bit hm, Int.toNat_ofNat]
    rw [if_neg (by omega)]
  have hidem : ((buf.bit + 7) / 8 * 8 + 7) / 8 * 8 = (buf.bit + 7) / 8 * 8 := by omega
  have hle : (buf.bit + 7) / 8 * 8 ≤ 2147483640 := by omega
  refine ⟨hU buf hb2, hR buf hb2, ⟨Dvd.intro_left _ rfl, by omega, ?_⟩, ?_, ?_, ?_, ?_, ?_⟩
  · intro k hk hle
    obtain ⟨c, rfl⟩ := hk
    omega
  · intro hd
    obtain ⟨c, hc⟩ := hd
    omega
  · rw [hU buf hb2, Option.some_bind, hU _ hle]
    simp only [hidem]
  · rw [hR buf hb2, Option.some_bind, hR _ hle]
    simp only [hidem]
  · rw [hU buf hb2, Option.some_bind, hR _ hle]
    simp only [hidem]
  · rw [hR buf hb2, Option.some_bind, hU _ hle]
    simp only [hidem]

/-- Witness of C40: the cursor 13 is moved to 16, the cursor 16 is left
where it is, and so is the largest cursor the `int` sum allows. -/
theorem C40_byte_alignment_witness :
    isInt32 ((({ msg64 with bit := 13 } : msg_t).bit : Int) + 7) ∧
    MSG_Uncompressed { msg64 with bit := 13 }
      = some { ({ msg64 with bit := 13 } : msg_t) with bit := (13 + 7) / 8 * 8, oob := true } ∧
    (MSG_Uncompressed { msg64 with bit := 13 }).map (fun m => (m.bit, m.oob))
      = some (16, true) ∧
    (MSG_Uncompressed { msg64 with bit := 16 }).map (fun m => (m.bit, m.oob))
      = some (16, true) ∧
    (MSG_BeginReadingUncompressed { msg64 with bit := 2147483640 }).map
      (fun m => (m.bit, m.oob)) = some (2147483640, true) :=
  ⟨by decide, (C40_byte_alignment { msg64 with bit := 13 } (by decide)).1,
    by decide, by decide, by decide⟩

/-- C35: the size invariant of the write side, and where it fails. In
bitstream mode two writes of 4 bits into an empty buffer of one byte leave
`overflowed` clear, the bit cursor at 8 and `cursize` at 2, one more than
`maxsize`: the test before the raw bits is `bit + nbits > maxsize << 3`,
which lets the cursor reach the end of the buffer, whereas the test after a
byte is `bit >= maxsize << 3` (a write of 8 bits into the same buffer is
flagged). This holds for every codec whose `Huff_putBit` moves the offset by
one. The rest of the claim holds: out of band, after any sequence of
`MSG_WriteBits` calls on a buffer initialised by `MSG_InitOOB`, `cursize` is
at most `maxsize`; and in bitstream mode a write of a legal width that
returns with `overflowed` clear leaves `cursize = (bit >> 3) + 1`. -/
theorem C35_cursize_slip :
    (msgOf (writeBitsSeq rawCodec [(0, 4), (0, 4)] (MSG_Init (fun _ => 0) 1))).map
      (fun m => (m.overflowed, m.cursize, m.maxsize, m.bit)) = some (false, 2, 1, 8) ∧
    (∀ op ∈ ([(0, 4), (0, 4)] : List (Int × Int)), legalWidth op.2) ∧
    (msgOf (writeBitsSeq rawCodec [(0, 8)] (MSG_Init (fun _ => 0) 1))).map
      (fun m => (m.overflowed, m.cursize, m.maxsize, m.bit)) = some (true, 0, 1, 8) ∧
    (∀ (H : huffman_t), (∀ b d o, (H.Huff_putBit b d o).2 = o + 1) →
      ∀ data : Nat → Nat, ∃ m2, writeBitsSeq H [(0, 4), (0, 4)] (MSG_Init data 1) = .ok m2 ∧
        m2.overflowed = false ∧ m2.cursize = 2 ∧ m2.maxsize = 1 ∧ m2.bit = 8) ∧
    (∀ (H : huffman_t) (data : Nat → Nat) (maxsize : Nat) (ops : List (Int × Int))
        (m2 : msg_t),
      writeBitsSeq H ops (MSG_InitOOB data maxsize) = .ok m2 → m2.cursize ≤ maxsize) ∧
    (∀ (H : huffman_t) (m m2 : msg_t) (v bits : Int), legalWidth bits →
      m.overflowed = false → m.oob = false → MSG_WriteBits H m v bits = .ok m2 →
      m2.overflowed = false → m2.cursize = (m2.bit >>> 3) + 1) := by
  refine ⟨by decide, by decide, by decide, ?_, ?_, ?_⟩
  · intro H hput data
    have h1 := write_four_bits H hput (MSG_Init data 1) 0 rfl rfl
      (by show (0 + 4 : Nat) ≤ 1 <<< 3; decide)
    have h2 := write_four_bits H hput
      { MSG_Init data 1 with
        overflowed := false,
        uncompsize := (MSG_Init data 1).uncompsize + 4,
        data := (putBitsLoop H 4 (toI32 (toU32 0 % 2 ^ 4)) (MSG_Init data 1).data
          (MSG_Init data 1).bit).1,
        bit := (MSG_Init data 1).bit + 4,
        cursize := (((MSG_Init data 1).bit + 4) >>> 3) + 1 } 0 rfl rfl
      (by show (0 + 4 + 4 : Nat) ≤ 1 <<< 3; decide)
    have h : writeBitsSeq H [(0, 4), (0, 4)] (MSG_Init data 1)
        = (MSG_WriteBits H (MSG_Init data 1) 0 4 >>= fun m => MSG_WriteBits H m 0 4) := by
      simp [writeBitsSeq]
    rw [h, h1]
    refine ⟨_, h2, rfl, ?_, rfl, ?_⟩
    · show ((0 + 4 + 4) >>> 3) + 1 = 2
      decide
    · show 0 + 4 + 4 = 8
      rfl
  · intro H data maxsize ops m2 h
    obtain ⟨a1, a2⟩ := writeBitsSeq_oob_size H ops (MSG_InitOOB data maxsize) m2 rfl
      (Nat.zero_le _) h
    rw [a1] at a2
    exact a2
  · intro H m m2 v bits hl hov hoob h hov2
    unfold legalWidth at hl
    have hw : bits = (bits.natAbs : Int) ∨ (bits = -(bits.natAbs : Int) ∧ bits.natAbs ≤ 31) := by
      omega
    exact MSG_WriteBits_cursize H m m2 v bits bits.natAbs (by omega) (by omega) hw hov hoob h
      hov2

/-- C39: bounded string reads. On every message, whatever its bytes and
wherever its read cursor, `MSG_ReadString` and `MSG_ReadStringLine` return a
string of at most `MAX_STRING_CHARS - 1` characters, which is the index of
the terminator they store, after at most `MAX_STRING_CHARS` calls of
`MSG_ReadByte`; `MSG_ReadBigString` likewise with `BIG_INFO_STRING`. On a
message of 64 bytes 'A' with no zero byte and a buffer of 4 characters,
`MSG_ReadString` returns "AAA" and has read 4 bytes. -/
theorem C39_bounded_string_reads (H : huffman_t) (Q : qshared_t) (msg : msg_t) :
    (∃ s m2 bs, MSG_ReadString H Q msg = .ok (s, m2) ∧
      s.length ≤ Q.MAX_STRING_CHARS - 1 ∧ nextBytes H bs msg m2 ∧
      bs.length ≤ Q.MAX_STRING_CHARS - 1 + 1 ∧ s.length ≤ bs.length) ∧
    (∃ s m2 bs, MSG_ReadStringLine H Q msg = .ok (s, m2) ∧
      s.length ≤ Q.MAX_STRING_CHARS - 1 ∧ nextBytes H bs msg m2 ∧
      bs.length ≤ Q.MAX_STRING_CHARS - 1 + 1 ∧ s.length ≤ bs.length) ∧
    (∃ s m2 bs, MSG_ReadBigString H Q msg = .ok (s, m2) ∧
      s.length ≤ Q.BIG_INFO_STRING - 1 ∧ nextBytes H bs msg m2 ∧
      bs.length ≤ Q.BIG_INFO_STRING - 1 + 1 ∧ s.length ≤ bs.length) ∧
    (1 ≤ Q.MAX_STRING_CHARS → Q.MAX_STRING_CHARS - 1 + 1 = Q.MAX_STRING_CHARS) ∧
    (1 ≤ Q.BIG_INFO_STRING → Q.BIG_INFO_STRING - 1 + 1 = Q.BIG_INFO_STRING) ∧
    (MSG_ReadString rawCodec { plainQ with MAX_STRING_CHARS := 4 }
        (oobMsgOf (List.replicate 64 65) false)).toOption.map
      (fun p => (p.1, p.2.readcount)) = some ([65, 65, 65], 4) ∧
    (MSG_ReadStringLine rawCodec plainQ (oobMsgOf [65, 66, 10, 67] false)).toOption.map
      (fun p => (p.1, p.2.readcount)) = some ([65, 66], 3) ∧
    (MSG_ReadString rawCodec plainQ
        { oobMsgOf [65, 66] false with readcount := 65 }).toOption.map
      (fun p => (p.1, p.2.readcount)) = some ([], 65) := by
  refine ⟨readStringLoop_total H _ msg, readStringLineLoop_total H _ msg,
    readStringLoop_total H _ msg, fun h => by omega, fun h => by omega, ?_, ?_, ?_⟩
  · decide
  · decide
  · decide

/-- C31: integer field round trip in the entity and entity-shared codecs. Both
codecs run the loop body `writeDeltaField` / `readDeltaField` on each field
of their table. For a field of declared width `w`, `1 ≤ w ≤ 32` (every
positive width of the two tables), whose cell differs between `from` and
`to`: the writer is the sequence of `MSG_WriteBits` calls `(1,1), (0,1)` when
the new value is 0 and `(1,1), (1,1), (value, w)` otherwise; on a bitstream
buffer that is not overflowed the writer returns, and the reader run on what
was written returns 0 in the first case and the new value masked to `w` bits
in the second; and that is the new value itself whenever it is a C `int`
with `0 ≤ value < 2 ^ w`. -/
theorem C31_int_field_round_trip {H : huffman_t} {Inv : (Nat → Nat) → Nat → Prop}
    (L : HuffLaws H Inv) (K : constants_t) (hK : constantsOK K)
    (field : netField_t) (fromF toF : Int) (m : msg_t)
    (hmem : field ∈ entityStateFields K ∨ field ∈ entitySharedFields K)
    (hpos : 0 < field.bits) (hne : fromF ≠ toF)
    (hov : m.overflowed = false) (hoob : m.oob = false) (hI : Inv m.data m.bit) :
    writeDeltaField H m field fromF toF =
      writeBitsSeq H (if toF = 0 then [(1, 1), (0, 1)] else [(1, 1), (1, 1), (toF, field.bits)]) m ∧
    (∃ m2, writeDeltaField H m field fromF toF = .ok m2 ∧
      (m2.overflowed = false →
        ∀ rc, rc ≤ m2.cursize → ∃ rc2, rc2 ≤ m2.cursize ∧
          readDeltaField H { m2 with bit := m.bit, readcount := rc } field fromF =
            .ok (if toF = 0 then 0 else toI32 (toU32 toF % 2 ^ field.bits.toNat),
              { m2 with readcount := rc2 }))) ∧
    (isInt32 toF → 0 ≤ toF → toF < 2 ^ field.bits.toNat →
      (if toF = 0 then 0 else toI32 (toU32 toF % 2 ^ field.bits.toNat)) = toF) := by
  have h32 : field.bits ≤ 32 := by
    rcases hmem with h | h
    · exact (entityStateFields_bits K hK field h).2
    · exact (entitySharedFields_bits K hK field h).2
  have hbn : field.bits = (field.bits.toNat : Int) := (Int.toNat_of_nonneg (by omega)).symm
  obtain ⟨cF, sF⟩ := changedInt_codec L field fromF toF field.bits.toNat hbn (by omega)
    (by omega) hne
  refine ⟨?_, Codec.run cF sF m hov hoob hI, ?_⟩
  · have hfl : field.bits ≠ 0 := by omega
    by_cases h0 : toF = 0
    · have hf0 : fromF ≠ 0 := fun h => hne (h.trans h0.symm)
      simp [writeDeltaField, writeIntField, writeBitsSeq, hf0, hfl, h0]
    · simp [writeDeltaField, writeIntField, writeBitsSeq, hne, hfl, h0]
  · intro hint h0 hlt
    by_cases hz : toF = 0
    · rw [if_pos hz, hz]
    · rw [if_neg hz]
      exact masked_fits toF field.bits.toNat hint h0 hlt

/-- Witness of C31: the entry `animMovetype` (width 4) of the entity table,
the cell going from 3 to 5, on a fresh bitstream message with the plain bit
codec. -/
theorem C31_int_field_round_trip_witness :
    HuffLaws rawCodec cleanAt ∧ constantsOK etl_constants ∧
    (netField_t.mk "animMovetype" 69 4 ∈ entityStateFields etl_constants ∨
      netField_t.mk "animMovetype" 69 4 ∈ entitySharedFields etl_constants) ∧
    (0 : Int) < (netField_t.mk "animMovetype" 69 4).bits ∧ (3 : Int) ≠ 5 ∧
    msg64.overflowed = false ∧ msg64.oob = false ∧ cleanAt msg64.data msg64.bit ∧
    (∃ m2, writeDeltaField rawCodec msg64 (netField_t.mk "animMovetype" 69 4) 3 5 = .ok m2 ∧
      (m2.overflowed = false →
        ∀ rc, rc ≤ m2.cursize → ∃ rc2, rc2 ≤ m2.cursize ∧
          readDeltaField rawCodec { m2 with bit := msg64.bit, readcount := rc }
              (netField_t.mk "animMovetype" 69 4) 3 =
            .ok (if (5 : Int) = 0 then 0
                else toI32 (toU32 5 % 2 ^ (netField_t.mk "animMovetype" 69 4).bits.toNat),
              { m2 with readcount := rc2 }))) :=
  ⟨rawCodec_laws, etl_constants_ok, Or.inl (by simp [entityStateFields]), by decide, by decide,
    rfl, rfl, fun h => absurd rfl h,
    (C31_int_field_round_trip rawCodec_laws etl_constants etl_constants_ok
      (netField_t.mk "animMovetype" 69 4) 3 5 msg64 (Or.inl (by simp [entityStateFields]))
      (by decide) (by decide) rfl rfl (fun h => absurd rfl h)).2.1⟩

/-- C32: player-state array sections round trip. For every `from_` (null
being the all-zero state) and every `to_` in which each entry of `stats`,
`persistant`, `holdable`, `ammo` and `ammoclip` is a `short` and each entry
of `powerups` an `int`, with no condition on the table cells: on a bitstream
buffer that is not overflowed `MSG_WriteDeltaPlayerstate` returns, and when
it has not overflowed, `MSG_ReadDeltaPlayerstate` on the written bits returns
a record whose six arrays equal those of `to_`, given `HuffLaws` on the
Huffman entry points and `constantsOK` on the header constants. The change
mask of a block has bit `i` set exactly when entry `i` of the block differs
between `from_` and `to_`, the mask of a block of at most 16 entries is below
`2 ^ 16`, and the writing loop sends entry `i` exactly when that bit is set;
an entry that is not sent is equal in `from_` and `to_`, so the equality of
the arrays says it keeps the value of `from_`. -/
theorem C32_player_arrays_round_trip {H : huffman_t} {Inv : (Nat → Nat) → Nat → Prop}
    (L : HuffLaws H Inv) (K : constants_t) (hK : constantsOK K) (m : msg_t)
    (from_ : Option playerState_t) (to_ : playerState_t)
    (hov : m.overflowed = false) (hoob : m.oob = false) (hI : Inv m.data m.bit)
    (hstats : ∀ i, i < K.MAX_STATS → isInt16 (to_.stats i))
    (hpers : ∀ i, i < K.MAX_PERSISTANT → isInt16 (to_.persistant i))
    (hhold : ∀ i, i < K.MAX_HOLDABLE → isInt16 (to_.holdable i))
    (hpow : ∀ i, i < K.MAX_POWERUPS → isInt32 (to_.powerups i))
    (hammo : ∀ i, i < 64 → isInt16 (to_.ammo i))
    (hclip : ∀ i, i < 64 → isInt16 (to_.ammoclip i)) :
    (∃ m2, MSG_WriteDeltaPlayerstate H K m from_ to_ = .ok m2 ∧
      (m2.overflowed = false → ∀ rc, rc ≤ m2.cursize →
        ∃ out rm2,
          MSG_ReadDeltaPlayerstate H K { m2 with bit := m.bit, readcount := rc } from_
            = .ok (out, rm2) ∧
          (∀ i, i < K.MAX_STATS → out.stats i = to_.stats i) ∧
          (∀ i, i < K.MAX_PERSISTANT → out.persistant i = to_.persistant i) ∧
          (∀ i, i < K.MAX_HOLDABLE → out.holdable i = to_.holdable i) ∧
          (∀ i, i < K.MAX_POWERUPS → out.powerups i = to_.powerups i) ∧
          (∀ i, i < 64 → out.ammo i = to_.ammo i) ∧
          (∀ i, i < 64 → out.ammoclip i = to_.ammoclip i) ∧
          rm2.bit = m2.bit)) ∧
    (∀ (fromA toA : Nat → Int) (base n i : Nat), i < n →
      (changeMask fromA toA base n &&& (1 <<< i) ≠ 0 ↔ toA (base + i) ≠ fromA (base + i))) ∧
    (∀ (fromA toA : Nat → Int) (base n : Nat), n ≤ 16 →
      changeMask fromA toA base n < 2 ^ 16) ∧
    (∀ (write : msg_t → Int → Except ComError msg_t) (fromA toA : Nat → Int)
        (base n i : Nat) (rest : List Nat) (msg : msg_t), i < n →
      writeArrayValues write (changeMask fromA toA base n) toA base (i :: rest) msg =
        if toA (base + i) ≠ fromA (base + i) then
          write msg (toA (base + i)) >>=
            writeArrayValues write (changeMask fromA toA base n) toA base rest
        else writeArrayValues write (changeMask fromA toA base n) toA base rest msg) := by
  have hbit : ∀ (fromA toA : Nat → Int) (base n i : Nat), i < n →
      (changeMask fromA toA base n &&& (1 <<< i) ≠ 0 ↔
        toA (base + i) ≠ fromA (base + i)) := by
    intro fromA toA base n i hi
    rw [maskBit_testBit, changeMask_testBit]
    exact ⟨fun h => h.2, fun h => ⟨hi, h⟩⟩
  refine ⟨?_, hbit, ?_, ?_⟩
  · obtain ⟨cells, cP, sP⟩ := player_sync L K hK from_ to_ hstats hpers hhold hpow hammo hclip
    obtain ⟨m2, e, hread⟩ := Codec.run cP sP m hov hoob hI
    refine ⟨m2, e, fun hov2 rc hrc => ?_⟩
    obtain ⟨rc2, _, h⟩ := hread hov2 rc hrc
    refine ⟨_, _, h, ?_, ?_, ?_, ?_, ?_, ?_, rfl⟩
    · exact patchBlock_first _ _ _
    · exact patchBlock_first _ _ _
    · exact patchBlock_first _ _ _
    · exact patchBlock_first _ _ _
    · exact patchBlocks_spec _ _
    · exact patchBlocks_spec _ _
  · intro fromA toA base n hn
    apply Nat.lt_pow_two_of_testBit
    intro i hi
    cases h : (changeMask fromA toA base n).testBit i with
    | false => rfl
    | true =>
      have := ((changeMask_testBit fromA toA base n i).mp h).1
      omega
  · intro write fromA toA base n i rest msg hi
    by_cases hd : toA (base + i) ≠ fromA (base + i)
    · have hb := (hbit fromA toA base n i hi).mpr hd
      simp only [writeArrayValues, hb, hd, if_true, ne_eq, not_false_eq_true]
    · have hb : ¬ (changeMask fromA toA base n &&& (1 <<< i) ≠ 0) :=
        fun h => hd ((hbit fromA toA base n i hi).mp h)
      simp only [writeArrayValues, hb, hd, if_false]

set_option maxRecDepth 100000 in
theorem C32_player_arrays_round_trip_witness :
    HuffLaws rawCodec cleanAt ∧ constantsOK etl_constants ∧
    msg64.overflowed = false ∧ msg64.oob = false ∧ cleanAt msg64.data msg64.bit ∧
    (∀ i, i < etl_constants.MAX_STATS → isInt16 (samplePlayerWide.stats i)) ∧
    (∀ i, i < etl_constants.MAX_PERSISTANT → isInt16 (samplePlayerWide.persistant i)) ∧
    (∀ i, i < etl_constants.MAX_HOLDABLE → isInt16 (samplePlayerWide.holdable i)) ∧
    (∀ i, i < etl_constants.MAX_POWERUPS → isInt32 (samplePlayerWide.powerups i)) ∧
    (∀ i, i < 64 → isInt16 (samplePlayerWide.ammo i)) ∧
    (∀ i, i < 64 → isInt16 (samplePlayerWide.ammoclip i)) ∧
    (∃ m2, MSG_WriteDeltaPlayerstate rawCodec etl_constants msg64 none samplePlayerWide
        = .ok m2 ∧
      (m2.overflowed = false → ∀ rc, rc ≤ m2.cursize →
        ∃ out rm2,
          MSG_ReadDeltaPlayerstate rawCodec etl_constants
            { m2 with bit := msg64.bit, readcount := rc } none = .ok (out, rm2) ∧
          (∀ i, i < etl_constants.MAX_STATS → out.stats i = samplePlayerWide.stats i) ∧
          (∀ i, i < etl_constants.MAX_PERSISTANT →
            out.persistant i = samplePlayerWide.persistant i) ∧
          (∀ i, i < etl_constants.MAX_HOLDABLE →
            out.holdable i = samplePlayerWide.holdable i) ∧
          (∀ i, i < etl_constants.MAX_POWERUPS →
            out.powerups i = samplePlayerWide.powerups i) ∧
          (∀ i, i < 64 → out.ammo i = samplePlayerWide.ammo i) ∧
          (∀ i, i < 64 → out.ammoclip i = samplePlayerWide.ammoclip i) ∧
          rm2.bit = m2.bit)) ∧
    (valueOf (playerRoundTrip rawCodec etl_constants none samplePlayerWide)).map
      (fun p => (p.cells 1, p.stats 0, p.persistant 2, p.powerups 1, p.ammo 17,
        p.ammoclip 63)) = some (0, 100, -3, 100000, 30, 8) :=
  ⟨rawCodec_laws, etl_constants_ok, rfl, rfl, fun h => absurd rfl h,
    by decide, by decide, by decide, by decide, by decide, by decide,
    (C32_player_arrays_round_trip rawCodec_laws etl_constants etl_constants_ok msg64 none
      samplePlayerWide rfl rfl (fun h => absurd rfl h) (by decide) (by decide) (by decide)
      (by decide) (by decide) (by decide)).1,
    by decide⟩

end ETL
